import Mathlib

/-!
3cc: the AST, the global-declaration collector, the driver's validation
and the LLVM code generator.

A shallow embedding of `src/ast.{h,cpp}`, `src/main.cpp` and `src/codegen.{h,cpp}`.

* C pointers to AST nodes are values of `ASTNode`; the null pointer is the
  constructor `ASTNode.null`.
* C `int` payloads are `Int`.
* The static accumulator `global_vars_list` of `ast.cpp` is passed explicitly.
-/

namespace ThreeCC

/-! ## `ast.h` -/

/-- The operators of `enum class BinaryOp`. -/
inductive BinaryOp where
  | OP_ADD | OP_SUB | OP_MUL | OP_DIV
  | OP_LT | OP_GT | OP_LE | OP_GE | OP_EQ | OP_NE
  deriving DecidableEq, Repr

/-- The list `struct ParamList`: parameter names in order. -/
abbrev ParamList := List String

mutual
/-- The tagged union `struct ASTNode`; `null` is the null pointer. -/
inductive ASTNode where
  | null
  | AST_NUMBER (number : Int)
  | AST_BINARY_OP (op : BinaryOp) (left right : ASTNode)
  | AST_VARIABLE (name : String)
  | AST_ASSIGNMENT (name : String) (value : ASTNode)
  | AST_RETURN (return_value : ASTNode)
  | AST_SEQUENCE (first second : ASTNode)
  | AST_WHILE (condition body : ASTNode)
  | AST_FOR (init condition increment body : ASTNode)
  | AST_IF (condition then_branch else_branch : ASTNode)
  | AST_PRINT (print_value : ASTNode)
  | AST_FUNCTION_DEF (name : String) (params : ParamList) (body : ASTNode)
  | AST_FUNCTION_CALL (name : String) (args : ArgList)
  | AST_GLOBAL_VAR (name : String) (value : ASTNode)
/-- The list `struct ArgList`: argument expressions in order. -/
inductive ArgList where
  | nil
  | cons (expr : ASTNode) (next : ArgList)
end

/-- The record `struct GlobalVar` (the `next` link is the list structure). -/
structure GlobalVar where
  name : String
  value : Int
  deriving DecidableEq, Repr

/-- The test `if (node)` on a node pointer. -/
def ASTNode.isNull : ASTNode → Bool
  | .null => true
  | _ => false

/-- The loop of `param_list_count`. -/
def param_list_count : ParamList → Nat
  | [] => 0
  | _ :: next => param_list_count next + 1

/-! ## `ast.cpp`: global-variable collection -/

/-- The function `add_global_var`: push a record on the front of the static list. -/
def add_global_var (name : String) (value : Int) (global_vars_list : List GlobalVar) :
    List GlobalVar :=
  GlobalVar.mk name value :: global_vars_list

/-- The function `collect_globals`, threading the static list `global_vars_list`. -/
def collect_globals : ASTNode → List GlobalVar → List GlobalVar
  | .null, global_vars_list => global_vars_list
  | .AST_GLOBAL_VAR name value, global_vars_list =>
    let init_value : Int :=
      match value with
      | .AST_NUMBER number => number
      | _ => 0
    add_global_var name init_value global_vars_list
  | .AST_SEQUENCE first second, global_vars_list =>
    collect_globals second (collect_globals first global_vars_list)
  | _, global_vars_list => global_vars_list

/-- The function `collect_global_vars`. The second argument is the content of the
static `global_vars_list` left by whatever ran before; the result is the returned
list together with the content of the static afterwards (the same list). -/
def collect_global_vars (root : ASTNode) (_global_vars_list : List GlobalVar) :
    List GlobalVar × List GlobalVar :=
  let global_vars_list := collect_globals root []
  (global_vars_list, global_vars_list)

/-! ## `main.cpp`: the search for `main` -/

/-- The function `check_main_exists`. -/
def check_main_exists : ASTNode → Bool
  | .null => false
  | .AST_FUNCTION_DEF name _ _ => if name = "main" then true else false
  | .AST_SEQUENCE first second => check_main_exists first || check_main_exists second
  | _ => false

/-! ## Specification-side notions for the collector -/

/-- The `GlobalVar` nodes reachable from a node through `Sequence` first/second edges
only, as (name, initializer) pairs, first subtree before second. -/
def topLevelGlobalVars : ASTNode → List (String × ASTNode)
  | .AST_GLOBAL_VAR name value => [(name, value)]
  | .AST_SEQUENCE first second => topLevelGlobalVars first ++ topLevelGlobalVars second
  | _ => []

/-- The value the specification gives a global: the literal of a `Number`
initializer, 0 for anything else. -/
def literalOrZero : ASTNode → Int
  | .AST_NUMBER number => number
  | _ => 0

/-- The record the specification expects for one `GlobalVar` node. -/
def expectedRecord (p : String × ASTNode) : GlobalVar :=
  GlobalVar.mk p.1 (literalOrZero p.2)

/-- A top-level `Sequence` chain with one marked position. -/
inductive SeqContext where
  | hole
  | inFirst (c : SeqContext) (second : ASTNode)
  | inSecond (first : ASTNode) (c : SeqContext)

/-- Put a subtree at the marked position. -/
def SeqContext.fill : SeqContext → ASTNode → ASTNode
  | .hole, t => t
  | .inFirst c second, t => .AST_SEQUENCE (c.fill t) second
  | .inSecond first c, t => .AST_SEQUENCE first (c.fill t)

/-- Two subtrees are both `FunctionDef`, both `If`, both `While` or both `For`. -/
def sameKind : ASTNode → ASTNode → Bool
  | .AST_FUNCTION_DEF _ _ _, .AST_FUNCTION_DEF _ _ _ => true
  | .AST_IF _ _ _, .AST_IF _ _ _ => true
  | .AST_WHILE _ _, .AST_WHILE _ _ => true
  | .AST_FOR _ _ _ _, .AST_FOR _ _ _ _ => true
  | _, _ => false


/-- The test `root->type == AST_SEQUENCE || root->type == AST_FUNCTION_DEF`. -/
def ASTNode.isSequenceOrFunctionDef : ASTNode → Bool
  | .AST_SEQUENCE _ _ => true
  | .AST_FUNCTION_DEF _ _ _ => true
  | _ => false
/-! ## The LLVM objects the generator builds

The generator drives LLVM through `llvm::IRBuilder`, `llvm::Module`,
`llvm::Function` and `llvm::BasicBlock`. The model keeps what these calls build:

* every instruction that yields a value carries a fresh number, its identity
  (the `llvm::Value*` the C++ code holds); an `AllocaInst*` is the number of an
  `alloca`;
* a basic block is the list of its instructions; the blocks of the context are
  kept in creation order and a block is named by its position in that list;
* each `Create...` call of the builder appends one instruction at the end of the
  insertion block (the builder is modelled without the constant folder: an
  instruction whose operands are constants is kept as an instruction; its value
  when executed is the constant the folder would put in its place);
* a null pointer dereference or a failed LLVM precondition is the result `none`.
-/

/-- The two LLVM types the generator uses. -/
inductive Ty where
  | i32 | ptr
  deriving DecidableEq, Repr

/-- What an `llvm::Value*` may point at. -/
inductive Value where
  | constInt (value : Int)
  | inst (id : Nat)
  | argument (func : Nat) (index : Nat)
  | globalVariable (index : Nat)
  | globalString (index : Nat)
  deriving DecidableEq, Repr

/-- The arithmetic instructions `add`, `sub`, `mul`, `sdiv`. -/
inductive ArithOp where
  | Add | Sub | Mul | SDiv
  deriving DecidableEq, Repr

/-- The `icmp` predicates the generator uses. -/
inductive Predicate where
  | SLT | SGT | SLE | SGE | EQ | NE
  deriving DecidableEq, Repr

/-- One LLVM instruction. -/
inductive Instr where
  | alloca (id : Nat) (name : String)
  | load (id : Nat) (ptr : Value) (name : String)
  | store (val ptr : Value)
  | arith (id : Nat) (op : ArithOp) (lhs rhs : Value)
  | icmp (id : Nat) (pred : Predicate) (lhs rhs : Value)
  | zext (id : Nat) (v : Value)
  | call (id : Nat) (callee : Nat) (args : List Value)
  | br (dest : Nat)
  | condBr (cond : Value) (ifTrue ifFalse : Nat)
  | ret (v : Value)
  deriving DecidableEq, Repr

/-- The instructions that end a block: `br`, conditional `br`, `ret`. -/
def Instr.isTerminator : Instr → Bool
  | .br _ => true
  | .condBr _ _ _ => true
  | .ret _ => true
  | _ => false

/-- The instruction is a `ret`. -/
def Instr.isRet : Instr → Bool
  | .ret _ => true
  | _ => false

/-- The instruction is an `alloca`. -/
def Instr.isAlloca : Instr → Bool
  | .alloca _ _ => true
  | _ => false

/-- An `llvm::BasicBlock`: its name hint, the function it was appended to (none
for a block created with a null function) and its instructions in order. -/
structure BasicBlock where
  name : String
  parent : Option Nat
  insts : List Instr
  deriving DecidableEq, Repr

/-- The method `BasicBlock::getTerminator`: the last instruction when it is a
terminator. -/
def BasicBlock.getTerminator (bb : BasicBlock) : Option Instr :=
  match bb.insts.getLast? with
  | some i => if i.isTerminator then some i else none
  | none => none

/-- An `llvm::Function`: the name it is registered under, its signature, the names
given to its arguments and its blocks (positions in the context's block list) in
order; the first one is the entry block. -/
structure Function where
  name : String
  returnType : Ty
  paramTypes : List Ty
  isVarArg : Bool
  argNames : List String
  blocks : List Nat
  deriving DecidableEq, Repr

/-- An `llvm::GlobalVariable` of type i32 with its initializer. -/
structure GlobalVariable where
  name : String
  initializer : Int
  deriving DecidableEq, Repr

/-- What a name of the module's symbol table denotes. -/
inductive GlobalValue where
  | function (index : Nat)
  | variable (index : Nat)
  deriving DecidableEq, Repr

/-- Lookup in a `std::map` with string keys, kept as an association list. -/
def mapFind {α : Type} : List (String × α) → String → Option α
  | [], _ => none
  | (k, v) :: rest, key => if k = key then some v else mapFind rest key

/-- The assignment `m[key] = v` on a `std::map`: overwrite or insert. -/
def mapSet {α : Type} : List (String × α) → String → α → List (String × α)
  | [], key, v => [(key, v)]
  | (k, w) :: rest, key, v => if k = key then (k, v) :: rest else (k, w) :: mapSet rest key v

/-- An `llvm::Module`: functions, integer globals, string constants, and the symbol
table that maps each registered name to its value. -/
structure Module where
  functions : List Function
  globals : List GlobalVariable
  strings : List String
  symtab : List (String × GlobalValue)
  lastUnique : Nat
  deriving DecidableEq, Repr

/-- LLVM's `ValueSymbolTable::makeUniqueName` for a global value: append a dot and
the next value of the table's counter until the name is free. The search is cut
after `fuel` candidates. -/
def makeUniqueName (symtab : List (String × GlobalValue)) (base : String) :
    Nat → Nat → String × Nat
  | 0, last => (base ++ "." ++ toString (last + 1), last + 1)
  | fuel + 1, last =>
    let candidate := base ++ "." ++ toString (last + 1)
    match mapFind symtab candidate with
    | none => (candidate, last + 1)
    | some _ => makeUniqueName symtab base fuel (last + 1)

/-- Registration of a named global value in the module's symbol table: a free name
is taken as it is, a taken one is replaced by a unique name; the empty name is not
registered. The result is the name given and the new module. -/
def Module.registerName (m : Module) (name : String) (v : GlobalValue) : String × Module :=
  if name = "" then (name, m)
  else
    match mapFind m.symtab name with
    | none => (name, { m with symtab := m.symtab ++ [(name, v)] })
    | some _ =>
      let r := makeUniqueName m.symtab name (m.symtab.length + 1) m.lastUnique
      (r.1, { m with symtab := m.symtab ++ [(r.1, v)], lastUnique := r.2 })

/-- The method `Module::getFunction`: the value registered under the name, when it
is a function. -/
def Module.getFunction (m : Module) (name : String) : Option Nat :=
  match mapFind m.symtab name with
  | some (.function index) => some index
  | _ => none

/-- The members of `class CodeGenerator`, with the state of the LLVM context:
`blocks` holds every basic block created so far, `nextId` is the number the next
value-yielding instruction gets, `insertBlock` is the block of the builder's
insertion point (the point is always the end of that block). -/
structure CodeGenerator where
  module : Module
  blocks : List BasicBlock
  nextId : Nat
  insertBlock : Option Nat
  named_values : List (String × Nat)
  global_vars : List (String × Nat)
  current_function : Option Nat
  current_return_block : Option Nat
  return_value_alloca : Option Nat
  printf_func : Option Nat
  deriving DecidableEq, Repr

/-! ### Builder primitives -/

/-- Append an instruction to a block. -/
def BasicBlock.push (bb : BasicBlock) (i : Instr) : BasicBlock :=
  { bb with insts := bb.insts ++ [i] }

/-- Put an instruction at the start of a block. -/
def BasicBlock.pushFront (bb : BasicBlock) (i : Instr) : BasicBlock :=
  { bb with insts := i :: bb.insts }

/-- The builder's `Insert`: append the instruction at the insertion point; with no
insertion block the instruction is created but belongs to no block. -/
def CodeGenerator.insert (g : CodeGenerator) (i : Instr) : CodeGenerator :=
  match g.insertBlock with
  | none => g
  | some b => { g with blocks := g.blocks.modify (fun bb => bb.push i) b }

/-- The call `builder->SetInsertPoint(block)`. -/
def SetInsertPoint (block : Nat) (g : CodeGenerator) : CodeGenerator :=
  { g with insertBlock := some block }

/-- The call `builder->CreateLoad(i32, ptr, name)`. -/
def CreateLoad (ptr : Value) (name : String) (g : CodeGenerator) : Value × CodeGenerator :=
  (.inst g.nextId, { g.insert (.load g.nextId ptr name) with nextId := g.nextId + 1 })

/-- The call `builder->CreateStore(val, ptr)`. -/
def CreateStore (val ptr : Value) (g : CodeGenerator) : CodeGenerator :=
  g.insert (.store val ptr)

/-- The calls `builder->CreateAdd`, `CreateSub`, `CreateMul`, `CreateSDiv`. -/
def CreateArith (op : ArithOp) (lhs rhs : Value) (g : CodeGenerator) :
    Value × CodeGenerator :=
  (.inst g.nextId, { g.insert (.arith g.nextId op lhs rhs) with nextId := g.nextId + 1 })

/-- The calls `builder->CreateICmpSLT` and its siblings. -/
def CreateICmp (pred : Predicate) (lhs rhs : Value) (g : CodeGenerator) :
    Value × CodeGenerator :=
  (.inst g.nextId, { g.insert (.icmp g.nextId pred lhs rhs) with nextId := g.nextId + 1 })

/-- The call `builder->CreateZExt(v, i32, name)`. -/
def CreateZExt (v : Value) (g : CodeGenerator) : Value × CodeGenerator :=
  (.inst g.nextId, { g.insert (.zext g.nextId v) with nextId := g.nextId + 1 })

/-- The call `builder->CreateCall(callee, args)`. -/
def CreateCall (callee : Nat) (args : List Value) (g : CodeGenerator) :
    Value × CodeGenerator :=
  (.inst g.nextId, { g.insert (.call g.nextId callee args) with nextId := g.nextId + 1 })

/-- The call `builder->CreateBr(dest)`; LLVM requires a non-null destination. -/
def CreateBr (dest : Option Nat) (g : CodeGenerator) : Option CodeGenerator :=
  match dest with
  | none => none
  | some d => some (g.insert (.br d))

/-- The call `builder->CreateCondBr(cond, ifTrue, ifFalse)`. -/
def CreateCondBr (cond : Value) (ifTrue ifFalse : Nat) (g : CodeGenerator) : CodeGenerator :=
  g.insert (.condBr cond ifTrue ifFalse)

/-- The call `builder->CreateGlobalString(str)`: the string constant is added to
the module of the insertion block's function, so the builder must be positioned in
a block that belongs to a function. -/
def CreateGlobalString (str : String) (g : CodeGenerator) : Option (Value × CodeGenerator) :=
  match g.insertBlock with
  | none => none
  | some b =>
    match g.blocks[b]? with
    | none => none
    | some bb =>
      match bb.parent with
      | none => none
      | some _ =>
        some (.globalString g.module.strings.length,
          { g with module := { g.module with strings := g.module.strings ++ [str] } })

/-- The call `llvm::BasicBlock::Create(context, name, func)`: a new empty block,
appended to the function's block list when the function is not null. -/
def BasicBlock_Create (name : String) (func : Option Nat) (g : CodeGenerator) :
    Nat × CodeGenerator :=
  let id := g.blocks.length
  let functions :=
    match func with
    | none => g.module.functions
    | some f => g.module.functions.modify (fun fn => { fn with blocks := fn.blocks ++ [id] }) f
  (id, { g with
    blocks := g.blocks ++ [BasicBlock.mk name func []],
    module := { g.module with functions := functions } })

/-- The call `llvm::Function::Create(type, ExternalLinkage, name, module)`; the
arguments are unnamed until `setName`. -/
def Function_Create (returnType : Ty) (paramTypes : List Ty) (isVarArg : Bool) (name : String)
    (g : CodeGenerator) : Nat × CodeGenerator :=
  let index := g.module.functions.length
  let r := g.module.registerName name (.function index)
  (index, { g with module := { r.2 with
    functions := r.2.functions ++
      [Function.mk r.1 returnType paramTypes isVarArg (paramTypes.map (fun _ => "")) []] } })

/-- The loop `for (auto &arg : func->args()) { if (param) { arg.setName(param->name); ... } }`:
the arguments take the parameter names in order, as far as both lists go. -/
def setArgNames : List String → ParamList → List String
  | [], _ => []
  | a :: args, [] => a :: args
  | _ :: args, p :: params => p :: setArgNames args params

/-- The condition `!builder->GetInsertBlock()->getTerminator()` followed by
`builder->CreateBr(dest)`: used after a branch of an `If` and after a function body. -/
def branchIfNoTerminator (dest : Option Nat) (g : CodeGenerator) : Option CodeGenerator :=
  match g.insertBlock with
  | none => none
  | some b =>
    match g.blocks[b]? with
    | none => none
    | some bb =>
      match bb.getTerminator with
      | some _ => some g
      | none => CreateBr dest g

/-! ## `codegen.cpp` -/

/-- The method `CodeGenerator::create_printf_declaration`. -/
def create_printf_declaration (g : CodeGenerator) : CodeGenerator :=
  let r := Function_Create .i32 [.ptr] true "printf" g
  { r.2 with printf_func := some r.1 }

/-- The constructor `CodeGenerator::CodeGenerator`. -/
def CodeGenerator.new : CodeGenerator :=
  create_printf_declaration
    { module := Module.mk [] [] [] [] 0, blocks := [], nextId := 0, insertBlock := none,
      named_values := [], global_vars := [], current_function := none,
      current_return_block := none, return_value_alloca := none, printf_func := none }

/-- The method `CodeGenerator::create_entry_block_alloca`: an `alloca` inserted at
the beginning of the function's entry block. -/
def create_entry_block_alloca (func : Option Nat) (var_name : String) (g : CodeGenerator) :
    Option (Nat × CodeGenerator) :=
  match func with
  | none => none
  | some f =>
    match g.module.functions[f]? with
    | none => none
    | some fn =>
      match fn.blocks.head? with
      | none => none
      | some entry =>
        some (g.nextId, { g with
          blocks := g.blocks.modify (fun bb => bb.pushFront (.alloca g.nextId var_name)) entry,
          nextId := g.nextId + 1 })

/-- The method `CodeGenerator::is_global_var`. -/
def is_global_var (g : CodeGenerator) (name : String) : Bool :=
  (mapFind g.global_vars name).isSome

/-- The local-variable path shared by a `Variable` read and an `Assignment`:
`named_values[name]`, created in the entry block and registered when absent. -/
def local_alloca (name : String) (g : CodeGenerator) : Option (Nat × CodeGenerator) :=
  match mapFind g.named_values name with
  | some alloca => some (alloca, g)
  | none =>
    match create_entry_block_alloca g.current_function name g with
    | none => none
    | some (alloca, g1) => some (alloca, { g1 with named_values := mapSet g1.named_values name alloca })

/-- The inner `switch (node->data.binary.op)` of `codegen_expr`. -/
def codegen_binary_op (op : BinaryOp) (left right : Value) (g : CodeGenerator) :
    Value × CodeGenerator :=
  match op with
  | .OP_ADD => CreateArith .Add left right g
  | .OP_SUB => CreateArith .Sub left right g
  | .OP_MUL => CreateArith .Mul left right g
  | .OP_DIV => CreateArith .SDiv left right g
  | .OP_LT => let c := CreateICmp .SLT left right g; CreateZExt c.1 c.2
  | .OP_GT => let c := CreateICmp .SGT left right g; CreateZExt c.1 c.2
  | .OP_LE => let c := CreateICmp .SLE left right g; CreateZExt c.1 c.2
  | .OP_GE => let c := CreateICmp .SGE left right g; CreateZExt c.1 c.2
  | .OP_EQ => let c := CreateICmp .EQ left right g; CreateZExt c.1 c.2
  | .OP_NE => let c := CreateICmp .NE left right g; CreateZExt c.1 c.2

mutual
/-- The method `CodeGenerator::codegen_expr`. The result `none` is a crash; otherwise
the returned `llvm::Value*` (`none` for `nullptr`) and the new state. -/
def codegen_expr : ASTNode → CodeGenerator → Option (Option Value × CodeGenerator)
  | .null, g => some (none, g)
  | .AST_NUMBER number, g => some (some (.constInt number), g)
  | .AST_VARIABLE name, g =>
    match mapFind g.global_vars name with
    | some global =>
      let r := CreateLoad (.globalVariable global) name g
      some (some r.1, r.2)
    | none =>
      match local_alloca name g with
      | none => none
      | some (alloca, g1) =>
        let r := CreateLoad (.inst alloca) name g1
        some (some r.1, r.2)
  | .AST_BINARY_OP op left right, g =>
    match codegen_expr left g with
    | none => none
    | some (l, g1) =>
      match codegen_expr right g1 with
      | none => none
      | some (r, g2) =>
        match l, r with
        | some lv, some rv =>
          let res := codegen_binary_op op lv rv g2
          some (some res.1, res.2)
        | _, _ => some (none, g2)
  | .AST_FUNCTION_CALL name args, g =>
    match g.module.getFunction name with
    | none => some (none, g)
    | some callee =>
      match codegen_args args g with
      | none => none
      | some (none, g1) => some (none, g1)
      | some (some args_values, g1) =>
        let r := CreateCall callee args_values g1
        some (some r.1, r.2)
  | .AST_ASSIGNMENT _ _, g => some (none, g)
  | .AST_RETURN _, g => some (none, g)
  | .AST_SEQUENCE _ _, g => some (none, g)
  | .AST_WHILE _ _, g => some (none, g)
  | .AST_FOR _ _ _ _, g => some (none, g)
  | .AST_IF _ _ _, g => some (none, g)
  | .AST_PRINT _, g => some (none, g)
  | .AST_FUNCTION_DEF _ _ _, g => some (none, g)
  | .AST_GLOBAL_VAR _ _, g => some (none, g)
/-- The argument loop of the `AST_FUNCTION_CALL` case: the values of the arguments
in list order, or `nullptr` at the first argument that fails. -/
def codegen_args : ArgList → CodeGenerator → Option (Option (List Value) × CodeGenerator)
  | .nil, g => some (some [], g)
  | .cons expr next, g =>
    match codegen_expr expr g with
    | none => none
    | some (none, g1) => some (none, g1)
    | some (some arg_val, g1) =>
      match codegen_args next g1 with
      | none => none
      | some (none, g2) => some (none, g2)
      | some (some rest, g2) => some (some (arg_val :: rest), g2)
end

/-- The locals `prev_named_values`, `prev_function`, `prev_return_block` and
`prev_return_alloca` of `codegen_function_def`. -/
structure SavedContext where
  prev_named_values : List (String × Nat)
  prev_function : Option Nat
  prev_return_block : Option Nat
  prev_return_alloca : Option Nat
  deriving DecidableEq, Repr

/-- The second parameter loop of `codegen_function_def`: for each parameter an
`alloca` in the entry block, a store of the incoming argument, and the binding of
the name. The number is the index of the argument. -/
def store_params (func : Nat) : ParamList → Nat → CodeGenerator → Option CodeGenerator
  | [], _, g => some g
  | name :: next, index, g =>
    match create_entry_block_alloca (some func) name g with
    | none => none
    | some (alloca, g1) =>
      let g2 := CreateStore (.argument func index) (.inst alloca) g1
      store_params func next (index + 1)
        { g2 with named_values := mapSet g2.named_values name alloca }

/-- The part of `codegen_function_def` before the body is lowered: create the
function and its entry block, save the context, set the new context, create the
return block and the return-value storage initialized to 0, store the parameters. -/
def function_def_enter (func_name : String) (params : ParamList) (g : CodeGenerator) :
    Option (SavedContext × CodeGenerator) :=
  let param_count := param_list_count params
  let created := Function_Create .i32 (List.replicate param_count .i32) false func_name g
  let func := created.1
  let g1 : CodeGenerator := { created.2 with module := { created.2.module with
    functions := created.2.module.functions.modify
      (fun fn => { fn with argNames := setArgNames fn.argNames params }) func } }
  let entry := BasicBlock_Create "entry" (some func) g1
  let g2 := SetInsertPoint entry.1 entry.2
  let saved : SavedContext :=
    SavedContext.mk g2.named_values g2.current_function g2.current_return_block
      g2.return_value_alloca
  let g3 : CodeGenerator := { g2 with current_function := some func, named_values := [] }
  let return_block := BasicBlock_Create "return" (some func) g3
  let g4 : CodeGenerator := { return_block.2 with current_return_block := some return_block.1 }
  match create_entry_block_alloca (some func) "retval" g4 with
  | none => none
  | some (retval, g5) =>
    let g6 : CodeGenerator := { g5 with return_value_alloca := some retval }
    let g7 := CreateStore (.constInt 0) (.inst retval) g6
    match store_params func params 0 g7 with
    | none => none
    | some g8 => some (saved, g8)

/-- The part of `codegen_function_def` after the body is lowered: branch to the
return block if the current block has no terminator, fill the return block with the
load of the return-value storage and the `ret`, restore the saved context. -/
def function_def_leave (saved : SavedContext) (g : CodeGenerator) : Option CodeGenerator :=
  match branchIfNoTerminator g.current_return_block g with
  | none => none
  | some g1 =>
    match g1.current_return_block, g1.return_value_alloca with
    | some return_block, some retval =>
      let g2 := SetInsertPoint return_block g1
      let ret_val := CreateLoad (.inst retval) "retval" g2
      let g3 := ret_val.2.insert (.ret ret_val.1)
      some { g3 with
        named_values := saved.prev_named_values,
        current_function := saved.prev_function,
        current_return_block := saved.prev_return_block,
        return_value_alloca := saved.prev_return_alloca }
    | _, _ => none

/-- The method `CodeGenerator::codegen_stmt`; the case `AST_FUNCTION_DEF` is the body
of `codegen_function_def`. The result `none` is a crash. -/
def codegen_stmt : ASTNode → CodeGenerator → Option CodeGenerator
  | .null, g => some g
  | .AST_ASSIGNMENT name value, g =>
    match codegen_expr value g with
    | none => none
    | some (none, g1) => some g1
    | some (some val, g1) =>
      match mapFind g1.global_vars name with
      | some global => some (CreateStore val (.globalVariable global) g1)
      | none =>
        match local_alloca name g1 with
        | none => none
        | some (alloca, g2) => some (CreateStore val (.inst alloca) g2)
  | .AST_RETURN return_value, g =>
    match codegen_expr return_value g with
    | none => none
    | some (ret_val, g1) =>
      match ret_val, g1.return_value_alloca with
      | some v, some retval =>
        CreateBr g1.current_return_block (CreateStore v (.inst retval) g1)
      | _, _ => some g1
  | .AST_SEQUENCE first second, g =>
    match codegen_stmt first g with
    | none => none
    | some g1 => codegen_stmt second g1
  | .AST_WHILE condition body, g =>
    let loop_block := BasicBlock_Create "loop" g.current_function g
    let body_block := BasicBlock_Create "loopbody" g.current_function loop_block.2
    let after_block := BasicBlock_Create "afterloop" g.current_function body_block.2
    let g1 := SetInsertPoint loop_block.1 (after_block.2.insert (.br loop_block.1))
    match codegen_expr condition g1 with
    | none => none
    | some (none, g2) => some g2
    | some (some cond, g2) =>
      let cond_bool := CreateICmp .NE cond (.constInt 0) g2
      let g3 := CreateCondBr cond_bool.1 body_block.1 after_block.1 cond_bool.2
      match codegen_stmt body (SetInsertPoint body_block.1 g3) with
      | none => none
      | some g4 => some (SetInsertPoint after_block.1 (g4.insert (.br loop_block.1)))
  | .AST_FOR init condition increment body, g =>
    match codegen_stmt init g with
    | none => none
    | some g0 =>
      let loop_block := BasicBlock_Create "forloop" g0.current_function g0
      let body_block := BasicBlock_Create "forbody" g0.current_function loop_block.2
      let after_block := BasicBlock_Create "afterfor" g0.current_function body_block.2
      let g1 := SetInsertPoint loop_block.1 (after_block.2.insert (.br loop_block.1))
      match codegen_expr condition g1 with
      | none => none
      | some (none, g2) => some g2
      | some (some cond, g2) =>
        let cond_bool := CreateICmp .NE cond (.constInt 0) g2
        let g3 := CreateCondBr cond_bool.1 body_block.1 after_block.1 cond_bool.2
        match codegen_stmt body (SetInsertPoint body_block.1 g3) with
        | none => none
        | some g4 =>
          match codegen_stmt increment g4 with
          | none => none
          | some g5 => some (SetInsertPoint after_block.1 (g5.insert (.br loop_block.1)))
  | .AST_IF condition then_branch else_branch, g =>
    match codegen_expr condition g with
    | none => none
    | some (none, g1) => some g1
    | some (some cond, g1) =>
      let cond_bool := CreateICmp .NE cond (.constInt 0) g1
      let then_block := BasicBlock_Create "then" cond_bool.2.current_function cond_bool.2
      let else_block : Option Nat × CodeGenerator :=
        if else_branch.isNull then (none, then_block.2)
        else
          let b := BasicBlock_Create "else" then_block.2.current_function then_block.2
          (some b.1, b.2)
      let merge_block := BasicBlock_Create "ifcont" else_block.2.current_function else_block.2
      let g2 :=
        match else_block.1 with
        | some e => CreateCondBr cond_bool.1 then_block.1 e merge_block.2
        | none => CreateCondBr cond_bool.1 then_block.1 merge_block.1 merge_block.2
      match codegen_stmt then_branch (SetInsertPoint then_block.1 g2) with
      | none => none
      | some g3 =>
        match branchIfNoTerminator (some merge_block.1) g3 with
        | none => none
        | some g4 =>
          match else_block.1 with
          | none => some (SetInsertPoint merge_block.1 g4)
          | some e =>
            match codegen_stmt else_branch (SetInsertPoint e g4) with
            | none => none
            | some g5 =>
              match branchIfNoTerminator (some merge_block.1) g5 with
              | none => none
              | some g6 => some (SetInsertPoint merge_block.1 g6)
  | .AST_PRINT print_value, g =>
    match codegen_expr print_value g with
    | none => none
    | some (none, g1) => some g1
    | some (some val, g1) =>
      match CreateGlobalString "%d\n" g1 with
      | none => none
      | some (format_str, g2) =>
        match g2.printf_func with
        | none => none
        | some printf => some (CreateCall printf [format_str, val] g2).2
  | .AST_FUNCTION_DEF name params body, g =>
    match function_def_enter name params g with
    | none => none
    | some (saved, g1) =>
      match codegen_stmt body g1 with
      | none => none
      | some g2 => function_def_leave saved g2
  | .AST_GLOBAL_VAR _ _, g => some g
  | .AST_NUMBER number, g =>
    match codegen_expr (.AST_NUMBER number) g with
    | none => none
    | some (_, g1) => some g1
  | .AST_VARIABLE name, g =>
    match codegen_expr (.AST_VARIABLE name) g with
    | none => none
    | some (_, g1) => some g1
  | .AST_BINARY_OP op left right, g =>
    match codegen_expr (.AST_BINARY_OP op left right) g with
    | none => none
    | some (_, g1) => some g1
  | .AST_FUNCTION_CALL name args, g =>
    match codegen_expr (.AST_FUNCTION_CALL name args) g with
    | none => none
    | some (_, g1) => some g1

/-- The method `CodeGenerator::codegen_function_def`, on the fields of the
`AST_FUNCTION_DEF` node. -/
def codegen_function_def (func_name : String) (params : ParamList) (body : ASTNode)
    (g : CodeGenerator) : Option CodeGenerator :=
  match function_def_enter func_name params g with
  | none => none
  | some (saved, g1) =>
    match codegen_stmt body g1 with
    | none => none
    | some g2 => function_def_leave saved g2

/-- The first loop of `generate_program`: one `llvm::GlobalVariable` per record, in
list order, each entered in `global_vars` under the record's name. -/
def create_globals : List GlobalVar → CodeGenerator → CodeGenerator
  | [], g => g
  | global :: next, g =>
    let index := g.module.globals.length
    let r := g.module.registerName global.name (.variable index)
    let g1 : CodeGenerator := { g with module := { r.2 with
      globals := r.2.globals ++ [GlobalVariable.mk r.1 global.value] } }
    create_globals next { g1 with global_vars := mapSet g1.global_vars global.name index }

/-- The method `CodeGenerator::generate_program` (the verifier only reports). -/
def generate_program (root : ASTNode) (globals : List GlobalVar) (g : CodeGenerator) :
    Option CodeGenerator :=
  codegen_stmt root (create_globals globals g)

/-! ## `main.cpp`: the driver after parsing -/

/-- What the driver does, in order, once the parser has produced `root`. -/
inductive DriverStep where
  | error_main_required
  | collect_global_vars
  | generate_program
  | optimize_module
  | output_ir
  | output_object_file
  deriving DecidableEq, Repr

/-- The validation at the top of `if (root)` in `main`: true when the driver goes
on, false when it reports the missing `main` and returns 1. -/
def main_validation (root : ASTNode) : Bool :=
  match root with
  | .AST_FUNCTION_DEF name _ _ => if name = "main" then true else check_main_exists root
  | .AST_SEQUENCE _ _ => check_main_exists root
  | _ => true

/-- The function `main` from the test `if (root)` on: the exit code and the steps
taken; `none` when code generation crashes. -/
def main_after_parse (root : ASTNode) : Option (Nat × List DriverStep) :=
  if root.isNull then some (0, [])
  else if main_validation root = false then some (1, [.error_main_required])
  else
    let globals := (collect_global_vars root []).1
    match generate_program root globals CodeGenerator.new with
    | none => none
    | some _ =>
      some (0, [.collect_global_vars, .generate_program, .optimize_module, .output_ir,
        .output_object_file])

/-! ## Executing straight-line LLVM instructions

A small reading of the LLVM language reference for the instructions the generator
emits for expressions and variable accesses: an `alloca` yields storage whose content
is undefined until a store, `add`/`sub`/`mul` wrap modulo 2^32, `sdiv` rounds toward
zero and has undefined behaviour for a zero divisor and for the quotient of -2^31
by -1, `icmp` yields a bit that `zext` widens to 0 or 1.
-/

/-- Reduce an integer to the signed 32-bit range, modulo 2^32. -/
def wrap32 (x : Int) : Int :=
  (x + 2147483648) % 4294967296 - 2147483648

/-- The run-time content of an i32 register or cell: an integer, or undefined. -/
inductive RtVal where
  | int (v : Int)
  | undefined
  deriving DecidableEq, Repr

/-- The state of an execution: the values of the instructions executed so far, and
the content of the storage each pointer designates (`none`: no such storage). -/
structure Machine where
  regs : Nat → Option RtVal
  mem : Value → Option RtVal

/-- The machine with no value and no storage. -/
def Machine.empty : Machine :=
  Machine.mk (fun _ => none) (fun _ => none)

/-- The value of an operand. -/
def Machine.operand (m : Machine) : Value → Option RtVal
  | .constInt v => some (.int v)
  | .inst id => m.regs id
  | _ => none

/-- Give the instruction numbered `id` its value. -/
def Machine.setReg (m : Machine) (id : Nat) (v : RtVal) : Machine :=
  { m with regs := fun i => if i = id then some v else m.regs i }

/-- Change the content of the storage a pointer designates. -/
def Machine.setMem (m : Machine) (ptr : Value) (v : RtVal) : Machine :=
  { m with mem := fun p => if p = ptr then some v else m.mem p }

/-- The result of an arithmetic instruction; `none` is undefined behaviour. -/
def evalArith (op : ArithOp) (a b : RtVal) : Option RtVal :=
  match op, a, b with
  | .Add, .int x, .int y => some (.int (wrap32 (x + y)))
  | .Sub, .int x, .int y => some (.int (wrap32 (x - y)))
  | .Mul, .int x, .int y => some (.int (wrap32 (x * y)))
  | .SDiv, .int x, .int y =>
    if y = 0 then none
    else if x = -2147483648 ∧ y = -1 then none
    else some (.int (Int.tdiv x y))
  | .SDiv, _, _ => none
  | _, _, _ => some .undefined

/-- The signed relation an `icmp` predicate tests. -/
def Predicate.holds (p : Predicate) (x y : Int) : Bool :=
  match p with
  | .SLT => decide (x < y)
  | .SGT => decide (x > y)
  | .SLE => decide (x ≤ y)
  | .SGE => decide (x ≥ y)
  | .EQ => decide (x = y)
  | .NE => decide (x ≠ y)

/-- The result of an `icmp`: the bit 1 or 0. -/
def evalICmp (p : Predicate) (a b : RtVal) : RtVal :=
  match a, b with
  | .int x, .int y => .int (if p.holds x y then 1 else 0)
  | _, _ => .undefined

/-- Execute one instruction; `none` is undefined behaviour, or an instruction that
is not straight-line (call, branch, return). -/
def execInstr (m : Machine) : Instr → Option Machine
  | .alloca id _ => some (m.setMem (.inst id) .undefined)
  | .load id ptr _ =>
    match m.mem ptr with
    | some v => some (m.setReg id v)
    | none => none
  | .store val ptr =>
    match m.operand val, m.mem ptr with
    | some v, some _ => some (m.setMem ptr v)
    | _, _ => none
  | .arith id op lhs rhs =>
    match m.operand lhs, m.operand rhs with
    | some a, some b =>
      match evalArith op a b with
      | some v => some (m.setReg id v)
      | none => none
    | _, _ => none
  | .icmp id pred lhs rhs =>
    match m.operand lhs, m.operand rhs with
    | some a, some b => some (m.setReg id (evalICmp pred a b))
    | _, _ => none
  | .zext id v =>
    match m.operand v with
    | some a => some (m.setReg id a)
    | none => none
  | .call _ _ _ => none
  | .br _ => none
  | .condBr _ _ _ => none
  | .ret _ => none

/-- Execute a list of instructions in order. -/
def execInstrs : Machine → List Instr → Option Machine
  | m, [] => some m
  | m, i :: rest =>
    match execInstr m i with
    | none => none
    | some m1 => execInstrs m1 rest

/-- The instructions of a block of the generator (none for a block that does not
exist). -/
def CodeGenerator.blockInsts (g : CodeGenerator) (b : Nat) : List Instr :=
  match g.blocks[b]? with
  | some bb => bb.insts
  | none => []

/-- Execute the instructions of a block up to its first terminator; the result is
the machine reached and that terminator (`none`: undefined behaviour on the way, or a
block without terminator). -/
def execToTerminator (m : Machine) : List Instr → Option (Machine × Instr)
  | [] => none
  | i :: rest =>
    if i.isTerminator then some (m, i)
    else
      match execInstr m i with
      | none => none
      | some m1 => execToTerminator m1 rest

/-- Run from the start of a block until a `ret`, following the branches, for at most
the given number of blocks; the result is the value returned. A conditional branch
takes its first target when the condition bit is 1 and its second when it is 0; on an
undefined condition the behaviour is undefined. -/
def runBlocks (g : CodeGenerator) : Nat → Nat → Machine → Option RtVal
  | 0, _, _ => none
  | fuel + 1, b, m =>
    match execToTerminator m (g.blockInsts b) with
    | some (m1, .br dest) => runBlocks g fuel dest m1
    | some (m1, .condBr cond ifTrue ifFalse) =>
      match m1.operand cond with
      | some (.int v) => runBlocks g fuel (if v = 0 then ifFalse else ifTrue) m1
      | _ => none
    | some (m1, .ret v) => m1.operand v
    | _ => none

/-- Call a function that takes no argument and calls no function: run it from its
entry block in the empty machine. -/
def runFunction (g : CodeGenerator) (f : Nat) (fuel : Nat) : Option RtVal :=
  match g.module.functions[f]? with
  | none => none
  | some fn =>
    match fn.blocks.head? with
    | none => none
    | some entry => runBlocks g fuel entry Machine.empty

/-! ## Specification-side evaluation of constant expressions -/

/-- The arithmetic of the claim on expressions: `+`, `-`, `*` wrap modulo 2^32, `/`
is the quotient rounded toward zero and is excluded for a zero divisor only, a
comparison is 1 or 0. -/
def claimedBinaryOp (op : BinaryOp) (a b : Int) : Option Int :=
  match op with
  | .OP_ADD => some (wrap32 (a + b))
  | .OP_SUB => some (wrap32 (a - b))
  | .OP_MUL => some (wrap32 (a * b))
  | .OP_DIV => if b = 0 then none else some (Int.tdiv a b)
  | .OP_LT => some (if a < b then 1 else 0)
  | .OP_GT => some (if a > b then 1 else 0)
  | .OP_LE => some (if a ≤ b then 1 else 0)
  | .OP_GE => some (if a ≥ b then 1 else 0)
  | .OP_EQ => some (if a = b then 1 else 0)
  | .OP_NE => some (if a ≠ b then 1 else 0)

/-- The value the claim gives an expression of `Number` and `BinaryOp` nodes in
which no division has a zero divisor; `none` for any other node. -/
def claimedValue : ASTNode → Option Int
  | .AST_NUMBER number => some number
  | .AST_BINARY_OP op left right =>
    match claimedValue left, claimedValue right with
    | some a, some b => claimedBinaryOp op a b
    | _, _ => none
  | _ => none

/-- As `claimedBinaryOp`, with the division of -2^31 by -1 excluded as well. -/
def signedBinaryOp (op : BinaryOp) (a b : Int) : Option Int :=
  match op with
  | .OP_DIV => if b = 0 ∨ (a = -2147483648 ∧ b = -1) then none else some (Int.tdiv a b)
  | _ => claimedBinaryOp op a b

/-- The value of an expression of `Number` and `BinaryOp` nodes in which no
division has a zero divisor or divides -2^31 by -1; `none` for anything else. -/
def signedValue : ASTNode → Option Int
  | .AST_NUMBER number => some number
  | .AST_BINARY_OP op left right =>
    match signedValue left, signedValue right with
    | some a, some b => signedBinaryOp op a b
    | _, _ => none
  | _ => none

/-- The root has a `FunctionDef` named `main` at its top level: reachable through
`Sequence` edges only. -/
inductive HasTopLevelMain : ASTNode → Prop where
  | here (params : ParamList) (body : ASTNode) :
      HasTopLevelMain (.AST_FUNCTION_DEF "main" params body)
  | inFirst (first second : ASTNode) : HasTopLevelMain first →
      HasTopLevelMain (.AST_SEQUENCE first second)
  | inSecond (first second : ASTNode) : HasTopLevelMain second →
      HasTopLevelMain (.AST_SEQUENCE first second)

/-- Insert a list of instructions, one after the other, at the builder's position. -/
def CodeGenerator.insertAll (g : CodeGenerator) (is : List Instr) : CodeGenerator :=
  is.foldl CodeGenerator.insert g

/-- The instruction changes the content of the storage the pointer designates: a
store to it, or the `alloca` that creates it. -/
def Instr.writes (ptr : Value) : Instr → Bool
  | .store _ p => decide (p = ptr)
  | .alloca id _ => decide (Value.inst id = ptr)
  | _ => false

/-! ## Concrete inputs used in examples -/

/-- The generator state in which the body of `int main()` starts being lowered:
the constructor state after `function_def_enter`. -/
def mainEntryState : CodeGenerator :=
  match function_def_enter "main" [] CodeGenerator.new with
  | some (_, g) => g
  | none => CodeGenerator.new

/-- The expression `(0 - 2147483647 - 1) / (0 - 1)`: it divides -2^31 by -1. -/
def divOverflowExample : ASTNode :=
  .AST_BINARY_OP .OP_DIV
    (.AST_BINARY_OP .OP_SUB
      (.AST_BINARY_OP .OP_SUB (.AST_NUMBER 0) (.AST_NUMBER 2147483647)) (.AST_NUMBER 1))
    (.AST_BINARY_OP .OP_SUB (.AST_NUMBER 0) (.AST_NUMBER 1))

/-- The expression `1 + 2 * 3`. -/
def onePlusTwoTimesThree : ASTNode :=
  .AST_BINARY_OP .OP_ADD (.AST_NUMBER 1)
    (.AST_BINARY_OP .OP_MUL (.AST_NUMBER 2) (.AST_NUMBER 3))

/-- The generator state in which the body of `f(x, y)` starts being lowered in a
program that declares the global `x = 5`: the name `x` is both a declared global and
a bound parameter. -/
def shadowedEntryState : CodeGenerator :=
  match function_def_enter "f" ["x", "y"]
      (create_globals [GlobalVar.mk "x" 5] CodeGenerator.new) with
  | some (_, g) => g
  | none => CodeGenerator.new

/-- The body `return; x = 1;`: a `Return` without a value followed by an assignment. -/
def returnThenAssign : ASTNode :=
  .AST_SEQUENCE (.AST_RETURN .null) (.AST_ASSIGNMENT "x" (.AST_NUMBER 1))

/-- The body `if (0) x = 1; return x;`: `x` is assigned only in a branch that is
not taken. -/
def assignInUntakenBranchThenRead : ASTNode :=
  .AST_SEQUENCE
    (.AST_IF (.AST_NUMBER 0) (.AST_ASSIGNMENT "x" (.AST_NUMBER 1)) .null)
    (.AST_RETURN (.AST_VARIABLE "x"))

/-! ## Notions used to state what lowering preserves -/

mutual
/-- The node is or contains a `FunctionDef` node. -/
def containsFunctionDef : ASTNode → Bool
  | .null => false
  | .AST_NUMBER _ => false
  | .AST_BINARY_OP _ left right => containsFunctionDef left || containsFunctionDef right
  | .AST_VARIABLE _ => false
  | .AST_ASSIGNMENT _ value => containsFunctionDef value
  | .AST_RETURN return_value => containsFunctionDef return_value
  | .AST_SEQUENCE first second => containsFunctionDef first || containsFunctionDef second
  | .AST_WHILE condition body => containsFunctionDef condition || containsFunctionDef body
  | .AST_FOR init condition increment body =>
    containsFunctionDef init || containsFunctionDef condition
      || containsFunctionDef increment || containsFunctionDef body
  | .AST_IF condition then_branch else_branch =>
    containsFunctionDef condition || containsFunctionDef then_branch
      || containsFunctionDef else_branch
  | .AST_PRINT print_value => containsFunctionDef print_value
  | .AST_FUNCTION_DEF _ _ _ => true
  | .AST_FUNCTION_CALL _ args => argsContainFunctionDef args
  | .AST_GLOBAL_VAR _ value => containsFunctionDef value
/-- Some argument is or contains a `FunctionDef` node. -/
def argsContainFunctionDef : ArgList → Bool
  | .nil => false
  | .cons expr next => containsFunctionDef expr || argsContainFunctionDef next
end

/-- The instructions of a function: those of its blocks, in block order. -/
def CodeGenerator.functionInsts (g : CodeGenerator) (f : Nat) : List Instr :=
  match g.module.functions[f]? with
  | some fn => (fn.blocks.map g.blockInsts).flatten
  | none => []

/-- The number of `ret` instructions of a function. -/
def CodeGenerator.retCount (g : CodeGenerator) (f : Nat) : Nat :=
  (g.functionInsts f).countP Instr.isRet

/-- No name of `named_values` is bound to the storage `alloca`. -/
def Unnamed (alloca : Nat) (g : CodeGenerator) : Prop :=
  ∀ name, mapFind g.named_values name ≠ some alloca

/-- The generator is inside a function: the current function exists and has an entry
block, the builder is positioned in an existing block that belongs to a function, the
return block is set, and `printf` is declared. -/
structure InFunction (g : CodeGenerator) : Prop where
  func : ∃ (f : Nat) (fn : Function) (entry : Nat), g.current_function = some f ∧ g.module.functions[f]? = some fn
    ∧ fn.blocks.head? = some entry
  block : ∃ (b : Nat) (bb : BasicBlock) (p : Nat), g.insertBlock = some b ∧ g.blocks[b]? = some bb ∧ bb.parent = some p
  return_block : ∃ rb, g.current_return_block = some rb
  printf : ∃ p, g.printf_func = some p

/-- The state `g'` comes from `g` by creating blocks and instructions only: every block
keeps its parent and its instructions, with `alloca`s put in front and instructions
appended (no `ret` among them unless `rets` is true); every function keeps its blocks,
with new blocks appended; the declared globals and `printf` are unchanged. -/
structure Grows (rets : Bool) (g g' : CodeGenerator) : Prop where
  nextId_le : g.nextId ≤ g'.nextId
  length_le : g.blocks.length ≤ g'.blocks.length
  insts : ∀ b, ∃ pre post, g'.blockInsts b = pre ++ g.blockInsts b ++ post
    ∧ (∀ i ∈ pre, i.isAlloca = true) ∧ (∀ i ∈ post, rets = false → i.isRet = false)
  parent : ∀ (b : Nat) (bb : BasicBlock), g.blocks[b]? = some bb →
    ∃ bb' : BasicBlock, g'.blocks[b]? = some bb' ∧ bb'.parent = bb.parent
  funcs : ∀ (f : Nat) (fn : Function), g.module.functions[f]? = some fn →
    ∃ (fn' : Function) (more : List Nat),
      g'.module.functions[f]? = some fn' ∧ fn'.blocks = fn.blocks ++ more
      ∧ ∀ b ∈ more, g.blocks.length ≤ b
  global_vars_eq : g'.global_vars = g.global_vars
  printf_func_eq : g'.printf_func = g.printf_func

/-- What lowering a statement or an expression inside a function does to the generator:
it grows, the function context is the same afterwards, the generator is still inside a
function, and storage that no name was bound to is still bound to no name. -/
structure Lowered (rets : Bool) (g g' : CodeGenerator) : Prop where
  grows : Grows rets g g'
  inFunction : InFunction g'
  current_function_eq : g'.current_function = g.current_function
  current_return_block_eq : g'.current_return_block = g.current_return_block
  return_value_alloca_eq : g'.return_value_alloca = g.return_value_alloca
  unnamed : ∀ alloca, alloca < g.nextId → Unnamed alloca g → Unnamed alloca g'

/-- The state `function_def_enter` reaches once the return-value storage has been
initialized, just before the parameters are stored: the new function with its entry
block (holding the `alloca` of the return-value storage and the store of 0) and its
empty return block, and the new function context. -/
def enterState (func_name : String) (params : ParamList) (g : CodeGenerator) : CodeGenerator :=
  { g with
    module := { (g.module.registerName func_name (.function g.module.functions.length)).2 with
      functions := g.module.functions ++
        [Function.mk (g.module.registerName func_name (.function g.module.functions.length)).1
          .i32 (List.replicate (param_list_count params) .i32) false
          (setArgNames ((List.replicate (param_list_count params) Ty.i32).map (fun _ => ""))
            params)
          [g.blocks.length, g.blocks.length + 1]] },
    blocks := g.blocks ++
      [BasicBlock.mk "entry" (some g.module.functions.length)
          [.alloca g.nextId "retval", .store (.constInt 0) (.inst g.nextId)],
        BasicBlock.mk "return" (some g.module.functions.length) []],
    nextId := g.nextId + 1,
    insertBlock := some g.blocks.length,
    named_values := [],
    current_function := some g.module.functions.length,
    current_return_block := some (g.blocks.length + 1),
    return_value_alloca := some g.nextId }

/-! ## `symtab.h`, `symtab.cpp`

The vector `symbols` is a list; an `int` is an `Int` (an index is below the number of
entries and `stack_offset` is four times a number of entries, so both stay far below
2^31 for every table that fits in memory).
-/

/-- The kinds of `enum class SymbolType`. -/
inductive SymbolType where
  | VARIABLE | FUNCTION | PARAMETER
  deriving DecidableEq, Repr

/-- The record `struct Symbol`. -/
structure Symbol where
  name : String
  type : SymbolType
  value : Int
  offset : Int
  param_count : Int
  deriving DecidableEq, Repr

/-- The members of `class SymbolTable`. -/
structure SymbolTable where
  symbols : List Symbol
  stack_offset : Int
  deriving DecidableEq, Repr

/-- The constructor `SymbolTable::SymbolTable`. -/
def SymbolTable.new : SymbolTable :=
  SymbolTable.mk [] 0

/-- The loop of `SymbolTable::lookup` from position `i` on: the position of the first
entry with the name, -1 when there is none. -/
def lookup_from : List Symbol → String → Nat → Int
  | [], _, _ => -1
  | s :: rest, name, i => if s.name = name then (i : Int) else lookup_from rest name (i + 1)

/-- The method `SymbolTable::lookup`. -/
def SymbolTable.lookup (t : SymbolTable) (name : String) : Int :=
  lookup_from t.symbols name 0

/-- The method `SymbolTable::add`: the returned `int` and the table afterwards. -/
def SymbolTable.add (t : SymbolTable) (name : String) : Int × SymbolTable :=
  if t.lookup name ≥ 0 then (-1, t)
  else
    let symbols := t.symbols ++ [Symbol.mk name .VARIABLE 0 t.stack_offset 0]
    ((symbols.length : Int) - 1, SymbolTable.mk symbols (t.stack_offset + 4))

/-- The method `SymbolTable::add_function`. -/
def SymbolTable.add_function (t : SymbolTable) (name : String) (param_count : Int) :
    Int × SymbolTable :=
  if t.lookup name ≥ 0 then (-1, t)
  else
    let symbols := t.symbols ++ [Symbol.mk name .FUNCTION 0 0 param_count]
    ((symbols.length : Int) - 1, SymbolTable.mk symbols t.stack_offset)

/-- The method `SymbolTable::add_parameter`. -/
def SymbolTable.add_parameter (t : SymbolTable) (name : String) : Int × SymbolTable :=
  if t.lookup name ≥ 0 then (-1, t)
  else
    let symbols := t.symbols ++ [Symbol.mk name .PARAMETER 0 t.stack_offset 0]
    ((symbols.length : Int) - 1, SymbolTable.mk symbols (t.stack_offset + 4))

/-- The method `SymbolTable::set`. -/
def SymbolTable.set (t : SymbolTable) (name : String) (value : Int) : SymbolTable :=
  let idx := t.lookup name
  if idx ≥ 0 then
    { t with symbols := t.symbols.modify (fun s => { s with value := value }) idx.toNat }
  else t

/-- The entry `symbols[idx]` for the index `lookup` returned, when it found one. -/
def SymbolTable.found (t : SymbolTable) (name : String) : Option Symbol :=
  let idx := t.lookup name
  if idx ≥ 0 then t.symbols[idx.toNat]? else none

/-- The method `SymbolTable::get`. -/
def SymbolTable.get (t : SymbolTable) (name : String) : Int :=
  match t.found name with
  | some s => s.value
  | none => 0

/-- The method `SymbolTable::get_offset`. -/
def SymbolTable.get_offset (t : SymbolTable) (name : String) : Int :=
  match t.found name with
  | some s => s.offset
  | none => 0

/-- The method `SymbolTable::get_type`. -/
def SymbolTable.get_type (t : SymbolTable) (name : String) : SymbolType :=
  match t.found name with
  | some s => s.type
  | none => .VARIABLE

/-- The method `SymbolTable::get_param_count`. -/
def SymbolTable.get_param_count (t : SymbolTable) (name : String) : Int :=
  match t.found name with
  | some s => s.param_count
  | none => 0

/-- The method `SymbolTable::get_stack_offset`. -/
def SymbolTable.get_stack_offset (t : SymbolTable) : Int :=
  t.stack_offset

/-- One call that changes a table. -/
inductive SymtabCall where
  | add (name : String)
  | add_function (name : String) (param_count : Int)
  | add_parameter (name : String)
  | set (name : String) (value : Int)
  deriving DecidableEq, Repr

/-- The table after one call. -/
def SymbolTable.call (t : SymbolTable) : SymtabCall → SymbolTable
  | .add name => (t.add name).2
  | .add_function name param_count => (t.add_function name param_count).2
  | .add_parameter name => (t.add_parameter name).2
  | .set name value => t.set name value

/-- The table after a sequence of calls, first to last. -/
def SymbolTable.calls (t : SymbolTable) (cs : List SymtabCall) : SymbolTable :=
  cs.foldl SymbolTable.call t

/-- The entries that take a stack slot: variables and parameters, in table order. -/
def SymbolTable.slots (t : SymbolTable) : List Symbol :=
  t.symbols.filter (fun s => decide (s.type ≠ .FUNCTION))

/-- The invariant of a table: the names are pairwise distinct, the k-th entry that
takes a stack slot is at offset 4k, a function entry is at offset 0, and
`stack_offset` is four times the number of entries that take a slot. -/
structure SymbolTable.Valid (t : SymbolTable) : Prop where
  names : (t.symbols.map Symbol.name).Nodup
  slot_offset : ∀ (k : Nat) (s : Symbol), t.slots[k]? = some s → s.offset = 4 * (k : Int)
  function_offset : ∀ s ∈ t.symbols, s.type = .FUNCTION → s.offset = 0
  stack : t.stack_offset = 4 * (t.slots.length : Int)

/-! ## Notions used to state which names a call can resolve -/

/-- The names of the `FunctionDef` nodes in statement position: the nodes that
`codegen_stmt` can reach, directly or through `Sequence`, loop bodies, `For` init and
increment, `If` branches and the bodies of other function definitions. -/
def statementFunctionDefs : ASTNode → List String
  | .AST_SEQUENCE first second => statementFunctionDefs first ++ statementFunctionDefs second
  | .AST_WHILE _ body => statementFunctionDefs body
  | .AST_FOR init _ increment body =>
    statementFunctionDefs init ++ (statementFunctionDefs body ++ statementFunctionDefs increment)
  | .AST_IF _ then_branch else_branch =>
    statementFunctionDefs then_branch ++ statementFunctionDefs else_branch
  | .AST_FUNCTION_DEF name _ body => name :: statementFunctionDefs body
  | _ => []

/-- The name is one the module can give a value created under the name `base`: `base`
itself, or `base` followed by a dot and a number when `base` was taken. -/
def RegisteredAs (base name : String) : Prop :=
  name = base ∨ ∃ k : Nat, name = base ++ "." ++ toString k

/-- The symbol table of the module has only grown from `g` to `g'`, by functions
registered for definitions with the given names. -/
def SymtabAdds (names : List String) (g g' : CodeGenerator) : Prop :=
  ∃ more : List (String × GlobalValue), g'.module.symtab = g.module.symtab ++ more
    ∧ ∀ kv ∈ more, (∃ index, kv.2 = .function index) ∧ ∃ base ∈ names, RegisteredAs base kv.1

/-! ## Concrete programs used in examples -/

/-- The expression `n - 1`. -/
def nMinusOne : ASTNode :=
  .AST_BINARY_OP .OP_SUB (.AST_VARIABLE "n") (.AST_NUMBER 1)

/-- The body `if (n <= 1) return 1; return n * f(n - 1);`. -/
def factorialBody : ASTNode :=
  .AST_SEQUENCE
    (.AST_IF (.AST_BINARY_OP .OP_LE (.AST_VARIABLE "n") (.AST_NUMBER 1))
      (.AST_RETURN (.AST_NUMBER 1)) .null)
    (.AST_RETURN (.AST_BINARY_OP .OP_MUL (.AST_VARIABLE "n")
      (.AST_FUNCTION_CALL "f" (.cons nMinusOne .nil))))

/-- The program `f(n) { return g(n - 1); }  g(n) { return f(n - 1); }`. -/
def mutualRecursion : ASTNode :=
  .AST_SEQUENCE
    (.AST_FUNCTION_DEF "f" ["n"]
      (.AST_RETURN (.AST_FUNCTION_CALL "g" (.cons nMinusOne .nil))))
    (.AST_FUNCTION_DEF "g" ["n"]
      (.AST_RETURN (.AST_FUNCTION_CALL "f" (.cons nMinusOne .nil))))

/-- The function a call instruction calls; none for any other instruction. -/
def Instr.callee : Instr → Option Nat
  | .call _ callee _ => some callee
  | _ => none

/-- The functions called by the instructions of a function, in block order. -/
def CodeGenerator.callees (g : CodeGenerator) (f : Nat) : List Nat :=
  (g.functionInsts f).filterMap Instr.callee

/-- The body `z = unknown(); while (unknown()) return 1; w = 2;`: the value of the
first assignment and the condition of the loop fail to lower, and the last assignment
binds a new local. -/
def bodyWithFailedLowerings : ASTNode :=
  .AST_SEQUENCE (.AST_ASSIGNMENT "z" (.AST_FUNCTION_CALL "unknown" .nil))
    (.AST_SEQUENCE (.AST_WHILE (.AST_FUNCTION_CALL "unknown" .nil) (.AST_RETURN (.AST_NUMBER 1)))
      (.AST_ASSIGNMENT "w" (.AST_NUMBER 2)))

/-- The number of arguments of a call. -/
def ArgList.length : ArgList → Nat
  | .nil => 0
  | .cons _ next => next.length + 1

/-- The number an instruction that yields a value was created with; numbers are given
in creation order. None for a store, a branch and a return. -/
def Instr.id? : Instr → Option Nat
  | .alloca id _ => some id
  | .load id _ _ => some id
  | .arith id _ _ _ => some id
  | .icmp id _ _ _ => some id
  | .zext id _ => some id
  | .call id _ _ => some id
  | _ => none

/-- The instruction was created when the next number to give was at least `lo` and
before it reached `hi`. -/
def Instr.createdIn (i : Instr) (lo hi : Nat) : Prop :=
  ∃ id, i.id? = some id ∧ lo ≤ id ∧ id < hi

/-- What lowering an expression adds to the blocks, from `g` to `g'`: `alloca`s in
front of a block, and other instructions appended to the block the builder is
positioned in, which stays the same; each added instruction was created in between. -/
structure CreatedBetween (g g' : CodeGenerator) : Prop where
  nextId_le : g.nextId ≤ g'.nextId
  insertBlock_eq : g'.insertBlock = g.insertBlock
  insts : ∀ b, ∃ pre post, g'.blockInsts b = pre ++ g.blockInsts b ++ post
    ∧ (∀ i ∈ pre, i.isAlloca = true ∧ i.createdIn g.nextId g'.nextId)
    ∧ (∀ i ∈ post, i.isAlloca = false ∧ i.createdIn g.nextId g'.nextId)
    ∧ (post ≠ [] → g.insertBlock = some b)

/-- The arguments are lowered one after the other in list order, from `g` to `g'`: the
first from `g`, each next one from the state the one before left; each yields a value,
the values are `vals` in list order; and what each adds to the blocks was created
while it was lowered, the instructions other than `alloca`s appended at the builder's
position after what is there. -/
def ArgsInOrder : ArgList → CodeGenerator → List Value → CodeGenerator → Prop
  | .nil, g, vals, g' => vals = [] ∧ g' = g
  | .cons expr next, g, vals, g' =>
    ∃ (v : Value) (rest : List Value) (g1 : CodeGenerator),
      vals = v :: rest ∧ codegen_expr expr g = some (some v, g1)
        ∧ CreatedBetween g g1 ∧ ArgsInOrder next g1 rest g'

/-- The arguments `x, y + 1, z`. -/
def threeArguments : ArgList :=
  .cons (.AST_VARIABLE "x")
    (.cons (.AST_BINARY_OP .OP_ADD (.AST_VARIABLE "y") (.AST_NUMBER 1))
      (.cons (.AST_VARIABLE "z") .nil))

/-- The generator state after the arguments `x, y + 1, z` have been lowered at the
start of the body of `f(x, y)`. -/
def afterThreeArguments : CodeGenerator :=
  match codegen_args threeArguments shadowedEntryState with
  | some (_, g) => g
  | none => shadowedEntryState

/-! ## Notions used to state what the conditional branch of a construct tests -/

/-- The block a terminator transfers control to: a `br` its destination, a conditional
`br` its first destination when the condition bit is 1 and its second when it is 0;
none for an undefined condition and for any other instruction. -/
def Machine.branchTarget (m : Machine) : Instr → Option Nat
  | .br dest => some dest
  | .condBr cond ifTrue ifFalse =>
    match m.operand cond with
    | some (.int v) => some (if v = 0 then ifFalse else ifTrue)
    | _ => none
  | _ => none

/-- From `g` to `g'` the test of a condition value has been emitted: appended to the
block the builder is positioned in are the comparison `cond != 0` and the conditional
branch on its result, to `ifTrue` when it holds and to `ifFalse` when it does not. -/
def BranchesOnNonzero (g : CodeGenerator) (cond : Value) (ifTrue ifFalse : Nat)
    (g' : CodeGenerator) : Prop :=
  ∃ b, g.insertBlock = some b ∧ b < g.blocks.length
    ∧ g'.blockInsts b = g.blockInsts b
        ++ [.icmp g.nextId .NE cond (.constInt 0), .condBr (.inst g.nextId) ifTrue ifFalse]

/-- The state in which the condition of a loop is lowered: the condition block, the
body block and the after block have been created for the current function, in this
order and with the given names, a branch to the condition block has been appended at
the builder's position, and the builder is positioned in the condition block. -/
def loopHeader (n1 n2 n3 : String) (g : CodeGenerator) : CodeGenerator :=
  let loop_block := BasicBlock_Create n1 g.current_function g
  let body_block := BasicBlock_Create n2 g.current_function loop_block.2
  let after_block := BasicBlock_Create n3 g.current_function body_block.2
  SetInsertPoint loop_block.1 (after_block.2.insert (.br loop_block.1))

/-- The body `if (c) return 1; else return 2;`. -/
def ifElseOn (c : Int) : ASTNode :=
  .AST_IF (.AST_NUMBER c) (.AST_RETURN (.AST_NUMBER 1)) (.AST_RETURN (.AST_NUMBER 2))

/-- The body `if (c) return 1; return 2;`. -/
def ifOn (c : Int) : ASTNode :=
  .AST_SEQUENCE (.AST_IF (.AST_NUMBER c) (.AST_RETURN (.AST_NUMBER 1)) .null)
    (.AST_RETURN (.AST_NUMBER 2))

/-- The body `while (c) return 1; return 2;`. -/
def whileOn (c : Int) : ASTNode :=
  .AST_SEQUENCE (.AST_WHILE (.AST_NUMBER c) (.AST_RETURN (.AST_NUMBER 1)))
    (.AST_RETURN (.AST_NUMBER 2))

/-- The body `for (i = 0; c; i = 1) return 1; return 2;`. -/
def forOn (c : Int) : ASTNode :=
  .AST_SEQUENCE
    (.AST_FOR (.AST_ASSIGNMENT "i" (.AST_NUMBER 0)) (.AST_NUMBER c)
      (.AST_ASSIGNMENT "i" (.AST_NUMBER 1)) (.AST_RETURN (.AST_NUMBER 1)))
    (.AST_RETURN (.AST_NUMBER 2))

/-- The value `int main()` with the given body returns when it is lowered by a new
generator and run. -/
def runMain (body : ASTNode) : Option RtVal :=
  ( codegen_function_def "main" [] body CodeGenerator.new).bind
    (fun g => runFunction g 1 20)

/-! ## What lowering leaves as it was -/

/-- What lowering an expression leaves as it was, whether or not a value comes out:
the module, the block the builder is positioned in, the declared globals, the function
context apart from the local bindings, and `printf`. -/
structure ExprFrame (g g' : CodeGenerator) : Prop where
  module_eq : g'.module = g.module
  insertBlock_eq : g'.insertBlock = g.insertBlock
  global_vars_eq : g'.global_vars = g.global_vars
  current_function_eq : g'.current_function = g.current_function
  current_return_block_eq : g'.current_return_block = g.current_return_block
  return_value_alloca_eq : g'.return_value_alloca = g.return_value_alloca
  printf_func_eq : g'.printf_func = g.printf_func

/-- What lowering a statement leaves as it was: the declared globals, the function
context apart from the local bindings, and `printf`. -/
structure StmtFrame (g g' : CodeGenerator) : Prop where
  global_vars_eq : g'.global_vars = g.global_vars
  current_function_eq : g'.current_function = g.current_function
  current_return_block_eq : g'.current_return_block = g.current_return_block
  return_value_alloca_eq : g'.return_value_alloca = g.return_value_alloca
  printf_func_eq : g'.printf_func = g.printf_func

/-! ## `main.cpp`: the name of the IR dump -/

/-- The call `s.rfind(c)` of `std::string`: the position of the last occurrence of the
character, `none` for `std::string::npos`. -/
def rfind : List Char → Char → Option Nat
  | [], _ => none
  | x :: rest, c =>
    match rfind rest c with
    | some pos => some (pos + 1)
    | none => if x = c then some 0 else none

/-- The computation of `ir_file` from `output_file` in `main`: with `pos` the result of
`ir_file.rfind(.)`, the string `ir_file.substr(0, pos) + ".ll"` when a dot is found
and `ir_file + ".ll"` otherwise. -/
def ir_file_name (output_file : String) : String :=
  match rfind output_file.data '.' with
  | some pos => String.mk (output_file.data.take pos) ++ ".ll"
  | none => output_file ++ ".ll"

/-- The choice of `output_file` in `main`: `argv[2]` when there are three arguments,
`output.o` otherwise. The list holds `argv[1]`, `argv[2]`, ... -/
def output_file_of_args (args : List String) : String :=
  match args with
  | [_, out] => out
  | _ => "output.o"

/-- The file name the specification gives the IR dump: the directory part of the
output path (up to and including its last slash) unchanged, and in the file name the
extension (from its last dot on) replaced by `.ll`, or `.ll` appended when the file
name has no dot. -/
def claimedIrFileName (output_file : String) : String :=
  let path := output_file.data
  let dir := match rfind path '/' with
    | some pos => path.take (pos + 1)
    | none => []
  let file := match rfind path '/' with
    | some pos => path.drop (pos + 1)
    | none => path
  match rfind file '.' with
  | some pos => String.mk (dir ++ file.take pos) ++ ".ll"
  | none => String.mk (dir ++ file) ++ ".ll"

/-! ## Notions used to state what `codegen_function_def` sets up -/

/-- The position of the last occurrence of a name in a list of names. -/
def lastIndexOf? (name : String) : List String → Option Nat
  | [] => none
  | x :: rest =>
    match lastIndexOf? name rest with
    | some i => some (i + 1)
    | none => if x = name then some 0 else none

/-- The `alloca`s of the parameters, in parameter order: parameter `k` gets the
instruction number `first + k`. -/
def paramAllocas (first : Nat) : ParamList → List Instr
  | [] => []
  | name :: next => .alloca first name :: paramAllocas (first + 1) next

/-- The stores of the incoming arguments into the parameters' storage, in parameter
order: argument `index + k` of the function is stored into the `alloca` numbered
`first + k`. -/
def paramStores (func first index : Nat) : ParamList → List Instr
  | [] => []
  | _ :: next =>
    .store (.argument func index) (.inst first) :: paramStores func (first + 1) (index + 1) next

/-! ## Well-formed blocks -/

/-- The number of terminators among the instructions. -/
def terminatorCount (insts : List Instr) : Nat :=
  insts.countP Instr.isTerminator

/-- A list of instructions is a well-formed block: the last instruction is a
terminator and no instruction before it is one. -/
def wellFormedBlock (insts : List Instr) : Bool :=
  match insts.getLast? with
  | some last => last.isTerminator && insts.dropLast.all (fun i => !i.isTerminator)
  | none => false

/-- Every block of the function is well formed. -/
def CodeGenerator.functionWellFormed (g : CodeGenerator) (f : Nat) : Bool :=
  match g.module.functions[f]? with
  | some fn => fn.blocks.all (fun b => wellFormedBlock (g.blockInsts b))
  | none => false

/-- The body `return 1; return 2;`. -/
def returnTwice : ASTNode :=
  .AST_SEQUENCE (.AST_RETURN (.AST_NUMBER 1)) (.AST_RETURN (.AST_NUMBER 2))

/-- The body `while (1) return 1;`. -/
def whileEndingInReturn : ASTNode :=
  .AST_WHILE (.AST_NUMBER 1) (.AST_RETURN (.AST_NUMBER 1))

/-- The body `for (; 1; ) return 1;`. -/
def forEndingInReturn : ASTNode :=
  .AST_FOR .null (.AST_NUMBER 1) .null (.AST_RETURN (.AST_NUMBER 1))

/-- The statement `if (1) { return 1; x = 2; }`: in the then-branch an assignment
follows a `Return` with a value. -/
def ifReturnThenAssign : ASTNode :=
  .AST_IF (.AST_NUMBER 1)
    (.AST_SEQUENCE (.AST_RETURN (.AST_NUMBER 1)) (.AST_ASSIGNMENT "x" (.AST_NUMBER 2)))
    .null

/-- The statement `return 1;`. -/
def returnOne : ASTNode :=
  .AST_RETURN (.AST_NUMBER 1)

/-- The statement `x = 2;`. -/
def assignXTwo : ASTNode :=
  .AST_ASSIGNMENT "x" (.AST_NUMBER 2)

/-- The state in which the branches of an `If` are lowered: after the comparison of the
condition value with 0, the creation of the then block, of the else block when there is
an else-branch, and of the merge block, and the conditional branch, with the builder
positioned in the then block. The argument is the state the condition left. -/
def ifHeader (cond : Value) (hasElse : Bool) (g : CodeGenerator) : CodeGenerator :=
  let c := CreateICmp .NE cond (.constInt 0) g
  let t := BasicBlock_Create "then" g.current_function c.2
  if hasElse then
    let e := BasicBlock_Create "else" g.current_function t.2
    let m := BasicBlock_Create "ifcont" g.current_function e.2
    SetInsertPoint t.1 (CreateCondBr c.1 t.1 e.1 m.2)
  else
    let m := BasicBlock_Create "ifcont" g.current_function t.2
    SetInsertPoint t.1 (CreateCondBr c.1 t.1 m.1 m.2)

/-- What the `If` does after a branch is lowered: append a branch to the merge block
when the block the builder is positioned in is empty or its last instruction is not a
terminator, and nothing when its last instruction is a terminator. -/
def closeBranch (merge : Nat) (g : CodeGenerator) : CodeGenerator :=
  match g.insertBlock with
  | none => g
  | some b =>
    match (g.blockInsts b).getLast? with
    | some i => if i.isTerminator then g else g.insert (.br merge)
    | none => g.insert (.br merge)

/-! ## Equality of generator states up to block names -/

/-- The block without its name hint. -/
def BasicBlock.unnamed (bb : BasicBlock) : BasicBlock :=
  { bb with name := "" }

/-- The generator state without the name hints of its blocks. -/
def CodeGenerator.unnamed (g : CodeGenerator) : CodeGenerator :=
  { g with blocks := g.blocks.map BasicBlock.unnamed }

/-- The statement `init; while (condition) { body; increment; }`. -/
def forAsWhile (init condition increment body : ASTNode) : ASTNode :=
  .AST_SEQUENCE init (.AST_WHILE condition (.AST_SEQUENCE body increment))

/-- The generator state with the name hints of its blocks changed: the block at
position `i` named `n` gets the name `rho i n`. -/
def CodeGenerator.renameBlocks (rho : Nat → String → String) (g : CodeGenerator) :
    CodeGenerator :=
  { g with blocks := g.blocks.mapIdx (fun i bb => { bb with name := rho i bb.name }) }

/-- The names a `For` gives the three blocks it creates from position `first` on, in
place of those a `While` gives them. -/
def forNames (first : Nat) (i : Nat) (n : String) : String :=
  if i = first then "forloop"
  else if i = first + 1 then "forbody"
  else if i = first + 2 then "afterfor"
  else n

/-- The expression `x + unknown()`: it reads `x` and then calls a function that is not
declared. -/
def failedValue : ASTNode :=
  .AST_BINARY_OP .OP_ADD (.AST_VARIABLE "x") (.AST_FUNCTION_CALL "unknown" .nil)

/-- The state lowering `x + unknown()` leaves in `int main()`. -/
def afterFailedValue : CodeGenerator :=
  match codegen_expr failedValue mainEntryState with
  | some (_, g) => g
  | none => mainEntryState

/-- The global list `x = 1, y = 2, x = 3`: the name `x` occurs twice. -/
def xyxGlobals : List GlobalVar :=
  [GlobalVar.mk "x" 1, GlobalVar.mk "y" 2, GlobalVar.mk "x" 3]

/-- The instruction is a `store`. -/
def Instr.isStore : Instr → Bool
  | .store _ _ => true
  | _ => false
/-! ## Lemmas on the collector -/

theorem collect_globals_eq : ∀ (node : ASTNode) (acc : List GlobalVar),
    collect_globals node acc = ((topLevelGlobalVars node).map expectedRecord).reverse ++ acc
  | .AST_SEQUENCE first second, acc => by
    simp [collect_globals, topLevelGlobalVars, collect_globals_eq first,
      collect_globals_eq second]
  | .AST_GLOBAL_VAR name value, acc => by
    cases value <;>
      simp [collect_globals, topLevelGlobalVars, add_global_var, expectedRecord, literalOrZero]
  | .null, acc => by simp [collect_globals, topLevelGlobalVars]
  | .AST_NUMBER _, acc => by simp [collect_globals, topLevelGlobalVars]
  | .AST_BINARY_OP _ _ _, acc => by simp [collect_globals, topLevelGlobalVars]
  | .AST_VARIABLE _, acc => by simp [collect_globals, topLevelGlobalVars]
  | .AST_ASSIGNMENT _ _, acc => by simp [collect_globals, topLevelGlobalVars]
  | .AST_RETURN _, acc => by simp [collect_globals, topLevelGlobalVars]
  | .AST_WHILE _ _, acc => by simp [collect_globals, topLevelGlobalVars]
  | .AST_FOR _ _ _ _, acc => by simp [collect_globals, topLevelGlobalVars]
  | .AST_IF _ _ _, acc => by simp [collect_globals, topLevelGlobalVars]
  | .AST_PRINT _, acc => by simp [collect_globals, topLevelGlobalVars]
  | .AST_FUNCTION_DEF _ _ _, acc => by simp [collect_globals, topLevelGlobalVars]
  | .AST_FUNCTION_CALL _ _, acc => by simp [collect_globals, topLevelGlobalVars]

theorem collect_globals_fill_sameKind (t t' : ASTNode) (h : sameKind t t' = true) :
    ∀ (c : SeqContext) (acc : List GlobalVar),
      collect_globals (c.fill t) acc = collect_globals (c.fill t') acc
  | .hole, acc => by
    cases t <;> cases t' <;> simp_all [sameKind, SeqContext.fill, collect_globals]
  | .inFirst c second, acc => by
    simp [SeqContext.fill, collect_globals, collect_globals_fill_sameKind t t' h c]
  | .inSecond first c, acc => by
    simp [SeqContext.fill, collect_globals, collect_globals_fill_sameKind t t' h c]

theorem check_main_exists_iff : ∀ (node : ASTNode),
    check_main_exists node = true ↔ HasTopLevelMain node
  | .AST_FUNCTION_DEF name params body => by
    constructor
    · intro h
      have hn : name = "main" := by
        by_contra hne
        simp [check_main_exists, hne] at h
      subst hn
      exact HasTopLevelMain.here params body
    · intro h
      cases h
      simp [check_main_exists]
  | .AST_SEQUENCE first second => by
    constructor
    · intro h
      simp only [check_main_exists, Bool.or_eq_true] at h
      rcases h with h | h
      · exact HasTopLevelMain.inFirst _ _ ((check_main_exists_iff first).1 h)
      · exact HasTopLevelMain.inSecond _ _ ((check_main_exists_iff second).1 h)
    · intro h
      simp only [check_main_exists, Bool.or_eq_true]
      cases h with
      | inFirst _ _ h1 => exact Or.inl ((check_main_exists_iff first).2 h1)
      | inSecond _ _ h2 => exact Or.inr ((check_main_exists_iff second).2 h2)
  | .null => 
    ⟨fun h => by simp [check_main_exists] at h, fun h => by cases h⟩
  | .AST_NUMBER _ => 
    ⟨fun h => by simp [check_main_exists] at h, fun h => by cases h⟩
  | .AST_BINARY_OP _ _ _ => 
    ⟨fun h => by simp [check_main_exists] at h, fun h => by cases h⟩
  | .AST_VARIABLE _ => 
    ⟨fun h => by simp [check_main_exists] at h, fun h => by cases h⟩
  | .AST_ASSIGNMENT _ _ => 
    ⟨fun h => by simp [check_main_exists] at h, fun h => by cases h⟩
  | .AST_RETURN _ => 
    ⟨fun h => by simp [check_main_exists] at h, fun h => by cases h⟩
  | .AST_WHILE _ _ => 
    ⟨fun h => by simp [check_main_exists] at h, fun h => by cases h⟩
  | .AST_FOR _ _ _ _ => 
    ⟨fun h => by simp [check_main_exists] at h, fun h => by cases h⟩
  | .AST_IF _ _ _ => 
    ⟨fun h => by simp [check_main_exists] at h, fun h => by cases h⟩
  | .AST_PRINT _ => 
    ⟨fun h => by simp [check_main_exists] at h, fun h => by cases h⟩
  | .AST_FUNCTION_CALL _ _ => 
    ⟨fun h => by simp [check_main_exists] at h, fun h => by cases h⟩
  | .AST_GLOBAL_VAR _ _ => 
    ⟨fun h => by simp [check_main_exists] at h, fun h => by cases h⟩

theorem not_hasTopLevelMain_of_check {node : ASTNode} (h : check_main_exists node = false) :
    ¬ HasTopLevelMain node := by
  intro hm
  rw [(check_main_exists_iff node).2 hm] at h
  exact Bool.noConfusion h

/-! ## Basic facts on maps, blocks and the builder primitives -/

theorem mapFind_mapSet {α : Type} (m : List (String × α)) (k : String) (v : α) (n : String) :
    mapFind (mapSet m k v) n = if k = n then some v else mapFind m n := by
  induction m with
  | nil => simp [mapSet, mapFind]
  | cons p rest ih =>
    obtain ⟨k', w⟩ := p
    by_cases h : k' = k
    · subst h
      by_cases h2 : k' = n <;> simp [mapSet, mapFind, h2]
    · by_cases h2 : k = n
      · subst h2
        simp [mapSet, mapFind, h, ih]
      · by_cases h3 : k' = n
        · subst h3
          simp [mapSet, mapFind, h, h2]
        · simp [mapSet, mapFind, h, h2, h3, ih]

theorem execInstrs_append (m : Machine) (a b : List Instr) :
    execInstrs m (a ++ b) = (execInstrs m a).bind (fun m1 => execInstrs m1 b) := by
  induction a generalizing m with
  | nil => simp [execInstrs]
  | cons i rest ih =>
    simp only [List.cons_append, execInstrs]
    cases h : execInstr m i with
    | none => simp
    | some m1 => simp [ih]

@[simp] theorem insert_nextId (g : CodeGenerator) (i : Instr) : (g.insert i).nextId = g.nextId := by
  unfold CodeGenerator.insert; split <;> rfl

@[simp] theorem insert_module (g : CodeGenerator) (i : Instr) : (g.insert i).module = g.module := by
  unfold CodeGenerator.insert; split <;> rfl

@[simp] theorem insert_insertBlock (g : CodeGenerator) (i : Instr) :
    (g.insert i).insertBlock = g.insertBlock := by
  unfold CodeGenerator.insert; split <;> rfl

@[simp] theorem insert_named_values (g : CodeGenerator) (i : Instr) :
    (g.insert i).named_values = g.named_values := by
  unfold CodeGenerator.insert; split <;> rfl

@[simp] theorem insert_global_vars (g : CodeGenerator) (i : Instr) :
    (g.insert i).global_vars = g.global_vars := by
  unfold CodeGenerator.insert; split <;> rfl

@[simp] theorem insert_current_function (g : CodeGenerator) (i : Instr) :
    (g.insert i).current_function = g.current_function := by
  unfold CodeGenerator.insert; split <;> rfl

@[simp] theorem insert_current_return_block (g : CodeGenerator) (i : Instr) :
    (g.insert i).current_return_block = g.current_return_block := by
  unfold CodeGenerator.insert; split <;> rfl

@[simp] theorem insert_return_value_alloca (g : CodeGenerator) (i : Instr) :
    (g.insert i).return_value_alloca = g.return_value_alloca := by
  unfold CodeGenerator.insert; split <;> rfl

@[simp] theorem insert_printf_func (g : CodeGenerator) (i : Instr) :
    (g.insert i).printf_func = g.printf_func := by
  unfold CodeGenerator.insert; split <;> rfl

@[simp] theorem insert_blocks_length (g : CodeGenerator) (i : Instr) :
    (g.insert i).blocks.length = g.blocks.length := by
  unfold CodeGenerator.insert; split <;> simp

/-- The instructions of each block after an insertion at the builder's position. -/
theorem insert_blockInsts (g : CodeGenerator) (i : Instr) (b : Nat) :
    (g.insert i).blockInsts b
      = if g.insertBlock = some b ∧ b < g.blocks.length then g.blockInsts b ++ [i]
        else g.blockInsts b := by
  unfold CodeGenerator.insert CodeGenerator.blockInsts
  cases hib : g.insertBlock with
  | none => simp
  | some ib =>
    simp only [List.getElem?_modify, Option.some.injEq]
    by_cases hb : ib = b
    · subst hb
      cases hg : g.blocks[ib]? with
      | none =>
        have : ¬ ib < g.blocks.length := by
          intro hlt
          rw [List.getElem?_eq_getElem hlt] at hg
          exact Option.noConfusion hg
        simp [this]
      | some bb =>
        have : ib < g.blocks.length := by
          by_contra hge
          rw [List.getElem?_eq_none (Nat.le_of_not_lt hge)] at hg
          exact Option.noConfusion hg
        simp [this, BasicBlock.push]
    · cases hg : g.blocks[b]? <;> simp [hb]

theorem insert_blocks_get (g : CodeGenerator) (i : Instr) (b : Nat) (bb : BasicBlock)
    (h : g.blocks[b]? = some bb) :
    ∃ bb', (g.insert i).blocks[b]? = some bb' ∧ bb'.parent = bb.parent := by
  unfold CodeGenerator.insert
  cases hib : g.insertBlock with
  | none => exact ⟨bb, h, rfl⟩
  | some ib =>
    simp only [List.getElem?_modify, h]
    by_cases hb : ib = b
    · exact ⟨bb.push i, by simp [hb], rfl⟩
    · exact ⟨bb, by simp [hb], rfl⟩

theorem blocks_getElem?_lt {g : CodeGenerator} {b : Nat} {bb : BasicBlock}
    (h : g.blocks[b]? = some bb) : b < g.blocks.length := by
  by_contra hge
  rw [List.getElem?_eq_none (Nat.le_of_not_lt hge)] at h
  exact Option.noConfusion h

theorem blockInsts_of_ge (g : CodeGenerator) (b : Nat) (h : g.blocks.length ≤ b) :
    g.blockInsts b = [] := by
  simp [CodeGenerator.blockInsts, List.getElem?_eq_none h]

/-- The instructions of each block after an `alloca` was put at the start of a block. -/
theorem modify_pushFront_blockInsts (g g' : CodeGenerator) (i : Instr) (entry : Nat)
    (hblocks : g'.blocks = g.blocks.modify (fun bb => bb.pushFront i) entry) (b : Nat) :
    g'.blockInsts b
      = if b = entry ∧ b < g.blocks.length then i :: g.blockInsts b else g.blockInsts b := by
  simp only [CodeGenerator.blockInsts, hblocks, List.getElem?_modify]
  by_cases hb : entry = b
  · subst hb
    cases hg : g.blocks[entry]? with
    | none =>
      have : ¬ entry < g.blocks.length := fun hlt => by
        rw [List.getElem?_eq_getElem hlt] at hg
        exact Option.noConfusion hg
      simp [this]
    | some bb =>
      simp [blocks_getElem?_lt hg, BasicBlock.pushFront]
  · have hb' : ¬ b = entry := fun h => hb h.symm
    cases hg : g.blocks[b]? <;> simp [hb, hb']

/-! ## Lowering of constant expressions -/

theorem insert_with_nextId (g : CodeGenerator) (i : Instr) (k : Nat) :
    ({ g with nextId := k } : CodeGenerator).insert i = { g.insert i with nextId := k } := by
  obtain ⟨m, bl, n, ib, nv, gv, cf, crb, rva, pf⟩ := g
  cases ib <;> rfl

theorem insertAll_with_nextId (is : List Instr) (g : CodeGenerator) (k : Nat) :
    ({ g with nextId := k } : CodeGenerator).insertAll is
      = { g.insertAll is with nextId := k } := by
  induction is generalizing g with
  | nil => rfl
  | cons i rest ih =>
    simp only [CodeGenerator.insertAll, List.foldl_cons] at ih ⊢
    rw [insert_with_nextId, ih]

theorem insertAll_append (g : CodeGenerator) (a b : List Instr) :
    (g.insertAll a).insertAll b = g.insertAll (a ++ b) := by
  simp [CodeGenerator.insertAll, List.foldl_append]

@[simp] theorem insertAll_nextId (g : CodeGenerator) (is : List Instr) :
    (g.insertAll is).nextId = g.nextId := by
  induction is generalizing g with
  | nil => rfl
  | cons i rest ih =>
    simp only [CodeGenerator.insertAll, List.foldl_cons] at ih ⊢
    rw [ih, insert_nextId]

theorem insertAll_blockInsts (g : CodeGenerator) (is : List Instr) (b : Nat)
    (hb : g.insertBlock = some b) (hlt : b < g.blocks.length) :
    (g.insertAll is).blockInsts b = g.blockInsts b ++ is := by
  induction is generalizing g with
  | nil => simp [CodeGenerator.insertAll]
  | cons i rest ih =>
    have h1 : (g.insert i).insertBlock = some b := by simp [hb]
    have h2 : b < (g.insert i).blocks.length := by simp [hlt]
    have := ih (g.insert i) h1 h2
    simp only [CodeGenerator.insertAll, List.foldl_cons] at this ⊢
    rw [this, insert_blockInsts]
    simp [hb, hlt]

theorem operand_of_regs_eq (m m' : Machine) (v : Value) (bound : Nat)
    (hv : ∀ id, v = .inst id → id < bound)
    (h : ∀ j, j < bound → m'.regs j = m.regs j) : m'.operand v = m.operand v := by
  cases v with
  | inst id => exact h id (hv id rfl)
  | constInt _ => rfl
  | argument _ _ => rfl
  | globalVariable _ => rfl
  | globalString _ => rfl

/-- The two instructions emitted for a comparison compute 1 or 0. -/
theorem compare_spec (p : Predicate) (lv rv : Value) (g : CodeGenerator) (op : BinaryOp)
    (hcode : codegen_binary_op op lv rv g
      = (let c := CreateICmp p lv rv g; CreateZExt c.1 c.2))
    (hspec : ∀ a b : Int, signedBinaryOp op a b = some (if p.holds a b then 1 else 0)) :
    ∃ (is : List Instr) (k id : Nat),
      codegen_binary_op op lv rv g
          = (.inst id, { g.insertAll is with nextId := g.nextId + k })
        ∧ id < g.nextId + k
        ∧ ∀ (m : Machine) (a b n : Int), m.operand lv = some (.int a) →
            m.operand rv = some (.int b) → signedBinaryOp op a b = some n →
            ∃ m', execInstrs m is = some m' ∧ m'.regs id = some (.int n)
              ∧ (∀ j, j < g.nextId → m'.regs j = m.regs j) ∧ m'.mem = m.mem := by
  refine ⟨[.icmp g.nextId p lv rv, .zext (g.nextId + 1) (.inst g.nextId)], 2, g.nextId + 1,
    ?_, by omega, ?_⟩
  · rw [hcode]
    obtain ⟨md, bl, nx, ib, nv, gv, cf, crb, rva, pf⟩ := g
    cases ib <;> rfl
  · intro m a b n ha hb hn
    rw [hspec] at hn
    simp only [Option.some.injEq] at hn
    refine ⟨(m.setReg g.nextId (.int n)).setReg (g.nextId + 1) (.int n), ?_,
      by simp [Machine.setReg], ?_, rfl⟩
    · have hop : ∀ (m' : Machine) (id : Nat), m'.operand (.inst id) = m'.regs id :=
        fun _ _ => rfl
      simp [execInstrs, execInstr, ha, hb, evalICmp, hn, hop, Machine.setReg]
    · intro j hj
      have h1 : j ≠ g.nextId := Nat.ne_of_lt hj
      have h2 : j ≠ g.nextId + 1 := by omega
      simp [Machine.setReg, h1, h2]

/-- The instructions emitted for one operator compute the operator's value from the
values of the two operands. -/
theorem codegen_binary_op_spec (op : BinaryOp) (lv rv : Value) (g : CodeGenerator) :
    ∃ (is : List Instr) (k id : Nat),
      codegen_binary_op op lv rv g
          = (.inst id, { g.insertAll is with nextId := g.nextId + k })
        ∧ id < g.nextId + k
        ∧ ∀ (m : Machine) (a b n : Int), m.operand lv = some (.int a) →
            m.operand rv = some (.int b) → signedBinaryOp op a b = some n →
            ∃ m', execInstrs m is = some m' ∧ m'.regs id = some (.int n)
              ∧ (∀ j, j < g.nextId → m'.regs j = m.regs j) ∧ m'.mem = m.mem := by
  cases op
  case OP_ADD =>
    refine ⟨[.arith g.nextId .Add lv rv], 1, g.nextId, rfl, by omega, ?_⟩
    intro m a b n ha hb hn
    simp only [signedBinaryOp, claimedBinaryOp, Option.some.injEq] at hn
    refine ⟨m.setReg g.nextId (.int n), ?_, by simp [Machine.setReg], ?_, rfl⟩
    · simp [execInstrs, execInstr, ha, hb, evalArith, hn]
    · intro j hj
      simp [Machine.setReg, Nat.ne_of_lt hj]
  case OP_SUB =>
    refine ⟨[.arith g.nextId .Sub lv rv], 1, g.nextId, rfl, by omega, ?_⟩
    intro m a b n ha hb hn
    simp only [signedBinaryOp, claimedBinaryOp, Option.some.injEq] at hn
    refine ⟨m.setReg g.nextId (.int n), ?_, by simp [Machine.setReg], ?_, rfl⟩
    · simp [execInstrs, execInstr, ha, hb, evalArith, hn]
    · intro j hj
      simp [Machine.setReg, Nat.ne_of_lt hj]
  case OP_MUL =>
    refine ⟨[.arith g.nextId .Mul lv rv], 1, g.nextId, rfl, by omega, ?_⟩
    intro m a b n ha hb hn
    simp only [signedBinaryOp, claimedBinaryOp, Option.some.injEq] at hn
    refine ⟨m.setReg g.nextId (.int n), ?_, by simp [Machine.setReg], ?_, rfl⟩
    · simp [execInstrs, execInstr, ha, hb, evalArith, hn]
    · intro j hj
      simp [Machine.setReg, Nat.ne_of_lt hj]
  case OP_DIV =>
    refine ⟨[.arith g.nextId .SDiv lv rv], 1, g.nextId, rfl, by omega, ?_⟩
    intro m a b n ha hb hn
    simp only [signedBinaryOp] at hn
    split at hn
    · exact Option.noConfusion hn
    · rename_i hdef
      simp only [Option.some.injEq] at hn
      have h0 : ¬ b = 0 := fun h => hdef (Or.inl h)
      have h1 : ¬ (a = -2147483648 ∧ b = -1) := fun h => hdef (Or.inr h)
      refine ⟨m.setReg g.nextId (.int n), ?_, by simp [Machine.setReg], ?_, rfl⟩
      · simp [execInstrs, execInstr, ha, hb, evalArith, hn, h0, h1]
      · intro j hj
        simp [Machine.setReg, Nat.ne_of_lt hj]
  case OP_LT => exact compare_spec .SLT lv rv g .OP_LT rfl (by intro a b; simp [signedBinaryOp, claimedBinaryOp, Predicate.holds])
  case OP_GT => exact compare_spec .SGT lv rv g .OP_GT rfl (by intro a b; simp [signedBinaryOp, claimedBinaryOp, Predicate.holds])
  case OP_LE => exact compare_spec .SLE lv rv g .OP_LE rfl (by intro a b; simp [signedBinaryOp, claimedBinaryOp, Predicate.holds])
  case OP_GE => exact compare_spec .SGE lv rv g .OP_GE rfl (by intro a b; simp [signedBinaryOp, claimedBinaryOp, Predicate.holds])
  case OP_EQ => exact compare_spec .EQ lv rv g .OP_EQ rfl (by intro a b; simp [signedBinaryOp, claimedBinaryOp, Predicate.holds])
  case OP_NE => exact compare_spec .NE lv rv g .OP_NE rfl (by intro a b; simp [signedBinaryOp, claimedBinaryOp, Predicate.holds])

/-- Lowering an expression of `Number` and `BinaryOp` nodes with defined divisions
succeeds, only appends instructions at the builder's position, and these instructions
compute the expression's value. -/
theorem codegen_expr_signedValue : ∀ (e : ASTNode) (n : Int), signedValue e = some n →
    ∀ g : CodeGenerator,
      ∃ (v : Value) (is : List Instr) (k : Nat),
        codegen_expr e g = some (some v, { g.insertAll is with nextId := g.nextId + k })
          ∧ (∀ id, v = .inst id → id < g.nextId + k)
          ∧ ∀ m : Machine, ∃ m', execInstrs m is = some m'
              ∧ m'.operand v = some (.int n)
              ∧ (∀ j, j < g.nextId → m'.regs j = m.regs j) ∧ m'.mem = m.mem
  | .AST_NUMBER number, n, h, g => by
    simp only [signedValue, Option.some.injEq] at h
    subst h
    refine ⟨.constInt number, [], 0, ?_, ?_, ?_⟩
    · simp [codegen_expr, CodeGenerator.insertAll]
    · intro id hid
      exact Value.noConfusion hid
    · intro m
      exact ⟨m, rfl, rfl, fun _ _ => rfl, rfl⟩
  | .AST_BINARY_OP op left right, n, h, g => by
    simp only [signedValue] at h
    cases hl : signedValue left with
    | none => simp [hl] at h
    | some a =>
      cases hr : signedValue right with
      | none => simp [hl, hr] at h
      | some b =>
        simp only [hl, hr] at h
        obtain ⟨v1, is1, k1, hc1, hv1, hx1⟩ := codegen_expr_signedValue left a hl g
        obtain ⟨v2, is2, k2, hc2, hv2, hx2⟩ := codegen_expr_signedValue right b hr
          { g.insertAll is1 with nextId := g.nextId + k1 }
        obtain ⟨is3, k3, id3, hc3, hid3, hx3⟩ := codegen_binary_op_spec op v1 v2
          { ({ g.insertAll is1 with nextId := g.nextId + k1 } : CodeGenerator).insertAll is2
            with nextId := g.nextId + k1 + k2 }
        refine ⟨.inst id3, is1 ++ is2 ++ is3, k1 + k2 + k3, ?_, ?_, ?_⟩
        · simp only [codegen_expr, hc1, hc2, hc3]
          simp only [insertAll_with_nextId, insertAll_append, Nat.add_assoc]
        · intro id hid
          cases hid
          simpa [Nat.add_assoc] using hid3
        · intro m
          obtain ⟨m1, he1, ho1, hr1, hm1⟩ := hx1 m
          obtain ⟨m2, he2, ho2, hr2, hm2⟩ := hx2 m1
          have ho1' : m2.operand v1 = some (.int a) := by
            rw [operand_of_regs_eq m1 m2 v1 (g.nextId + k1) hv1 hr2]
            exact ho1
          obtain ⟨m3, he3, ho3, hr3, hm3⟩ := hx3 m2 a b n ho1' ho2 h
          refine ⟨m3, ?_, ho3, ?_, ?_⟩
          · rw [execInstrs_append, execInstrs_append, he1]
            simp [he2, he3]
          · intro j hj
            rw [hr3 j (by simp; omega), hr2 j (by simp; omega), hr1 j hj]
          · rw [hm3, hm2, hm1]
  | .null, n, h, g => by simp [signedValue] at h
  | .AST_VARIABLE _, n, h, g => by simp [signedValue] at h
  | .AST_ASSIGNMENT _ _, n, h, g => by simp [signedValue] at h
  | .AST_RETURN _, n, h, g => by simp [signedValue] at h
  | .AST_SEQUENCE _ _, n, h, g => by simp [signedValue] at h
  | .AST_WHILE _ _, n, h, g => by simp [signedValue] at h
  | .AST_FOR _ _ _ _, n, h, g => by simp [signedValue] at h
  | .AST_IF _ _ _, n, h, g => by simp [signedValue] at h
  | .AST_PRINT _, n, h, g => by simp [signedValue] at h
  | .AST_FUNCTION_DEF _ _ _, n, h, g => by simp [signedValue] at h
  | .AST_FUNCTION_CALL _ _, n, h, g => by simp [signedValue] at h
  | .AST_GLOBAL_VAR _ _, n, h, g => by simp [signedValue] at h

/-! ## Storage that no instruction writes keeps its content -/

theorem execInstr_mem_of_not_writes (m m' : Machine) (i : Instr) (ptr : Value)
    (h : execInstr m i = some m') (hw : i.writes ptr = false) : m'.mem ptr = m.mem ptr := by
  cases i with
  | alloca id name =>
    simp only [execInstr, Option.some.injEq] at h
    subst h
    simp only [Instr.writes, decide_eq_false_iff_not] at hw
    have hne : ¬ ptr = Value.inst id := fun hp => hw hp.symm
    simp [Machine.setMem, hne]
  | load id p name =>
    simp only [execInstr] at h
    split at h
    · simp only [Option.some.injEq] at h
      subst h
      rfl
    · exact Option.noConfusion h
  | store val p =>
    simp only [execInstr] at h
    split at h
    · simp only [Option.some.injEq] at h
      subst h
      simp only [Instr.writes, decide_eq_false_iff_not] at hw
      have hne : ¬ ptr = p := fun hp => hw hp.symm
      simp [Machine.setMem, hne]
    · exact Option.noConfusion h
  | arith id op l r =>
    simp only [execInstr] at h
    split at h
    · split at h
      · simp only [Option.some.injEq] at h
        subst h
        rfl
      · exact Option.noConfusion h
    · exact Option.noConfusion h
  | icmp id p l r =>
    simp only [execInstr] at h
    split at h
    · simp only [Option.some.injEq] at h
      subst h
      rfl
    · exact Option.noConfusion h
  | zext id v =>
    simp only [execInstr] at h
    split at h
    · simp only [Option.some.injEq] at h
      subst h
      rfl
    · exact Option.noConfusion h
  | call _ _ _ => exact Option.noConfusion h
  | br _ => exact Option.noConfusion h
  | condBr _ _ _ => exact Option.noConfusion h
  | ret _ => exact Option.noConfusion h

theorem execInstrs_mem_of_not_writes (ptr : Value) :
    ∀ (is : List Instr) (m m' : Machine), execInstrs m is = some m' →
      (∀ i ∈ is, i.writes ptr = false) → m'.mem ptr = m.mem ptr
  | [], m, m', h, _ => by
    simp only [execInstrs, Option.some.injEq] at h
    subst h
    rfl
  | i :: rest, m, m', h, hw => by
    simp only [execInstrs] at h
    cases h1 : execInstr m i with
    | none => simp [h1] at h
    | some m1 =>
      simp only [h1] at h
      rw [execInstrs_mem_of_not_writes ptr rest m1 m' h
        (fun j hj => hw j (List.mem_cons_of_mem _ hj))]
      exact execInstr_mem_of_not_writes m m1 i ptr h1 (hw i (List.mem_cons_self _ _))

/-- A load from storage that was allocated and not written since yields the undefined
value. -/
theorem load_after_alloca_undefined (m m' : Machine) (alloca load : Nat)
    (name name' : String) (mid : List Instr)
    (hmid : ∀ i ∈ mid, i.writes (.inst alloca) = false)
    (h : execInstrs m ([.alloca alloca name] ++ mid ++ [.load load (.inst alloca) name'])
      = some m') :
    m'.regs load = some .undefined := by
  rw [List.append_assoc, execInstrs_append] at h
  simp only [execInstrs, execInstr, Option.some_bind] at h
  rw [execInstrs_append] at h
  cases h1 : execInstrs (m.setMem (.inst alloca) .undefined) mid with
  | none => simp [h1] at h
  | some m1 =>
    have hmem := execInstrs_mem_of_not_writes (.inst alloca) mid _ m1 h1 hmid
    simp only [h1, Option.some_bind, execInstrs, execInstr] at h
    have hcell : m1.mem (.inst alloca) = some .undefined := by
      rw [hmem]
      simp [Machine.setMem]
    simp only [hcell, Option.some.injEq] at h
    subst h
    simp [Machine.setReg]

/-! ## Growth of the generator state -/

theorem Grows.same (r : Bool) (g : CodeGenerator) : Grows r g g where
  nextId_le := Nat.le_refl _
  length_le := Nat.le_refl _
  insts := fun b => ⟨[], [], by simp, by simp, by simp⟩
  parent := fun _ bb h => ⟨bb, h, rfl⟩
  funcs := fun _ fn h => ⟨fn, [], h, by simp, by simp⟩
  global_vars_eq := rfl
  printf_func_eq := rfl

theorem Grows.andThen {r : Bool} {g g1 g2 : CodeGenerator} (h1 : Grows r g g1)
    (h2 : Grows r g1 g2) : Grows r g g2 where
  nextId_le := Nat.le_trans h1.nextId_le h2.nextId_le
  length_le := Nat.le_trans h1.length_le h2.length_le
  insts := by
    intro b
    obtain ⟨pre1, post1, e1, ha1, hp1⟩ := h1.insts b
    obtain ⟨pre2, post2, e2, ha2, hp2⟩ := h2.insts b
    refine ⟨pre2 ++ pre1, post1 ++ post2, ?_, ?_, ?_⟩
    · rw [e2, e1]
      simp [List.append_assoc]
    · intro i hi
      rcases List.mem_append.1 hi with h | h
      · exact ha2 i h
      · exact ha1 i h
    · intro i hi
      rcases List.mem_append.1 hi with h | h
      · exact hp1 i h
      · exact hp2 i h
  parent := by
    intro b bb h
    obtain ⟨bb1, hb1, hp1⟩ := h1.parent b bb h
    obtain ⟨bb2, hb2, hp2⟩ := h2.parent b bb1 hb1
    exact ⟨bb2, hb2, hp2.trans hp1⟩
  funcs := by
    intro f fn h
    obtain ⟨fn1, more1, hf1, hb1, hm1⟩ := h1.funcs f fn h
    obtain ⟨fn2, more2, hf2, hb2, hm2⟩ := h2.funcs f fn1 hf1
    refine ⟨fn2, more1 ++ more2, hf2, ?_, ?_⟩
    · rw [hb2, hb1, List.append_assoc]
    · intro b hb
      rcases List.mem_append.1 hb with h | h
      · exact hm1 b h
      · exact Nat.le_trans h1.length_le (hm2 b h)
  global_vars_eq := h2.global_vars_eq.trans h1.global_vars_eq
  printf_func_eq := h2.printf_func_eq.trans h1.printf_func_eq

theorem Grows.anyRets {r : Bool} {g g' : CodeGenerator} (h : Grows false g g') : Grows r g g' where
  nextId_le := h.nextId_le
  length_le := h.length_le
  insts := by
    intro b
    obtain ⟨pre, post, e, ha, hp⟩ := h.insts b
    exact ⟨pre, post, e, ha, fun i hi _ => hp i hi rfl⟩
  parent := h.parent
  funcs := h.funcs
  global_vars_eq := h.global_vars_eq
  printf_func_eq := h.printf_func_eq

theorem Grows.withRets {r : Bool} {g g' : CodeGenerator} (h : Grows r g g') : Grows true g g' where
  nextId_le := h.nextId_le
  length_le := h.length_le
  insts := by
    intro b
    obtain ⟨pre, post, e, ha, _⟩ := h.insts b
    exact ⟨pre, post, e, ha, fun i _ hr => Bool.noConfusion hr⟩
  parent := h.parent
  funcs := h.funcs
  global_vars_eq := h.global_vars_eq
  printf_func_eq := h.printf_func_eq

/-- A state that differs only in fields other than the blocks and the functions. -/
theorem Grows.of_fields {r : Bool} {g g' : CodeGenerator} (hb : g'.blocks = g.blocks)
    (hf : g'.module.functions = g.module.functions) (hn : g.nextId ≤ g'.nextId)
    (hg : g'.global_vars = g.global_vars) (hp : g'.printf_func = g.printf_func) :
    Grows r g g' where
  nextId_le := hn
  length_le := by rw [hb]
  insts := fun b => ⟨[], [], by simp [CodeGenerator.blockInsts, hb], by simp, by simp⟩
  parent := fun _ bb h => ⟨bb, by rw [hb]; exact h, rfl⟩
  funcs := fun _ fn h => ⟨fn, [], by rw [hf]; exact h, by simp, by simp⟩
  global_vars_eq := hg
  printf_func_eq := hp

theorem grows_insert (r : Bool) (g : CodeGenerator) (i : Instr)
    (hi : r = false → i.isRet = false) : Grows r g (g.insert i) where
  nextId_le := by simp
  length_le := by simp
  insts := by
    intro b
    rw [insert_blockInsts]
    by_cases h : g.insertBlock = some b ∧ b < g.blocks.length
    · refine ⟨[], [i], by simp [h], by simp, ?_⟩
      intro j hj hr
      rw [List.mem_singleton] at hj
      subst hj
      exact hi hr
    · exact ⟨[], [], by simp [h], by simp, by simp⟩
  parent := fun b bb h => insert_blocks_get g i b bb h
  funcs := fun _ fn h => ⟨fn, [], by simpa using h, by simp, by simp⟩
  global_vars_eq := by simp
  printf_func_eq := by simp

/-- The effect of `create_entry_block_alloca` when it succeeds. -/
theorem create_entry_block_alloca_eq {func : Option Nat} {name : String} {g g1 : CodeGenerator}
    {a : Nat} (h : create_entry_block_alloca func name g = some (a, g1)) :
    ∃ entry, a = g.nextId
      ∧ g1 = { g with
          blocks := g.blocks.modify (fun bb => bb.pushFront (.alloca g.nextId name)) entry,
          nextId := g.nextId + 1 } := by
  unfold create_entry_block_alloca at h
  split at h
  · exact Option.noConfusion h
  · split at h
    · exact Option.noConfusion h
    · split at h
      · exact Option.noConfusion h
      · rename_i entry _
        simp only [Option.some.injEq, Prod.mk.injEq] at h
        exact ⟨entry, h.1.symm, h.2.symm⟩

theorem grows_alloca (r : Bool) {func : Option Nat} {name : String} {g g1 : CodeGenerator}
    {a : Nat} (h : create_entry_block_alloca func name g = some (a, g1)) : Grows r g g1 := by
  obtain ⟨entry, _, hg1⟩ := create_entry_block_alloca_eq h
  subst hg1
  refine ⟨by simp, by simp, ?_, ?_, ?_, rfl, rfl⟩
  · intro b
    rw [modify_pushFront_blockInsts g _ (.alloca g.nextId name) entry rfl b]
    by_cases hb : b = entry ∧ b < g.blocks.length
    · exact ⟨[.alloca g.nextId name], [], by rw [if_pos hb]; simp, by simp [Instr.isAlloca],
        by simp⟩
    · exact ⟨[], [], by simp [hb], by simp, by simp⟩
  · intro b bb hb
    simp only [List.getElem?_modify, hb]
    by_cases he : entry = b
    · exact ⟨bb.pushFront (.alloca g.nextId name), by simp [he], rfl⟩
    · exact ⟨bb, by simp [he], rfl⟩
  · intro f fn hf
    exact ⟨fn, [], hf, by simp, by simp⟩

theorem blockInsts_append_block (g g' : CodeGenerator) (bb : BasicBlock)
    (hb : g'.blocks = g.blocks ++ [bb]) (hbb : bb.insts = []) (b : Nat) :
    g'.blockInsts b = g.blockInsts b := by
  simp only [CodeGenerator.blockInsts, hb]
  by_cases h : b < g.blocks.length
  · rw [List.getElem?_append_left h]
  · have hge : g.blocks.length ≤ b := Nat.le_of_not_lt h
    rw [List.getElem?_eq_none hge]
    by_cases h2 : b = g.blocks.length
    · subst h2
      simp [hbb]
    · rw [List.getElem?_eq_none (by simp; omega)]

theorem grows_block_create (r : Bool) (name : String) (func : Option Nat) (g : CodeGenerator) :
    Grows r g (BasicBlock_Create name func g).2 := by
  refine ⟨Nat.le_refl _, by simp [BasicBlock_Create], ?_, ?_, ?_, rfl, rfl⟩
  · intro b
    refine ⟨[], [], ?_, by simp, by simp⟩
    rw [blockInsts_append_block g _ (BasicBlock.mk name func []) rfl rfl b]
    simp
  · intro b bb hb
    refine ⟨bb, ?_, rfl⟩
    simp only [BasicBlock_Create]
    rw [List.getElem?_append_left (blocks_getElem?_lt hb)]
    exact hb
  · intro f fn hf
    cases func with
    | none => exact ⟨fn, [], hf, by simp, by simp⟩
    | some f' =>
      simp only [BasicBlock_Create, List.getElem?_modify, hf]
      by_cases hff : f' = f
      · exact ⟨{ fn with blocks := fn.blocks ++ [g.blocks.length] }, [g.blocks.length],
          by simp [hff], rfl, by simp⟩
      · exact ⟨fn, [], by simp [hff], by simp, by simp⟩

/-- The block made by `BasicBlock::Create` exists afterwards, with the given parent. -/
theorem block_create_get (name : String) (func : Option Nat) (g : CodeGenerator) :
    (BasicBlock_Create name func g).1 = g.blocks.length
      ∧ (BasicBlock_Create name func g).2.blocks[g.blocks.length]?
        = some (BasicBlock.mk name func []) := by
  simp [BasicBlock_Create]

theorem grows_function_create (r : Bool) (returnType : Ty) (paramTypes : List Ty)
    (isVarArg : Bool) (name : String) (g : CodeGenerator) :
    Grows r g (Function_Create returnType paramTypes isVarArg name g).2 := by
  have hfun : ∀ (m : Module) (v : GlobalValue), (m.registerName name v).2.functions
      = m.functions := by
    intro m v
    unfold Module.registerName
    split
    · rfl
    · split <;> rfl
  refine ⟨Nat.le_refl _, Nat.le_refl _, ?_, ?_, ?_, rfl, rfl⟩
  · intro b
    exact ⟨[], [], by simp [CodeGenerator.blockInsts, Function_Create], by simp, by simp⟩
  · intro b bb hb
    exact ⟨bb, hb, rfl⟩
  · intro f fn hf
    refine ⟨fn, [], ?_, by simp, by simp⟩
    simp only [Function_Create, hfun]
    rw [List.getElem?_append_left]
    · exact hf
    · by_contra hge
      rw [List.getElem?_eq_none (Nat.le_of_not_lt hge)] at hf
      exact Option.noConfusion hf

/-! ## Lowering inside a function -/

theorem InFunction.ofGrows {r : Bool} {g g' : CodeGenerator} (h : InFunction g)
    (hg : Grows r g g') (hf : g'.current_function = g.current_function)
    (hb : g'.insertBlock = g.insertBlock)
    (hr : g'.current_return_block = g.current_return_block) : InFunction g' where
  func := by
    obtain ⟨f, fn, entry, h1, h2, h3⟩ := h.func
    obtain ⟨fn', more, h4, h5, _⟩ := hg.funcs f fn h2
    refine ⟨f, fn', entry, hf.trans h1, h4, ?_⟩
    rw [h5]
    cases hfb : fn.blocks with
    | nil => rw [hfb] at h3; exact Option.noConfusion h3
    | cons x rest => rw [hfb] at h3; simpa using h3
  block := by
    obtain ⟨b, bb, p, h1, h2, h3⟩ := h.block
    obtain ⟨bb', h4, h5⟩ := hg.parent b bb h2
    exact ⟨b, bb', p, hb.trans h1, h4, h5.trans h3⟩
  return_block := by
    obtain ⟨rb, h1⟩ := h.return_block
    exact ⟨rb, hr.trans h1⟩
  printf := by
    obtain ⟨p, h1⟩ := h.printf
    exact ⟨p, hg.printf_func_eq.trans h1⟩

theorem InFunction.setInsertPoint {g : CodeGenerator} (h : InFunction g) (b : Nat)
    (bb : BasicBlock) (p : Nat) (hb : g.blocks[b]? = some bb) (hp : bb.parent = some p) :
    InFunction (SetInsertPoint b g) where
  func := h.func
  block := ⟨b, bb, p, rfl, hb, hp⟩
  return_block := h.return_block
  printf := h.printf

theorem Lowered.refl (r : Bool) {g : CodeGenerator} (h : InFunction g) : Lowered r g g where
  grows := Grows.same r g
  inFunction := h
  current_function_eq := rfl
  current_return_block_eq := rfl
  return_value_alloca_eq := rfl
  unnamed := fun _ _ hu => hu

theorem Lowered.trans {r : Bool} {g g1 g2 : CodeGenerator} (h1 : Lowered r g g1)
    (h2 : Lowered r g1 g2) : Lowered r g g2 where
  grows := h1.grows.andThen h2.grows
  inFunction := h2.inFunction
  current_function_eq := h2.current_function_eq.trans h1.current_function_eq
  current_return_block_eq := h2.current_return_block_eq.trans h1.current_return_block_eq
  return_value_alloca_eq := h2.return_value_alloca_eq.trans h1.return_value_alloca_eq
  unnamed := fun a ha hu =>
    h2.unnamed a (Nat.lt_of_lt_of_le ha h1.grows.nextId_le) (h1.unnamed a ha hu)

theorem Lowered.mono {r : Bool} {g g' : CodeGenerator} (h : Lowered false g g') :
    Lowered r g g' where
  grows := h.grows.anyRets
  inFunction := h.inFunction
  current_function_eq := h.current_function_eq
  current_return_block_eq := h.current_return_block_eq
  return_value_alloca_eq := h.return_value_alloca_eq
  unnamed := h.unnamed

theorem Lowered.toTrue {r : Bool} {g g' : CodeGenerator} (h : Lowered r g g') :
    Lowered true g g' where
  grows := h.grows.withRets
  inFunction := h.inFunction
  current_function_eq := h.current_function_eq
  current_return_block_eq := h.current_return_block_eq
  return_value_alloca_eq := h.return_value_alloca_eq
  unnamed := h.unnamed

theorem Lowered.weaken {r r' : Bool} {g g' : CodeGenerator} (h : Lowered r g g')
    (hr : r = true → r' = true) : Lowered r' g g' := by
  cases r
  · exact h.mono
  · rw [hr rfl]
    exact h

/-- A step that keeps the context, the insertion block and the bindings. -/
theorem Lowered.of_grows {r : Bool} {g g' : CodeGenerator} (h : InFunction g)
    (hg : Grows r g g') (hf : g'.current_function = g.current_function)
    (hb : g'.insertBlock = g.insertBlock)
    (hr : g'.current_return_block = g.current_return_block)
    (ha : g'.return_value_alloca = g.return_value_alloca)
    (hn : g'.named_values = g.named_values) : Lowered r g g' where
  grows := hg
  inFunction := h.ofGrows hg hf hb hr
  current_function_eq := hf
  current_return_block_eq := hr
  return_value_alloca_eq := ha
  unnamed := by
    intro a _ hu name
    rw [hn]
    exact hu name

theorem lowered_insert (r : Bool) {g : CodeGenerator} (h : InFunction g) (i : Instr)
    (hi : r = false → i.isRet = false) : Lowered r g (g.insert i) :=
  Lowered.of_grows h (grows_insert r g i hi) (by simp) (by simp) (by simp) (by simp) (by simp)

/-- The shape of the `Create...` calls that yield a value. -/
theorem lowered_create (r : Bool) {g : CodeGenerator} (h : InFunction g) (i : Instr)
    (hi : r = false → i.isRet = false) :
    Lowered r g { g.insert i with nextId := g.nextId + 1 } :=
  (lowered_insert r h i hi).trans
    (Lowered.of_grows (lowered_insert r h i hi).inFunction
      (Grows.of_fields rfl rfl (by simp) rfl rfl) rfl rfl rfl rfl rfl)

theorem lowered_setInsertPoint (r : Bool) {g : CodeGenerator} (h : InFunction g) (b : Nat)
    (bb : BasicBlock) (p : Nat) (hb : g.blocks[b]? = some bb) (hp : bb.parent = some p) :
    Lowered r g (SetInsertPoint b g) where
  grows := Grows.of_fields rfl rfl (Nat.le_refl _) rfl rfl
  inFunction := h.setInsertPoint b bb p hb hp
  current_function_eq := rfl
  current_return_block_eq := rfl
  return_value_alloca_eq := rfl
  unnamed := fun _ _ hu => hu

theorem lowered_block_create (r : Bool) {g : CodeGenerator} (h : InFunction g) (name : String) :
    Lowered r g (BasicBlock_Create name g.current_function g).2 :=
  Lowered.of_grows h (grows_block_create r name g.current_function g) rfl rfl rfl rfl rfl

/-- A block created in the current function can take the builder. -/
theorem block_create_parent {g : CodeGenerator} (h : InFunction g) (name : String) :
    ∃ bb p, (BasicBlock_Create name g.current_function g).2.blocks[
        (BasicBlock_Create name g.current_function g).1]? = some bb ∧ bb.parent = some p := by
  obtain ⟨f, _, _, hf, _, _⟩ := h.func
  refine ⟨BasicBlock.mk name g.current_function [], f, ?_, hf⟩
  simp [BasicBlock_Create]

/-- A block that exists and has a parent still does after the state has grown. -/
theorem Grows.block_parent {r : Bool} {g g' : CodeGenerator} (hg : Grows r g g') {b : Nat}
    (h : ∃ bb p, g.blocks[b]? = some bb ∧ bb.parent = some p) :
    ∃ bb p, g'.blocks[b]? = some bb ∧ bb.parent = some p := by
  obtain ⟨bb, p, h1, h2⟩ := h
  obtain ⟨bb', h3, h4⟩ := hg.parent b bb h1
  exact ⟨bb', p, h3, h4.trans h2⟩

theorem lowered_local_alloca {g : CodeGenerator} (h : InFunction g) (name : String) :
    ∃ a g1, local_alloca name g = some (a, g1) ∧ Lowered false g g1
      ∧ g1.insertBlock = g.insertBlock
      ∧ (∀ alloca, alloca < g.nextId → Unnamed alloca g → a ≠ alloca) := by
  unfold local_alloca
  cases hl : mapFind g.named_values name with
  | some a =>
    refine ⟨a, g, rfl, Lowered.refl false h, rfl, ?_⟩
    intro alloca _ hu hEq
    subst hEq
    exact hu name hl
  | none =>
    obtain ⟨f, fn, entry, hf, hfn, he⟩ := h.func
    have hc : create_entry_block_alloca g.current_function name g
        = some (g.nextId, { g with
            blocks := g.blocks.modify (fun bb => bb.pushFront (.alloca g.nextId name)) entry,
            nextId := g.nextId + 1 }) := by
      simp [create_entry_block_alloca, hf, hfn, he]
    simp only [hc]
    have hg := grows_alloca false hc
    have hl1 := Lowered.of_grows (r := false) h hg rfl rfl rfl rfl rfl
    refine ⟨g.nextId, _, rfl, ?_, rfl, ?_⟩
    · refine ⟨Grows.andThen hg (Grows.of_fields rfl rfl (Nat.le_refl _) rfl rfl), ?_, rfl, rfl,
        rfl, ?_⟩
      · exact ⟨hl1.inFunction.func, hl1.inFunction.block, hl1.inFunction.return_block,
          hl1.inFunction.printf⟩
      · intro alloca ha hu n
        show mapFind (mapSet g.named_values name g.nextId) n ≠ some alloca
        rw [mapFind_mapSet]
        split
        · intro hEq
          simp only [Option.some.injEq] at hEq
          omega
        · exact hu n
    · intro alloca ha _ hEq
      omega

theorem lowered_global_string {g : CodeGenerator} (h : InFunction g) (str : String) :
    ∃ v g1, CreateGlobalString str g = some (v, g1) ∧ Lowered false g g1
      ∧ g1.insertBlock = g.insertBlock := by
  obtain ⟨b, bb, p, hb, hbb, hp⟩ := h.block
  have hc : CreateGlobalString str g = some (.globalString g.module.strings.length,
      { g with module := { g.module with strings := g.module.strings ++ [str] } }) := by
    simp [CreateGlobalString, hb, hbb, hp]
  refine ⟨_, _, hc, ?_, rfl⟩
  exact Lowered.of_grows h (Grows.of_fields rfl rfl (Nat.le_refl _) rfl rfl) rfl rfl rfl rfl rfl

theorem lowered_branchIfNoTerminator {g : CodeGenerator} (h : InFunction g) (dest : Nat) :
    ∃ g1, branchIfNoTerminator (some dest) g = some g1 ∧ Lowered false g g1
      ∧ g1.insertBlock = g.insertBlock := by
  obtain ⟨b, bb, p, hb, hbb, hp⟩ := h.block
  cases ht : bb.getTerminator with
  | some t =>
    exact ⟨g, by simp [branchIfNoTerminator, hb, hbb, ht], Lowered.refl false h, rfl⟩
  | none =>
    exact ⟨g.insert (.br dest), by simp [branchIfNoTerminator, hb, hbb, ht, CreateBr],
      lowered_insert false h _ (fun _ => rfl), by simp⟩

theorem lowered_binary_op {g : CodeGenerator} (h : InFunction g) (op : BinaryOp)
    (lv rv : Value) :
    Lowered false g (codegen_binary_op op lv rv g).2
      ∧ (codegen_binary_op op lv rv g).2.insertBlock = g.insertBlock := by
  have hcmp : ∀ p : Predicate,
      Lowered false g (CreateZExt (CreateICmp p lv rv g).1 (CreateICmp p lv rv g).2).2
        ∧ (CreateZExt (CreateICmp p lv rv g).1 (CreateICmp p lv rv g).2).2.insertBlock
          = g.insertBlock := by
    intro p
    have h1 := lowered_create false h (.icmp g.nextId p lv rv) (fun _ => rfl)
    have h2 := lowered_create false h1.inFunction
      (.zext (g.nextId + 1) (CreateICmp p lv rv g).1) (fun _ => rfl)
    exact ⟨h1.trans h2, by simp [CreateZExt, CreateICmp]⟩
  cases op
  case OP_ADD => exact ⟨lowered_create false h _ (fun _ => rfl), by simp [codegen_binary_op, CreateArith]⟩
  case OP_SUB => exact ⟨lowered_create false h _ (fun _ => rfl), by simp [codegen_binary_op, CreateArith]⟩
  case OP_MUL => exact ⟨lowered_create false h _ (fun _ => rfl), by simp [codegen_binary_op, CreateArith]⟩
  case OP_DIV => exact ⟨lowered_create false h _ (fun _ => rfl), by simp [codegen_binary_op, CreateArith]⟩
  case OP_LT => exact hcmp .SLT
  case OP_GT => exact hcmp .SGT
  case OP_LE => exact hcmp .SLE
  case OP_GE => exact hcmp .SGE
  case OP_EQ => exact hcmp .EQ
  case OP_NE => exact hcmp .NE

mutual
/-- Inside a function, lowering an expression never crashes; it grows the state
without a `ret`, and keeps the context and the builder's block. -/
theorem codegen_expr_lowered : ∀ (e : ASTNode) (g : CodeGenerator), InFunction g →
    ∃ r g', codegen_expr e g = some (r, g') ∧ Lowered false g g'
      ∧ g'.insertBlock = g.insertBlock
  | .null, g, h => ⟨none, g, by simp [codegen_expr], Lowered.refl false h, rfl⟩
  | .AST_NUMBER number, g, h =>
    ⟨some (.constInt number), g, by simp [codegen_expr], Lowered.refl false h, rfl⟩
  | .AST_VARIABLE name, g, h => by
    cases hg : mapFind g.global_vars name with
    | some global =>
      exact ⟨some (CreateLoad (.globalVariable global) name g).1,
        (CreateLoad (.globalVariable global) name g).2, by simp only [codegen_expr, hg],
        lowered_create false h (.load g.nextId (.globalVariable global) name) (fun _ => rfl),
        by simp [CreateLoad]⟩
    | none =>
      obtain ⟨a, g1, hl, hL, hib, _⟩ := lowered_local_alloca h name
      refine ⟨some (CreateLoad (.inst a) name g1).1, (CreateLoad (.inst a) name g1).2,
        by simp only [codegen_expr, hg, hl], ?_, ?_⟩
      · exact hL.trans (lowered_create false hL.inFunction
          (.load g1.nextId (.inst a) name) (fun _ => rfl))
      · simp [CreateLoad, hib]
  | .AST_BINARY_OP op left right, g, h => by
    obtain ⟨l, g1, h1, hL1, hb1⟩ := codegen_expr_lowered left g h
    obtain ⟨r, g2, h2, hL2, hb2⟩ := codegen_expr_lowered right g1 hL1.inFunction
    cases l with
    | none =>
      exact ⟨none, g2, by simp [codegen_expr, h1, h2], hL1.trans hL2, hb2.trans hb1⟩
    | some lv =>
      cases r with
      | none =>
        exact ⟨none, g2, by simp [codegen_expr, h1, h2], hL1.trans hL2, hb2.trans hb1⟩
      | some rv =>
        obtain ⟨hL3, hb3⟩ := lowered_binary_op hL2.inFunction op lv rv
        exact ⟨some (codegen_binary_op op lv rv g2).1, (codegen_binary_op op lv rv g2).2,
          by simp only [codegen_expr, h1, h2], (hL1.trans hL2).trans hL3,
          hb3.trans (hb2.trans hb1)⟩
  | .AST_FUNCTION_CALL name args, g, h => by
    cases hf : g.module.getFunction name with
    | none => exact ⟨none, g, by simp [codegen_expr, hf], Lowered.refl false h, rfl⟩
    | some callee =>
      obtain ⟨r, g1, h1, hL1, hb1⟩ := codegen_args_lowered args g h
      cases r with
      | none => exact ⟨none, g1, by simp [codegen_expr, hf, h1], hL1, hb1⟩
      | some vals =>
        refine ⟨some (CreateCall callee vals g1).1, (CreateCall callee vals g1).2,
          by simp only [codegen_expr, hf, h1], ?_, ?_⟩
        · exact hL1.trans (lowered_create false hL1.inFunction
            (.call g1.nextId callee vals) (fun _ => rfl))
        · simp [CreateCall, hb1]
  | .AST_ASSIGNMENT _ _, g, h => ⟨none, g, by simp [codegen_expr], Lowered.refl false h, rfl⟩
  | .AST_RETURN _, g, h => ⟨none, g, by simp [codegen_expr], Lowered.refl false h, rfl⟩
  | .AST_SEQUENCE _ _, g, h => ⟨none, g, by simp [codegen_expr], Lowered.refl false h, rfl⟩
  | .AST_WHILE _ _, g, h => ⟨none, g, by simp [codegen_expr], Lowered.refl false h, rfl⟩
  | .AST_FOR _ _ _ _, g, h => ⟨none, g, by simp [codegen_expr], Lowered.refl false h, rfl⟩
  | .AST_IF _ _ _, g, h => ⟨none, g, by simp [codegen_expr], Lowered.refl false h, rfl⟩
  | .AST_PRINT _, g, h => ⟨none, g, by simp [codegen_expr], Lowered.refl false h, rfl⟩
  | .AST_FUNCTION_DEF _ _ _, g, h =>
    ⟨none, g, by simp [codegen_expr], Lowered.refl false h, rfl⟩
  | .AST_GLOBAL_VAR _ _, g, h => ⟨none, g, by simp [codegen_expr], Lowered.refl false h, rfl⟩
/-- The same for the argument list of a call. -/
theorem codegen_args_lowered : ∀ (args : ArgList) (g : CodeGenerator), InFunction g →
    ∃ r g', codegen_args args g = some (r, g') ∧ Lowered false g g'
      ∧ g'.insertBlock = g.insertBlock
  | .nil, g, h => ⟨some [], g, by simp [codegen_args], Lowered.refl false h, rfl⟩
  | .cons expr next, g, h => by
    obtain ⟨r, g1, h1, hL1, hb1⟩ := codegen_expr_lowered expr g h
    cases r with
    | none => exact ⟨none, g1, by simp [codegen_args, h1], hL1, hb1⟩
    | some v =>
      obtain ⟨rs, g2, h2, hL2, hb2⟩ := codegen_args_lowered next g1 hL1.inFunction
      cases rs with
      | none => exact ⟨none, g2, by simp [codegen_args, h1, h2], hL1.trans hL2, hb2.trans hb1⟩
      | some vs =>
        exact ⟨some (v :: vs), g2, by simp [codegen_args, h1, h2], hL1.trans hL2,
          hb2.trans hb1⟩
end

/-! ## Entering and leaving a function definition -/

theorem modify_length_append {α : Type} (f : α → α) (l : List α) (x : α) (t : List α) :
    List.modify f l.length (l ++ x :: t) = l ++ f x :: t := by
  induction l with
  | nil => rfl
  | cons a rest ih =>
    simp only [List.modify] at ih
    simp [List.modify, ih]

theorem getElem?_append_length {α : Type} (l : List α) (x : α) (t : List α) :
    (l ++ x :: t)[l.length]? = some x := by
  rw [List.getElem?_append_right (Nat.le_refl _)]
  simp

theorem getElem?_append_length_succ {α : Type} (l : List α) (x y : α) (t : List α) :
    (l ++ x :: y :: t)[l.length + 1]? = some y := by
  rw [List.getElem?_append_right (Nat.le_succ _)]
  simp

theorem registerName_functions (m : Module) (name : String) (v : GlobalValue) :
    (m.registerName name v).2.functions = m.functions := by
  unfold Module.registerName
  split
  · rfl
  · split <;> rfl

/-- The function `function_def_enter` reaches `enterState` and then stores the
parameters. -/
theorem function_def_enter_eq (func_name : String) (params : ParamList) (g : CodeGenerator) :
    function_def_enter func_name params g
      = match store_params g.module.functions.length params 0
          (enterState func_name params g) with
        | none => none
        | some g8 => some (SavedContext.mk g.named_values g.current_function
            g.current_return_block g.return_value_alloca, g8) := by
  simp only [function_def_enter, Function_Create, BasicBlock_Create, SetInsertPoint,
    create_entry_block_alloca, CreateStore, CodeGenerator.insert, registerName_functions,
    List.length_append, List.length_singleton, modify_length_append, List.append_assoc,
    List.singleton_append, List.getElem?_concat_length, BasicBlock.pushFront, BasicBlock.push,
    List.head?, enterState, List.nil_append]

theorem enterState_blockInsts_entry (func_name : String) (params : ParamList)
    (g : CodeGenerator) :
    (enterState func_name params g).blockInsts g.blocks.length
      = [.alloca g.nextId "retval", .store (.constInt 0) (.inst g.nextId)] := by
  simp only [enterState, CodeGenerator.blockInsts, getElem?_append_length]

theorem enterState_blockInsts_return (func_name : String) (params : ParamList)
    (g : CodeGenerator) :
    (enterState func_name params g).blockInsts (g.blocks.length + 1) = [] := by
  simp only [enterState, CodeGenerator.blockInsts, getElem?_append_length_succ]

theorem enterState_blockInsts_old (func_name : String) (params : ParamList)
    (g : CodeGenerator) (b : Nat) (hb : b < g.blocks.length) :
    (enterState func_name params g).blockInsts b = g.blockInsts b := by
  simp [enterState, CodeGenerator.blockInsts, List.getElem?_append_left hb]

theorem enterState_function (func_name : String) (params : ParamList) (g : CodeGenerator) :
    ∃ fn, (enterState func_name params g).module.functions[g.module.functions.length]?
        = some fn ∧ fn.blocks = [g.blocks.length, g.blocks.length + 1]
      ∧ fn.returnType = .i32
      ∧ fn.paramTypes = List.replicate (param_list_count params) .i32 := by
  simp [enterState]

theorem enterState_grows (r : Bool) (func_name : String) (params : ParamList)
    (g : CodeGenerator) : Grows r g (enterState func_name params g) where
  nextId_le := by simp [enterState]
  length_le := by simp [enterState]
  insts := by
    intro b
    by_cases hb : b < g.blocks.length
    · exact ⟨[], [], by simp [enterState_blockInsts_old func_name params g b hb], by simp,
        by simp⟩
    · have hge : g.blocks.length ≤ b := Nat.le_of_not_lt hb
      refine ⟨[], (enterState func_name params g).blockInsts b,
        by simp [blockInsts_of_ge g b hge], by simp, ?_⟩
      intro i hi _
      by_cases h0 : b = g.blocks.length
      · subst h0
        rw [enterState_blockInsts_entry] at hi
        simp only [List.mem_cons, List.mem_singleton, List.not_mem_nil, or_false] at hi
        rcases hi with h | h <;> subst h <;> rfl
      · by_cases h1 : b = g.blocks.length + 1
        · subst h1
          rw [enterState_blockInsts_return] at hi
          simp at hi
        · rw [blockInsts_of_ge] at hi
          · simp at hi
          · simp [enterState]
            omega
  parent := by
    intro b bb hb
    refine ⟨bb, ?_, rfl⟩
    simp only [enterState]
    rw [List.getElem?_append_left (blocks_getElem?_lt hb)]
    exact hb
  funcs := by
    intro f fn hf
    refine ⟨fn, [], ?_, by simp, by simp⟩
    simp only [enterState]
    rw [List.getElem?_append_left]
    · exact hf
    · by_contra hge
      rw [List.getElem?_eq_none (Nat.le_of_not_lt hge)] at hf
      exact Option.noConfusion hf
  global_vars_eq := rfl
  printf_func_eq := rfl

theorem enterState_inFunction (func_name : String) (params : ParamList) (g : CodeGenerator)
    (hp : ∃ p, g.printf_func = some p) : InFunction (enterState func_name params g) where
  func := by
    obtain ⟨fn, h1, h2, _⟩ := enterState_function func_name params g
    exact ⟨g.module.functions.length, fn, g.blocks.length, rfl, h1, by simp [h2]⟩
  block := ⟨g.blocks.length, BasicBlock.mk "entry" (some g.module.functions.length)
      [.alloca g.nextId "retval", .store (.constInt 0) (.inst g.nextId)],
    g.module.functions.length, rfl, by simp only [enterState, getElem?_append_length], rfl⟩
  return_block := ⟨g.blocks.length + 1, rfl⟩
  printf := hp

/-- A step that binds a name to storage whose number is not yet in use. -/
theorem lowered_bind_fresh {g g' : CodeGenerator} (h : InFunction g) (hg : Grows false g g')
    (hf : g'.current_function = g.current_function) (hb : g'.insertBlock = g.insertBlock)
    (hr : g'.current_return_block = g.current_return_block)
    (ha : g'.return_value_alloca = g.return_value_alloca) (name : String) (a : Nat)
    (hn : g'.named_values = mapSet g.named_values name a) (hfresh : g.nextId ≤ a) :
    Lowered false g g' where
  grows := hg
  inFunction := h.ofGrows hg hf hb hr
  current_function_eq := hf
  current_return_block_eq := hr
  return_value_alloca_eq := ha
  unnamed := by
    intro alloca hlt hu n
    rw [hn, mapFind_mapSet]
    split
    · intro hEq
      simp only [Option.some.injEq] at hEq
      omega
    · exact hu n

theorem store_params_lowered (func : Nat) : ∀ (params : ParamList) (index : Nat)
    (g : CodeGenerator), InFunction g → g.current_function = some func →
    ∃ g', store_params func params index g = some g' ∧ Lowered false g g'
      ∧ g'.insertBlock = g.insertBlock
  | [], index, g, h, _ => ⟨g, rfl, Lowered.refl false h, rfl⟩
  | name :: next, index, g, h, hfunc => by
    obtain ⟨f, fn, entry, hf, hfn, he⟩ := h.func
    have hff : f = func := by
      rw [hf] at hfunc
      exact Option.some.inj hfunc
    subst hff
    have hc : create_entry_block_alloca (some f) name g
        = some (g.nextId, { g with
            blocks := g.blocks.modify (fun bb => bb.pushFront (.alloca g.nextId name)) entry,
            nextId := g.nextId + 1 }) := by
      simp [create_entry_block_alloca, hfn, he]
    have hg1 := grows_alloca false hc
    have hL1 : Lowered false g _ := Lowered.of_grows h hg1 rfl rfl rfl rfl rfl
    have hg2 := grows_insert false _ (.store (.argument f index) (.inst g.nextId))
      (fun _ => rfl) |>.andThen (@Grows.of_fields false _
        { (CreateStore (.argument f index) (.inst g.nextId) { g with
            blocks := g.blocks.modify (fun bb => bb.pushFront (.alloca g.nextId name)) entry,
            nextId := g.nextId + 1 }) with
          named_values := mapSet g.named_values name g.nextId }
        rfl (by simp [CreateStore]) (by simp [CreateStore]) (by simp [CreateStore])
        (by simp [CreateStore]))
    have hL2 : Lowered false g _ := lowered_bind_fresh h (hg1.andThen hg2)
      (by simp [CreateStore]) (by simp [CreateStore]) (by simp [CreateStore])
      (by simp [CreateStore]) name g.nextId (by simp [CreateStore]) (Nat.le_refl _)
    obtain ⟨g', h3, hL3, hb3⟩ := store_params_lowered f next (index + 1) _ hL2.inFunction
      (by simp [CreateStore, hf])
    refine ⟨g', ?_, hL2.trans hL3, ?_⟩
    · simp only [store_params, hc]
      simpa [CreateStore] using h3
    · rw [hb3]
      simp [CreateStore]

/-- What `function_def_leave` does inside a function whose return-value storage is set. -/
theorem function_def_leave_spec (saved : SavedContext) {g : CodeGenerator} (h : InFunction g)
    (retval return_block : Nat) (hra : g.return_value_alloca = some retval)
    (hrb : g.current_return_block = some return_block) :
    ∃ gb g', branchIfNoTerminator (some return_block) g = some gb
      ∧ function_def_leave saved g = some g'
      ∧ Lowered false g gb ∧ gb.insertBlock = g.insertBlock
      ∧ Grows true gb g'
      ∧ (∀ b, g'.blockInsts b = gb.blockInsts b
          ++ (if b = return_block ∧ b < gb.blocks.length
              then [.load gb.nextId (.inst retval) "retval", .ret (.inst gb.nextId)] else []))
      ∧ g'.module.functions = gb.module.functions
      ∧ g'.named_values = saved.prev_named_values
      ∧ g'.current_function = saved.prev_function
      ∧ g'.current_return_block = saved.prev_return_block
      ∧ g'.return_value_alloca = saved.prev_return_alloca
      ∧ g'.insertBlock = some return_block := by
  obtain ⟨gb, hbr, hLb, hib⟩ := lowered_branchIfNoTerminator h return_block
  have hra' : gb.return_value_alloca = some retval := hLb.return_value_alloca_eq.trans hra
  have hrb' : gb.current_return_block = some return_block :=
    hLb.current_return_block_eq.trans hrb
  have hins : ∀ b, (((SetInsertPoint return_block gb).insert
      (.load gb.nextId (.inst retval) "retval")).insert (.ret (.inst gb.nextId))).blockInsts b
      = gb.blockInsts b ++ (if b = return_block ∧ b < gb.blocks.length
          then [.load gb.nextId (.inst retval) "retval", .ret (.inst gb.nextId)] else []) := by
    intro b
    rw [insert_blockInsts, insert_blockInsts]
    have hsb : ∀ b, (SetInsertPoint return_block gb).blockInsts b = gb.blockInsts b :=
      fun _ => rfl
    simp only [insert_insertBlock, insert_blocks_length, hsb]
    simp only [SetInsertPoint, Option.some.injEq]
    by_cases h1 : return_block = b
    · subst h1
      by_cases h2 : return_block < gb.blocks.length <;> simp [h2]
    · have h1' : ¬ b = return_block := fun hh => h1 hh.symm
      simp [h1, h1']
  refine ⟨gb, { (CreateLoad (.inst retval) "retval" (SetInsertPoint return_block gb)).2.insert
        (.ret (CreateLoad (.inst retval) "retval" (SetInsertPoint return_block gb)).1) with
      named_values := saved.prev_named_values,
      current_function := saved.prev_function,
      current_return_block := saved.prev_return_block,
      return_value_alloca := saved.prev_return_alloca },
    hbr, ?_, hLb, hib, ?_, ?_, ?_, rfl, rfl, rfl, rfl, ?_⟩
  · simp only [function_def_leave, hrb, hbr, hra', hrb']
  · have g1 := grows_insert true (SetInsertPoint return_block gb)
      (.load gb.nextId (.inst retval) "retval") (fun hh => Bool.noConfusion hh)
    have g2 := grows_insert true
      ((SetInsertPoint return_block gb).insert (.load gb.nextId (.inst retval) "retval"))
      (.ret (.inst gb.nextId)) (fun hh => Bool.noConfusion hh)
    have g0 : Grows true gb (SetInsertPoint return_block gb) :=
      Grows.of_fields rfl rfl (Nat.le_refl _) rfl rfl
    refine (g0.andThen (g1.andThen g2)).andThen (Grows.of_fields ?_ ?_ ?_ ?_ ?_)
    · simp [CodeGenerator.insert, SetInsertPoint, CreateLoad]
    · simp [SetInsertPoint, CreateLoad]
    · simp [SetInsertPoint, CreateLoad]
    · simp [SetInsertPoint, CreateLoad]
    · simp [SetInsertPoint, CreateLoad]
  · intro b
    rw [← hins b]
    simp [CodeGenerator.blockInsts, CodeGenerator.insert, SetInsertPoint, CreateLoad]
  · simp [SetInsertPoint, CreateLoad]
  · simp [SetInsertPoint, CreateLoad]

/-! ## Lowering of statements inside a function -/

/-- The three blocks of a loop are created, the branch into the condition block is
emitted, and the builder moves to the condition block. -/
theorem lowered_loop_header {g : CodeGenerator} (h : InFunction g) (n1 n2 n3 : String) :
    Lowered false g
        (SetInsertPoint (BasicBlock_Create n1 g.current_function g).1
          ((BasicBlock_Create n3 g.current_function
            (BasicBlock_Create n2 g.current_function
              (BasicBlock_Create n1 g.current_function g).2).2).2.insert
            (.br (BasicBlock_Create n1 g.current_function g).1)))
      ∧ (∃ bb p, (SetInsertPoint (BasicBlock_Create n1 g.current_function g).1
          ((BasicBlock_Create n3 g.current_function
            (BasicBlock_Create n2 g.current_function
              (BasicBlock_Create n1 g.current_function g).2).2).2.insert
            (.br (BasicBlock_Create n1 g.current_function g).1))).blocks[
          (BasicBlock_Create n2 g.current_function
            (BasicBlock_Create n1 g.current_function g).2).1]? = some bb ∧ bb.parent = some p)
      ∧ (∃ bb p, (SetInsertPoint (BasicBlock_Create n1 g.current_function g).1
          ((BasicBlock_Create n3 g.current_function
            (BasicBlock_Create n2 g.current_function
              (BasicBlock_Create n1 g.current_function g).2).2).2.insert
            (.br (BasicBlock_Create n1 g.current_function g).1))).blocks[
          (BasicBlock_Create n3 g.current_function
            (BasicBlock_Create n2 g.current_function
              (BasicBlock_Create n1 g.current_function g).2).2).1]? = some bb
          ∧ bb.parent = some p) := by
  have hL1 := lowered_block_create false h n1
  have hp1 := block_create_parent h n1
  have hL2 := lowered_block_create false hL1.inFunction n2
  have hp2 := block_create_parent hL1.inFunction n2
  have hL3 := lowered_block_create false hL2.inFunction n3
  have hp3 := block_create_parent hL2.inFunction n3
  have hL4 := lowered_insert false hL3.inFunction
    (.br (BasicBlock_Create n1 g.current_function g).1) (fun _ => rfl)
  have hq1 := (hL2.grows.andThen (hL3.grows.andThen hL4.grows)).block_parent hp1
  have hq2 := (hL3.grows.andThen hL4.grows).block_parent hp2
  have hq3 := hL4.grows.block_parent hp3
  obtain ⟨bb1, p1, hb1, hpp1⟩ := hq1
  have hL5 := lowered_setInsertPoint false hL4.inFunction _ bb1 p1 hb1 hpp1
  exact ⟨((hL1.trans hL2).trans (hL3.trans hL4)).trans hL5, hq2, hq3⟩

/-- The comparison with 0 and the conditional branch are emitted, and the builder moves
to an existing block. -/
theorem lowered_cond_branch {g : CodeGenerator} (h : InFunction g) (cond : Value)
    (ifTrue ifFalse target : Nat)
    (ht : ∃ bb p, g.blocks[target]? = some bb ∧ bb.parent = some p) :
    Lowered false g (SetInsertPoint target
      (CreateCondBr (CreateICmp .NE cond (.constInt 0) g).1 ifTrue ifFalse
        (CreateICmp .NE cond (.constInt 0) g).2)) := by
  have hL1 := lowered_create false h (.icmp g.nextId .NE cond (.constInt 0)) (fun _ => rfl)
  have hL2 := lowered_insert false hL1.inFunction
    (.condBr (CreateICmp .NE cond (.constInt 0) g).1 ifTrue ifFalse) (fun _ => rfl)
  obtain ⟨bb, p, hb, hp⟩ := (hL1.grows.andThen hL2.grows).block_parent ht
  exact (hL1.trans hL2).trans (lowered_setInsertPoint false hL2.inFunction _ bb p hb hp)

/-- A branch is emitted and the builder moves to an existing block. -/
theorem lowered_branch_to {g : CodeGenerator} (h : InFunction g) (dest target : Nat)
    (ht : ∃ bb p, g.blocks[target]? = some bb ∧ bb.parent = some p) :
    Lowered false g (SetInsertPoint target (g.insert (.br dest))) := by
  have hL1 := lowered_insert false h (.br dest) (fun _ => rfl)
  obtain ⟨bb, p, hb, hp⟩ := hL1.grows.block_parent ht
  exact hL1.trans (lowered_setInsertPoint false hL1.inFunction _ bb p hb hp)

/-- Inside a function, lowering a statement never crashes; it grows the state, with a
`ret` only if the statement contains a function definition, and afterwards the function
context is the same and the generator is still inside a function. -/
theorem codegen_stmt_lowered : ∀ (s : ASTNode) (g : CodeGenerator), InFunction g →
    ∃ g', codegen_stmt s g = some g' ∧ Lowered (containsFunctionDef s) g g'
  | .null, g, h => ⟨g, by simp [codegen_stmt], Lowered.refl _ h⟩
  | .AST_GLOBAL_VAR _ _, g, h => ⟨g, by simp [codegen_stmt], Lowered.refl _ h⟩
  | .AST_NUMBER number, g, h => by
    obtain ⟨r, g1, h1, hL1, _⟩ := codegen_expr_lowered (.AST_NUMBER number) g h
    exact ⟨g1, by simp only [codegen_stmt, h1], hL1.mono⟩
  | .AST_VARIABLE name, g, h => by
    obtain ⟨r, g1, h1, hL1, _⟩ := codegen_expr_lowered (.AST_VARIABLE name) g h
    exact ⟨g1, by simp only [codegen_stmt, h1], hL1.mono⟩
  | .AST_BINARY_OP op left right, g, h => by
    obtain ⟨r, g1, h1, hL1, _⟩ := codegen_expr_lowered (.AST_BINARY_OP op left right) g h
    exact ⟨g1, by simp only [codegen_stmt, h1], hL1.mono⟩
  | .AST_FUNCTION_CALL name args, g, h => by
    obtain ⟨r, g1, h1, hL1, _⟩ := codegen_expr_lowered (.AST_FUNCTION_CALL name args) g h
    exact ⟨g1, by simp only [codegen_stmt, h1], hL1.mono⟩
  | .AST_ASSIGNMENT name value, g, h => by
    obtain ⟨r, g1, h1, hL1, _⟩ := codegen_expr_lowered value g h
    cases r with
    | none => exact ⟨g1, by simp only [codegen_stmt, h1], hL1.mono⟩
    | some val =>
      cases hg : mapFind g1.global_vars name with
      | some global =>
        exact ⟨CreateStore val (.globalVariable global) g1,
          by simp only [codegen_stmt, h1, hg],
          (hL1.trans (lowered_insert false hL1.inFunction
            (.store val (.globalVariable global)) (fun _ => rfl))).mono⟩
      | none =>
        obtain ⟨a, g2, h2, hL2, _, _⟩ := lowered_local_alloca hL1.inFunction name
        exact ⟨CreateStore val (.inst a) g2, by simp only [codegen_stmt, h1, hg, h2],
          ((hL1.trans hL2).trans (lowered_insert false hL2.inFunction
            (.store val (.inst a)) (fun _ => rfl))).mono⟩
  | .AST_RETURN return_value, g, h => by
    obtain ⟨r, g1, h1, hL1, _⟩ := codegen_expr_lowered return_value g h
    cases r with
    | none => exact ⟨g1, by simp only [codegen_stmt, h1], hL1.mono⟩
    | some v =>
      cases hra : g1.return_value_alloca with
      | none => exact ⟨g1, by simp only [codegen_stmt, h1, hra], hL1.mono⟩
      | some retval =>
        obtain ⟨rb, hrb⟩ := hL1.inFunction.return_block
        have hs := lowered_insert false hL1.inFunction (.store v (.inst retval)) (fun _ => rfl)
        have hb := lowered_insert false hs.inFunction (.br rb) (fun _ => rfl)
        exact ⟨_, by simp only [codegen_stmt, h1, hra, hrb, CreateBr, CreateStore],
          ((hL1.trans hs).trans hb).mono⟩
  | .AST_SEQUENCE first second, g, h => by
    obtain ⟨g1, h1, hL1⟩ := codegen_stmt_lowered first g h
    obtain ⟨g2, h2, hL2⟩ := codegen_stmt_lowered second g1 hL1.inFunction
    refine ⟨g2, by simp only [codegen_stmt, h1, h2], ?_⟩
    exact (hL1.weaken (by simp [containsFunctionDef]; intro hh; exact Or.inl hh)).trans
      (hL2.weaken (by simp [containsFunctionDef]; intro hh; exact Or.inr hh))
  | .AST_PRINT print_value, g, h => by
    obtain ⟨r, g1, h1, hL1, _⟩ := codegen_expr_lowered print_value g h
    cases r with
    | none => exact ⟨g1, by simp only [codegen_stmt, h1], hL1.mono⟩
    | some val =>
      obtain ⟨fmt, g2, h2, hL2, _⟩ := lowered_global_string hL1.inFunction "%d\n"
      obtain ⟨p, hp⟩ := hL2.inFunction.printf
      exact ⟨(CreateCall p [fmt, val] g2).2, by simp only [codegen_stmt, h1, h2, hp],
        ((hL1.trans hL2).trans (lowered_create false hL2.inFunction
          (.call g2.nextId p [fmt, val]) (fun _ => rfl))).mono⟩
  | .AST_WHILE condition body, g, h => by
    obtain ⟨hH, hpb, hpa⟩ := lowered_loop_header h "loop" "loopbody" "afterloop"
    obtain ⟨r, g2, hc, hL2, _⟩ := codegen_expr_lowered condition _ hH.inFunction
    cases r with
    | none => exact ⟨g2, by simp only [codegen_stmt, hc], (hH.trans hL2).mono⟩
    | some cond =>
      have hL3 := lowered_cond_branch hL2.inFunction cond
        (BasicBlock_Create "loopbody" g.current_function
          (BasicBlock_Create "loop" g.current_function g).2).1
        (BasicBlock_Create "afterloop" g.current_function
          (BasicBlock_Create "loopbody" g.current_function
            (BasicBlock_Create "loop" g.current_function g).2).2).1 _
        (hL2.grows.block_parent hpb)
      obtain ⟨g4, hb, hL4⟩ := codegen_stmt_lowered body _ hL3.inFunction
      have hL5 := lowered_branch_to hL4.inFunction
        (BasicBlock_Create "loop" g.current_function g).1 _
        (hL4.grows.block_parent (hL3.grows.block_parent (hL2.grows.block_parent hpa)))
      have hfinal := ((hH.trans hL2).trans hL3).mono.trans
        ((@Lowered.weaken _ (containsFunctionDef (.AST_WHILE condition body)) _ _ hL4
          (by simp [containsFunctionDef]; intro hh; exact Or.inr hh)).trans hL5.mono)
      exact ⟨_, by simp only [codegen_stmt, hc, hb], hfinal⟩
  | .AST_FOR init condition increment body, g, h => by
    obtain ⟨g0, hi, hL0⟩ := codegen_stmt_lowered init g h
    have h0 := hL0.inFunction
    have hw : ∀ {r : Bool} {ga gb : CodeGenerator}, Lowered r ga gb →
        (r = true → containsFunctionDef (.AST_FOR init condition increment body) = true) →
        Lowered (containsFunctionDef (.AST_FOR init condition increment body)) ga gb :=
      fun hl hr => hl.weaken hr
    obtain ⟨hH, hpb, hpa⟩ := lowered_loop_header h0 "forloop" "forbody" "afterfor"
    obtain ⟨r, g2, hc, hL2, _⟩ := codegen_expr_lowered condition _ hH.inFunction
    cases r with
    | none =>
      exact ⟨g2, by simp only [codegen_stmt, hi, hc],
        (hw hL0 (by simp [containsFunctionDef]; intro hh; simp [hh])).trans
          (hH.trans hL2).mono⟩
    | some cond =>
      have hL3 := lowered_cond_branch hL2.inFunction cond
        (BasicBlock_Create "forbody" g0.current_function
          (BasicBlock_Create "forloop" g0.current_function g0).2).1
        (BasicBlock_Create "afterfor" g0.current_function
          (BasicBlock_Create "forbody" g0.current_function
            (BasicBlock_Create "forloop" g0.current_function g0).2).2).1 _
        (hL2.grows.block_parent hpb)
      obtain ⟨g4, hb, hL4⟩ := codegen_stmt_lowered body _ hL3.inFunction
      obtain ⟨g5, hinc, hL5⟩ := codegen_stmt_lowered increment g4 hL4.inFunction
      have hL6 := lowered_branch_to hL5.inFunction
        (BasicBlock_Create "forloop" g0.current_function g0).1 _
        (hL5.grows.block_parent (hL4.grows.block_parent
          (hL3.grows.block_parent (hL2.grows.block_parent hpa))))
      have hfinal := ((hw hL0 (by simp [containsFunctionDef]; intro hh; simp [hh])).trans
        ((hH.trans hL2).trans hL3).mono).trans
        (((hw hL4 (by simp [containsFunctionDef]; intro hh; simp [hh])).trans
          (hw hL5 (by simp [containsFunctionDef]; intro hh; simp [hh]))).trans hL6.mono)
      exact ⟨_, by simp only [codegen_stmt, hi, hc, hb, hinc], hfinal⟩
  | .AST_IF condition then_branch else_branch, g, h => by
    obtain ⟨r, g1, hc, hL1, _⟩ := codegen_expr_lowered condition g h
    cases r with
    | none => exact ⟨g1, by simp only [codegen_stmt, hc], hL1.mono⟩
    | some cond =>
      have hwt : ∀ {ga gb : CodeGenerator}, Lowered (containsFunctionDef then_branch) ga gb →
          Lowered (containsFunctionDef (.AST_IF condition then_branch else_branch)) ga gb :=
        fun hl => hl.weaken (by simp [containsFunctionDef]; intro hh; exact Or.inl (Or.inr hh))
      have hwe : ∀ {ga gb : CodeGenerator}, Lowered (containsFunctionDef else_branch) ga gb →
          Lowered (containsFunctionDef (.AST_IF condition then_branch else_branch)) ga gb :=
        fun hl => hl.weaken (by simp [containsFunctionDef]; intro hh; exact Or.inr hh)
      simp only [codegen_stmt, hc]
      generalize hcb : CreateICmp .NE cond (.constInt 0) g1 = cb
      have hLc : Lowered false g1 cb.2 := by
        rw [← hcb]
        exact lowered_create false hL1.inFunction (.icmp g1.nextId .NE cond (.constInt 0))
          (fun _ => rfl)
      generalize htb : BasicBlock_Create "then" cb.2.current_function cb.2 = tb
      have hLt : Lowered false cb.2 tb.2 := by
        rw [← htb]
        exact lowered_block_create false hLc.inFunction "then"
      have hpt : ∃ bb p, tb.2.blocks[tb.1]? = some bb ∧ bb.parent = some p := by
        rw [← htb]
        exact block_create_parent hLc.inFunction "then"
      cases hnull : else_branch.isNull with
      | true =>
        simp only [↓reduceIte]
        generalize hmb : BasicBlock_Create "ifcont" tb.2.current_function tb.2 = mb
        have hLm : Lowered false tb.2 mb.2 := by
          rw [← hmb]
          exact lowered_block_create false hLt.inFunction "ifcont"
        have hpm : ∃ bb p, mb.2.blocks[mb.1]? = some bb ∧ bb.parent = some p := by
          rw [← hmb]
          exact block_create_parent hLt.inFunction "ifcont"
        have hLb := lowered_insert false hLm.inFunction (.condBr cb.1 tb.1 mb.1) (fun _ => rfl)
        obtain ⟨bbt, pt, hbt, hppt⟩ := (hLm.grows.andThen hLb.grows).block_parent hpt
        have hLs := lowered_setInsertPoint false hLb.inFunction tb.1 bbt pt hbt hppt
        obtain ⟨g3, h3, hL3⟩ := codegen_stmt_lowered then_branch _ hLs.inFunction
        obtain ⟨g4, h4, hL4, _⟩ := lowered_branchIfNoTerminator hL3.inFunction mb.1
        obtain ⟨bbm, pm, hbm, hppm⟩ := (hLb.grows.withRets.andThen (hLs.grows.withRets.andThen
          (hL3.grows.withRets.andThen hL4.grows.withRets))).block_parent hpm
        have hL5 := lowered_setInsertPoint false hL4.inFunction mb.1 bbm pm hbm hppm
        have hfinal := (((((hL1.trans hLc).trans hLt).trans hLm).trans hLb).trans hLs).mono.trans
          ((hwt hL3).trans (hL4.trans hL5).mono)
        exact ⟨_, by simp only [CreateCondBr, h3, h4], hfinal⟩
      | false =>
        simp only [Bool.false_eq_true, ↓reduceIte]
        generalize heb : BasicBlock_Create "else" tb.2.current_function tb.2 = eb
        have hLe : Lowered false tb.2 eb.2 := by
          rw [← heb]
          exact lowered_block_create false hLt.inFunction "else"
        have hpe : ∃ bb p, eb.2.blocks[eb.1]? = some bb ∧ bb.parent = some p := by
          rw [← heb]
          exact block_create_parent hLt.inFunction "else"
        generalize hmb : BasicBlock_Create "ifcont" eb.2.current_function eb.2 = mb
        have hLm : Lowered false eb.2 mb.2 := by
          rw [← hmb]
          exact lowered_block_create false hLe.inFunction "ifcont"
        have hpm : ∃ bb p, mb.2.blocks[mb.1]? = some bb ∧ bb.parent = some p := by
          rw [← hmb]
          exact block_create_parent hLe.inFunction "ifcont"
        have hLb := lowered_insert false hLm.inFunction (.condBr cb.1 tb.1 eb.1) (fun _ => rfl)
        obtain ⟨bbt, pt, hbt, hppt⟩ :=
          (hLe.grows.andThen (hLm.grows.andThen hLb.grows)).block_parent hpt
        have hLs := lowered_setInsertPoint false hLb.inFunction tb.1 bbt pt hbt hppt
        obtain ⟨g3, h3, hL3⟩ := codegen_stmt_lowered then_branch _ hLs.inFunction
        obtain ⟨g4, h4, hL4, _⟩ := lowered_branchIfNoTerminator hL3.inFunction mb.1
        have hG34 := hLs.grows.withRets.andThen (hL3.grows.withRets.andThen hL4.grows.withRets)
        obtain ⟨bbe, pe, hbe, hppe⟩ :=
          ((hLm.grows.andThen hLb.grows).withRets.andThen hG34).block_parent hpe
        have hL5 := lowered_setInsertPoint false hL4.inFunction eb.1 bbe pe hbe hppe
        obtain ⟨g5, h5, hL6⟩ := codegen_stmt_lowered else_branch _ hL5.inFunction
        obtain ⟨g6, h6, hL7, _⟩ := lowered_branchIfNoTerminator hL6.inFunction mb.1
        obtain ⟨bbm, pm, hbm, hppm⟩ := ((hLb.grows.withRets.andThen hG34).andThen
          (hL5.grows.withRets.andThen (hL6.grows.withRets.andThen hL7.grows.withRets))).block_parent hpm
        have hL8 := lowered_setInsertPoint false hL7.inFunction mb.1 bbm pm hbm hppm
        have hfinal :=
          ((((((hL1.trans hLc).trans hLt).trans hLe).trans hLm).trans hLb).trans hLs).mono.trans
            (((hwt hL3).trans (hL4.trans hL5).mono).trans ((hwe hL6).trans (hL7.trans hL8).mono))
        exact ⟨_, by simp only [CreateCondBr, h3, h4, h5, h6], hfinal⟩
  | .AST_FUNCTION_DEF name params body, g, h => by
    have hE := enterState_inFunction name params g h.printf
    obtain ⟨g1, hsp, hL1, _⟩ :=
      store_params_lowered g.module.functions.length params 0 _ hE rfl
    obtain ⟨g2, hb, hL2⟩ := codegen_stmt_lowered body g1 hL1.inFunction
    have hra : g2.return_value_alloca = some g.nextId :=
      hL2.return_value_alloca_eq.trans hL1.return_value_alloca_eq
    have hrb : g2.current_return_block = some (g.blocks.length + 1) :=
      hL2.current_return_block_eq.trans hL1.current_return_block_eq
    obtain ⟨gb, g3, _, hlv, hLb, _, hG3, _, _, hnv, hcf, hcrb, hrva, hibk⟩ :=
      function_def_leave_spec (SavedContext.mk g.named_values g.current_function
        g.current_return_block g.return_value_alloca) hL2.inFunction g.nextId
        (g.blocks.length + 1) hra hrb
    have hGin : Grows true (enterState name params g) g3 :=
      hL1.grows.withRets.andThen (hL2.grows.withRets.andThen (hLb.grows.withRets.andThen hG3))
    have hG : Grows true g g3 := (enterState_grows true name params g).andThen hGin
    refine ⟨g3, by simp only [codegen_stmt, function_def_enter_eq, hsp, hb, hlv], ?_⟩
    refine ⟨hG, ⟨?_, ?_, ?_, ?_⟩, hcf, hcrb, hrva, ?_⟩
    · obtain ⟨f, fn, entry, h1, h2, h3⟩ := h.func
      obtain ⟨fn', more, h4, h5, _⟩ := hG.funcs f fn h2
      refine ⟨f, fn', entry, hcf.trans h1, h4, ?_⟩
      rw [h5]
      cases hfb : fn.blocks with
      | nil => rw [hfb] at h3; exact Option.noConfusion h3
      | cons x rest => rw [hfb] at h3; simpa using h3
    · have hex : ∃ bb p, (enterState name params g).blocks[g.blocks.length + 1]? = some bb
          ∧ bb.parent = some p :=
        ⟨BasicBlock.mk "return" (some g.module.functions.length) [], g.module.functions.length,
          by simp only [enterState, getElem?_append_length_succ], rfl⟩
      obtain ⟨bb, p, hb1, hb2⟩ := hGin.block_parent hex
      exact ⟨g.blocks.length + 1, bb, p, hibk, hb1, hb2⟩
    · obtain ⟨rb, h1⟩ := h.return_block
      exact ⟨rb, hcrb.trans h1⟩
    · obtain ⟨p, h1⟩ := h.printf
      exact ⟨p, hG.printf_func_eq.trans h1⟩
    · intro a _ hu n
      rw [hnv]
      exact hu n

/-! ## The lowered function -/

theorem countP_flatten_map_zero (p : Instr → Bool) (F : Nat → List Instr) :
    ∀ (l : List Nat), (∀ b ∈ l, (F b).countP p = 0) → ((l.map F).flatten).countP p = 0
  | [], _ => rfl
  | b :: rest, h => by
    simp only [List.map_cons, List.flatten_cons, List.countP_append]
    rw [h b (List.mem_cons_self _ _),
      countP_flatten_map_zero p F rest (fun c hc => h c (List.mem_cons_of_mem _ hc))]

theorem countP_isRet_zero (l : List Instr) (h : ∀ i ∈ l, i.isRet = false) :
    l.countP Instr.isRet = 0 := by
  rw [List.countP_eq_zero]
  intro i hi
  simp [h i hi]

/-- The phases of `codegen_function_def` and what each leaves, for a generator in which
`printf` is declared: `function_def_enter` reaches `g1` from `enterState`, the body is
lowered to `g2`, the fall-through branch gives `gb`, and `function_def_leave` ends in `g'`. -/
theorem codegen_function_def_phases (func_name : String) (params : ParamList) (body : ASTNode)
    (g : CodeGenerator) (hprintf : ∃ p, g.printf_func = some p) :
    ∃ g1 g2 gb g',
      function_def_enter func_name params g
          = some (SavedContext.mk g.named_values g.current_function g.current_return_block
              g.return_value_alloca, g1)
        ∧ codegen_stmt body g1 = some g2
        ∧ branchIfNoTerminator (some (g.blocks.length + 1)) g2 = some gb
        ∧ function_def_leave (SavedContext.mk g.named_values g.current_function
            g.current_return_block g.return_value_alloca) g2 = some g'
        ∧ codegen_function_def func_name params body g = some g'
        ∧ Lowered false (enterState func_name params g) g1
        ∧ g1.insertBlock = some g.blocks.length
        ∧ Lowered (containsFunctionDef body) g1 g2
        ∧ Lowered false g2 gb ∧ gb.insertBlock = g2.insertBlock
        ∧ (∀ b, g'.blockInsts b = gb.blockInsts b
            ++ (if b = g.blocks.length + 1 ∧ b < gb.blocks.length
                then [.load gb.nextId (.inst g.nextId) "retval", .ret (.inst gb.nextId)]
                else []))
        ∧ g'.module.functions = gb.module.functions
        ∧ g'.named_values = g.named_values
        ∧ g'.current_function = g.current_function
        ∧ g'.current_return_block = g.current_return_block
        ∧ g'.return_value_alloca = g.return_value_alloca := by
  have hE := enterState_inFunction func_name params g hprintf
  obtain ⟨g1, hsp, hL1, hib1⟩ :=
    store_params_lowered g.module.functions.length params 0 _ hE rfl
  obtain ⟨g2, hb, hL2⟩ := codegen_stmt_lowered body g1 hL1.inFunction
  have hra : g2.return_value_alloca = some g.nextId :=
    hL2.return_value_alloca_eq.trans hL1.return_value_alloca_eq
  have hrb : g2.current_return_block = some (g.blocks.length + 1) :=
    hL2.current_return_block_eq.trans hL1.current_return_block_eq
  obtain ⟨gb, g3, hbr, hlv, hLb, hibb, _, hins, hfun, hnv, hcf, hcrb, hrva, _⟩ :=
    function_def_leave_spec (SavedContext.mk g.named_values g.current_function
      g.current_return_block g.return_value_alloca) hL2.inFunction g.nextId
      (g.blocks.length + 1) hra hrb
  have henter : function_def_enter func_name params g
      = some (SavedContext.mk g.named_values g.current_function g.current_return_block
          g.return_value_alloca, g1) := by
    simp only [function_def_enter_eq, hsp]
  refine ⟨g1, g2, gb, g3, henter, hb, hbr, hlv, ?_, hL1, hib1, hL2, hLb, hibb, hins, hfun, hnv,
    hcf, hcrb, hrva⟩
  simp only [codegen_function_def, henter, hb, hlv]

/-- After the prologue and a body without function definitions, no block of the new
function (entry block, return block, or a block created later) holds a `ret`. -/
theorem no_ret_of_grows_enterState (func_name : String) (params : ParamList)
    (g gb : CodeGenerator) (hG : Grows false (enterState func_name params g) gb) (b : Nat)
    (hb : g.blocks.length ≤ b) : ∀ i ∈ gb.blockInsts b, i.isRet = false := by
  obtain ⟨pre, post, he, hpre, hpost⟩ := hG.insts b
  intro i hi
  rw [he] at hi
  rcases List.mem_append.1 hi with h | h
  · rcases List.mem_append.1 h with h | h
    · have := hpre i h
      cases i <;> simp_all [Instr.isAlloca, Instr.isRet]
    · by_cases h0 : b = g.blocks.length
      · subst h0
        rw [enterState_blockInsts_entry] at h
        simp only [List.mem_cons, List.mem_singleton, List.not_mem_nil, or_false] at h
        rcases h with h | h <;> subst h <;> rfl
      · by_cases h1 : b = g.blocks.length + 1
        · subst h1
          rw [enterState_blockInsts_return] at h
          simp at h
        · rw [blockInsts_of_ge] at h
          · simp at h
          · simp [enterState]
            omega
  · exact hpost i h rfl

/-! ## The claims on the collector and on the driver's validation -/

/-- C1: for every root, `collect_global_vars` returns exactly one record per `GlobalVar`
node reachable through `Sequence` edges only (the returned list is a permutation of the
expected records, so names and values agree as multisets), the value of a record being
the literal of a `Number` initializer and 0 for any other initializer; the globals
`x = 5` and `y = x + 1` give the records `x: 5` and `y: 0`. -/
theorem collect_global_vars_records (root : ASTNode) (static_list : List GlobalVar) :
    List.Perm (collect_global_vars root static_list).1
        ((topLevelGlobalVars root).map expectedRecord)
      ∧ List.Perm
        (collect_global_vars
          (.AST_SEQUENCE (.AST_GLOBAL_VAR "x" (.AST_NUMBER 5))
            (.AST_GLOBAL_VAR "y"
              (.AST_BINARY_OP .OP_ADD (.AST_VARIABLE "x") (.AST_NUMBER 1))))
          static_list).1
        [GlobalVar.mk "x" 5, GlobalVar.mk "y" 0] := by
  constructor
  · simp only [collect_global_vars, collect_globals_eq, List.append_nil]
    exact List.reverse_perm _
  · simp only [collect_global_vars, collect_globals_eq, List.append_nil]
    exact List.reverse_perm _

/-- C2: `collect_global_vars` does not look below a non-`Sequence` node: a `FunctionDef`
root gives the empty list whatever its body, a null root gives the empty list, and
replacing a `FunctionDef`, `If`, `While` or `For` subtree at any position of a top-level
`Sequence` chain by a subtree of the same kind does not change the result. -/
theorem collect_global_vars_top_level_only :
    (∀ (name : String) (params : ParamList) (body : ASTNode) (static_list : List GlobalVar),
        (collect_global_vars (.AST_FUNCTION_DEF name params body) static_list).1 = [])
      ∧ (∀ static_list : List GlobalVar, (collect_global_vars .null static_list).1 = [])
      ∧ (∀ (c : SeqContext) (t t' : ASTNode) (static_list : List GlobalVar),
          sameKind t t' = true →
          (collect_global_vars (c.fill t) static_list).1
            = (collect_global_vars (c.fill t') static_list).1) := by
  refine ⟨?_, ?_, ?_⟩
  · intro name params body static_list
    simp [collect_global_vars, collect_globals]
  · intro static_list
    simp [collect_global_vars, collect_globals]
  · intro c t t' static_list h
    simp only [collect_global_vars]
    exact collect_globals_fill_sameKind t t' h c []

/-- The witness of C2: a function whose body declares a global is replaced by a function
with an empty body, next to the global `x = 5`. -/
theorem collect_global_vars_top_level_only_witness :
    sameKind (.AST_FUNCTION_DEF "f" [] (.AST_GLOBAL_VAR "g" (.AST_NUMBER 1)))
        (.AST_FUNCTION_DEF "h" ["a"] .null) = true
      ∧ (collect_global_vars
          ((SeqContext.inSecond (.AST_GLOBAL_VAR "x" (.AST_NUMBER 5)) .hole).fill
            (.AST_FUNCTION_DEF "f" [] (.AST_GLOBAL_VAR "g" (.AST_NUMBER 1)))) []).1
        = (collect_global_vars
          ((SeqContext.inSecond (.AST_GLOBAL_VAR "x" (.AST_NUMBER 5)) .hole).fill
            (.AST_FUNCTION_DEF "h" ["a"] .null)) []).1 :=
  ⟨by decide,
    collect_global_vars_top_level_only.2.2
      (SeqContext.inSecond (.AST_GLOBAL_VAR "x" (.AST_NUMBER 5)) .hole)
      (.AST_FUNCTION_DEF "f" [] (.AST_GLOBAL_VAR "g" (.AST_NUMBER 1)))
      (.AST_FUNCTION_DEF "h" ["a"] .null) [] (by decide)⟩

/-- C3: collection is idempotent: a second call of `collect_global_vars` on the same
root, started from the static list the first call left, returns the same records, and so
does a call made after a collection on any other AST. -/
theorem collect_global_vars_idempotent (root other : ASTNode) (static_list : List GlobalVar) :
    (collect_global_vars root (collect_global_vars root static_list).2).1
        = (collect_global_vars root static_list).1
      ∧ (collect_global_vars root (collect_global_vars other static_list).2).1
        = (collect_global_vars root static_list).1 :=
  ⟨rfl, rfl⟩

/-- C4, refuted as stated: the root that is the lone global `x = 5` is not null and has
no `FunctionDef` named `main` at its top level, yet the driver does not reject it: it
collects the globals, generates code and returns exit code 0. -/
theorem main_accepts_lone_global_var :
    (ASTNode.AST_GLOBAL_VAR "x" (.AST_NUMBER 5)).isNull = false
      ∧ ¬ HasTopLevelMain (.AST_GLOBAL_VAR "x" (.AST_NUMBER 5))
      ∧ main_after_parse (.AST_GLOBAL_VAR "x" (.AST_NUMBER 5))
        = some (0, [.collect_global_vars, .generate_program, .optimize_module, .output_ir,
            .output_object_file]) := by
  refine ⟨rfl, ?_, by decide⟩
  intro h
  cases h

/-- C4, amended: for every root that is a `Sequence` or a `FunctionDef` and has no
`FunctionDef` named `main` at its top level, the driver reports the missing `main` and
returns exit code 1, and runs neither global collection nor code generation. -/
theorem main_rejects_missing_main (root : ASTNode)
    (hkind : root.isSequenceOrFunctionDef = true) (hmain : ¬ HasTopLevelMain root) :
    main_after_parse root = some (1, [.error_main_required]) := by
  have hc : check_main_exists root = false := by
    cases h : check_main_exists root
    · rfl
    · exact absurd ((check_main_exists_iff root).1 h) hmain
  cases root <;> simp [ASTNode.isSequenceOrFunctionDef] at hkind
  · simp [main_after_parse, ASTNode.isNull, main_validation, hc]
  · rename_i name params body
    have hn : name ≠ "main" := by
      intro hn
      subst hn
      exact hmain (HasTopLevelMain.here params body)
    simp [main_after_parse, ASTNode.isNull, main_validation, hc, hn]

/-- The witness of C4 as amended: the program made of the single function `f`. -/
theorem main_rejects_missing_main_witness :
    (ASTNode.AST_FUNCTION_DEF "f" [] .null).isSequenceOrFunctionDef = true
      ∧ ¬ HasTopLevelMain (.AST_FUNCTION_DEF "f" [] .null)
      ∧ main_after_parse (.AST_FUNCTION_DEF "f" [] .null) = some (1, [.error_main_required]) :=
  ⟨rfl, not_hasTopLevelMain_of_check (by decide),
    main_rejects_missing_main (.AST_FUNCTION_DEF "f" [] .null) rfl
      (not_hasTopLevelMain_of_check (by decide))⟩

/-! ## The claims on expressions, names and `Return` -/

/-- C5, refuted as stated: the expression `(0 - 2147483647 - 1) / (0 - 1)` has no zero
divisor and the claim gives it the value 2147483648; lowered at the start of `main`, it
yields three `sub` and one `sdiv` whose execution is undefined from every machine state:
the `sdiv` divides -2^31 by -1, so the emitted instructions compute no value. -/
theorem codegen_expr_sdiv_overflow :
    claimedValue divOverflowExample = some 2147483648
      ∧ codegen_expr divOverflowExample mainEntryState
        = some (some (.inst 4), { mainEntryState.insertAll
            [.arith 1 .Sub (.constInt 0) (.constInt 2147483647),
             .arith 2 .Sub (.inst 1) (.constInt 1),
             .arith 3 .Sub (.constInt 0) (.constInt 1),
             .arith 4 .SDiv (.inst 2) (.inst 3)] with nextId := 5 })
      ∧ ∀ m : Machine, execInstrs m
            [.arith 1 .Sub (.constInt 0) (.constInt 2147483647),
             .arith 2 .Sub (.inst 1) (.constInt 1),
             .arith 3 .Sub (.constInt 0) (.constInt 1),
             .arith 4 .SDiv (.inst 2) (.inst 3)] = none := by
  refine ⟨by decide, by decide, ?_⟩
  intro m
  simp [execInstrs, execInstr, Machine.operand, Machine.setReg, evalArith, wrap32]

/-- C5, amended: for every expression built only from `Number` and `BinaryOp` nodes in
which no division has a zero divisor or divides -2^31 by -1 (its signed value `n` is
defined), and every generator positioned in an existing block, `codegen_expr` returns a
value and appends instructions to that block such that, from every machine state,
executing the appended instructions succeeds and gives the returned value the content
`n`: `+`, `-`, `*` wrapped modulo 2^32, `/` rounded toward zero, comparisons 1 or 0. -/
theorem codegen_expr_computes_signedValue (e : ASTNode) (n : Int)
    (hvalue : signedValue e = some n) (g : CodeGenerator) (b : Nat)
    (hb : g.insertBlock = some b) (hlt : b < g.blocks.length) :
    ∃ (v : Value) (g' : CodeGenerator) (is : List Instr),
      codegen_expr e g = some (some v, g')
        ∧ g'.blockInsts b = g.blockInsts b ++ is
        ∧ ∀ m : Machine, ∃ m', execInstrs m is = some m' ∧ m'.operand v = some (.int n) := by
  obtain ⟨v, is, k, hc, _, hx⟩ := codegen_expr_signedValue e n hvalue g
  refine ⟨v, _, is, hc, ?_, ?_⟩
  · have := insertAll_blockInsts g is b hb hlt
    simpa [CodeGenerator.blockInsts] using this
  · intro m
    obtain ⟨m', he, ho, _, _⟩ := hx m
    exact ⟨m', he, ho⟩

/-- The witness of C5 as amended: `1 + 2 * 3`, lowered at the start of `main`, evaluates
to 7; and `int main() { return 1 + 2 * 3; }`, run from its entry block, returns 7. -/
theorem codegen_expr_computes_signedValue_witness :
    signedValue onePlusTwoTimesThree = some 7
      ∧ mainEntryState.insertBlock = some 0
      ∧ 0 < mainEntryState.blocks.length
      ∧ (∃ (v : Value) (g' : CodeGenerator) (is : List Instr),
          codegen_expr onePlusTwoTimesThree mainEntryState = some (some v, g')
            ∧ g'.blockInsts 0 = mainEntryState.blockInsts 0 ++ is
            ∧ ∀ m : Machine, ∃ m', execInstrs m is = some m' ∧ m'.operand v = some (.int 7))
      ∧ ( codegen_function_def "main" [] (.AST_RETURN onePlusTwoTimesThree)
          CodeGenerator.new).bind (fun g' => runFunction g' 1 10) = some (.int 7) :=
  ⟨by decide, by decide, by decide,
    codegen_expr_computes_signedValue onePlusTwoTimesThree 7 (by decide) mainEntryState 0
      (by decide) (by decide), by decide⟩

/-- C6: name resolution. A `Variable` read of a declared global loads from the global's
storage and leaves `named_values` unchanged, whatever `named_values` binds; a read of
another name loads from the storage `named_values` binds it to, or, if it is unbound,
from storage that `create_entry_block_alloca` creates in the current function and that
is registered under the name before the load. An `Assignment` whose value lowers to
`val` stores `val` to the storage found by the same three rules. -/
theorem name_resolution_precedence (g : CodeGenerator) (name : String) (value : ASTNode) :
    (∀ global, mapFind g.global_vars name = some global →
        codegen_expr (.AST_VARIABLE name) g
          = some (some (.inst g.nextId),
              { g.insert (.load g.nextId (.globalVariable global) name)
                with nextId := g.nextId + 1 })
        ∧ (g.insert (.load g.nextId (.globalVariable global) name)).named_values
          = g.named_values)
      ∧ (∀ alloca, mapFind g.global_vars name = none →
          mapFind g.named_values name = some alloca →
          codegen_expr (.AST_VARIABLE name) g
            = some (some (.inst g.nextId),
                { g.insert (.load g.nextId (.inst alloca) name) with nextId := g.nextId + 1 }))
      ∧ (∀ alloca g0, mapFind g.global_vars name = none →
          mapFind g.named_values name = none →
          create_entry_block_alloca g.current_function name g = some (alloca, g0) →
          codegen_expr (.AST_VARIABLE name) g
            = some (some (.inst g0.nextId),
                { ({ g0 with named_values := mapSet g0.named_values name alloca }
                    : CodeGenerator).insert (.load g0.nextId (.inst alloca) name)
                  with nextId := g0.nextId + 1 })
          ∧ mapFind (mapSet g0.named_values name alloca) name = some alloca)
      ∧ (∀ val g1 global, codegen_expr value g = some (some val, g1) →
          mapFind g1.global_vars name = some global →
          codegen_stmt (.AST_ASSIGNMENT name value) g
            = some (g1.insert (.store val (.globalVariable global)))
          ∧ (g1.insert (.store val (.globalVariable global))).named_values = g1.named_values)
      ∧ (∀ val g1 alloca, codegen_expr value g = some (some val, g1) →
          mapFind g1.global_vars name = none →
          mapFind g1.named_values name = some alloca →
          codegen_stmt (.AST_ASSIGNMENT name value) g
            = some (g1.insert (.store val (.inst alloca))))
      ∧ (∀ val g1 alloca g2, codegen_expr value g = some (some val, g1) →
          mapFind g1.global_vars name = none →
          mapFind g1.named_values name = none →
          create_entry_block_alloca g1.current_function name g1 = some (alloca, g2) →
          codegen_stmt (.AST_ASSIGNMENT name value) g
            = some (({ g2 with named_values := mapSet g2.named_values name alloca }
                : CodeGenerator).insert (.store val (.inst alloca)))
          ∧ mapFind (mapSet g2.named_values name alloca) name = some alloca) := by
  refine ⟨?_, ?_, ?_, ?_, ?_, ?_⟩
  · intro global hg
    simp [codegen_expr, hg, CreateLoad]
  · intro alloca hg hl
    simp [codegen_expr, hg, local_alloca, hl, CreateLoad]
  · intro alloca g0 hg hl hc
    simp [codegen_expr, hg, local_alloca, hl, hc, CreateLoad, mapFind_mapSet]
  · intro val g1 global hv hg
    simp [codegen_stmt, hv, hg, CreateStore]
  · intro val g1 alloca hv hg hl
    simp [codegen_stmt, hv, hg, local_alloca, hl, CreateStore]
  · intro val g1 alloca g2 hv hg hl hc
    simp [codegen_stmt, hv, hg, local_alloca, hl, hc, CreateStore, mapFind_mapSet]

/-- The witness of C6: at the start of `f(x, y)` with the global `x` declared, `x` (a
global that is also a bound parameter) resolves to the global, `y` to its parameter
storage, and the unbound `z` to storage created on the spot, for reads and for the
assignments `x = 1`, `y = 1`, `z = 1`. -/
theorem name_resolution_precedence_witness :
    (mapFind shadowedEntryState.global_vars "x" = some 0
        ∧ mapFind shadowedEntryState.named_values "x" = some 1
        ∧ codegen_expr (.AST_VARIABLE "x") shadowedEntryState
          = some (some (.inst shadowedEntryState.nextId),
              { shadowedEntryState.insert
                  (.load shadowedEntryState.nextId (.globalVariable 0) "x")
                with nextId := shadowedEntryState.nextId + 1 }))
      ∧ codegen_expr (.AST_VARIABLE "y") shadowedEntryState
          = some (some (.inst shadowedEntryState.nextId),
              { shadowedEntryState.insert (.load shadowedEntryState.nextId (.inst 2) "y")
                with nextId := shadowedEntryState.nextId + 1 })
      ∧ (mapFind shadowedEntryState.named_values "z" = none
        ∧ ∃ alloca g0,
          create_entry_block_alloca shadowedEntryState.current_function "z" shadowedEntryState
            = some (alloca, g0)
          ∧ codegen_expr (.AST_VARIABLE "z") shadowedEntryState
            = some (some (.inst g0.nextId),
                { ({ g0 with named_values := mapSet g0.named_values "z" alloca }
                    : CodeGenerator).insert (.load g0.nextId (.inst alloca) "z")
                  with nextId := g0.nextId + 1 }))
      ∧ codegen_stmt (.AST_ASSIGNMENT "x" (.AST_NUMBER 1)) shadowedEntryState
          = some (shadowedEntryState.insert (.store (.constInt 1) (.globalVariable 0)))
      ∧ codegen_stmt (.AST_ASSIGNMENT "y" (.AST_NUMBER 1)) shadowedEntryState
          = some (shadowedEntryState.insert (.store (.constInt 1) (.inst 2)))
      ∧ ∃ alloca g2,
          create_entry_block_alloca shadowedEntryState.current_function "z" shadowedEntryState
            = some (alloca, g2)
          ∧ codegen_stmt (.AST_ASSIGNMENT "z" (.AST_NUMBER 1)) shadowedEntryState
            = some (({ g2 with named_values := mapSet g2.named_values "z" alloca }
                : CodeGenerator).insert (.store (.constInt 1) (.inst alloca))) :=
  ⟨⟨by decide, by decide,
      ((name_resolution_precedence shadowedEntryState "x" .null).1 0 (by decide)).1⟩,
    (name_resolution_precedence shadowedEntryState "y" .null).2.1 2 (by decide) (by decide),
    ⟨by decide, _, _, rfl,
      ((name_resolution_precedence shadowedEntryState "z" .null).2.2.1 _ _ (by decide)
        (by decide) rfl).1⟩,
    ((name_resolution_precedence shadowedEntryState "x" (.AST_NUMBER 1)).2.2.2.1
      (.constInt 1) shadowedEntryState 0 rfl (by decide)).1,
    (name_resolution_precedence shadowedEntryState "y" (.AST_NUMBER 1)).2.2.2.2.1
      (.constInt 1) shadowedEntryState 2 rfl (by decide) (by decide),
    ⟨_, _, rfl,
      ((name_resolution_precedence shadowedEntryState "z" (.AST_NUMBER 1)).2.2.2.2.2
        (.constInt 1) shadowedEntryState _ _ rfl (by decide) (by decide) rfl).1⟩⟩

/-- C7, refuted as stated: at the start of `main`, reading the never-assigned local `x`
puts an `alloca` at the start of the entry block and a load at its end, and no store
into the new storage; executed from the empty machine, the entry block gives the loaded
value the undefined content, not 0. And the function `main` with the body
`if (0) x = 1; return x;`, run from its entry block, returns the undefined content of
`x`, not 0. -/
theorem read_of_unassigned_local_not_zero :
    (codegen_expr (.AST_VARIABLE "x") mainEntryState).map
          (fun r => (r.1, r.2.blockInsts 0))
        = some (some (.inst 2),
            [.alloca 1 "x", .alloca 0 "retval", .store (.constInt 0) (.inst 0),
              .load 2 (.inst 1) "x"])
      ∧ (execInstrs Machine.empty
            [.alloca 1 "x", .alloca 0 "retval", .store (.constInt 0) (.inst 0),
              .load 2 (.inst 1) "x"]).map (fun m => m.regs 2) = some (some .undefined)
      ∧ ( codegen_function_def "main" [] assignInUntakenBranchThenRead CodeGenerator.new).bind
          (fun g' => runFunction g' 1 10) = some .undefined
      ∧ ( codegen_function_def "main" [] assignInUntakenBranchThenRead CodeGenerator.new).bind
          (fun g' => runFunction g' 1 10) ≠ some (.int 0) :=
  ⟨by decide, by decide, by decide, by decide⟩

/-- C7, amended: inside a function (the current function has an entry block), for a
name that is neither a declared global nor bound: reading it succeeds, and the only
instructions this adds are one `alloca` at the start of the entry block and one load of
it at the builder's position; assigning to it (the value having lowered to `val`) adds
only the `alloca` at the start of the entry block and the store of `val` at the
builder's position. So the autovivified storage gets no initializing store; and whenever
the `alloca`, any instructions that do not write the new storage, and a load of it are
executed in this order, the value read is the undefined content of the storage. -/
theorem autovivified_local_uninitialized (g : CodeGenerator) (name : String) (f : Nat)
    (fn : Function) (entry : Nat) (hglobal : mapFind g.global_vars name = none)
    (hlocal : mapFind g.named_values name = none) (hf : g.current_function = some f)
    (hfn : g.module.functions[f]? = some fn) (hentry : fn.blocks.head? = some entry) :
    (∃ g', codegen_expr (.AST_VARIABLE name) g = some (some (.inst (g.nextId + 1)), g')
        ∧ mapFind g'.named_values name = some g.nextId
        ∧ ∀ b, g'.blockInsts b
          = (if b = entry ∧ b < g.blocks.length then [Instr.alloca g.nextId name] else [])
            ++ g.blockInsts b
            ++ (if g.insertBlock = some b ∧ b < g.blocks.length
                then [Instr.load (g.nextId + 1) (.inst g.nextId) name] else []))
      ∧ (∀ (value : ASTNode) (g0 : CodeGenerator) (val : Value),
          codegen_expr value g0 = some (some val, g) →
          ∃ g', codegen_stmt (.AST_ASSIGNMENT name value) g0 = some g'
            ∧ mapFind g'.named_values name = some g.nextId
            ∧ ∀ b, g'.blockInsts b
              = (if b = entry ∧ b < g.blocks.length then [Instr.alloca g.nextId name] else [])
                ++ g.blockInsts b
                ++ (if g.insertBlock = some b ∧ b < g.blocks.length
                    then [Instr.store val (.inst g.nextId)] else []))
      ∧ ∀ (m m' : Machine) (mid : List Instr) (load : Nat),
          (∀ i ∈ mid, i.writes (.inst g.nextId) = false) →
          execInstrs m ([.alloca g.nextId name] ++ mid ++ [.load load (.inst g.nextId) name])
            = some m' →
          m'.regs load = some .undefined := by
  have hshape : ∀ (i : Instr) (b : Nat),
      (({ g with
          blocks := g.blocks.modify (fun bb => bb.pushFront (.alloca g.nextId name)) entry,
          nextId := g.nextId + 1,
          named_values := mapSet g.named_values name g.nextId } : CodeGenerator).insert
        i).blockInsts b
        = (if b = entry ∧ b < g.blocks.length then [Instr.alloca g.nextId name] else [])
          ++ g.blockInsts b
          ++ (if g.insertBlock = some b ∧ b < g.blocks.length then [i] else []) := by
    intro i b
    rw [insert_blockInsts, modify_pushFront_blockInsts g _ (.alloca g.nextId name) entry rfl b]
    simp only [List.length_modify]
    by_cases h1 : b = entry
    · subst h1
      by_cases h2 : g.insertBlock = some b <;> by_cases h3 : b < g.blocks.length <;>
        simp [h2, h3]
    · by_cases h2 : g.insertBlock = some b <;> by_cases h3 : b < g.blocks.length <;>
        simp [h1, h2, h3]
  refine ⟨⟨{ ({ g with
      blocks := g.blocks.modify (fun bb => bb.pushFront (.alloca g.nextId name)) entry,
      nextId := g.nextId + 1,
      named_values := mapSet g.named_values name g.nextId } : CodeGenerator).insert
        (.load (g.nextId + 1) (.inst g.nextId) name) with nextId := g.nextId + 1 + 1 },
    ?_, ?_, ?_⟩, ?_, ?_⟩
  · simp only [codegen_expr, hglobal, local_alloca, hlocal, create_entry_block_alloca, hf, hfn,
      hentry, CreateLoad]
  · simp [mapFind_mapSet]
  · intro b
    exact hshape (.load (g.nextId + 1) (.inst g.nextId) name) b
  · intro value g0 val hvalue
    refine ⟨({ g with
        blocks := g.blocks.modify (fun bb => bb.pushFront (.alloca g.nextId name)) entry,
        nextId := g.nextId + 1,
        named_values := mapSet g.named_values name g.nextId } : CodeGenerator).insert
          (.store val (.inst g.nextId)), ?_, ?_, ?_⟩
    · simp only [codegen_stmt, hvalue, hglobal, local_alloca, hlocal, create_entry_block_alloca,
        hf, hfn, hentry, CreateStore]
    · simp [mapFind_mapSet]
    · intro b
      exact hshape (.store val (.inst g.nextId)) b
  · intro m m' mid load hmid hexec
    exact load_after_alloca_undefined m m' g.nextId load name name mid hmid hexec

/-- The witness of C7 as amended: the name `x` at the start of `main`. -/
theorem autovivified_local_uninitialized_witness :
    (∃ g', codegen_expr (.AST_VARIABLE "x") mainEntryState
          = some (some (.inst (mainEntryState.nextId + 1)), g')
        ∧ mapFind g'.named_values "x" = some mainEntryState.nextId
        ∧ ∀ b, g'.blockInsts b
          = (if b = 0 ∧ b < mainEntryState.blocks.length
              then [Instr.alloca mainEntryState.nextId "x"] else [])
            ++ mainEntryState.blockInsts b
            ++ (if mainEntryState.insertBlock = some b ∧ b < mainEntryState.blocks.length
                then [Instr.load (mainEntryState.nextId + 1) (.inst mainEntryState.nextId) "x"]
                else []))
      ∧ (∃ g', codegen_stmt (.AST_ASSIGNMENT "x" (.AST_NUMBER 1)) mainEntryState = some g'
        ∧ mapFind g'.named_values "x" = some mainEntryState.nextId
        ∧ ∀ b, g'.blockInsts b
          = (if b = 0 ∧ b < mainEntryState.blocks.length
              then [Instr.alloca mainEntryState.nextId "x"] else [])
            ++ mainEntryState.blockInsts b
            ++ (if mainEntryState.insertBlock = some b ∧ b < mainEntryState.blocks.length
                then [Instr.store (.constInt 1) (.inst mainEntryState.nextId)] else [])) :=
  ⟨(autovivified_local_uninitialized mainEntryState "x" 1
      (Function.mk "main" .i32 [] false [] [0, 1]) 0 (by decide) (by decide) (by decide)
      (by decide) (by decide)).1,
    (autovivified_local_uninitialized mainEntryState "x" 1
      (Function.mk "main" .i32 [] false [] [0, 1]) 0 (by decide) (by decide) (by decide)
      (by decide) (by decide)).2.1 (.AST_NUMBER 1) mainEntryState (.constInt 1) rfl⟩

/-- C8, refuted as stated: at the start of `main`, lowering a `Return` whose value
expression is absent leaves the generator unchanged: the entry block still holds only
the two instructions of the function prologue, so no branch to the return block
(block 1) is emitted. -/
theorem return_without_value_emits_no_branch :
    codegen_stmt (.AST_RETURN .null) mainEntryState = some mainEntryState
      ∧ mainEntryState.current_return_block = some 1
      ∧ mainEntryState.return_value_alloca = some 0
      ∧ mainEntryState.blockInsts 0
        = [.alloca 0 "retval", .store (.constInt 0) (.inst 0)] := by
  decide

/-- C8, amended: for every `Return` lowered inside a function (return-value storage
`retval`, return block `return_block`), when the value expression lowers to a value
`val`, `codegen_stmt` appends the store of `val` into the return-value storage and then
the unconditional branch to the return block; when the value expression is absent or
fails to lower, `codegen_stmt` emits neither the store nor the branch. -/
theorem codegen_stmt_return (value : ASTNode) (g : CodeGenerator) :
    (∀ val g1 retval return_block, codegen_expr value g = some (some val, g1) →
        g1.return_value_alloca = some retval → g1.current_return_block = some return_block →
        codegen_stmt (.AST_RETURN value) g
          = some ((g1.insert (.store val (.inst retval))).insert (.br return_block)))
      ∧ (∀ g1, codegen_expr value g = some (none, g1) →
          codegen_stmt (.AST_RETURN value) g = some g1)
      ∧ codegen_stmt (.AST_RETURN .null) g = some g := by
  refine ⟨?_, ?_, ?_⟩
  · intro val g1 retval return_block hv hra hrb
    simp [codegen_stmt, hv, hra, hrb, CreateBr, CreateStore]
  · intro g1 hv
    simp [codegen_stmt, hv]
  · simp [codegen_stmt, codegen_expr]

/-- The witness of C8 as amended: `return 1 + 2 * 3;` and `return f();` with `f`
unknown, at the start of `main`. -/
theorem codegen_stmt_return_witness :
    (∃ val g1, codegen_expr onePlusTwoTimesThree mainEntryState = some (some val, g1)
        ∧ g1.return_value_alloca = some 0 ∧ g1.current_return_block = some 1
        ∧ codegen_stmt (.AST_RETURN onePlusTwoTimesThree) mainEntryState
          = some ((g1.insert (.store val (.inst 0))).insert (.br 1)))
      ∧ codegen_expr (.AST_FUNCTION_CALL "f" .nil) mainEntryState = some (none, mainEntryState)
      ∧ codegen_stmt (.AST_RETURN (.AST_FUNCTION_CALL "f" .nil)) mainEntryState
        = some mainEntryState :=
  ⟨⟨_, _, rfl, rfl, rfl,
      (codegen_stmt_return onePlusTwoTimesThree mainEntryState).1 _ _ 0 1 rfl rfl rfl⟩,
    by decide,
    (codegen_stmt_return (.AST_FUNCTION_CALL "f" .nil) mainEntryState).2.1 mainEntryState
      (by decide)⟩

/-! ## The claims on the function's exit -/

/-- C9, refuted as stated: the function `f` with the body `return; x = 1;` has no nested
function definition, and its `Return` statement neither stores into the return-value
storage (instruction 0) nor branches to the return block (block 1): the entry block
goes from the store of 0 straight on to the assignment, and its only branch is the one
`codegen_function_def` appends after the body. -/
theorem return_without_value_falls_through :
    containsFunctionDef returnThenAssign = false
      ∧ ( codegen_function_def "f" [] returnThenAssign CodeGenerator.new).map
          (fun g' => (g'.blockInsts 0, g'.blockInsts 1))
        = some ([.alloca 1 "x", .alloca 0 "retval", .store (.constInt 0) (.inst 0),
              .store (.constInt 1) (.inst 1), .br 1],
            [.load 2 (.inst 0) "retval", .ret (.inst 2)]) := by
  decide

/-- C9, amended: for every `FunctionDef` whose body contains no nested `FunctionDef`
(lowered by a generator in which `printf` is declared), `codegen_function_def` succeeds;
the new function starts with its entry block and its return block; it contains exactly
one `ret`; the return block ends with a load of the return-value storage followed by
the `ret` of the loaded value, with no other `ret` before them; and every `Return`
statement whose value lowers to a value, lowered inside a function with this
return-value storage and this return block, only appends a store into that storage and
a branch to that block. -/
theorem function_def_single_ret (func_name : String) (params : ParamList) (body : ASTNode)
    (g : CodeGenerator) (hbody : containsFunctionDef body = false)
    (hprintf : ∃ p, g.printf_func = some p) :
    ∃ (g' : CodeGenerator) (fn : Function) (front : List Instr) (load : Nat),
      codegen_function_def func_name params body g = some g'
        ∧ g'.module.functions[g.module.functions.length]? = some fn
        ∧ fn.blocks.take 2 = [g.blocks.length, g.blocks.length + 1]
        ∧ g'.retCount g.module.functions.length = 1
        ∧ g'.blockInsts (g.blocks.length + 1)
          = front ++ [.load load (.inst g.nextId) "retval", .ret (.inst load)]
        ∧ (∀ i ∈ front, i.isRet = false)
        ∧ ∀ (value : ASTNode) (gA gV : CodeGenerator) (val : Value), InFunction gA →
            gA.return_value_alloca = some g.nextId →
            gA.current_return_block = some (g.blocks.length + 1) →
            codegen_expr value gA = some (some val, gV) →
            codegen_stmt (.AST_RETURN value) gA
              = some ((gV.insert (.store val (.inst g.nextId))).insert
                  (.br (g.blocks.length + 1))) := by
  obtain ⟨g1, g2, gb, g', _, _, _, _, hdef, hL1, _, hL2, hLb, _, hins, hfun, _, _, _, _⟩ :=
    codegen_function_def_phases func_name params body g hprintf
  rw [hbody] at hL2
  have hG : Grows false (enterState func_name params g) gb :=
    hL1.grows.andThen (hL2.grows.andThen hLb.grows)
  obtain ⟨fn0, hfn0, hblocks0, _, _⟩ := enterState_function func_name params g
  obtain ⟨fn, more, hfn, hblocks, hmore⟩ := hG.funcs _ fn0 hfn0
  have hlen : g.blocks.length + 2 ≤ gb.blocks.length := by
    have := hG.length_le
    simp only [enterState, List.length_append, List.length_cons, List.length_nil] at this
    omega
  have hnoret := no_ret_of_grows_enterState func_name params g gb hG
  have hret : g'.blockInsts (g.blocks.length + 1) = gb.blockInsts (g.blocks.length + 1)
      ++ [.load gb.nextId (.inst g.nextId) "retval", .ret (.inst gb.nextId)] := by
    rw [hins]
    have : g.blocks.length + 1 < gb.blocks.length := by omega
    simp [this]
  have hother : ∀ b, g.blocks.length ≤ b → b ≠ g.blocks.length + 1 →
      (g'.blockInsts b).countP Instr.isRet = 0 := by
    intro b hb hne
    rw [hins]
    simp only [hne, false_and, ↓reduceIte, List.append_nil]
    exact countP_isRet_zero _ (hnoret b hb)
  refine ⟨g', fn, gb.blockInsts (g.blocks.length + 1), gb.nextId, hdef, ?_, ?_, ?_, hret,
    hnoret _ (Nat.le_succ _), ?_⟩
  · rw [hfun]
    exact hfn
  · rw [hblocks, hblocks0]
    rfl
  · simp only [CodeGenerator.retCount, CodeGenerator.functionInsts, hfun, hfn, hblocks,
      hblocks0, List.map_append, List.map_cons, List.map_nil, List.flatten_append,
      List.flatten_cons, List.flatten_nil, List.countP_append, List.append_nil]
    rw [hother _ (Nat.le_refl _) (by omega), hret, List.countP_append,
      countP_isRet_zero _ (hnoret _ (Nat.le_succ _)),
      countP_flatten_map_zero Instr.isRet g'.blockInsts more
        (fun b hb => hother b (by
          have := hmore b hb
          simp only [enterState, List.length_append, List.length_cons, List.length_nil] at this
          omega) (by
          have := hmore b hb
          simp only [enterState, List.length_append, List.length_cons, List.length_nil] at this
          omega))]
    rfl
  · intro value gA gV val hA hra hrb hexpr
    obtain ⟨r, gV', hexpr', hLV, _⟩ := codegen_expr_lowered value gA hA
    rw [hexpr] at hexpr'
    simp only [Option.some.injEq, Prod.mk.injEq] at hexpr'
    obtain ⟨_, hgV⟩ := hexpr'
    subst hgV
    have h1 : gV.return_value_alloca = some g.nextId := hLV.return_value_alloca_eq.trans hra
    have h2 : gV.current_return_block = some (g.blocks.length + 1) :=
      hLV.current_return_block_eq.trans hrb
    simp only [codegen_stmt, hexpr, h1, h2, CreateBr, CreateStore]

/-- The witness of C9 as amended: `int main() { return 1 + 2 * 3; }` lowered by a new
generator. -/
theorem function_def_single_ret_witness :
    containsFunctionDef (.AST_RETURN onePlusTwoTimesThree) = false
      ∧ (∃ p, CodeGenerator.new.printf_func = some p)
      ∧ ∃ (g' : CodeGenerator) (fn : Function) (front : List Instr) (load : Nat),
        codegen_function_def "main" [] (.AST_RETURN onePlusTwoTimesThree) CodeGenerator.new
            = some g'
          ∧ g'.module.functions[CodeGenerator.new.module.functions.length]? = some fn
          ∧ fn.blocks.take 2
            = [CodeGenerator.new.blocks.length, CodeGenerator.new.blocks.length + 1]
          ∧ g'.retCount CodeGenerator.new.module.functions.length = 1
          ∧ g'.blockInsts (CodeGenerator.new.blocks.length + 1)
            = front ++ [.load load (.inst CodeGenerator.new.nextId) "retval",
                .ret (.inst load)]
          ∧ (∀ i ∈ front, i.isRet = false)
          ∧ ∀ (value : ASTNode) (gA gV : CodeGenerator) (val : Value), InFunction gA →
              gA.return_value_alloca = some CodeGenerator.new.nextId →
              gA.current_return_block = some (CodeGenerator.new.blocks.length + 1) →
              codegen_expr value gA = some (some val, gV) →
              codegen_stmt (.AST_RETURN value) gA
                = some ((gV.insert (.store val (.inst CodeGenerator.new.nextId))).insert
                    (.br (CodeGenerator.new.blocks.length + 1))) :=
  ⟨by decide, ⟨0, by decide⟩,
    function_def_single_ret "main" [] (.AST_RETURN onePlusTwoTimesThree) CodeGenerator.new
      (by decide) ⟨0, by decide⟩⟩

/-- What the loop of `lookup` returns: -1 when no entry has the name, otherwise the
position of the first entry with the name, counted from `i`. -/
theorem lookup_from_spec : ∀ (l : List Symbol) (name : String) (i : Nat),
    (l.find? (fun s => decide (s.name = name)) = none ∧ lookup_from l name i = -1)
      ∨ ∃ (k : Nat) (s : Symbol), lookup_from l name i = ((i + k : Nat) : Int)
          ∧ l[k]? = some s ∧ l.find? (fun s => decide (s.name = name)) = some s
  | [], name, i => by simp [lookup_from]
  | a :: rest, name, i => by
    by_cases h : a.name = name
    · right
      exact ⟨0, a, by simp [lookup_from, h], by simp, by simp [h]⟩
    · rcases lookup_from_spec rest name (i + 1) with ⟨h1, h2⟩ | ⟨k, s, h1, h2, h3⟩
      · left
        exact ⟨by simp [List.find?, h, h1], by simp [lookup_from, h, h2]⟩
      · right
        refine ⟨k + 1, s, ?_, by simpa using h2, by simp [List.find?, h, h3]⟩
        simp only [lookup_from, h, if_false, h1]
        congr 1
        omega

/-- The entry the getters read is the first entry with the name. -/
theorem found_eq_find (t : SymbolTable) (name : String) :
    t.found name = t.symbols.find? (fun s => decide (s.name = name)) := by
  unfold SymbolTable.found SymbolTable.lookup
  rcases lookup_from_spec t.symbols name 0 with ⟨h1, h2⟩ | ⟨k, s, h1, h2, h3⟩
  · simp [h1, h2]
  · simp [h1, h2, h3]

/-- The test `lookup(name) >= 0` holds exactly when some entry has the name. -/
theorem lookup_nonneg_iff (t : SymbolTable) (name : String) :
    0 ≤ t.lookup name ↔ ∃ s ∈ t.symbols, s.name = name := by
  unfold SymbolTable.lookup
  rcases lookup_from_spec t.symbols name 0 with ⟨h1, h2⟩ | ⟨k, s, h1, h2, h3⟩
  · rw [h2]
    simp only [List.find?_eq_none, decide_eq_true_eq] at h1
    constructor
    · intro h
      omega
    · rintro ⟨s, hs, hn⟩
      exact absurd hn (h1 s hs)
  · rw [h1]
    constructor
    · intro _
      have hm := List.mem_of_find?_eq_some h3
      have hp := List.find?_some h3
      exact ⟨s, hm, by simpa using hp⟩
    · intro _
      exact Int.ofNat_nonneg _

/-- When no entry has the name, `lookup` returns -1. -/
theorem lookup_eq_neg_one (t : SymbolTable) (name : String) (h : ¬ 0 ≤ t.lookup name) :
    t.lookup name = -1 := by
  unfold SymbolTable.lookup at h ⊢
  rcases lookup_from_spec t.symbols name 0 with ⟨_, h2⟩ | ⟨k, s, h1, _, _⟩
  · exact h2
  · rw [h1] at h
    exact absurd (Int.ofNat_nonneg _) h

/-- The entries kept by a test are the same, up to what the function changes, when an
entry is changed by a function that keeps the test. -/
theorem filter_modify_map {β : Type} (f : Symbol → Symbol) (p : Symbol → Bool) (g : Symbol → β)
    (hp : ∀ s, p (f s) = p s) (hg : ∀ s, g (f s) = g s) : ∀ (l : List Symbol) (n : Nat),
      ((l.modify f n).filter p).map g = (l.filter p).map g
  | [], n => by simp
  | a :: rest, 0 => by
    simp only [List.modify_zero_cons, List.filter, hp]
    cases p a <;> simp [hg]
  | a :: rest, n + 1 => by
    simp only [List.modify_succ_cons, List.filter]
    cases p a
    · exact filter_modify_map f p g hp hg rest n
    · have ih := filter_modify_map f p g hp hg rest n
      simp only [List.modify] at ih
      simp [List.modify, ih]

/-- What `set` leaves of the list: the same entries up to one value. -/
theorem set_symbols (t : SymbolTable) (name : String) (value : Int) :
    ∃ n, (t.set name value).symbols
        = t.symbols.modify (fun s => { s with value := value }) n
      ∧ (t.set name value).stack_offset = t.stack_offset := by
  unfold SymbolTable.set
  by_cases h : 0 ≤ t.lookup name
  · exact ⟨(t.lookup name).toNat, by simp [h], by simp [h]⟩
  · exact ⟨t.symbols.length, by simp [h, List.modify_eq_self], by simp [h]⟩

/-- What a call leaves of the list: the same entries up to one value, or one more entry
with a name that was not in the list. -/
theorem call_symbols (t : SymbolTable) (c : SymtabCall) :
    (∃ n value, (t.call c).symbols = t.symbols.modify (fun s => { s with value := value }) n
        ∧ (t.call c).stack_offset = t.stack_offset)
      ∨ ∃ s, (t.call c).symbols = t.symbols ++ [s] ∧ (∀ s' ∈ t.symbols, s'.name ≠ s.name)
          ∧ ((s.type = .FUNCTION ∧ s.offset = 0 ∧ (t.call c).stack_offset = t.stack_offset)
            ∨ (s.type ≠ .FUNCTION ∧ s.offset = t.stack_offset
              ∧ (t.call c).stack_offset = t.stack_offset + 4)) := by
  have hid : ∃ n value, t.symbols = t.symbols.modify (fun s => { s with value := value }) n :=
    ⟨t.symbols.length, 0, by simp [List.modify_eq_self]⟩
  have hfresh : ∀ name, ¬ 0 ≤ t.lookup name → ∀ s' ∈ t.symbols, s'.name ≠ name := by
    intro name h s' hs' hn
    exact h ((lookup_nonneg_iff t name).2 ⟨s', hs', hn⟩)
  cases c with
  | add name =>
    by_cases h : 0 ≤ t.lookup name
    · left
      obtain ⟨n, v, hn⟩ := hid
      exact ⟨n, v, by simpa [SymbolTable.call, SymbolTable.add, h] using hn,
        by simp [SymbolTable.call, SymbolTable.add, h]⟩
    · right
      exact ⟨Symbol.mk name .VARIABLE 0 t.stack_offset 0,
        by simp [SymbolTable.call, SymbolTable.add, h], hfresh name h,
        Or.inr ⟨by simp, rfl, by simp [SymbolTable.call, SymbolTable.add, h]⟩⟩
  | add_function name param_count =>
    by_cases h : 0 ≤ t.lookup name
    · left
      obtain ⟨n, v, hn⟩ := hid
      exact ⟨n, v, by simpa [SymbolTable.call, SymbolTable.add_function, h] using hn,
        by simp [SymbolTable.call, SymbolTable.add_function, h]⟩
    · right
      exact ⟨Symbol.mk name .FUNCTION 0 0 param_count,
        by simp [SymbolTable.call, SymbolTable.add_function, h], hfresh name h,
        Or.inl ⟨rfl, rfl, by simp [SymbolTable.call, SymbolTable.add_function, h]⟩⟩
  | add_parameter name =>
    by_cases h : 0 ≤ t.lookup name
    · left
      obtain ⟨n, v, hn⟩ := hid
      exact ⟨n, v, by simpa [SymbolTable.call, SymbolTable.add_parameter, h] using hn,
        by simp [SymbolTable.call, SymbolTable.add_parameter, h]⟩
    · right
      exact ⟨Symbol.mk name .PARAMETER 0 t.stack_offset 0,
        by simp [SymbolTable.call, SymbolTable.add_parameter, h], hfresh name h,
        Or.inr ⟨by simp, rfl, by simp [SymbolTable.call, SymbolTable.add_parameter, h]⟩⟩
  | set name value =>
    left
    obtain ⟨n, h1, h2⟩ := set_symbols t name value
    exact ⟨n, value, h1, h2⟩

/-- The empty table satisfies the invariant. -/
theorem valid_new : SymbolTable.new.Valid where
  names := by simp [SymbolTable.new]
  slot_offset := by simp [SymbolTable.new, SymbolTable.slots]
  function_offset := by simp [SymbolTable.new]
  stack := by simp [SymbolTable.new, SymbolTable.slots]

/-- Every call keeps the invariant. -/
theorem valid_call {t : SymbolTable} (h : t.Valid) (c : SymtabCall) : (t.call c).Valid := by
  rcases call_symbols t c with ⟨n, value, hs, ho⟩ | ⟨s, hs, hfresh, hkind⟩
  · have hslots : (t.call c).slots.map Symbol.offset = t.slots.map Symbol.offset := by
      unfold SymbolTable.slots
      rw [hs]
      exact filter_modify_map (fun s => { s with value := value })
        (fun s => decide (s.type ≠ .FUNCTION)) Symbol.offset (fun _ => rfl) (fun _ => rfl)
        t.symbols n
    have hlen : (t.call c).slots.length = t.slots.length := by
      have := congrArg List.length hslots
      simpa using this
    refine ⟨?_, ?_, ?_, ?_⟩
    · have : (t.call c).symbols.map Symbol.name = t.symbols.map Symbol.name := by
        rw [hs]
        apply List.ext_getElem?
        intro i
        simp only [List.getElem?_map, List.getElem?_modify]
        cases t.symbols[i]? with
        | none => rfl
        | some x => by_cases hi : n = i <;> simp [hi]
      rw [this]
      exact h.names
    · intro k x hx
      have h1 : ((t.call c).slots.map Symbol.offset)[k]? = some x.offset := by
        simp [List.getElem?_map, hx]
      rw [hslots, List.getElem?_map] at h1
      cases h0 : t.slots[k]? with
      | none => simp [h0] at h1
      | some y =>
        simp only [h0, Option.map_some', Option.some.injEq] at h1
        rw [← h1]
        exact h.slot_offset k y h0
    · intro x hx hty
      rw [hs] at hx
      obtain ⟨i, hi⟩ := List.mem_iff_getElem?.1 hx
      rw [List.getElem?_modify] at hi
      cases h0 : t.symbols[i]? with
      | none => simp [h0] at hi
      | some y =>
        have hy := h.function_offset y (List.getElem?_mem h0)
        by_cases hni : n = i
        · simp only [h0, hni, if_true, Option.map_eq_map, Option.map_some',
            Option.some.injEq] at hi
          subst hi
          exact hy hty
        · simp only [h0, hni, if_false, Option.map_eq_map, Option.map_some',
            Option.some.injEq] at hi
          subst hi
          exact hy hty
    · rw [ho, hlen]
      exact h.stack
  · refine ⟨?_, ?_, ?_, ?_⟩
    · rw [hs, List.map_append, List.nodup_append]
      refine ⟨h.names, by simp, ?_⟩
      intro a ha hb
      simp only [List.map_cons, List.map_nil, List.mem_singleton] at hb
      obtain ⟨s', hs', hn⟩ := List.mem_map.1 ha
      exact hfresh s' hs' (hn.trans hb)
    · intro k x hx
      rcases hkind with ⟨hty, _, _⟩ | ⟨hty, hoff, _⟩
      · have : (t.call c).slots = t.slots := by
          simp [SymbolTable.slots, hs, List.filter_append, hty]
        rw [this] at hx
        exact h.slot_offset k x hx
      · have : (t.call c).slots = t.slots ++ [s] := by
          simp [SymbolTable.slots, hs, List.filter_append, hty]
        rw [this] at hx
        by_cases hk : k < t.slots.length
        · rw [List.getElem?_append_left hk] at hx
          exact h.slot_offset k x hx
        · rw [List.getElem?_append_right (Nat.le_of_not_lt hk)] at hx
          have hk0 : k - t.slots.length = 0 := by
            cases hd : k - t.slots.length with
            | zero => rfl
            | succ j => simp [hd] at hx
          simp only [hk0, List.getElem?_cons_zero, Option.some.injEq] at hx
          subst hx
          rw [hoff, h.stack]
          congr 1
          have : k = t.slots.length := by omega
          rw [this]
    · intro x hx hty
      rw [hs] at hx
      rcases List.mem_append.1 hx with h0 | h0
      · exact h.function_offset x h0 hty
      · simp only [List.mem_singleton] at h0
        subst h0
        rcases hkind with ⟨_, hoff, _⟩ | ⟨hnf, _, _⟩
        · exact hoff
        · exact absurd hty hnf
    · rcases hkind with ⟨hty, _, ho⟩ | ⟨hty, _, ho⟩
      · have : (t.call c).slots = t.slots := by
          simp [SymbolTable.slots, hs, List.filter_append, hty]
        rw [ho, this]
        exact h.stack
      · have : (t.call c).slots = t.slots ++ [s] := by
          simp [SymbolTable.slots, hs, List.filter_append, hty]
        rw [ho, this, h.stack]
        simp only [List.length_append, List.length_singleton, Nat.cast_add, Nat.cast_one]
        ring

/-- Every sequence of calls keeps the invariant. -/
theorem valid_calls : ∀ (cs : List SymtabCall) {t : SymbolTable}, t.Valid → (t.calls cs).Valid
  | [], _, h => h
  | c :: rest, _, h => valid_calls rest (valid_call h c)

/-- The getters in terms of the entry found. -/
theorem getters_eq (t : SymbolTable) (name : String) :
    t.get_type name = ((t.found name).map Symbol.type).getD .VARIABLE
      ∧ t.get_offset name = ((t.found name).map Symbol.offset).getD 0
      ∧ t.get_param_count name = ((t.found name).map Symbol.param_count).getD 0 := by
  unfold SymbolTable.get_type SymbolTable.get_offset SymbolTable.get_param_count
  cases t.found name <;> simp

theorem ExprFrame.unchanged (g : CodeGenerator) : ExprFrame g g :=
  ⟨rfl, rfl, rfl, rfl, rfl, rfl, rfl⟩

theorem ExprFrame.chain {g g1 g2 : CodeGenerator} (h1 : ExprFrame g g1)
    (h2 : ExprFrame g1 g2) : ExprFrame g g2 :=
  ⟨h2.module_eq.trans h1.module_eq, h2.insertBlock_eq.trans h1.insertBlock_eq,
    h2.global_vars_eq.trans h1.global_vars_eq,
    h2.current_function_eq.trans h1.current_function_eq,
    h2.current_return_block_eq.trans h1.current_return_block_eq,
    h2.return_value_alloca_eq.trans h1.return_value_alloca_eq,
    h2.printf_func_eq.trans h1.printf_func_eq⟩

/-- An instruction that yields a value, appended at the builder's position. -/
theorem ExprFrame.created (g : CodeGenerator) (i : Instr) :
    ExprFrame g { g.insert i with nextId := g.nextId + 1 } :=
  ⟨by simp, by simp, by simp, by simp, by simp, by simp, by simp⟩

theorem local_alloca_frame {name : String} {g g1 : CodeGenerator} {a : Nat}
    (h : local_alloca name g = some (a, g1)) : ExprFrame g g1 := by
  unfold local_alloca at h
  cases hm : mapFind g.named_values name with
  | some x =>
    simp only [hm, Option.some.injEq, Prod.mk.injEq] at h
    rw [← h.2]
    exact ExprFrame.unchanged g
  | none =>
    simp only [hm] at h
    cases hc : create_entry_block_alloca g.current_function name g with
    | none => simp [hc] at h
    | some p =>
      obtain ⟨a1, g2⟩ := p
      simp only [hc, Option.some.injEq, Prod.mk.injEq] at h
      obtain ⟨entry, _, hg2⟩ := create_entry_block_alloca_eq hc
      rw [← h.2, hg2]
      exact ⟨rfl, rfl, rfl, rfl, rfl, rfl, rfl⟩

theorem local_alloca_module {name : String} {g g1 : CodeGenerator} {a : Nat}
    (h : local_alloca name g = some (a, g1)) : g1.module = g.module :=
  (local_alloca_frame h).module_eq

theorem codegen_binary_op_frame (op : BinaryOp) (lv rv : Value) (g : CodeGenerator) :
    ExprFrame g (codegen_binary_op op lv rv g).2 := by
  cases op <;>
    exact ⟨by simp [codegen_binary_op, CreateArith, CreateICmp, CreateZExt],
      by simp [codegen_binary_op, CreateArith, CreateICmp, CreateZExt],
      by simp [codegen_binary_op, CreateArith, CreateICmp, CreateZExt],
      by simp [codegen_binary_op, CreateArith, CreateICmp, CreateZExt],
      by simp [codegen_binary_op, CreateArith, CreateICmp, CreateZExt],
      by simp [codegen_binary_op, CreateArith, CreateICmp, CreateZExt],
      by simp [codegen_binary_op, CreateArith, CreateICmp, CreateZExt]⟩

mutual
/-- Lowering an expression, whatever comes out, leaves the module, the builder's
block, the declared globals and the function context apart from the local bindings as
they were. -/
theorem codegen_expr_frame : ∀ (e : ASTNode) (g : CodeGenerator)
    (r : Option Value) (g' : CodeGenerator),
    codegen_expr e g = some (r, g') → ExprFrame g g'
  | .null, g, r, g', h => by
    simp only [codegen_expr, Option.some.injEq, Prod.mk.injEq] at h
    rw [← h.2]
    exact ExprFrame.unchanged g
  | .AST_NUMBER _, g, r, g', h => by
    simp only [codegen_expr, Option.some.injEq, Prod.mk.injEq] at h
    rw [← h.2]
    exact ExprFrame.unchanged g
  | .AST_VARIABLE name, g, r, g', h => by
    simp only [codegen_expr] at h
    cases hg : mapFind g.global_vars name with
    | some global =>
      simp only [hg, Option.some.injEq, Prod.mk.injEq] at h
      rw [← h.2]
      exact ExprFrame.created g _
    | none =>
      simp only [hg] at h
      cases hl : local_alloca name g with
      | none => simp [hl] at h
      | some p =>
        obtain ⟨a, g1⟩ := p
        simp only [hl, Option.some.injEq, Prod.mk.injEq] at h
        rw [← h.2]
        exact (local_alloca_frame hl).chain (ExprFrame.created g1 _)
  | .AST_BINARY_OP op left right, g, r, g', h => by
    simp only [codegen_expr] at h
    cases h1 : codegen_expr left g with
    | none => simp [h1] at h
    | some p1 =>
      obtain ⟨l, g1⟩ := p1
      simp only [h1] at h
      cases h2 : codegen_expr right g1 with
      | none => simp [h2] at h
      | some p2 =>
        obtain ⟨rr, g2⟩ := p2
        simp only [h2] at h
        have e12 := (codegen_expr_frame left g l g1 h1).chain
          (codegen_expr_frame right g1 rr g2 h2)
        cases l with
        | none =>
          simp only [Option.some.injEq, Prod.mk.injEq] at h
          rw [← h.2]
          exact e12
        | some lv =>
          cases rr with
          | none =>
            simp only [Option.some.injEq, Prod.mk.injEq] at h
            rw [← h.2]
            exact e12
          | some rv =>
            simp only [Option.some.injEq, Prod.mk.injEq] at h
            rw [← h.2]
            exact e12.chain (codegen_binary_op_frame op lv rv g2)
  | .AST_FUNCTION_CALL name args, g, r, g', h => by
    simp only [codegen_expr] at h
    cases hf : g.module.getFunction name with
    | none =>
      simp only [hf, Option.some.injEq, Prod.mk.injEq] at h
      rw [← h.2]
      exact ExprFrame.unchanged g
    | some callee =>
      simp only [hf] at h
      cases h1 : codegen_args args g with
      | none => simp [h1] at h
      | some p1 =>
        obtain ⟨vs, g1⟩ := p1
        have e1 := codegen_args_frame args g vs g1 h1
        cases vs with
        | none =>
          simp only [h1, Option.some.injEq, Prod.mk.injEq] at h
          rw [← h.2]
          exact e1
        | some vals =>
          simp only [h1, Option.some.injEq, Prod.mk.injEq] at h
          rw [← h.2]
          exact e1.chain (ExprFrame.created g1 _)
  | .AST_ASSIGNMENT _ _, g, r, g', h => by
    simp only [codegen_expr, Option.some.injEq, Prod.mk.injEq] at h
    rw [← h.2]
    exact ExprFrame.unchanged g
  | .AST_RETURN _, g, r, g', h => by
    simp only [codegen_expr, Option.some.injEq, Prod.mk.injEq] at h
    rw [← h.2]
    exact ExprFrame.unchanged g
  | .AST_SEQUENCE _ _, g, r, g', h => by
    simp only [codegen_expr, Option.some.injEq, Prod.mk.injEq] at h
    rw [← h.2]
    exact ExprFrame.unchanged g
  | .AST_WHILE _ _, g, r, g', h => by
    simp only [codegen_expr, Option.some.injEq, Prod.mk.injEq] at h
    rw [← h.2]
    exact ExprFrame.unchanged g
  | .AST_FOR _ _ _ _, g, r, g', h => by
    simp only [codegen_expr, Option.some.injEq, Prod.mk.injEq] at h
    rw [← h.2]
    exact ExprFrame.unchanged g
  | .AST_IF _ _ _, g, r, g', h => by
    simp only [codegen_expr, Option.some.injEq, Prod.mk.injEq] at h
    rw [← h.2]
    exact ExprFrame.unchanged g
  | .AST_PRINT _, g, r, g', h => by
    simp only [codegen_expr, Option.some.injEq, Prod.mk.injEq] at h
    rw [← h.2]
    exact ExprFrame.unchanged g
  | .AST_FUNCTION_DEF _ _ _, g, r, g', h => by
    simp only [codegen_expr, Option.some.injEq, Prod.mk.injEq] at h
    rw [← h.2]
    exact ExprFrame.unchanged g
  | .AST_GLOBAL_VAR _ _, g, r, g', h => by
    simp only [codegen_expr, Option.some.injEq, Prod.mk.injEq] at h
    rw [← h.2]
    exact ExprFrame.unchanged g
/-- The same for the argument list of a call. -/
theorem codegen_args_frame : ∀ (args : ArgList) (g : CodeGenerator)
    (r : Option (List Value)) (g' : CodeGenerator),
    codegen_args args g = some (r, g') → ExprFrame g g'
  | .nil, g, r, g', h => by
    simp only [codegen_args, Option.some.injEq, Prod.mk.injEq] at h
    rw [← h.2]
    exact ExprFrame.unchanged g
  | .cons expr next, g, r, g', h => by
    simp only [codegen_args] at h
    cases h1 : codegen_expr expr g with
    | none => simp [h1] at h
    | some p1 =>
      obtain ⟨v, g1⟩ := p1
      have e1 := codegen_expr_frame expr g v g1 h1
      cases v with
      | none =>
        simp only [h1, Option.some.injEq, Prod.mk.injEq] at h
        rw [← h.2]
        exact e1
      | some val =>
        simp only [h1] at h
        cases h2 : codegen_args next g1 with
        | none => simp [h2] at h
        | some p2 =>
          obtain ⟨vs, g2⟩ := p2
          have e2 := codegen_args_frame next g1 vs g2 h2
          cases vs with
          | none =>
            simp only [h2, Option.some.injEq, Prod.mk.injEq] at h
            rw [← h.2]
            exact e1.chain e2
          | some rest =>
            simp only [h2, Option.some.injEq, Prod.mk.injEq] at h
            rw [← h.2]
            exact e1.chain e2
end

/-- Lowering an expression leaves the module as it was: its functions, globals,
strings and symbol table. -/
theorem codegen_expr_module (e : ASTNode) (g : CodeGenerator) (r : Option Value)
    (g' : CodeGenerator) (h : codegen_expr e g = some (r, g')) : g'.module = g.module :=
  (codegen_expr_frame e g r g' h).module_eq

/-- The same for the argument list of a call. -/
theorem codegen_args_module (args : ArgList) (g : CodeGenerator) (r : Option (List Value))
    (g' : CodeGenerator) (h : codegen_args args g = some (r, g')) : g'.module = g.module :=
  (codegen_args_frame args g r g' h).module_eq

/-! ## The module's symbol table only grows -/

theorem SymtabAdds.of_eq {names : List String} {g g' : CodeGenerator}
    (h : g'.module.symtab = g.module.symtab) : SymtabAdds names g g' :=
  ⟨[], by simp [h], by simp⟩

theorem SymtabAdds.append {n1 n2 : List String} {g g1 g2 : CodeGenerator}
    (h1 : SymtabAdds n1 g g1) (h2 : SymtabAdds n2 g1 g2) : SymtabAdds (n1 ++ n2) g g2 := by
  obtain ⟨m1, e1, p1⟩ := h1
  obtain ⟨m2, e2, p2⟩ := h2
  refine ⟨m1 ++ m2, by rw [e2, e1, List.append_assoc], ?_⟩
  intro kv hkv
  rcases List.mem_append.1 hkv with h | h
  · obtain ⟨hf, base, hb, hr⟩ := p1 kv h
    exact ⟨hf, base, List.mem_append_left _ hb, hr⟩
  · obtain ⟨hf, base, hb, hr⟩ := p2 kv h
    exact ⟨hf, base, List.mem_append_right _ hb, hr⟩

theorem SymtabAdds.subset {n1 n2 : List String} {g g' : CodeGenerator}
    (h : SymtabAdds n1 g g') (hs : ∀ x ∈ n1, x ∈ n2) : SymtabAdds n2 g g' := by
  obtain ⟨m, e, p⟩ := h
  refine ⟨m, e, ?_⟩
  intro kv hkv
  obtain ⟨hf, base, hb, hr⟩ := p kv hkv
  exact ⟨hf, base, hs base hb, hr⟩

theorem SymtabAdds.before {names : List String} {g0 g g' : CodeGenerator}
    (h : SymtabAdds names g g') (h0 : g.module.symtab = g0.module.symtab) :
    SymtabAdds names g0 g' := by
  obtain ⟨m, e, p⟩ := h
  exact ⟨m, by rw [e, h0], p⟩

theorem SymtabAdds.after {names : List String} {g g' g1 : CodeGenerator}
    (h : SymtabAdds names g g') (h1 : g1.module.symtab = g'.module.symtab) :
    SymtabAdds names g g1 := by
  obtain ⟨m, e, p⟩ := h
  exact ⟨m, by rw [h1, e], p⟩

theorem block_create_symtab (name : String) (func : Option Nat) (g : CodeGenerator) :
    (BasicBlock_Create name func g).2.module.symtab = g.module.symtab := by
  simp [BasicBlock_Create]

theorem branchIfNoTerminator_module {dest : Option Nat} {g g1 : CodeGenerator}
    (h : branchIfNoTerminator dest g = some g1) : g1.module = g.module := by
  unfold branchIfNoTerminator at h
  split at h
  · simp at h
  · split at h
    · simp at h
    · split at h
      · simp only [Option.some.injEq] at h
        rw [← h]
      · cases dest with
        | none => simp [CreateBr] at h
        | some d =>
          simp only [CreateBr, Option.some.injEq] at h
          rw [← h, insert_module]

theorem global_string_symtab {str : String} {g g1 : CodeGenerator} {v : Value}
    (h : CreateGlobalString str g = some (v, g1)) : g1.module.symtab = g.module.symtab := by
  unfold CreateGlobalString at h
  split at h
  · simp at h
  · split at h
    · simp at h
    · split at h
      · simp at h
      · simp only [Option.some.injEq, Prod.mk.injEq] at h
        rw [← h.2]

theorem store_params_module (func : Nat) : ∀ (params : ParamList) (index : Nat)
    (g g' : CodeGenerator), store_params func params index g = some g' → g'.module = g.module
  | [], _, g, g', h => by
    simp only [store_params, Option.some.injEq] at h
    rw [← h]
  | name :: next, index, g, g', h => by
    simp only [store_params] at h
    cases hc : create_entry_block_alloca (some func) name g with
    | none => simp [hc] at h
    | some p =>
      obtain ⟨a, g1⟩ := p
      simp only [hc] at h
      obtain ⟨entry, _, hg1⟩ := create_entry_block_alloca_eq hc
      rw [store_params_module func next (index + 1) _ g' h]
      simp [CreateStore, hg1]

/-- The name `makeUniqueName` returns is the base name, a dot and a number. -/
theorem makeUniqueName_form (symtab : List (String × GlobalValue)) (base : String) :
    ∀ (fuel last : Nat), ∃ k : Nat, (makeUniqueName symtab base fuel last).1
      = base ++ "." ++ toString k
  | 0, last => ⟨last + 1, rfl⟩
  | fuel + 1, last => by
    simp only [makeUniqueName]
    cases mapFind symtab (base ++ "." ++ toString (last + 1)) with
    | none => exact ⟨last + 1, rfl⟩
    | some _ => exact makeUniqueName_form symtab base fuel (last + 1)

/-- Registration appends at most one binding to the symbol table of the module: of a
free name to the value, of a taken name followed by a dot and a number to the value,
and nothing for the empty name. -/
theorem registerName_symtab (m : Module) (name : String) (v : GlobalValue) :
    (name = "" ∧ (m.registerName name v).2.symtab = m.symtab)
      ∨ (name ≠ "" ∧ mapFind m.symtab name = none
          ∧ (m.registerName name v).1 = name
          ∧ (m.registerName name v).2.symtab = m.symtab ++ [(name, v)])
      ∨ (name ≠ "" ∧ (∃ old, mapFind m.symtab name = some old)
          ∧ ∃ k : Nat, (m.registerName name v).2.symtab
              = m.symtab ++ [(name ++ "." ++ toString k, v)]) := by
  unfold Module.registerName
  by_cases h0 : name = ""
  · exact Or.inl ⟨h0, by simp [h0]⟩
  · cases hm : mapFind m.symtab name with
    | none => exact Or.inr (Or.inl ⟨h0, rfl, by simp [h0], by simp [h0]⟩)
    | some old =>
      obtain ⟨k, hk⟩ := makeUniqueName_form m.symtab name (m.symtab.length + 1) m.lastUnique
      exact Or.inr (Or.inr ⟨h0, ⟨old, rfl⟩, k, by simp [h0, hk]⟩)

theorem function_def_enter_symtab {func_name : String} {params : ParamList}
    {g g1 : CodeGenerator} {saved : SavedContext}
    (h : function_def_enter func_name params g = some (saved, g1)) :
    g1.module.symtab
      = (g.module.registerName func_name (.function g.module.functions.length)).2.symtab := by
  rw [function_def_enter_eq] at h
  split at h
  · simp at h
  · rename_i g8 hs
    simp only [Option.some.injEq, Prod.mk.injEq] at h
    rw [← h.2, store_params_module _ _ _ _ _ hs]
    rfl

theorem function_def_enter_adds {func_name : String} {params : ParamList}
    {g g1 : CodeGenerator} {saved : SavedContext}
    (h : function_def_enter func_name params g = some (saved, g1)) :
    SymtabAdds [func_name] g g1 := by
  have hs := function_def_enter_symtab h
  rcases registerName_symtab g.module func_name (.function g.module.functions.length) with
    ⟨_, e⟩ | ⟨_, _, _, e⟩ | ⟨_, _, k, e⟩
  · exact SymtabAdds.of_eq (hs.trans e)
  · refine ⟨[(func_name, .function g.module.functions.length)], hs.trans e, ?_⟩
    intro kv hkv
    simp only [List.mem_singleton] at hkv
    subst hkv
    exact ⟨⟨_, rfl⟩, func_name, by simp, Or.inl rfl⟩
  · refine ⟨[(func_name ++ "." ++ toString k, .function g.module.functions.length)],
      hs.trans e, ?_⟩
    intro kv hkv
    simp only [List.mem_singleton] at hkv
    subst hkv
    exact ⟨⟨_, rfl⟩, func_name, by simp, Or.inr ⟨k, rfl⟩⟩

theorem function_def_leave_module {saved : SavedContext} {g g' : CodeGenerator}
    (h : function_def_leave saved g = some g') : g'.module = g.module := by
  unfold function_def_leave at h
  split at h
  · simp at h
  · rename_i g1 hb
    split at h
    · simp only [Option.some.injEq] at h
      rw [← h]
      simp [CreateLoad, SetInsertPoint, branchIfNoTerminator_module hb]
    · simp at h

/-- Lowering a statement only appends to the symbol table of the module, and what it
appends are functions registered for the function definitions in statement position. -/
theorem codegen_stmt_adds : ∀ (s : ASTNode) (g g' : CodeGenerator),
    codegen_stmt s g = some g' → SymtabAdds (statementFunctionDefs s) g g'
  | .null, g, g', h => by
    simp only [codegen_stmt, Option.some.injEq] at h
    exact SymtabAdds.of_eq (by rw [← h])
  | .AST_NUMBER number, g, g', h => by
    simp only [codegen_stmt] at h
    split at h
    · simp at h
    · rename_i r g1 hc
      simp only [Option.some.injEq] at h
      subst h
      exact SymtabAdds.of_eq (by rw [codegen_expr_module _ _ _ _ hc])
  | .AST_VARIABLE name, g, g', h => by
    simp only [codegen_stmt] at h
    split at h
    · simp at h
    · rename_i r g1 hc
      simp only [Option.some.injEq] at h
      subst h
      exact SymtabAdds.of_eq (by rw [codegen_expr_module _ _ _ _ hc])
  | .AST_BINARY_OP op left right, g, g', h => by
    simp only [codegen_stmt] at h
    split at h
    · simp at h
    · rename_i r g1 hc
      simp only [Option.some.injEq] at h
      subst h
      exact SymtabAdds.of_eq (by rw [codegen_expr_module _ _ _ _ hc])
  | .AST_FUNCTION_CALL name args, g, g', h => by
    simp only [codegen_stmt] at h
    split at h
    · simp at h
    · rename_i r g1 hc
      simp only [Option.some.injEq] at h
      subst h
      exact SymtabAdds.of_eq (by rw [codegen_expr_module _ _ _ _ hc])
  | .AST_GLOBAL_VAR _ _, g, g', h => by
    simp only [codegen_stmt, Option.some.injEq] at h
    exact SymtabAdds.of_eq (by rw [← h])
  | .AST_ASSIGNMENT name value, g, g', h => by
    simp only [codegen_stmt] at h
    split at h
    · simp at h
    · rename_i g1 hc
      simp only [Option.some.injEq] at h
      subst h
      exact SymtabAdds.of_eq (by rw [codegen_expr_module _ _ _ _ hc])
    · rename_i val g1 hc
      have e := codegen_expr_module _ _ _ _ hc
      split at h
      · simp only [Option.some.injEq] at h
        subst h
        exact SymtabAdds.of_eq (by simp [CreateStore, e])
      · split at h
        · simp at h
        · rename_i a g2 hl
          simp only [Option.some.injEq] at h
          subst h
          exact SymtabAdds.of_eq (by simp [CreateStore, local_alloca_module hl, e])
  | .AST_RETURN return_value, g, g', h => by
    simp only [codegen_stmt] at h
    split at h
    · simp at h
    · rename_i ret_val g1 hc
      have e := codegen_expr_module _ _ _ _ hc
      split at h
      · cases hd : g1.current_return_block with
        | none => simp [hd, CreateBr] at h
        | some d =>
          simp only [hd, CreateBr, Option.some.injEq] at h
          subst h
          exact SymtabAdds.of_eq (by simp [CreateStore, e])
      · simp only [Option.some.injEq] at h
        subst h
        exact SymtabAdds.of_eq (by rw [e])
  | .AST_SEQUENCE first second, g, g', h => by
    simp only [codegen_stmt] at h
    split at h
    · simp at h
    · rename_i g1 h1
      exact (codegen_stmt_adds first g g1 h1).append (codegen_stmt_adds second g1 g' h)
  | .AST_WHILE condition body, g, g', h => by
    simp only [codegen_stmt] at h
    split at h
    · simp at h
    · rename_i g2 hc
      simp only [Option.some.injEq] at h
      subst h
      apply SymtabAdds.of_eq
      rw [codegen_expr_module _ _ _ _ hc]
      simp [SetInsertPoint, block_create_symtab]
    · rename_i cond g2 hc
      have e := codegen_expr_module _ _ _ _ hc
      split at h
      · simp at h
      · rename_i g4 hb
        simp only [Option.some.injEq] at h
        subst h
        refine ((codegen_stmt_adds body _ g4 hb).before ?_).after ?_
        · simp [SetInsertPoint, CreateCondBr, CreateICmp, e, block_create_symtab]
        · simp [SetInsertPoint]
  | .AST_FOR init condition increment body, g, g', h => by
    simp only [codegen_stmt] at h
    split at h
    · simp at h
    · rename_i g0 hi
      have a0 := codegen_stmt_adds init g g0 hi
      split at h
      · simp at h
      · rename_i g2 hc
        simp only [Option.some.injEq] at h
        subst h
        refine (a0.after ?_).subset (by simp [statementFunctionDefs]; tauto)
        rw [codegen_expr_module _ _ _ _ hc]
        simp [SetInsertPoint, block_create_symtab]
      · rename_i cond g2 hc
        have e := codegen_expr_module _ _ _ _ hc
        split at h
        · simp at h
        · rename_i g4 hb
          split at h
          · simp at h
          · rename_i g5 hn
            simp only [Option.some.injEq] at h
            subst h
            simp only [statementFunctionDefs]
            refine a0.append (((codegen_stmt_adds body _ g4 hb).before ?_).append
              ((codegen_stmt_adds increment g4 g5 hn).after ?_))
            · simp [SetInsertPoint, CreateCondBr, CreateICmp, e, block_create_symtab]
            · simp [SetInsertPoint]
  | .AST_IF condition then_branch else_branch, g, g', h => by
    simp only [codegen_stmt] at h
    split at h
    · simp at h
    · rename_i g1 hc
      simp only [Option.some.injEq] at h
      subst h
      exact SymtabAdds.of_eq (by rw [codegen_expr_module _ _ _ _ hc])
    · rename_i cond g1 hc
      have e := codegen_expr_module _ _ _ _ hc
      split at h
      · simp at h
      · rename_i g3 ht
        have a1 : SymtabAdds (statementFunctionDefs then_branch) g g3 :=
          (codegen_stmt_adds then_branch _ g3 ht).before (by
            cases else_branch <;>
              simp [SetInsertPoint, CreateCondBr, CreateICmp, e, block_create_symtab,
                ASTNode.isNull])
        split at h
        · simp at h
        · rename_i g4 hb1
          have e4 := branchIfNoTerminator_module hb1
          split at h
          · simp only [Option.some.injEq] at h
            subst h
            refine (a1.after ?_).subset (by simp [statementFunctionDefs]; tauto)
            simp [SetInsertPoint, e4]
          · rename_i eb he
            split at h
            · simp at h
            · rename_i g5 hel
              split at h
              · simp at h
              · rename_i g6 hb2
                have e6 := branchIfNoTerminator_module hb2
                simp only [Option.some.injEq] at h
                subst h
                simp only [statementFunctionDefs]
                refine a1.append (((codegen_stmt_adds else_branch _ g5 hel).before ?_).after ?_)
                · simp [SetInsertPoint, e4]
                · simp [SetInsertPoint, e6]
  | .AST_PRINT print_value, g, g', h => by
    simp only [codegen_stmt] at h
    split at h
    · simp at h
    · rename_i g1 hc
      simp only [Option.some.injEq] at h
      subst h
      exact SymtabAdds.of_eq (by rw [codegen_expr_module _ _ _ _ hc])
    · rename_i val g1 hc
      have e := codegen_expr_module _ _ _ _ hc
      split at h
      · simp at h
      · rename_i format_str g2 hs
        split at h
        · simp at h
        · simp only [Option.some.injEq] at h
          subst h
          exact SymtabAdds.of_eq (by simp [CreateCall, global_string_symtab hs, e])
  | .AST_FUNCTION_DEF name params body, g, g', h => by
    simp only [codegen_stmt] at h
    split at h
    · simp at h
    · rename_i saved g1 he
      split at h
      · simp at h
      · rename_i g2 hb
        have a1 := function_def_enter_adds he
        have a2 : SymtabAdds (statementFunctionDefs body) g1 g' :=
          (codegen_stmt_adds body g1 g2 hb).after (by rw [function_def_leave_module h])
        exact (a1.append a2).subset (by simp [statementFunctionDefs])

theorem mapFind_append {α : Type} (l more : List (String × α)) (key : String) :
    mapFind (l ++ more) key
      = match mapFind l key with
        | some v => some v
        | none => mapFind more key := by
  induction l with
  | nil => simp [mapFind]
  | cons kv rest ih =>
    obtain ⟨k, v⟩ := kv
    by_cases h : k = key
    · simp [mapFind, h]
    · simp [mapFind, h, ih]

theorem mapFind_mem {α : Type} : ∀ (l : List (String × α)) (key : String) (v : α),
    mapFind l key = some v → (key, v) ∈ l
  | [], _, _, h => by simp [mapFind] at h
  | (k, w) :: rest, key, v, h => by
    by_cases hk : k = key
    · simp only [mapFind, hk, if_true, Option.some.injEq] at h
      simp [hk, h]
    · simp only [mapFind, hk, if_false] at h
      exact List.mem_cons_of_mem _ (mapFind_mem rest key v h)

/-- A name the module resolves to a function resolves to the same function after the
symbol table has grown. -/
theorem SymtabAdds.getFunction_some {names : List String} {g g' : CodeGenerator}
    (h : SymtabAdds names g g') {name : String} {f : Nat}
    (hf : g.module.getFunction name = some f) : g'.module.getFunction name = some f := by
  obtain ⟨more, e, _⟩ := h
  unfold Module.getFunction at hf ⊢
  rw [e, mapFind_append]
  cases hm : mapFind g.module.symtab name with
  | none => simp [hm] at hf
  | some v => simpa [hm] using hf

/-- A name the module does not resolve to a function still does not after the symbol
table has grown by functions registered under other names. -/
theorem SymtabAdds.getFunction_none {names : List String} {g g' : CodeGenerator}
    (h : SymtabAdds names g g') {name : String}
    (hf : g.module.getFunction name = none)
    (hn : ∀ base ∈ names, ¬ RegisteredAs base name) : g'.module.getFunction name = none := by
  obtain ⟨more, e, p⟩ := h
  unfold Module.getFunction at hf ⊢
  rw [e, mapFind_append]
  cases hm : mapFind g.module.symtab name with
  | some v => simpa [hm] using hf
  | none =>
    simp only
    cases hm2 : mapFind more name with
    | none => rfl
    | some v =>
      obtain ⟨_, base, hb, hr⟩ := p _ (mapFind_mem more name v hm2)
      exact absurd hr (hn base hb)

/-- The globals `create_globals` declares are bound in the symbol table of the module
after what was there, as variables. -/
theorem create_globals_symtab : ∀ (globals : List GlobalVar) (g : CodeGenerator),
    ∃ more : List (String × GlobalValue),
      (create_globals globals g).module.symtab = g.module.symtab ++ more
        ∧ ∀ kv ∈ more, ∃ index, kv.2 = .variable index
  | [], g => ⟨[], by simp [create_globals], by simp⟩
  | global :: next, g => by
    simp only [create_globals]
    obtain ⟨more, e, p⟩ := create_globals_symtab next
      { g with
        module := { (g.module.registerName global.name (.variable g.module.globals.length)).2 with
          globals := (g.module.registerName global.name
            (.variable g.module.globals.length)).2.globals ++
              [GlobalVariable.mk (g.module.registerName global.name
                (.variable g.module.globals.length)).1 global.value] },
        global_vars := mapSet g.global_vars global.name g.module.globals.length }
    rcases registerName_symtab g.module global.name (.variable g.module.globals.length) with
      ⟨_, e1⟩ | ⟨_, _, _, e1⟩ | ⟨_, _, k, e1⟩
    · exact ⟨more, by rw [e]; simp [e1], p⟩
    · refine ⟨(global.name, .variable g.module.globals.length) :: more,
        by rw [e]; simp [e1], ?_⟩
      intro kv hkv
      rcases List.mem_cons.1 hkv with h | h
      · exact ⟨_, by rw [h]⟩
      · exact p kv h
    · refine ⟨(global.name ++ "." ++ toString k, .variable g.module.globals.length) :: more,
        by rw [e]; simp [e1], ?_⟩
      intro kv hkv
      rcases List.mem_cons.1 hkv with h | h
      · exact ⟨_, by rw [h]⟩
      · exact p kv h

/-- In the state the driver starts lowering from, `printf` is the only name the module
resolves to a function. -/
theorem initial_getFunction (globals : List GlobalVar) (name : String) :
    (create_globals globals CodeGenerator.new).module.getFunction name
      = if name = "printf" then some 0 else none := by
  obtain ⟨more, e, p⟩ := create_globals_symtab globals CodeGenerator.new
  have h0 : CodeGenerator.new.module.symtab = [("printf", .function 0)] := by decide
  unfold Module.getFunction
  rw [e, h0]
  by_cases hn : name = "printf"
  · simp [mapFind, hn]
  · have hn' : ¬ "printf" = name := fun h => hn h.symm
    have hs : mapFind ([("printf", GlobalValue.function 0)] ++ more) name = mapFind more name := by
      simp [mapFind, hn']
    rw [hs]
    simp only [hn, if_false]
    cases hm : mapFind more name with
    | none => rfl
    | some v =>
      obtain ⟨index, hi⟩ := p _ (mapFind_mem more name v hm)
      simp only at hi
      rw [hi]

/-! ## Registration of a function definition and calls to it -/

/-- Entering the definition of a function whose name is free in the module: the function
is created under that name and the name resolves to it before the body is lowered. -/
theorem function_def_enter_registers (name : String) (params : ParamList) (g : CodeGenerator)
    (hprintf : ∃ p, g.printf_func = some p) (hne : name ≠ "")
    (hfree : mapFind g.module.symtab name = none) :
    ∃ (g1 : CodeGenerator) (fn : Function),
      function_def_enter name params g
          = some (SavedContext.mk g.named_values g.current_function g.current_return_block
              g.return_value_alloca, g1)
        ∧ InFunction g1
        ∧ g1.current_function = some g.module.functions.length
        ∧ g1.module.functions[g.module.functions.length]? = some fn ∧ fn.name = name
        ∧ g1.module.symtab = g.module.symtab ++ [(name, .function g.module.functions.length)]
        ∧ g1.module.getFunction name = some g.module.functions.length := by
  have hE := enterState_inFunction name params g hprintf
  obtain ⟨g1, hsp, hL1, _⟩ :=
    store_params_lowered g.module.functions.length params 0 _ hE rfl
  have henter : function_def_enter name params g
      = some (SavedContext.mk g.named_values g.current_function g.current_return_block
          g.return_value_alloca, g1) := by
    simp only [function_def_enter_eq, hsp]
  have hmod := store_params_module _ _ _ _ _ hsp
  have hreg : (g.module.registerName name (.function g.module.functions.length)).1 = name
      ∧ (g.module.registerName name (.function g.module.functions.length)).2.symtab
        = g.module.symtab ++ [(name, .function g.module.functions.length)] := by
    rcases registerName_symtab g.module name (.function g.module.functions.length) with
      ⟨h0, _⟩ | ⟨_, _, h1, h2⟩ | ⟨_, ⟨old, ho⟩, _⟩
    · exact absurd h0 hne
    · exact ⟨h1, h2⟩
    · rw [hfree] at ho
      exact absurd ho (by simp)
  have hsym : g1.module.symtab
      = g.module.symtab ++ [(name, .function g.module.functions.length)] := by
    rw [function_def_enter_symtab henter, hreg.2]
  have hfn : ∃ fn : Function, g1.module.functions[g.module.functions.length]? = some fn
      ∧ fn.name = name := by
    refine ⟨Function.mk (g.module.registerName name (.function g.module.functions.length)).1
      .i32 (List.replicate (param_list_count params) .i32) false
      (setArgNames ((List.replicate (param_list_count params) Ty.i32).map (fun _ => ""))
        params) [g.blocks.length, g.blocks.length + 1], ?_, hreg.1⟩
    rw [hmod]
    simp only [enterState]
    exact getElem?_append_length _ _ []
  obtain ⟨fn, hfn1, hfn2⟩ := hfn
  refine ⟨g1, fn, henter, hL1.inFunction, hL1.current_function_eq, hfn1, hfn2, hsym, ?_⟩
  · unfold Module.getFunction
    rw [hsym, mapFind_append, hfree]
    simp [mapFind]

/-- A call whose callee the module resolves and whose arguments all lower: the value
is the call instruction, appended at the builder's position after the arguments. -/
theorem codegen_expr_call_eq (name : String) (args : ArgList) (g g1 : CodeGenerator)
    (callee : Nat) (vals : List Value) (hf : g.module.getFunction name = some callee)
    (ha : codegen_args args g = some (some vals, g1)) :
    codegen_expr (.AST_FUNCTION_CALL name args) g
      = some (some (.inst g1.nextId),
          { g1.insert (.call g1.nextId callee vals) with nextId := g1.nextId + 1 }) := by
  simp only [codegen_expr, hf, ha, CreateCall]

/-- For a generator in which `printf` is declared, lowering a function definition
returns; the generator has only grown, and the function context is the one before. -/
theorem codegen_function_def_grows (func_name : String) (params : ParamList) (body : ASTNode)
    (g : CodeGenerator) (hprintf : ∃ p, g.printf_func = some p) :
    ∃ g', codegen_function_def func_name params body g = some g'
      ∧ Grows true g g'
      ∧ g'.named_values = g.named_values
      ∧ g'.current_function = g.current_function
      ∧ g'.current_return_block = g.current_return_block
      ∧ g'.return_value_alloca = g.return_value_alloca := by
  obtain ⟨g1, g2, gb, g', _, _, hbr, hleave, hdef, hL1, _, hL2, hLb, _, _, _, hnv, hcf, hcrb,
    hrva⟩ := codegen_function_def_phases func_name params body g hprintf
  have hra : g2.return_value_alloca = some g.nextId :=
    hL2.return_value_alloca_eq.trans hL1.return_value_alloca_eq
  have hrb : g2.current_return_block = some (g.blocks.length + 1) :=
    hL2.current_return_block_eq.trans hL1.current_return_block_eq
  obtain ⟨gb', g3, hbr', hlv', _, _, hG, _⟩ :=
    function_def_leave_spec (SavedContext.mk g.named_values g.current_function
      g.current_return_block g.return_value_alloca) hL2.inFunction g.nextId
      (g.blocks.length + 1) hra hrb
  have e1 : gb' = gb := by
    rw [hbr] at hbr'
    exact (Option.some.inj hbr').symm
  have e2 : g3 = g' := by
    rw [hleave] at hlv'
    exact (Option.some.inj hlv').symm
  subst e1
  subst e2
  refine ⟨g3, hdef, ?_, hnv, hcf, hcrb, hrva⟩
  exact (((enterState_grows true func_name params g).andThen hL1.grows.withRets).andThen
    hL2.grows.withRets).andThen (hLb.grows.withRets.andThen hG)

/-! ## What lowering a statement leaves as it was -/

theorem StmtFrame.keep (g : CodeGenerator) : StmtFrame g g :=
  ⟨rfl, rfl, rfl, rfl, rfl⟩

theorem StmtFrame.seq {g g1 g2 : CodeGenerator} (h1 : StmtFrame g g1)
    (h2 : StmtFrame g1 g2) : StmtFrame g g2 :=
  ⟨h2.global_vars_eq.trans h1.global_vars_eq,
    h2.current_function_eq.trans h1.current_function_eq,
    h2.current_return_block_eq.trans h1.current_return_block_eq,
    h2.return_value_alloca_eq.trans h1.return_value_alloca_eq,
    h2.printf_func_eq.trans h1.printf_func_eq⟩

theorem ExprFrame.toStmt {g g' : CodeGenerator} (h : ExprFrame g g') : StmtFrame g g' :=
  ⟨h.global_vars_eq, h.current_function_eq, h.current_return_block_eq,
    h.return_value_alloca_eq, h.printf_func_eq⟩

theorem stmtFrame_insert (g : CodeGenerator) (i : Instr) : StmtFrame g (g.insert i) :=
  ⟨by simp, by simp, by simp, by simp, by simp⟩

theorem stmtFrame_setInsertPoint (b : Nat) (g : CodeGenerator) :
    StmtFrame g (SetInsertPoint b g) :=
  ⟨rfl, rfl, rfl, rfl, rfl⟩

theorem stmtFrame_block_create (name : String) (func : Option Nat) (g : CodeGenerator) :
    StmtFrame g (BasicBlock_Create name func g).2 :=
  ⟨rfl, rfl, rfl, rfl, rfl⟩

theorem stmtFrame_icmp (p : Predicate) (l r : Value) (g : CodeGenerator) :
    StmtFrame g (CreateICmp p l r g).2 :=
  (ExprFrame.created g _).toStmt

theorem stmtFrame_branchIfNoTerminator {dest : Option Nat} {g g1 : CodeGenerator}
    (h : branchIfNoTerminator dest g = some g1) : StmtFrame g g1 := by
  unfold branchIfNoTerminator at h
  split at h
  · simp at h
  · split at h
    · simp at h
    · split at h
      · simp only [Option.some.injEq] at h
        rw [← h]
        exact StmtFrame.keep g
      · cases dest with
        | none => simp [CreateBr] at h
        | some d =>
          simp only [CreateBr, Option.some.injEq] at h
          rw [← h]
          exact stmtFrame_insert g _

theorem stmtFrame_global_string {str : String} {g g1 : CodeGenerator} {v : Value}
    (h : CreateGlobalString str g = some (v, g1)) : StmtFrame g g1 := by
  unfold CreateGlobalString at h
  split at h
  · simp at h
  · split at h
    · simp at h
    · split at h
      · simp at h
      · simp only [Option.some.injEq, Prod.mk.injEq] at h
        rw [← h.2]
        exact ⟨rfl, rfl, rfl, rfl, rfl⟩

theorem store_params_fields (func : Nat) : ∀ (params : ParamList) (index : Nat)
    (g g' : CodeGenerator), store_params func params index g = some g' →
      g'.global_vars = g.global_vars ∧ g'.printf_func = g.printf_func
  | [], _, g, g', h => by
    simp only [store_params, Option.some.injEq] at h
    rw [← h]
    exact ⟨rfl, rfl⟩
  | name :: next, index, g, g', h => by
    simp only [store_params] at h
    cases hc : create_entry_block_alloca (some func) name g with
    | none => simp [hc] at h
    | some p =>
      obtain ⟨a, g1⟩ := p
      simp only [hc] at h
      obtain ⟨entry, _, hg1⟩ := create_entry_block_alloca_eq hc
      obtain ⟨h1, h2⟩ := store_params_fields func next (index + 1) _ g' h
      rw [h1, h2]
      simp [CreateStore, hg1]

/-- Entering a function definition saves the function context of the state before,
and leaves the declared globals and `printf` as they were. -/
theorem function_def_enter_saved {func_name : String} {params : ParamList}
    {g g1 : CodeGenerator} {saved : SavedContext}
    (h : function_def_enter func_name params g = some (saved, g1)) :
    saved = SavedContext.mk g.named_values g.current_function g.current_return_block
        g.return_value_alloca
      ∧ g1.global_vars = g.global_vars ∧ g1.printf_func = g.printf_func := by
  rw [function_def_enter_eq] at h
  split at h
  · simp at h
  · rename_i g8 hs
    simp only [Option.some.injEq, Prod.mk.injEq] at h
    obtain ⟨h1, h2⟩ := store_params_fields _ _ _ _ _ hs
    rw [← h.2, ← h.1, h1, h2]
    exact ⟨rfl, rfl, rfl⟩

/-- Leaving a function definition puts the saved function context back, and leaves the
declared globals and `printf` as they were. -/
theorem function_def_leave_fields {saved : SavedContext} {g g' : CodeGenerator}
    (h : function_def_leave saved g = some g') :
    g'.named_values = saved.prev_named_values
      ∧ g'.current_function = saved.prev_function
      ∧ g'.current_return_block = saved.prev_return_block
      ∧ g'.return_value_alloca = saved.prev_return_alloca
      ∧ g'.global_vars = g.global_vars ∧ g'.printf_func = g.printf_func := by
  unfold function_def_leave at h
  split at h
  · simp at h
  · rename_i g1 hb
    have hf := stmtFrame_branchIfNoTerminator hb
    split at h
    · simp only [Option.some.injEq] at h
      rw [← h]
      refine ⟨rfl, rfl, rfl, rfl, ?_, ?_⟩
      · simp [CreateLoad, SetInsertPoint, hf.global_vars_eq]
      · simp [CreateLoad, SetInsertPoint, hf.printf_func_eq]
    · simp at h

theorem stmtFrame_loop_header (g : CodeGenerator) (n1 n2 n3 : String) :
    StmtFrame g
      (SetInsertPoint (BasicBlock_Create n1 g.current_function g).1
        ((BasicBlock_Create n3 g.current_function
          (BasicBlock_Create n2 g.current_function
            (BasicBlock_Create n1 g.current_function g).2).2).2.insert
          (.br (BasicBlock_Create n1 g.current_function g).1))) := by
  refine ⟨?_, ?_, ?_, ?_, ?_⟩ <;> simp [SetInsertPoint, BasicBlock_Create]

theorem stmtFrame_cond_branch (g : CodeGenerator) (cond : Value) (ifTrue ifFalse target : Nat) :
    StmtFrame g (SetInsertPoint target
      (CreateCondBr (CreateICmp .NE cond (.constInt 0) g).1 ifTrue ifFalse
        (CreateICmp .NE cond (.constInt 0) g).2)) := by
  refine ⟨?_, ?_, ?_, ?_, ?_⟩ <;> simp [SetInsertPoint, CreateCondBr, CreateICmp]

/-- Lowering a statement, whatever it contains, leaves the declared globals, the
current function, the return block, the return-value storage and `printf` as they
were. -/
theorem codegen_stmt_frame : ∀ (s : ASTNode) (g g' : CodeGenerator),
    codegen_stmt s g = some g' → StmtFrame g g'
  | .null, g, g', h => by
    simp only [codegen_stmt, Option.some.injEq] at h
    rw [← h]
    exact StmtFrame.keep g
  | .AST_NUMBER number, g, g', h => by
    simp only [codegen_stmt] at h
    split at h
    · simp at h
    · rename_i r g1 hc
      simp only [Option.some.injEq] at h
      subst h
      exact (codegen_expr_frame _ _ _ _ hc).toStmt
  | .AST_VARIABLE name, g, g', h => by
    simp only [codegen_stmt] at h
    split at h
    · simp at h
    · rename_i r g1 hc
      simp only [Option.some.injEq] at h
      subst h
      exact (codegen_expr_frame _ _ _ _ hc).toStmt
  | .AST_BINARY_OP op left right, g, g', h => by
    simp only [codegen_stmt] at h
    split at h
    · simp at h
    · rename_i r g1 hc
      simp only [Option.some.injEq] at h
      subst h
      exact (codegen_expr_frame _ _ _ _ hc).toStmt
  | .AST_FUNCTION_CALL name args, g, g', h => by
    simp only [codegen_stmt] at h
    split at h
    · simp at h
    · rename_i r g1 hc
      simp only [Option.some.injEq] at h
      subst h
      exact (codegen_expr_frame _ _ _ _ hc).toStmt
  | .AST_GLOBAL_VAR _ _, g, g', h => by
    simp only [codegen_stmt, Option.some.injEq] at h
    rw [← h]
    exact StmtFrame.keep g
  | .AST_ASSIGNMENT name value, g, g', h => by
    simp only [codegen_stmt] at h
    split at h
    · simp at h
    · rename_i g1 hc
      simp only [Option.some.injEq] at h
      subst h
      exact (codegen_expr_frame _ _ _ _ hc).toStmt
    · rename_i val g1 hc
      have e := (codegen_expr_frame _ _ _ _ hc).toStmt
      split at h
      · simp only [Option.some.injEq] at h
        subst h
        exact e.seq (stmtFrame_insert g1 _)
      · split at h
        · simp at h
        · rename_i a g2 hl
          simp only [Option.some.injEq] at h
          subst h
          exact (e.seq (local_alloca_frame hl).toStmt).seq (stmtFrame_insert g2 _)
  | .AST_RETURN return_value, g, g', h => by
    simp only [codegen_stmt] at h
    split at h
    · simp at h
    · rename_i ret_val g1 hc
      have e := (codegen_expr_frame _ _ _ _ hc).toStmt
      split at h
      · cases hd : g1.current_return_block with
        | none => simp [hd, CreateBr] at h
        | some d =>
          simp only [hd, CreateBr, Option.some.injEq] at h
          subst h
          exact (e.seq (stmtFrame_insert g1 _)).seq (stmtFrame_insert _ _)
      · simp only [Option.some.injEq] at h
        subst h
        exact e
  | .AST_SEQUENCE first second, g, g', h => by
    simp only [codegen_stmt] at h
    split at h
    · simp at h
    · rename_i g1 h1
      exact (codegen_stmt_frame first g g1 h1).seq (codegen_stmt_frame second g1 g' h)
  | .AST_WHILE condition body, g, g', h => by
    simp only [codegen_stmt] at h
    have eh := stmtFrame_loop_header g "loop" "loopbody" "afterloop"
    split at h
    · simp at h
    · rename_i g2 hc
      simp only [Option.some.injEq] at h
      subst h
      exact eh.seq (codegen_expr_frame _ _ _ _ hc).toStmt
    · rename_i cond g2 hc
      have e := eh.seq (codegen_expr_frame _ _ _ _ hc).toStmt
      split at h
      · simp at h
      · rename_i g4 hb
        simp only [Option.some.injEq] at h
        subst h
        exact ((e.seq (stmtFrame_cond_branch g2 cond _ _ _)).seq
          (codegen_stmt_frame body _ g4 hb)).seq
          ((stmtFrame_insert g4 _).seq (stmtFrame_setInsertPoint _ _))
  | .AST_FOR init condition increment body, g, g', h => by
    simp only [codegen_stmt] at h
    split at h
    · simp at h
    · rename_i g0 hi
      have a0 := codegen_stmt_frame init g g0 hi
      have eh := a0.seq (stmtFrame_loop_header g0 "forloop" "forbody" "afterfor")
      split at h
      · simp at h
      · rename_i g2 hc
        simp only [Option.some.injEq] at h
        subst h
        exact eh.seq (codegen_expr_frame _ _ _ _ hc).toStmt
      · rename_i cond g2 hc
        have e := eh.seq (codegen_expr_frame _ _ _ _ hc).toStmt
        split at h
        · simp at h
        · rename_i g4 hb
          split at h
          · simp at h
          · rename_i g5 hn
            simp only [Option.some.injEq] at h
            subst h
            exact (((e.seq (stmtFrame_cond_branch g2 cond _ _ _)).seq
              (codegen_stmt_frame body _ g4 hb)).seq (codegen_stmt_frame increment g4 g5 hn)).seq
              ((stmtFrame_insert g5 _).seq (stmtFrame_setInsertPoint _ _))
  | .AST_IF condition then_branch else_branch, g, g', h => by
    simp only [codegen_stmt] at h
    split at h
    · simp at h
    · rename_i g1 hc
      simp only [Option.some.injEq] at h
      subst h
      exact (codegen_expr_frame _ _ _ _ hc).toStmt
    · rename_i cond g1 hc
      have e := (codegen_expr_frame _ _ _ _ hc).toStmt
      split at h
      · simp at h
      · rename_i g3 ht
        have a1 : StmtFrame g g3 := by
          refine (e.seq ?_).seq (codegen_stmt_frame then_branch _ g3 ht)
          cases else_branch <;>
            (refine ⟨?_, ?_, ?_, ?_, ?_⟩ <;>
              simp [SetInsertPoint, CreateCondBr, CreateICmp, BasicBlock_Create,
                ASTNode.isNull])
        split at h
        · simp at h
        · rename_i g4 hb1
          have a4 := a1.seq (stmtFrame_branchIfNoTerminator hb1)
          split at h
          · simp only [Option.some.injEq] at h
            subst h
            exact a4.seq (stmtFrame_setInsertPoint _ _)
          · rename_i eb he
            split at h
            · simp at h
            · rename_i g5 hel
              split at h
              · simp at h
              · rename_i g6 hb2
                simp only [Option.some.injEq] at h
                subst h
                exact (((a4.seq (stmtFrame_setInsertPoint eb g4)).seq
                  (codegen_stmt_frame else_branch _ g5 hel)).seq
                  (stmtFrame_branchIfNoTerminator hb2)).seq (stmtFrame_setInsertPoint _ _)
  | .AST_PRINT print_value, g, g', h => by
    simp only [codegen_stmt] at h
    split at h
    · simp at h
    · rename_i g1 hc
      simp only [Option.some.injEq] at h
      subst h
      exact (codegen_expr_frame _ _ _ _ hc).toStmt
    · rename_i val g1 hc
      have e := (codegen_expr_frame _ _ _ _ hc).toStmt
      split at h
      · simp at h
      · rename_i format_str g2 hs
        split at h
        · simp at h
        · simp only [Option.some.injEq] at h
          subst h
          exact (e.seq (stmtFrame_global_string hs)).seq (ExprFrame.created g2 _).toStmt
  | .AST_FUNCTION_DEF name params body, g, g', h => by
    simp only [codegen_stmt] at h
    split at h
    · simp at h
    · rename_i saved g1 he
      split at h
      · simp at h
      · rename_i g2 hb
        obtain ⟨hs, hg1, hp1⟩ := function_def_enter_saved he
        obtain ⟨_, h2, h3, h4, h5, h6⟩ := function_def_leave_fields h
        have hbody := codegen_stmt_frame body g1 g2 hb
        subst hs
        exact ⟨by rw [h5, hbody.global_vars_eq, hg1], h2, h3, h4,
          by rw [h6, hbody.printf_func_eq, hp1]⟩

/-! ## What lowering an expression adds to the blocks, in creation order -/

theorem Instr.createdIn.widen {i : Instr} {lo hi lo' hi' : Nat} (h : i.createdIn lo hi)
    (h1 : lo' ≤ lo) (h2 : hi ≤ hi') : i.createdIn lo' hi' := by
  obtain ⟨id, e, a, b⟩ := h
  exact ⟨id, e, Nat.le_trans h1 a, Nat.lt_of_lt_of_le b h2⟩

theorem CreatedBetween.nothing (g : CodeGenerator) : CreatedBetween g g where
  nextId_le := Nat.le_refl _
  insertBlock_eq := rfl
  insts := fun b => ⟨[], [], by simp, by simp, by simp, by simp⟩

theorem CreatedBetween.next {g g1 g2 : CodeGenerator} (h1 : CreatedBetween g g1)
    (h2 : CreatedBetween g1 g2) : CreatedBetween g g2 where
  nextId_le := Nat.le_trans h1.nextId_le h2.nextId_le
  insertBlock_eq := h2.insertBlock_eq.trans h1.insertBlock_eq
  insts := by
    intro b
    obtain ⟨pre1, post1, e1, ha1, hp1, hb1⟩ := h1.insts b
    obtain ⟨pre2, post2, e2, ha2, hp2, hb2⟩ := h2.insts b
    refine ⟨pre2 ++ pre1, post1 ++ post2, ?_, ?_, ?_, ?_⟩
    · rw [e2, e1]
      simp [List.append_assoc]
    · intro i hi
      rcases List.mem_append.1 hi with h | h
      · exact ⟨(ha2 i h).1, (ha2 i h).2.widen h1.nextId_le (Nat.le_refl _)⟩
      · exact ⟨(ha1 i h).1, (ha1 i h).2.widen (Nat.le_refl _) h2.nextId_le⟩
    · intro i hi
      rcases List.mem_append.1 hi with h | h
      · exact ⟨(hp1 i h).1, (hp1 i h).2.widen (Nat.le_refl _) h2.nextId_le⟩
      · exact ⟨(hp2 i h).1, (hp2 i h).2.widen h1.nextId_le (Nat.le_refl _)⟩
    · intro hne
      by_cases h1e : post1 = []
      · have h2e : post2 ≠ [] := by
          intro h2e
          exact hne (by simp [h1e, h2e])
        rw [← h1.insertBlock_eq]
        exact hb2 h2e
      · exact hb1 h1e

/-- An instruction that yields a value, created with the next number and appended at
the builder's position. -/
theorem createdBetween_create (g : CodeGenerator) (i : Instr) (hid : i.id? = some g.nextId)
    (ha : i.isAlloca = false) :
    CreatedBetween g { g.insert i with nextId := g.nextId + 1 } where
  nextId_le := Nat.le_succ _
  insertBlock_eq := by simp
  insts := by
    intro b
    have hb : ({ g.insert i with nextId := g.nextId + 1 } : CodeGenerator).blockInsts b
        = (g.insert i).blockInsts b := rfl
    rw [hb, insert_blockInsts]
    by_cases h : g.insertBlock = some b ∧ b < g.blocks.length
    · refine ⟨[], [i], by simp [h], by simp, ?_, fun _ => h.1⟩
      intro j hj
      rw [List.mem_singleton] at hj
      subst hj
      exact ⟨ha, g.nextId, hid, Nat.le_refl _, Nat.lt_succ_self _⟩
    · exact ⟨[], [], by simp [h], by simp, by simp, by simp⟩

theorem createdBetween_alloca {func : Option Nat} {name : String} {g g1 : CodeGenerator}
    {a : Nat} (h : create_entry_block_alloca func name g = some (a, g1)) :
    CreatedBetween g g1 := by
  obtain ⟨entry, _, hg1⟩ := create_entry_block_alloca_eq h
  subst hg1
  refine ⟨Nat.le_succ _, rfl, ?_⟩
  intro b
  rw [modify_pushFront_blockInsts g _ (.alloca g.nextId name) entry rfl b]
  by_cases hb : b = entry ∧ b < g.blocks.length
  · refine ⟨[.alloca g.nextId name], [], by rw [if_pos hb]; simp, ?_, by simp, by simp⟩
    intro j hj
    rw [List.mem_singleton] at hj
    subst hj
    exact ⟨rfl, g.nextId, rfl, Nat.le_refl _, Nat.lt_succ_self _⟩
  · exact ⟨[], [], by simp [hb], by simp, by simp, by simp⟩

theorem createdBetween_local_alloca {name : String} {g g1 : CodeGenerator} {a : Nat}
    (h : local_alloca name g = some (a, g1)) : CreatedBetween g g1 := by
  unfold local_alloca at h
  cases hm : mapFind g.named_values name with
  | some x =>
    simp only [hm, Option.some.injEq, Prod.mk.injEq] at h
    rw [← h.2]
    exact CreatedBetween.nothing g
  | none =>
    simp only [hm] at h
    cases hc : create_entry_block_alloca g.current_function name g with
    | none => simp [hc] at h
    | some p =>
      obtain ⟨a1, g2⟩ := p
      simp only [hc, Option.some.injEq, Prod.mk.injEq] at h
      have hC := createdBetween_alloca hc
      rw [← h.2]
      exact ⟨hC.nextId_le, hC.insertBlock_eq, hC.insts⟩

theorem createdBetween_compare (p : Predicate) (lv rv : Value) (g : CodeGenerator) :
    CreatedBetween g (CreateZExt (CreateICmp p lv rv g).1 (CreateICmp p lv rv g).2).2 :=
  (createdBetween_create g (.icmp g.nextId p lv rv) rfl rfl).next
    (createdBetween_create { g.insert (.icmp g.nextId p lv rv) with nextId := g.nextId + 1 }
      (.zext (g.nextId + 1) (.inst g.nextId)) rfl rfl)

theorem createdBetween_binary_op (op : BinaryOp) (lv rv : Value) (g : CodeGenerator) :
    CreatedBetween g (codegen_binary_op op lv rv g).2 := by
  cases op
  case OP_ADD => exact createdBetween_create g (.arith g.nextId .Add lv rv) rfl rfl
  case OP_SUB => exact createdBetween_create g (.arith g.nextId .Sub lv rv) rfl rfl
  case OP_MUL => exact createdBetween_create g (.arith g.nextId .Mul lv rv) rfl rfl
  case OP_DIV => exact createdBetween_create g (.arith g.nextId .SDiv lv rv) rfl rfl
  case OP_LT => exact createdBetween_compare .SLT lv rv g
  case OP_GT => exact createdBetween_compare .SGT lv rv g
  case OP_LE => exact createdBetween_compare .SLE lv rv g
  case OP_GE => exact createdBetween_compare .SGE lv rv g
  case OP_EQ => exact createdBetween_compare .EQ lv rv g
  case OP_NE => exact createdBetween_compare .NE lv rv g

mutual
/-- What lowering an expression adds to the blocks was created while it was lowered;
the instructions other than `alloca`s are appended at the builder's position. -/
theorem codegen_expr_created : ∀ (e : ASTNode) (g : CodeGenerator)
    (r : Option Value) (g' : CodeGenerator),
    codegen_expr e g = some (r, g') → CreatedBetween g g'
  | .null, g, r, g', h => by
    simp only [codegen_expr, Option.some.injEq, Prod.mk.injEq] at h
    rw [← h.2]
    exact CreatedBetween.nothing g
  | .AST_NUMBER _, g, r, g', h => by
    simp only [codegen_expr, Option.some.injEq, Prod.mk.injEq] at h
    rw [← h.2]
    exact CreatedBetween.nothing g
  | .AST_VARIABLE name, g, r, g', h => by
    simp only [codegen_expr] at h
    cases hg : mapFind g.global_vars name with
    | some global =>
      simp only [hg, Option.some.injEq, Prod.mk.injEq] at h
      rw [← h.2]
      exact createdBetween_create g (.load g.nextId (.globalVariable global) name) rfl rfl
    | none =>
      simp only [hg] at h
      cases hl : local_alloca name g with
      | none => simp [hl] at h
      | some p =>
        obtain ⟨a, g1⟩ := p
        simp only [hl, Option.some.injEq, Prod.mk.injEq] at h
        rw [← h.2]
        exact (createdBetween_local_alloca hl).next
          (createdBetween_create g1 (.load g1.nextId (.inst a) name) rfl rfl)
  | .AST_BINARY_OP op left right, g, r, g', h => by
    simp only [codegen_expr] at h
    cases h1 : codegen_expr left g with
    | none => simp [h1] at h
    | some p1 =>
      obtain ⟨l, g1⟩ := p1
      simp only [h1] at h
      cases h2 : codegen_expr right g1 with
      | none => simp [h2] at h
      | some p2 =>
        obtain ⟨rr, g2⟩ := p2
        simp only [h2] at h
        have e12 := (codegen_expr_created left g l g1 h1).next
          (codegen_expr_created right g1 rr g2 h2)
        cases l with
        | none =>
          simp only [Option.some.injEq, Prod.mk.injEq] at h
          rw [← h.2]
          exact e12
        | some lv =>
          cases rr with
          | none =>
            simp only [Option.some.injEq, Prod.mk.injEq] at h
            rw [← h.2]
            exact e12
          | some rv =>
            simp only [Option.some.injEq, Prod.mk.injEq] at h
            rw [← h.2]
            exact e12.next (createdBetween_binary_op op lv rv g2)
  | .AST_FUNCTION_CALL name args, g, r, g', h => by
    simp only [codegen_expr] at h
    cases hf : g.module.getFunction name with
    | none =>
      simp only [hf, Option.some.injEq, Prod.mk.injEq] at h
      rw [← h.2]
      exact CreatedBetween.nothing g
    | some callee =>
      simp only [hf] at h
      cases h1 : codegen_args args g with
      | none => simp [h1] at h
      | some p1 =>
        obtain ⟨vs, g1⟩ := p1
        have e1 := codegen_args_created args g vs g1 h1
        cases vs with
        | none =>
          simp only [h1, Option.some.injEq, Prod.mk.injEq] at h
          rw [← h.2]
          exact e1
        | some vals =>
          simp only [h1, Option.some.injEq, Prod.mk.injEq] at h
          rw [← h.2]
          exact e1.next (createdBetween_create g1 (.call g1.nextId callee vals) rfl rfl)
  | .AST_ASSIGNMENT _ _, g, r, g', h => by
    simp only [codegen_expr, Option.some.injEq, Prod.mk.injEq] at h
    rw [← h.2]
    exact CreatedBetween.nothing g
  | .AST_RETURN _, g, r, g', h => by
    simp only [codegen_expr, Option.some.injEq, Prod.mk.injEq] at h
    rw [← h.2]
    exact CreatedBetween.nothing g
  | .AST_SEQUENCE _ _, g, r, g', h => by
    simp only [codegen_expr, Option.some.injEq, Prod.mk.injEq] at h
    rw [← h.2]
    exact CreatedBetween.nothing g
  | .AST_WHILE _ _, g, r, g', h => by
    simp only [codegen_expr, Option.some.injEq, Prod.mk.injEq] at h
    rw [← h.2]
    exact CreatedBetween.nothing g
  | .AST_FOR _ _ _ _, g, r, g', h => by
    simp only [codegen_expr, Option.some.injEq, Prod.mk.injEq] at h
    rw [← h.2]
    exact CreatedBetween.nothing g
  | .AST_IF _ _ _, g, r, g', h => by
    simp only [codegen_expr, Option.some.injEq, Prod.mk.injEq] at h
    rw [← h.2]
    exact CreatedBetween.nothing g
  | .AST_PRINT _, g, r, g', h => by
    simp only [codegen_expr, Option.some.injEq, Prod.mk.injEq] at h
    rw [← h.2]
    exact CreatedBetween.nothing g
  | .AST_FUNCTION_DEF _ _ _, g, r, g', h => by
    simp only [codegen_expr, Option.some.injEq, Prod.mk.injEq] at h
    rw [← h.2]
    exact CreatedBetween.nothing g
  | .AST_GLOBAL_VAR _ _, g, r, g', h => by
    simp only [codegen_expr, Option.some.injEq, Prod.mk.injEq] at h
    rw [← h.2]
    exact CreatedBetween.nothing g
/-- The same for the argument list of a call. -/
theorem codegen_args_created : ∀ (args : ArgList) (g : CodeGenerator)
    (r : Option (List Value)) (g' : CodeGenerator),
    codegen_args args g = some (r, g') → CreatedBetween g g'
  | .nil, g, r, g', h => by
    simp only [codegen_args, Option.some.injEq, Prod.mk.injEq] at h
    rw [← h.2]
    exact CreatedBetween.nothing g
  | .cons expr next, g, r, g', h => by
    simp only [codegen_args] at h
    cases h1 : codegen_expr expr g with
    | none => simp [h1] at h
    | some p1 =>
      obtain ⟨v, g1⟩ := p1
      have e1 := codegen_expr_created expr g v g1 h1
      cases v with
      | none =>
        simp only [h1, Option.some.injEq, Prod.mk.injEq] at h
        rw [← h.2]
        exact e1
      | some val =>
        simp only [h1] at h
        cases h2 : codegen_args next g1 with
        | none => simp [h2] at h
        | some p2 =>
          obtain ⟨vs, g2⟩ := p2
          have e2 := codegen_args_created next g1 vs g2 h2
          cases vs with
          | none =>
            simp only [h2, Option.some.injEq, Prod.mk.injEq] at h
            rw [← h.2]
            exact e1.next e2
          | some rest =>
            simp only [h2, Option.some.injEq, Prod.mk.injEq] at h
            rw [← h.2]
            exact e1.next e2
end

/-- When all the arguments of a call lower, they were lowered one after the other in
list order. -/
theorem codegen_args_in_order : ∀ (args : ArgList) (g : CodeGenerator) (vals : List Value)
    (g' : CodeGenerator), codegen_args args g = some (some vals, g') →
      ArgsInOrder args g vals g'
  | .nil, g, vals, g', h => by
    simp only [codegen_args, Option.some.injEq, Prod.mk.injEq] at h
    exact ⟨h.1.symm, h.2.symm⟩
  | .cons expr next, g, vals, g', h => by
    simp only [codegen_args] at h
    cases h1 : codegen_expr expr g with
    | none => simp [h1] at h
    | some p1 =>
      obtain ⟨v, g1⟩ := p1
      cases v with
      | none => simp [h1] at h
      | some val =>
        simp only [h1] at h
        cases h2 : codegen_args next g1 with
        | none => simp [h2] at h
        | some p2 =>
          obtain ⟨vs, g2⟩ := p2
          cases vs with
          | none => simp [h2] at h
          | some rest =>
            simp only [h2, Option.some.injEq, Prod.mk.injEq] at h
            obtain ⟨hv, hg⟩ := h
            subst hv
            subst hg
            exact ⟨val, rest, g1, rfl, h1, codegen_expr_created expr g _ g1 h1,
              codegen_args_in_order next g1 rest g2 h2⟩

/-- Arguments lowered one after the other in list order are what the argument loop
of a call computes. -/
theorem codegen_args_of_in_order : ∀ (args : ArgList) (g : CodeGenerator) (vals : List Value)
    (g' : CodeGenerator), ArgsInOrder args g vals g' →
      codegen_args args g = some (some vals, g')
  | .nil, g, vals, g', h => by
    obtain ⟨h1, h2⟩ := h
    simp [codegen_args, h1, h2]
  | .cons expr next, g, vals, g', h => by
    obtain ⟨v, rest, g1, hv, h1, _, hrest⟩ := h
    simp [codegen_args, h1, codegen_args_of_in_order next g1 rest g' hrest, hv]

theorem argsInOrder_length : ∀ (args : ArgList) (g : CodeGenerator) (vals : List Value)
    (g' : CodeGenerator), ArgsInOrder args g vals g' → vals.length = args.length
  | .nil, g, vals, g', h => by
    obtain ⟨h1, _⟩ := h
    simp [h1, ArgList.length]
  | .cons expr next, g, vals, g', h => by
    obtain ⟨v, rest, g1, hv, _, _, hrest⟩ := h
    simp [hv, ArgList.length, argsInOrder_length next g1 rest g' hrest]

/-! ## The conditional branch of `If`, `While` and `For` -/

/-- What the comparison with 0 and the conditional branch on it do when executed: for
a condition with the integer value `v`, control goes to the first destination when `v`
is not 0 and to the second when it is 0. -/
theorem branch_on_nonzero_taken (m : Machine) (id : Nat) (cond : Value) (t f : Nat) (v : Int)
    (h : m.operand cond = some (.int v)) :
    ∃ m', execInstr m (.icmp id .NE cond (.constInt 0)) = some m'
      ∧ m'.branchTarget (.condBr (.inst id) t f) = some (if v = 0 then f else t) := by
  refine ⟨m.setReg id (.int (if v ≠ 0 then 1 else 0)), ?_, ?_⟩
  · have h0 : m.operand (.constInt 0) = some (.int 0) := rfl
    simp only [execInstr, h, h0, evalICmp, Predicate.holds]
    by_cases hv : v = 0 <;> simp [hv]
  · by_cases hv : v = 0 <;>
      simp [Machine.branchTarget, Machine.operand, Machine.setReg, hv]

/-- The state after the comparison with 0 and the conditional branch have been
appended and the builder has moved on. -/
theorem branchesOnNonzero_emit (g : CodeGenerator) (cond : Value) (ifTrue ifFalse target b : Nat)
    (hb : g.insertBlock = some b) (hlt : b < g.blocks.length) :
    BranchesOnNonzero g cond ifTrue ifFalse
      (SetInsertPoint target
        (CreateCondBr (CreateICmp .NE cond (.constInt 0) g).1 ifTrue ifFalse
          (CreateICmp .NE cond (.constInt 0) g).2)) := by
  refine ⟨b, hb, hlt, ?_⟩
  have h1 : (SetInsertPoint target
      (CreateCondBr (CreateICmp .NE cond (.constInt 0) g).1 ifTrue ifFalse
        (CreateICmp .NE cond (.constInt 0) g).2)).blockInsts b
      = ((g.insert (.icmp g.nextId .NE cond (.constInt 0))).insert
          (.condBr (.inst g.nextId) ifTrue ifFalse)).blockInsts b := by
    simp only [SetInsertPoint, CreateCondBr, CreateICmp, insert_with_nextId]
    rfl
  rw [h1, insert_blockInsts, insert_blockInsts]
  simp [hb, hlt]

theorem loopHeader_fields (n1 n2 n3 : String) (g : CodeGenerator) :
    (loopHeader n1 n2 n3 g).insertBlock = some g.blocks.length
      ∧ (loopHeader n1 n2 n3 g).blocks.length = g.blocks.length + 3
      ∧ (loopHeader n1 n2 n3 g).nextId = g.nextId
      ∧ (BasicBlock_Create n1 g.current_function g).1 = g.blocks.length
      ∧ (BasicBlock_Create n2 g.current_function
          (BasicBlock_Create n1 g.current_function g).2).1 = g.blocks.length + 1
      ∧ (BasicBlock_Create n3 g.current_function
          (BasicBlock_Create n2 g.current_function
            (BasicBlock_Create n1 g.current_function g).2).2).1 = g.blocks.length + 2 := by
  simp [loopHeader, SetInsertPoint, BasicBlock_Create]

theorem loopHeader_blocks (n1 n2 n3 : String) (g : CodeGenerator) (b : Nat)
    (hb : g.insertBlock = some b) (hlt : b < g.blocks.length) :
    (loopHeader n1 n2 n3 g).blocks[g.blocks.length]?
        = some (BasicBlock.mk n1 g.current_function [])
      ∧ (loopHeader n1 n2 n3 g).blocks[g.blocks.length + 1]?
        = some (BasicBlock.mk n2 g.current_function [])
      ∧ (loopHeader n1 n2 n3 g).blocks[g.blocks.length + 2]?
        = some (BasicBlock.mk n3 g.current_function []) := by
  have hne0 : b ≠ g.blocks.length := Nat.ne_of_lt hlt
  have hne1 : b ≠ g.blocks.length + 1 := by omega
  have hne2 : b ≠ g.blocks.length + 2 := by omega
  simp only [loopHeader, SetInsertPoint, BasicBlock_Create, CodeGenerator.insert, hb]
  simp only [List.append_assoc, List.singleton_append]
  refine ⟨?_, ?_, ?_⟩
  · rw [List.getElem?_modify_ne _ _ hne0, List.getElem?_append_right (by omega)]
    simp
  · rw [List.getElem?_modify_ne _ _ hne1, List.getElem?_append_right (by omega)]
    simp
  · rw [List.getElem?_modify_ne _ _ hne2, List.getElem?_append_right (by omega)]
    simp

/-- The conditional branch of a `While` whose condition lowers to a value, for a
generator inside a function. -/
theorem while_branch (condition body : ASTNode) (g g2 : CodeGenerator) (cond : Value)
    (hin : InFunction g)
    (hc : codegen_expr condition (loopHeader "loop" "loopbody" "afterloop" g)
      = some (some cond, g2)) :
    ∃ g3 g4,
      BranchesOnNonzero g2 cond (g.blocks.length + 1) (g.blocks.length + 2) g3
        ∧ g3.insertBlock = some (g.blocks.length + 1)
        ∧ codegen_stmt body g3 = some g4
        ∧ codegen_stmt (.AST_WHILE condition body) g
          = some (SetInsertPoint (g.blocks.length + 2) (g4.insert (.br g.blocks.length)))
        ∧ Grows true g3 (SetInsertPoint (g.blocks.length + 2) (g4.insert (.br g.blocks.length))) := by
  obtain ⟨hH, hpb, hpa⟩ := lowered_loop_header hin "loop" "loopbody" "afterloop"
  obtain ⟨hf1, hf2, _, hid1, hid2, hid3⟩ := loopHeader_fields "loop" "loopbody" "afterloop" g
  have hc' := hc
  simp only [loopHeader] at hc'
  obtain ⟨r, g2', hce, hL2, hib2⟩ := codegen_expr_lowered condition _ hH.inFunction
  rw [hc'] at hce
  simp only [Option.some.injEq, Prod.mk.injEq] at hce
  obtain ⟨_, hg2⟩ := hce
  subst hg2
  have hib : g2.insertBlock = some g.blocks.length := by
    rw [hib2]
    exact hf1
  have hlt : g.blocks.length < g2.blocks.length := by
    have := hL2.grows.length_le
    have h3 : (loopHeader "loop" "loopbody" "afterloop" g).blocks.length
        = g.blocks.length + 3 := hf2
    simp only [loopHeader] at h3
    omega
  have hL3 := lowered_cond_branch hL2.inFunction cond
    (BasicBlock_Create "loopbody" g.current_function
      (BasicBlock_Create "loop" g.current_function g).2).1
    (BasicBlock_Create "afterloop" g.current_function
      (BasicBlock_Create "loopbody" g.current_function
        (BasicBlock_Create "loop" g.current_function g).2).2).1 _
    (hL2.grows.block_parent hpb)
  obtain ⟨g4, hb, hL4⟩ := codegen_stmt_lowered body _ hL3.inFunction
  have hL5 := lowered_branch_to hL4.inFunction
    (BasicBlock_Create "loop" g.current_function g).1 _
    (hL4.grows.block_parent (hL3.grows.block_parent (hL2.grows.block_parent hpa)))
  have hstmt : codegen_stmt (.AST_WHILE condition body) g
      = some (SetInsertPoint
          (BasicBlock_Create "afterloop" g.current_function
            (BasicBlock_Create "loopbody" g.current_function
              (BasicBlock_Create "loop" g.current_function g).2).2).1
          (g4.insert (.br (BasicBlock_Create "loop" g.current_function g).1))) := by
    simp only [codegen_stmt, hc', hb]
  have hemit := branchesOnNonzero_emit g2 cond
    (BasicBlock_Create "loopbody" g.current_function
      (BasicBlock_Create "loop" g.current_function g).2).1
    (BasicBlock_Create "afterloop" g.current_function
      (BasicBlock_Create "loopbody" g.current_function
        (BasicBlock_Create "loop" g.current_function g).2).2).1
    (BasicBlock_Create "loopbody" g.current_function
      (BasicBlock_Create "loop" g.current_function g).2).1 g.blocks.length hib hlt
  have hG := hL4.grows.withRets.andThen hL5.grows.withRets
  simp only [hid1, hid3] at hstmt
  simp only [hid2, hid3] at hemit hb
  simp only [hid1, hid2, hid3] at hG
  exact ⟨_, g4, hemit, rfl, hb, hstmt, hG⟩

/-- The conditional branch of a `For` whose init statement lowers and whose condition
lowers to a value, for a generator inside a function. -/
theorem for_branch (init condition increment body : ASTNode) (g g0 g2 : CodeGenerator)
    (cond : Value) (hin : InFunction g) (hi : codegen_stmt init g = some g0)
    (hc : codegen_expr condition (loopHeader "forloop" "forbody" "afterfor" g0)
      = some (some cond, g2)) :
    ∃ g3 g4 g5,
      BranchesOnNonzero g2 cond (g0.blocks.length + 1) (g0.blocks.length + 2) g3
        ∧ g3.insertBlock = some (g0.blocks.length + 1)
        ∧ codegen_stmt body g3 = some g4
        ∧ codegen_stmt increment g4 = some g5
        ∧ codegen_stmt (.AST_FOR init condition increment body) g
          = some (SetInsertPoint (g0.blocks.length + 2) (g5.insert (.br g0.blocks.length)))
        ∧ Grows true g3
            (SetInsertPoint (g0.blocks.length + 2) (g5.insert (.br g0.blocks.length))) := by
  obtain ⟨g0', hi', hL0⟩ := codegen_stmt_lowered init g hin
  rw [hi] at hi'
  have e0 := Option.some.inj hi'
  subst e0
  have h0 := hL0.inFunction
  obtain ⟨hH, hpb, hpa⟩ := lowered_loop_header h0 "forloop" "forbody" "afterfor"
  obtain ⟨hf1, hf2, _, hid1, hid2, hid3⟩ := loopHeader_fields "forloop" "forbody" "afterfor" g0
  have hc' := hc
  simp only [loopHeader] at hc'
  obtain ⟨r, g2', hce, hL2, hib2⟩ := codegen_expr_lowered condition _ hH.inFunction
  rw [hc'] at hce
  simp only [Option.some.injEq, Prod.mk.injEq] at hce
  obtain ⟨_, hg2⟩ := hce
  subst hg2
  have hib : g2.insertBlock = some g0.blocks.length := by
    rw [hib2]
    exact hf1
  have hlt : g0.blocks.length < g2.blocks.length := by
    have := hL2.grows.length_le
    have h3 : (loopHeader "forloop" "forbody" "afterfor" g0).blocks.length
        = g0.blocks.length + 3 := hf2
    simp only [loopHeader] at h3
    omega
  have hL3 := lowered_cond_branch hL2.inFunction cond
    (BasicBlock_Create "forbody" g0.current_function
      (BasicBlock_Create "forloop" g0.current_function g0).2).1
    (BasicBlock_Create "afterfor" g0.current_function
      (BasicBlock_Create "forbody" g0.current_function
        (BasicBlock_Create "forloop" g0.current_function g0).2).2).1 _
    (hL2.grows.block_parent hpb)
  obtain ⟨g4, hb, hL4⟩ := codegen_stmt_lowered body _ hL3.inFunction
  obtain ⟨g5, hinc, hL5⟩ := codegen_stmt_lowered increment g4 hL4.inFunction
  have hL6 := lowered_branch_to hL5.inFunction
    (BasicBlock_Create "forloop" g0.current_function g0).1 _
    (hL5.grows.block_parent (hL4.grows.block_parent
      (hL3.grows.block_parent (hL2.grows.block_parent hpa))))
  have hstmt : codegen_stmt (.AST_FOR init condition increment body) g
      = some (SetInsertPoint
          (BasicBlock_Create "afterfor" g0.current_function
            (BasicBlock_Create "forbody" g0.current_function
              (BasicBlock_Create "forloop" g0.current_function g0).2).2).1
          (g5.insert (.br (BasicBlock_Create "forloop" g0.current_function g0).1))) := by
    simp only [codegen_stmt, hi, hc', hb, hinc]
  have hemit := branchesOnNonzero_emit g2 cond
    (BasicBlock_Create "forbody" g0.current_function
      (BasicBlock_Create "forloop" g0.current_function g0).2).1
    (BasicBlock_Create "afterfor" g0.current_function
      (BasicBlock_Create "forbody" g0.current_function
        (BasicBlock_Create "forloop" g0.current_function g0).2).2).1
    (BasicBlock_Create "forbody" g0.current_function
      (BasicBlock_Create "forloop" g0.current_function g0).2).1 g0.blocks.length hib hlt
  have hG := hL4.grows.withRets.andThen (hL5.grows.withRets.andThen hL6.grows.withRets)
  simp only [hid1, hid3] at hstmt
  simp only [hid2, hid3] at hemit hb
  simp only [hid1, hid2, hid3] at hG
  exact ⟨_, g4, g5, hemit, rfl, hb, hinc, hstmt, hG⟩

/-- The state after the test of the condition of an `If` without else-branch has been
emitted: the comparison, the then block, the merge block, the conditional branch, and
the builder positioned in the then block. -/
theorem if_header_no_else (g : CodeGenerator) (cond : Value) (b : Nat)
    (hb : g.insertBlock = some b) (hlt : b < g.blocks.length) :
    BranchesOnNonzero g cond g.blocks.length (g.blocks.length + 1)
        (SetInsertPoint g.blocks.length
          (CreateCondBr (.inst g.nextId) g.blocks.length (g.blocks.length + 1)
            (BasicBlock_Create "ifcont" g.current_function
              (BasicBlock_Create "then" g.current_function
                (CreateICmp .NE cond (.constInt 0) g).2).2).2))
      ∧ (SetInsertPoint g.blocks.length
          (CreateCondBr (.inst g.nextId) g.blocks.length (g.blocks.length + 1)
            (BasicBlock_Create "ifcont" g.current_function
              (BasicBlock_Create "then" g.current_function
                (CreateICmp .NE cond (.constInt 0) g).2).2).2)).blocks[g.blocks.length]?
        = some (BasicBlock.mk "then" g.current_function [])
      ∧ (SetInsertPoint g.blocks.length
          (CreateCondBr (.inst g.nextId) g.blocks.length (g.blocks.length + 1)
            (BasicBlock_Create "ifcont" g.current_function
              (BasicBlock_Create "then" g.current_function
                (CreateICmp .NE cond (.constInt 0) g).2).2).2)).blocks[g.blocks.length + 1]?
        = some (BasicBlock.mk "ifcont" g.current_function []) := by
  have hne0 : b ≠ g.blocks.length := Nat.ne_of_lt hlt
  have hne1 : b ≠ g.blocks.length + 1 := by omega
  refine ⟨⟨b, hb, hlt, ?_⟩, ?_, ?_⟩
  · have h1 : (SetInsertPoint g.blocks.length
        (CreateCondBr (.inst g.nextId) g.blocks.length (g.blocks.length + 1)
          (BasicBlock_Create "ifcont" g.current_function
            (BasicBlock_Create "then" g.current_function
              (CreateICmp .NE cond (.constInt 0) g).2).2).2)).blockInsts b
        = ((BasicBlock_Create "ifcont" g.current_function
            (BasicBlock_Create "then" g.current_function
              (CreateICmp .NE cond (.constInt 0) g).2).2).2.insert
            (.condBr (.inst g.nextId) g.blocks.length (g.blocks.length + 1))).blockInsts b :=
      rfl
    have h2 : (BasicBlock_Create "ifcont" g.current_function
        (BasicBlock_Create "then" g.current_function
          (CreateICmp .NE cond (.constInt 0) g).2).2).2.blockInsts b
        = (g.insert (.icmp g.nextId .NE cond (.constInt 0))).blockInsts b := by
      rw [blockInsts_append_block _ _ (BasicBlock.mk "ifcont" g.current_function []) rfl rfl,
        blockInsts_append_block _ _ (BasicBlock.mk "then" g.current_function []) rfl rfl]
      rfl
    rw [h1, insert_blockInsts, h2, insert_blockInsts]
    simp [hb, hlt, BasicBlock_Create, CreateICmp]
    omega
  · simp only [SetInsertPoint, CreateCondBr, CodeGenerator.insert, BasicBlock_Create,
      CreateICmp, hb, List.append_assoc, List.singleton_append]
    rw [List.getElem?_modify_ne _ _ hne0, List.getElem?_append_right (by simp)]
    simp
  · simp only [SetInsertPoint, CreateCondBr, CodeGenerator.insert, BasicBlock_Create,
      CreateICmp, hb, List.append_assoc, List.singleton_append]
    rw [List.getElem?_modify_ne _ _ hne1, List.getElem?_append_right (by simp)]
    simp

/-- The state after the test of the condition of an `If` with an else-branch has been
emitted: the comparison, the then block, the else block, the merge block, the conditional
branch, and the builder positioned in the then block. -/
theorem if_header_else (g : CodeGenerator) (cond : Value) (b : Nat)
    (hb : g.insertBlock = some b) (hlt : b < g.blocks.length) :
    BranchesOnNonzero g cond g.blocks.length (g.blocks.length + 1)
        (SetInsertPoint g.blocks.length
          (CreateCondBr (.inst g.nextId) g.blocks.length (g.blocks.length + 1)
            (BasicBlock_Create "ifcont" g.current_function
              (BasicBlock_Create "else" g.current_function
                (BasicBlock_Create "then" g.current_function
                  (CreateICmp .NE cond (.constInt 0) g).2).2).2).2))
      ∧ (SetInsertPoint g.blocks.length
          (CreateCondBr (.inst g.nextId) g.blocks.length (g.blocks.length + 1)
            (BasicBlock_Create "ifcont" g.current_function
              (BasicBlock_Create "else" g.current_function
                (BasicBlock_Create "then" g.current_function
                  (CreateICmp .NE cond (.constInt 0) g).2).2).2).2)).blocks[g.blocks.length]?
        = some (BasicBlock.mk "then" g.current_function [])
      ∧ (SetInsertPoint g.blocks.length
          (CreateCondBr (.inst g.nextId) g.blocks.length (g.blocks.length + 1)
            (BasicBlock_Create "ifcont" g.current_function
              (BasicBlock_Create "else" g.current_function
                (BasicBlock_Create "then" g.current_function
                  (CreateICmp .NE cond (.constInt 0) g).2).2).2).2)).blocks[
            g.blocks.length + 1]?
        = some (BasicBlock.mk "else" g.current_function [])
      ∧ (SetInsertPoint g.blocks.length
          (CreateCondBr (.inst g.nextId) g.blocks.length (g.blocks.length + 1)
            (BasicBlock_Create "ifcont" g.current_function
              (BasicBlock_Create "else" g.current_function
                (BasicBlock_Create "then" g.current_function
                  (CreateICmp .NE cond (.constInt 0) g).2).2).2).2)).blocks[
            g.blocks.length + 2]?
        = some (BasicBlock.mk "ifcont" g.current_function []) := by
  have hne0 : b ≠ g.blocks.length := Nat.ne_of_lt hlt
  have hne1 : b ≠ g.blocks.length + 1 := by omega
  have hne2 : b ≠ g.blocks.length + 2 := by omega
  refine ⟨⟨b, hb, hlt, ?_⟩, ?_, ?_, ?_⟩
  · have h1 : (SetInsertPoint g.blocks.length
        (CreateCondBr (.inst g.nextId) g.blocks.length (g.blocks.length + 1)
          (BasicBlock_Create "ifcont" g.current_function
            (BasicBlock_Create "else" g.current_function
              (BasicBlock_Create "then" g.current_function
                (CreateICmp .NE cond (.constInt 0) g).2).2).2).2)).blockInsts b
        = ((BasicBlock_Create "ifcont" g.current_function
            (BasicBlock_Create "else" g.current_function
              (BasicBlock_Create "then" g.current_function
                (CreateICmp .NE cond (.constInt 0) g).2).2).2).2.insert
            (.condBr (.inst g.nextId) g.blocks.length (g.blocks.length + 1))).blockInsts b :=
      rfl
    have h2 : (BasicBlock_Create "ifcont" g.current_function
        (BasicBlock_Create "else" g.current_function
          (BasicBlock_Create "then" g.current_function
            (CreateICmp .NE cond (.constInt 0) g).2).2).2).2.blockInsts b
        = (g.insert (.icmp g.nextId .NE cond (.constInt 0))).blockInsts b := by
      rw [blockInsts_append_block _ _ (BasicBlock.mk "ifcont" g.current_function []) rfl rfl,
        blockInsts_append_block _ _ (BasicBlock.mk "else" g.current_function []) rfl rfl,
        blockInsts_append_block _ _ (BasicBlock.mk "then" g.current_function []) rfl rfl]
      rfl
    rw [h1, insert_blockInsts, h2, insert_blockInsts]
    simp [hb, hlt, BasicBlock_Create, CreateICmp]
    omega
  · simp only [SetInsertPoint, CreateCondBr, CodeGenerator.insert, BasicBlock_Create,
      CreateICmp, hb, List.append_assoc, List.singleton_append]
    rw [List.getElem?_modify_ne _ _ hne0, List.getElem?_append_right (by simp)]
    simp
  · simp only [SetInsertPoint, CreateCondBr, CodeGenerator.insert, BasicBlock_Create,
      CreateICmp, hb, List.append_assoc, List.singleton_append]
    rw [List.getElem?_modify_ne _ _ hne1, List.getElem?_append_right (by simp)]
    simp
  · simp only [SetInsertPoint, CreateCondBr, CodeGenerator.insert, BasicBlock_Create,
      CreateICmp, hb, List.append_assoc, List.singleton_append]
    rw [List.getElem?_modify_ne _ _ hne2, List.getElem?_append_right (by simp)]
    simp

theorem createICmp_fields (p : Predicate) (l r : Value) (g : CodeGenerator) :
    (CreateICmp p l r g).1 = .inst g.nextId
      ∧ (CreateICmp p l r g).2.current_function = g.current_function
      ∧ (CreateICmp p l r g).2.blocks.length = g.blocks.length := by
  simp [CreateICmp]

theorem block_create_fields (name : String) (func : Option Nat) (g : CodeGenerator) :
    (BasicBlock_Create name func g).1 = g.blocks.length
      ∧ (BasicBlock_Create name func g).2.current_function = g.current_function
      ∧ (BasicBlock_Create name func g).2.blocks.length = g.blocks.length + 1 := by
  simp [BasicBlock_Create]

theorem createICmp_fst (p : Predicate) (l r : Value) (g : CodeGenerator) :
    (CreateICmp p l r g).1 = .inst g.nextId := rfl

theorem createICmp_current_function (p : Predicate) (l r : Value) (g : CodeGenerator) :
    (CreateICmp p l r g).2.current_function = g.current_function := by
  simp [CreateICmp]

theorem createICmp_blocks_length (p : Predicate) (l r : Value) (g : CodeGenerator) :
    (CreateICmp p l r g).2.blocks.length = g.blocks.length := by
  simp [CreateICmp]

theorem block_create_fst (name : String) (func : Option Nat) (g : CodeGenerator) :
    (BasicBlock_Create name func g).1 = g.blocks.length := rfl

theorem block_create_current_function (name : String) (func : Option Nat) (g : CodeGenerator) :
    (BasicBlock_Create name func g).2.current_function = g.current_function := rfl

theorem block_create_blocks_length (name : String) (func : Option Nat) (g : CodeGenerator) :
    (BasicBlock_Create name func g).2.blocks.length = g.blocks.length + 1 := by
  simp [BasicBlock_Create]

/-- The `If` without else-branch whose condition lowers to a value, in terms of the
state in which the then-branch is lowered. -/
theorem codegen_stmt_if_no_else (condition then_branch else_branch : ASTNode)
    (g g1 : CodeGenerator) (cond : Value)
    (hc : codegen_expr condition g = some (some cond, g1))
    (hnull : else_branch.isNull = true) :
    codegen_stmt (.AST_IF condition then_branch else_branch) g
      = match codegen_stmt then_branch
          (SetInsertPoint g1.blocks.length
            (CreateCondBr (.inst g1.nextId) g1.blocks.length (g1.blocks.length + 1)
              (BasicBlock_Create "ifcont" g1.current_function
                (BasicBlock_Create "then" g1.current_function
                  (CreateICmp .NE cond (.constInt 0) g1).2).2).2)) with
        | none => none
        | some g3 =>
          match branchIfNoTerminator (some (g1.blocks.length + 1)) g3 with
          | none => none
          | some g4 => some (SetInsertPoint (g1.blocks.length + 1) g4) := by
  simp only [codegen_stmt, hc, hnull, ↓reduceIte, createICmp_fst, createICmp_current_function,
    createICmp_blocks_length, block_create_fst, block_create_current_function,
    block_create_blocks_length]

/-- The `If` with an else-branch whose condition lowers to a value, in terms of the
state in which the then-branch is lowered. -/
theorem codegen_stmt_if_else (condition then_branch else_branch : ASTNode)
    (g g1 : CodeGenerator) (cond : Value)
    (hc : codegen_expr condition g = some (some cond, g1))
    (hnull : else_branch.isNull = false) :
    codegen_stmt (.AST_IF condition then_branch else_branch) g
      = match codegen_stmt then_branch
          (SetInsertPoint g1.blocks.length
            (CreateCondBr (.inst g1.nextId) g1.blocks.length (g1.blocks.length + 1)
              (BasicBlock_Create "ifcont" g1.current_function
                (BasicBlock_Create "else" g1.current_function
                  (BasicBlock_Create "then" g1.current_function
                    (CreateICmp .NE cond (.constInt 0) g1).2).2).2).2)) with
        | none => none
        | some g3 =>
          match branchIfNoTerminator (some (g1.blocks.length + 2)) g3 with
          | none => none
          | some g4 =>
            match codegen_stmt else_branch (SetInsertPoint (g1.blocks.length + 1) g4) with
            | none => none
            | some g5 =>
              match branchIfNoTerminator (some (g1.blocks.length + 2)) g5 with
              | none => none
              | some g6 => some (SetInsertPoint (g1.blocks.length + 2) g6) := by
  simp only [codegen_stmt, hc, hnull, Bool.false_eq_true, ↓reduceIte, createICmp_fst,
    createICmp_current_function, createICmp_blocks_length, block_create_fst,
    block_create_current_function, block_create_blocks_length, Nat.add_assoc, Nat.reduceAdd]

theorem grows_setInsertPoint (r : Bool) (b : Nat) (g : CodeGenerator) :
    Grows r g (SetInsertPoint b g) :=
  Grows.of_fields rfl rfl (Nat.le_refl _) rfl rfl

/-- The state in which the then-branch of an `If` without else-branch is lowered is
inside the function. -/
theorem lowered_if_header_no_else {g : CodeGenerator} (hin : InFunction g) (cond : Value) :
    Lowered false g
      (SetInsertPoint g.blocks.length
        (CreateCondBr (.inst g.nextId) g.blocks.length (g.blocks.length + 1)
          (BasicBlock_Create "ifcont" g.current_function
            (BasicBlock_Create "then" g.current_function
              (CreateICmp .NE cond (.constInt 0) g).2).2).2)) := by
  obtain ⟨b, bb, p, hb, hbb, _⟩ := hin.block
  obtain ⟨f, _, _, hf, _, _⟩ := hin.func
  obtain ⟨_, hthen, _⟩ := if_header_no_else g cond b hb (blocks_getElem?_lt hbb)
  have hLc : Lowered false g (CreateICmp .NE cond (.constInt 0) g).2 :=
    lowered_create false hin (.icmp g.nextId .NE cond (.constInt 0)) (fun _ => rfl)
  have hLt := lowered_block_create false hLc.inFunction "then"
  rw [createICmp_current_function] at hLt
  have hLm := lowered_block_create false hLt.inFunction "ifcont"
  rw [block_create_current_function, createICmp_current_function] at hLm
  have hLb := lowered_insert false hLm.inFunction
    (.condBr (.inst g.nextId) g.blocks.length (g.blocks.length + 1)) (fun _ => rfl)
  have hLs := lowered_setInsertPoint false hLb.inFunction g.blocks.length
    (BasicBlock.mk "then" g.current_function []) f hthen hf
  exact (((hLc.trans hLt).trans hLm).trans hLb).trans hLs

/-- The state in which the then-branch of an `If` with an else-branch is lowered is
inside the function. -/
theorem lowered_if_header_else {g : CodeGenerator} (hin : InFunction g) (cond : Value) :
    Lowered false g
      (SetInsertPoint g.blocks.length
        (CreateCondBr (.inst g.nextId) g.blocks.length (g.blocks.length + 1)
          (BasicBlock_Create "ifcont" g.current_function
            (BasicBlock_Create "else" g.current_function
              (BasicBlock_Create "then" g.current_function
                (CreateICmp .NE cond (.constInt 0) g).2).2).2).2)) := by
  obtain ⟨b, bb, p, hb, hbb, _⟩ := hin.block
  obtain ⟨f, _, _, hf, _, _⟩ := hin.func
  obtain ⟨_, hthen, _⟩ := if_header_else g cond b hb (blocks_getElem?_lt hbb)
  have hLc : Lowered false g (CreateICmp .NE cond (.constInt 0) g).2 :=
    lowered_create false hin (.icmp g.nextId .NE cond (.constInt 0)) (fun _ => rfl)
  have hLt := lowered_block_create false hLc.inFunction "then"
  rw [createICmp_current_function] at hLt
  have hLe := lowered_block_create false hLt.inFunction "else"
  rw [block_create_current_function, createICmp_current_function] at hLe
  have hLm := lowered_block_create false hLe.inFunction "ifcont"
  rw [block_create_current_function, block_create_current_function,
    createICmp_current_function] at hLm
  have hLb := lowered_insert false hLm.inFunction
    (.condBr (.inst g.nextId) g.blocks.length (g.blocks.length + 1)) (fun _ => rfl)
  have hLs := lowered_setInsertPoint false hLb.inFunction g.blocks.length
    (BasicBlock.mk "then" g.current_function []) f hthen hf
  exact ((((hLc.trans hLt).trans hLe).trans hLm).trans hLb).trans hLs

/-- The conditional branch of an `If` whose condition lowers to a value, for a
generator inside a function. -/
theorem if_branch (condition then_branch else_branch : ASTNode) (g g1 : CodeGenerator)
    (cond : Value) (hin : InFunction g)
    (hc : codegen_expr condition g = some (some cond, g1)) :
    ∃ g2 g3 g',
      BranchesOnNonzero g1 cond g1.blocks.length (g1.blocks.length + 1) g2
        ∧ g2.insertBlock = some g1.blocks.length
        ∧ g2.blocks[g1.blocks.length]? = some (BasicBlock.mk "then" g1.current_function [])
        ∧ g2.blocks[g1.blocks.length + 1]?
          = some (BasicBlock.mk (if else_branch.isNull then "ifcont" else "else")
              g1.current_function [])
        ∧ (else_branch.isNull = false → g2.blocks[g1.blocks.length + 2]?
            = some (BasicBlock.mk "ifcont" g1.current_function []))
        ∧ codegen_stmt then_branch g2 = some g3
        ∧ codegen_stmt (.AST_IF condition then_branch else_branch) g = some g'
        ∧ Grows true g2 g'
        ∧ g'.insertBlock
          = some (g1.blocks.length + (if else_branch.isNull then 1 else 2)) := by
  obtain ⟨r, g1', hc', hL1, _⟩ := codegen_expr_lowered condition g hin
  rw [hc] at hc'
  simp only [Option.some.injEq, Prod.mk.injEq] at hc'
  obtain ⟨_, e1⟩ := hc'
  subst e1
  have hin1 := hL1.inFunction
  obtain ⟨b, bb, p, hb, hbb, _⟩ := hin1.block
  have hlt := blocks_getElem?_lt hbb
  obtain ⟨f, _, _, hf, _, _⟩ := hin1.func
  cases hnull : else_branch.isNull with
  | true =>
    obtain ⟨hemit, hthen, hmerge⟩ := if_header_no_else g1 cond b hb hlt
    have hH := lowered_if_header_no_else hin1 cond
    obtain ⟨g3, h3, hL3⟩ := codegen_stmt_lowered then_branch _ hH.inFunction
    obtain ⟨g4, h4, hL4, _⟩ := lowered_branchIfNoTerminator hL3.inFunction (g1.blocks.length + 1)
    refine ⟨_, g3, SetInsertPoint (g1.blocks.length + 1) g4, hemit, rfl, hthen, ?_, ?_, h3,
      ?_, ?_, rfl⟩
    · simpa using hmerge
    · intro hh
      exact absurd hh (by simp)
    · rw [codegen_stmt_if_no_else condition then_branch else_branch g g1 cond hc hnull]
      simp only [h3, h4]
    · exact hL3.grows.withRets.andThen (hL4.grows.withRets.andThen
        (grows_setInsertPoint true _ g4))
  | false =>
    obtain ⟨hemit, hthen, helse, hmerge⟩ := if_header_else g1 cond b hb hlt
    have hH := lowered_if_header_else hin1 cond
    obtain ⟨g3, h3, hL3⟩ := codegen_stmt_lowered then_branch _ hH.inFunction
    obtain ⟨g4, h4, hL4, _⟩ := lowered_branchIfNoTerminator hL3.inFunction (g1.blocks.length + 2)
    have hpe := (hL3.grows.withRets.andThen hL4.grows.withRets).block_parent
      ⟨BasicBlock.mk "else" g1.current_function [], f, helse, hf⟩
    obtain ⟨bbe, pe, hbe, hppe⟩ := hpe
    have hL5 := lowered_setInsertPoint false hL4.inFunction (g1.blocks.length + 1) bbe pe
      hbe hppe
    obtain ⟨g5, h5, hL6⟩ := codegen_stmt_lowered else_branch _ hL5.inFunction
    obtain ⟨g6, h6, hL7, _⟩ := lowered_branchIfNoTerminator hL6.inFunction (g1.blocks.length + 2)
    refine ⟨_, g3, SetInsertPoint (g1.blocks.length + 2) g6, hemit, rfl, hthen, ?_, ?_, h3,
      ?_, ?_, rfl⟩
    · simpa using helse
    · intro _
      exact hmerge
    · rw [codegen_stmt_if_else condition then_branch else_branch g g1 cond hc hnull]
      simp only [h3, h4, h5, h6]
    · exact hL3.grows.withRets.andThen (hL4.grows.withRets.andThen
        (hL5.grows.withRets.andThen (hL6.grows.withRets.andThen (hL7.grows.withRets.andThen
          (grows_setInsertPoint true _ g6)))))

/-- The state in which the body of `int main()` starts being lowered is inside a
function. -/
theorem mainEntryState_inFunction : InFunction mainEntryState where
  func := ⟨1, Function.mk "main" .i32 [] false [] [0, 1], 0, by decide, by decide, by decide⟩
  block := ⟨0, BasicBlock.mk "entry" (some 1)
    [.alloca 0 "retval", .store (.constInt 0) (.inst 0)], 1, by decide, by decide, rfl⟩
  return_block := ⟨1, by decide⟩
  printf := ⟨0, by decide⟩

/-! ## The symbol table: claims -/

/-- C14: starting from the empty table, after every finite sequence of `add`,
`add_function`, `add_parameter` and `set` calls the names of the stored entries are
pairwise distinct. -/
theorem symtab_names_pairwise_distinct (cs : List SymtabCall) :
    ((SymbolTable.new.calls cs).symbols.map Symbol.name).Nodup :=
  (valid_calls cs valid_new).names

/-- C15: for every table and every name already present, whatever the kind of the
existing entry, `add`, `add_function` and `add_parameter` each return -1 and leave the
table as it was: the same entries and the same stack offset. -/
theorem duplicate_insertion_rejected (t : SymbolTable) (name : String) (param_count : Int)
    (h : ∃ s ∈ t.symbols, s.name = name) :
    t.add name = (-1, t) ∧ t.add_function name param_count = (-1, t)
      ∧ t.add_parameter name = (-1, t) := by
  have hl : 0 ≤ t.lookup name := (lookup_nonneg_iff t name).2 h
  simp [SymbolTable.add, SymbolTable.add_function, SymbolTable.add_parameter, hl]

/-- The table with the function `f` of two parameters and the variable `x`: inserting
`f` or `x` again, as any kind, is rejected. -/
theorem duplicate_insertion_rejected_witness :
    (∃ s ∈ ((SymbolTable.new.add_function "f" 2).2.add "x").2.symbols, s.name = "f")
      ∧ ((SymbolTable.new.add_function "f" 2).2.add "x").2.add "f"
          = (-1, ((SymbolTable.new.add_function "f" 2).2.add "x").2)
      ∧ ((SymbolTable.new.add_function "f" 2).2.add "x").2.add_function "x" 7
          = (-1, ((SymbolTable.new.add_function "f" 2).2.add "x").2)
      ∧ ((SymbolTable.new.add_function "f" 2).2.add "x").2.add_parameter "f"
          = (-1, ((SymbolTable.new.add_function "f" 2).2.add "x").2) :=
  ⟨⟨Symbol.mk "f" .FUNCTION 0 0 2, by decide, rfl⟩,
    (duplicate_insertion_rejected _ "f" 0 ⟨Symbol.mk "f" .FUNCTION 0 0 2, by decide, rfl⟩).1,
    (duplicate_insertion_rejected _ "x" 7 ⟨Symbol.mk "x" .VARIABLE 0 0 0, by decide, rfl⟩).2.1,
    (duplicate_insertion_rejected _ "f" 0 ⟨Symbol.mk "f" .FUNCTION 0 0 2, by decide, rfl⟩).2.2⟩

/-- C16: in every table reached from the empty table, the k-th (0-based) entry that is
a variable or a parameter, in insertion order, has offset 4k and `get_offset` of its
name returns 4k; a function entry has offset 0; `get_stack_offset()` is four times the
number of variable and parameter entries; and `add_function` leaves the counter as it
was while a successful `add` or `add_parameter` advances it by 4. -/
theorem stack_offsets_in_units_of_four (cs : List SymtabCall) :
    (∀ (k : Nat) (s : Symbol), (SymbolTable.new.calls cs).slots[k]? = some s →
        s.offset = 4 * (k : Int) ∧ (SymbolTable.new.calls cs).get_offset s.name = 4 * (k : Int))
      ∧ (∀ s ∈ (SymbolTable.new.calls cs).symbols, s.type = .FUNCTION →
          s.offset = 0 ∧ (SymbolTable.new.calls cs).get_offset s.name = 0)
      ∧ (SymbolTable.new.calls cs).get_stack_offset
          = 4 * ((SymbolTable.new.calls cs).slots.length : Int)
      ∧ (∀ (name : String) (param_count : Int),
          ((SymbolTable.new.calls cs).add_function name param_count).2.get_stack_offset
            = (SymbolTable.new.calls cs).get_stack_offset)
      ∧ (∀ (name : String), ((SymbolTable.new.calls cs).add name).1 ≠ -1 →
          ((SymbolTable.new.calls cs).add name).2.get_stack_offset
            = (SymbolTable.new.calls cs).get_stack_offset + 4)
      ∧ (∀ (name : String), ((SymbolTable.new.calls cs).add_parameter name).1 ≠ -1 →
          ((SymbolTable.new.calls cs).add_parameter name).2.get_stack_offset
            = (SymbolTable.new.calls cs).get_stack_offset + 4) := by
  have hv := valid_calls cs valid_new
  generalize SymbolTable.new.calls cs = t at hv
  have hfound : ∀ s ∈ t.symbols, t.found s.name = some s := by
    intro s hs
    rw [found_eq_find]
    cases hf : t.symbols.find? (fun x => decide (x.name = s.name)) with
    | none =>
      rw [List.find?_eq_none] at hf
      exact absurd (by simp) (hf s hs)
    | some y =>
      have hy := List.mem_of_find?_eq_some hf
      have hn : y.name = s.name := by simpa using List.find?_some hf
      have := List.inj_on_of_nodup_map hv.names hy hs hn
      rw [this]
  have hoff : ∀ s ∈ t.symbols, t.get_offset s.name = s.offset := by
    intro s hs
    rw [(getters_eq t s.name).2.1, hfound s hs]
    rfl
  refine ⟨?_, ?_, hv.stack, ?_, ?_, ?_⟩
  · intro k s hs
    have hmem : s ∈ t.symbols := (List.mem_filter.1 (List.getElem?_mem hs)).1
    have := hv.slot_offset k s hs
    exact ⟨this, by rw [hoff s hmem, this]⟩
  · intro s hs hty
    have := hv.function_offset s hs hty
    exact ⟨this, by rw [hoff s hs, this]⟩
  · intro name param_count
    unfold SymbolTable.add_function SymbolTable.get_stack_offset
    by_cases h : 0 ≤ t.lookup name <;> simp [h]
  · intro name
    unfold SymbolTable.add SymbolTable.get_stack_offset
    by_cases h : 0 ≤ t.lookup name <;> simp [h]
  · intro name
    unfold SymbolTable.add_parameter SymbolTable.get_stack_offset
    by_cases h : 0 ≤ t.lookup name <;> simp [h]

/-- The calls `add("a")`, `add_function("f", 2)`, `add_parameter("p")`, `set("a", 5)` and
a rejected `add("a")`: the second slot entry is the parameter `p`, at offset 4, and the
function `f` is at offset 0. -/
theorem stack_offsets_in_units_of_four_witness :
    (SymbolTable.new.calls [.add "a", .add_function "f" 2, .add_parameter "p", .set "a" 5,
        .add "a"]).slots[1]? = some (Symbol.mk "p" .PARAMETER 0 4 0)
      ∧ (Symbol.mk "p" .PARAMETER 0 4 0).offset = 4 * ((1 : Nat) : Int)
      ∧ (SymbolTable.new.calls [.add "a", .add_function "f" 2, .add_parameter "p", .set "a" 5,
          .add "a"]).get_offset "p" = 4 * ((1 : Nat) : Int)
      ∧ (SymbolTable.new.calls [.add "a", .add_function "f" 2, .add_parameter "p", .set "a" 5,
          .add "a"]).get_offset "f" = 0
      ∧ (SymbolTable.new.calls [.add "a", .add_function "f" 2, .add_parameter "p", .set "a" 5,
          .add "a"]).get_stack_offset = 8 :=
  ⟨by decide,
    ((stack_offsets_in_units_of_four [.add "a", .add_function "f" 2, .add_parameter "p",
      .set "a" 5, .add "a"]).1 1 (Symbol.mk "p" .PARAMETER 0 4 0) (by decide)).1,
    ((stack_offsets_in_units_of_four [.add "a", .add_function "f" 2, .add_parameter "p",
      .set "a" 5, .add "a"]).1 1 (Symbol.mk "p" .PARAMETER 0 4 0) (by decide)).2,
    ((stack_offsets_in_units_of_four [.add "a", .add_function "f" 2, .add_parameter "p",
      .set "a" 5, .add "a"]).2.1 (Symbol.mk "f" .FUNCTION 0 0 2) (by decide) rfl).2,
    by decide⟩

/-- C11 as stated fails: in the constructor's state with `main` entered, no
`FunctionDef` named `printf` has been lowered, yet the call `printf(1)` resolves to the
declaration the constructor made: `codegen_expr` returns a value and a call instruction
is appended to the block. -/
theorem call_to_printf_lowers :
    (codegen_expr (.AST_FUNCTION_CALL "printf" (.cons (.AST_NUMBER 1) .nil))
        mainEntryState).map (fun r => (r.1, r.2.blockInsts 0))
      = some (some (.inst 1),
          [.alloca 0 "retval", .store (.constInt 0) (.inst 0), .call 1 0 [.constInt 1]])
      ∧ mainEntryState.blockInsts 0 = [.alloca 0 "retval", .store (.constInt 0) (.inst 0)]
      ∧ mainEntryState.module.symtab = [("printf", .function 0), ("main", .function 1)] := by
  decide

/-- C11, amended: a `FunctionCall` whose name the module does not resolve to a function
makes `codegen_expr` return the null value and leave the generator as it was, so that no
instruction is emitted for the call or for any of its arguments. The names the module
resolves to a function are `printf`, declared by the constructor, and the names under
which lowered function definitions were registered: in the state the driver starts from
`printf` is the only one; entering a function definition, lowering a statement and
lowering an expression leave a name unresolved unless, for the first two, a function
definition they lower is registered under it. -/
theorem unknown_function_call_fails (name : String) :
    (∀ (args : ArgList) (g : CodeGenerator), g.module.getFunction name = none →
        codegen_expr (.AST_FUNCTION_CALL name args) g = some (none, g))
      ∧ (∀ globals : List GlobalVar, name ≠ "printf" →
          (create_globals globals CodeGenerator.new).module.getFunction name = none)
      ∧ (∀ (func_name : String) (params : ParamList) (g g1 : CodeGenerator)
          (saved : SavedContext), function_def_enter func_name params g = some (saved, g1) →
          g.module.getFunction name = none → ¬ RegisteredAs func_name name →
          g1.module.getFunction name = none)
      ∧ (∀ (s : ASTNode) (g g' : CodeGenerator), codegen_stmt s g = some g' →
          g.module.getFunction name = none →
          (∀ base ∈ statementFunctionDefs s, ¬ RegisteredAs base name) →
          g'.module.getFunction name = none)
      ∧ (∀ (e : ASTNode) (g g' : CodeGenerator) (r : Option Value),
          codegen_expr e g = some (r, g') →
          g'.module.getFunction name = g.module.getFunction name) := by
  refine ⟨?_, ?_, ?_, ?_, ?_⟩
  · intro args g h
    simp only [codegen_expr, h]
  · intro globals hn
    rw [initial_getFunction]
    simp [hn]
  · intro func_name params g g1 saved he h hn
    exact (function_def_enter_adds he).getFunction_none h
      (fun base hb => by
        simp only [List.mem_singleton] at hb
        subst hb
        exact hn)
  · intro s g g' hs h hn
    exact (codegen_stmt_adds s g g' hs).getFunction_none h hn
  · intro e g g' r he
    rw [codegen_expr_module e g r g' he]

/-- The call `g(1 + 2 * 3)` at the start of the body of `main`: the name `g` is not
`printf` and no function is registered under it, so that the call returns the null
value and the state is the one before, with nothing emitted for the argument. -/
theorem unknown_function_call_fails_witness :
    mainEntryState.module.getFunction "g" = none
      ∧ codegen_expr (.AST_FUNCTION_CALL "g" (.cons onePlusTwoTimesThree .nil)) mainEntryState
        = some (none, mainEntryState) :=
  ⟨by decide, (unknown_function_call_fails "g").1 _ mainEntryState (by decide)⟩

/-- C12 as stated fails for a definition whose name is taken in the module. With a
global variable `f` declared, the function `f` is registered as `f.1` and the call to
`f` in its body is an unknown function: the lowered function calls nothing. After an
earlier definition of `f`, the second function `f` is registered as `f.1` and the call
in its body is a call of the first function, not of the function being defined. -/
theorem recursive_call_misses_taken_name :
    ( codegen_function_def "f" ["n"] factorialBody
        (create_globals [GlobalVar.mk "f" 5] CodeGenerator.new)).map
        (fun g => (g.callees 1, g.module.functions.map Function.name))
      = some ([], ["printf", "f.1"])
      ∧ (codegen_stmt
          (.AST_SEQUENCE (.AST_FUNCTION_DEF "f" ["n"] (.AST_RETURN (.AST_NUMBER 1)))
            (.AST_FUNCTION_DEF "f" ["n"] factorialBody)) CodeGenerator.new).map
          (fun g => (g.callees 2, g.module.functions.map Function.name))
        = some ([1], ["printf", "f", "f.1"]) := by
  decide

/-- C12, amended: for a `FunctionDef` whose name is not empty and is free in the
module's symbol table (no earlier function, `printf` or global variable has it), the
function is created and its name resolves to it before the body is lowered; the name
keeps resolving to it after every statement and expression lowered from then on; and in
every state in which it does, a call to the name whose arguments lower is lowered to a
call instruction of that function. The whole definition lowers and leaves the name
registered. -/
theorem recursive_call_resolves (name : String) (params : ParamList) (body : ASTNode)
    (g : CodeGenerator) (hprintf : ∃ p, g.printf_func = some p) (hne : name ≠ "")
    (hfree : mapFind g.module.symtab name = none) :
    ∃ (saved : SavedContext) (g1 g' : CodeGenerator) (fn : Function),
      function_def_enter name params g = some (saved, g1)
        ∧ g1.current_function = some g.module.functions.length
        ∧ g1.module.functions[g.module.functions.length]? = some fn ∧ fn.name = name
        ∧ g1.module.getFunction name = some g.module.functions.length
        ∧ (∀ (s : ASTNode) (g2 g3 : CodeGenerator),
            g2.module.getFunction name = some g.module.functions.length →
            codegen_stmt s g2 = some g3 →
            g3.module.getFunction name = some g.module.functions.length)
        ∧ (∀ (e : ASTNode) (r : Option Value) (g2 g3 : CodeGenerator),
            g2.module.getFunction name = some g.module.functions.length →
            codegen_expr e g2 = some (r, g3) →
            g3.module.getFunction name = some g.module.functions.length)
        ∧ (∀ (args : ArgList) (vals : List Value) (g2 g3 : CodeGenerator),
            g2.module.getFunction name = some g.module.functions.length →
            codegen_args args g2 = some (some vals, g3) →
            codegen_expr (.AST_FUNCTION_CALL name args) g2
              = some (some (.inst g3.nextId),
                  { g3.insert (.call g3.nextId g.module.functions.length vals) with
                    nextId := g3.nextId + 1 }))
        ∧ codegen_function_def name params body g = some g'
        ∧ g'.module.getFunction name = some g.module.functions.length := by
  obtain ⟨g1, fn, henter, hin, hcf, hfn, hname, _, hget⟩ :=
    function_def_enter_registers name params g hprintf hne hfree
  obtain ⟨g1', g2, gb, g', henter', hbody, _, hleave, hdef, _⟩ :=
    codegen_function_def_phases name params body g hprintf
  have hg1 : g1' = g1 := by
    rw [henter] at henter'
    simp only [Option.some.injEq, Prod.mk.injEq, true_and] at henter'
    exact henter'.symm
  subst hg1
  refine ⟨_, g1', g', fn, henter, hcf, hfn, hname, hget, ?_, ?_, ?_, hdef, ?_⟩
  · intro s g2 g3 h2 hs
    exact (codegen_stmt_adds s g2 g3 hs).getFunction_some h2
  · intro e r g2 g3 h2 he
    rw [codegen_expr_module e g2 r g3 he]
    exact h2
  · intro args vals g2 g3 h2 ha
    exact codegen_expr_call_eq name args g2 g3 _ vals h2 ha
  · unfold Module.getFunction at hget ⊢
    rw [function_def_leave_module hleave]
    exact (codegen_stmt_adds body g1' g2 hbody).getFunction_some hget

/-- The definition `f(n) { if (n <= 1) return 1; return n * f(n - 1); }` in the
constructor's state: the function is function 1 of the module, registered as `f`, and
the one call its lowered body holds is a call of function 1. -/
theorem recursive_call_resolves_witness :
    (∃ p, CodeGenerator.new.printf_func = some p) ∧ "f" ≠ ""
      ∧ mapFind CodeGenerator.new.module.symtab "f" = none
      ∧ CodeGenerator.new.module.functions.length = 1
      ∧ ( codegen_function_def "f" ["n"] factorialBody CodeGenerator.new).map
          (fun g => (g.callees 1, g.module.functions.map Function.name, g.blockInsts 3))
        = some ([1], ["printf", "f"],
            [.load 6 (.inst 1) "n", .load 7 (.inst 1) "n",
              .arith 8 .Sub (.inst 7) (.constInt 1), .call 9 1 [.inst 8],
              .arith 10 .Mul (.inst 6) (.inst 9), .store (.inst 10) (.inst 0), .br 1])
      ∧ ∃ (saved : SavedContext) (g1 g' : CodeGenerator),
          function_def_enter "f" ["n"] CodeGenerator.new = some (saved, g1)
            ∧ g1.module.getFunction "f" = some 1
            ∧ codegen_function_def "f" ["n"] factorialBody CodeGenerator.new = some g'
            ∧ g'.module.getFunction "f" = some 1 := by
  refine ⟨⟨0, by decide⟩, by decide, by decide, by decide, by decide, ?_⟩
  obtain ⟨saved, g1, g', _, h1, _, _, _, h2, _, _, _, h3, h4⟩ :=
    recursive_call_resolves "f" ["n"] factorialBody CodeGenerator.new ⟨0, by decide⟩
      (by decide) (by decide)
  exact ⟨saved, g1, g', h1, h2, h3, h4⟩

/-- C13 as stated fails: in `f(n) { return g(n - 1); }  g(n) { return f(n - 1); }`,
lowered in one pass from the constructor's state, the call to `g` in the body of `f` is
an unknown function: at the start of that body `codegen_expr` returns the null value and
leaves the state as it was, and the lowered `f` calls nothing. Only the call to `f` in
the body of `g` is lowered, to a call of function 1. -/
theorem mutual_recursion_forward_call_unknown :
    (function_def_enter "f" ["n"] CodeGenerator.new).bind
        (fun p => (codegen_expr (.AST_FUNCTION_CALL "g" (.cons nMinusOne .nil)) p.2).map
          (fun r => (r.1, decide (r.2 = p.2))))
      = some (none, true)
      ∧ (codegen_stmt mutualRecursion CodeGenerator.new).map
          (fun g => (g.callees 1, g.callees 2, g.module.functions.map Function.name))
        = some ([], [1], ["printf", "f", "g"]) := by
  decide

/-- C13, amended: in one pass over `Sequence(FunctionDef f, FunctionDef g)`, where the
name `f` is not empty and is free in the module and the name `g` is another name that
the module does not resolve to a function, the program lowers; the call to `f` in the
body of `g` resolves, because `f` was registered when its definition was entered: the
name resolves to that function when the body of `g` starts being lowered and after every
statement lowered from then on, and a call to it whose arguments lower is a call
instruction of that function. The call to `g` in the body of `f` is an unknown function:
at the start of the body of `f`, and after every statement lowered from there that
defines no function registered as `g`, `codegen_expr` returns the null value for it and
leaves the state as it was. -/
theorem mutual_recursion_backward_call_only (f g : String) (pf pg : ParamList)
    (bf bg : ASTNode) (st : CodeGenerator) (hprintf : ∃ p, st.printf_func = some p)
    (hne : f ≠ "") (hfree : mapFind st.module.symtab f = none) (hfg : g ≠ f)
    (hg : st.module.getFunction g = none) :
    ∃ (saved1 saved2 : SavedContext) (s1 s2 s3 final : CodeGenerator),
      function_def_enter f pf st = some (saved1, s1)
        ∧ (∀ args : ArgList, codegen_expr (.AST_FUNCTION_CALL g args) s1 = some (none, s1))
        ∧ (∀ (s : ASTNode) (s' : CodeGenerator) (args : ArgList), codegen_stmt s s1 = some s' →
            (∀ base ∈ statementFunctionDefs s, ¬ RegisteredAs base g) →
            codegen_expr (.AST_FUNCTION_CALL g args) s' = some (none, s'))
        ∧ codegen_function_def f pf bf st = some s2
        ∧ function_def_enter g pg s2 = some (saved2, s3)
        ∧ s3.module.getFunction f = some st.module.functions.length
        ∧ (∀ (s : ASTNode) (s4 s5 : CodeGenerator),
            s4.module.getFunction f = some st.module.functions.length →
            codegen_stmt s s4 = some s5 →
            s5.module.getFunction f = some st.module.functions.length)
        ∧ (∀ (args : ArgList) (vals : List Value) (s4 s5 : CodeGenerator),
            s4.module.getFunction f = some st.module.functions.length →
            codegen_args args s4 = some (some vals, s5) →
            codegen_expr (.AST_FUNCTION_CALL f args) s4
              = some (some (.inst s5.nextId),
                  { s5.insert (.call s5.nextId st.module.functions.length vals) with
                    nextId := s5.nextId + 1 }))
        ∧ codegen_stmt (.AST_SEQUENCE (.AST_FUNCTION_DEF f pf bf) (.AST_FUNCTION_DEF g pg bg))
            st = some final := by
  obtain ⟨s1, fn, henter, _, _, _, _, hsym, hget⟩ :=
    function_def_enter_registers f pf st hprintf hne hfree
  obtain ⟨s2, hdef, hG, _⟩ := codegen_function_def_grows f pf bf st hprintf
  have hp2 : ∃ p, s2.printf_func = some p := by
    rw [hG.printf_func_eq]
    exact hprintf
  obtain ⟨s3', _, _, sg, henter2, _, _, _, hdef2, _⟩ :=
    codegen_function_def_phases g pg bg s2 hp2
  have hnone1 : s1.module.getFunction g = none := by
    unfold Module.getFunction at hg ⊢
    rw [hsym, mapFind_append]
    have hfg' : ¬ f = g := fun h => hfg h.symm
    cases hm : mapFind st.module.symtab g with
    | none => simp [mapFind, hfg']
    | some v => simpa [hm] using hg
  have hstmt : ∀ (s : ASTNode) (s4 s5 : CodeGenerator)
      (_ : s4.module.getFunction f = some st.module.functions.length)
      (_ : codegen_stmt s s4 = some s5),
      s5.module.getFunction f = some st.module.functions.length :=
    fun s s4 s5 h4 hs => (codegen_stmt_adds s s4 s5 hs).getFunction_some h4
  have hdef' : codegen_stmt (.AST_FUNCTION_DEF f pf bf) st = some s2 := by
    simpa only [codegen_stmt, codegen_function_def] using hdef
  have hdef2' : codegen_stmt (.AST_FUNCTION_DEF g pg bg) s2 = some sg := by
    simpa only [codegen_stmt, codegen_function_def] using hdef2
  have hget2 : s2.module.getFunction f = some st.module.functions.length := by
    obtain ⟨g1', g2', _, g'', he', hb', _, hl', hd', _⟩ :=
      codegen_function_def_phases f pf bf st hprintf
    rw [henter] at he'
    simp only [Option.some.injEq, Prod.mk.injEq, true_and] at he'
    subst he'
    rw [hdef] at hd'
    have e := Option.some.inj hd'
    subst e
    unfold Module.getFunction at hget ⊢
    rw [function_def_leave_module hl']
    exact (codegen_stmt_adds bf s1 g2' hb').getFunction_some hget
  refine ⟨_, _, s1, s2, s3', sg, henter, ?_, ?_, hdef, henter2, ?_, hstmt, ?_, ?_⟩
  · intro args
    simp only [codegen_expr, hnone1]
  · intro s s' args hs hn
    have := (codegen_stmt_adds s s1 s' hs).getFunction_none hnone1 hn
    simp only [codegen_expr, this]
  · exact (function_def_enter_adds henter2).getFunction_some hget2
  · intro args vals s4 s5 h4 ha
    exact codegen_expr_call_eq f args s4 s5 _ vals h4 ha
  · simp only [codegen_stmt] at hdef' hdef2' ⊢
    simp only [hdef', hdef2']

/-- The program `f(n) { return g(n - 1); }  g(n) { return f(n - 1); }` from the
constructor's state: it lowers, the call to `g` at the start of the body of `f` returns
the null value, and `f` resolves to function 1 when the body of `g` starts. -/
theorem mutual_recursion_backward_call_only_witness :
    (∃ p, CodeGenerator.new.printf_func = some p) ∧ "f" ≠ ""
      ∧ mapFind CodeGenerator.new.module.symtab "f" = none ∧ "g" ≠ "f"
      ∧ CodeGenerator.new.module.getFunction "g" = none
      ∧ ∃ (saved1 saved2 : SavedContext) (s1 s2 s3 final : CodeGenerator),
          function_def_enter "f" ["n"] CodeGenerator.new = some (saved1, s1)
            ∧ codegen_expr (.AST_FUNCTION_CALL "g" (.cons nMinusOne .nil)) s1 = some (none, s1)
            ∧ codegen_function_def "f" ["n"]
                (.AST_RETURN (.AST_FUNCTION_CALL "g" (.cons nMinusOne .nil))) CodeGenerator.new
              = some s2
            ∧ function_def_enter "g" ["n"] s2 = some (saved2, s3)
            ∧ s3.module.getFunction "f" = some 1
            ∧ codegen_stmt mutualRecursion CodeGenerator.new = some final := by
  refine ⟨⟨0, by decide⟩, by decide, by decide, by decide, by decide, ?_⟩
  obtain ⟨saved1, saved2, s1, s2, s3, final, h1, h2, _, h3, h4, h5, _, _, h6⟩ :=
    mutual_recursion_backward_call_only "f" "g" ["n"] ["n"]
      (.AST_RETURN (.AST_FUNCTION_CALL "g" (.cons nMinusOne .nil)))
      (.AST_RETURN (.AST_FUNCTION_CALL "f" (.cons nMinusOne .nil)))
      CodeGenerator.new ⟨0, by decide⟩ (by decide) (by decide) (by decide) (by decide)
  exact ⟨saved1, saved2, s1, s2, s3, final, h1, h2 _, h3, h4, h5, h6⟩

/-! ## The function context: claims -/

/-- C20: for every `FunctionDef` node and every generator state, once
`codegen_function_def` has returned the local binding map, the current function, the
current return block and the return-value storage are what they were before the call,
whatever the body contains, and so is the map of declared globals; and the call does
return in every state in which `printf` is declared, as it is from the constructor on. -/
theorem function_context_restored (func_name : String) (params : ParamList) (body : ASTNode)
    (g : CodeGenerator) :
    ((∃ p, g.printf_func = some p) →
        ∃ g', codegen_function_def func_name params body g = some g')
      ∧ ∀ g', codegen_function_def func_name params body g = some g' →
          g'.named_values = g.named_values
            ∧ g'.current_function = g.current_function
            ∧ g'.current_return_block = g.current_return_block
            ∧ g'.return_value_alloca = g.return_value_alloca
            ∧ g'.global_vars = g.global_vars := by
  constructor
  · intro hprintf
    obtain ⟨g', h, _⟩ := codegen_function_def_grows func_name params body g hprintf
    exact ⟨g', h⟩
  · intro g' h
    simp only [codegen_function_def] at h
    split at h
    · simp at h
    · rename_i saved g1 he
      split at h
      · simp at h
      · rename_i g2 hb
        obtain ⟨hs, hg1, _⟩ := function_def_enter_saved he
        obtain ⟨h1, h2, h3, h4, h5, _⟩ := function_def_leave_fields h
        have hbody := codegen_stmt_frame body g1 g2 hb
        subst hs
        exact ⟨h1, h2, h3, h4, by rw [h5, hbody.global_vars_eq, hg1]⟩

/-- The definition `h(a) { z = unknown(); while (unknown()) return 1; w = 2; }` lowered
while the body of `f(x, y)` is being lowered, in a program that declares the global `x`:
it returns, and the bindings of `x` and `y`, the function `f`, its return block, its
return-value storage and the declared global are the ones before. -/
theorem function_context_restored_witness :
    (∃ p, shadowedEntryState.printf_func = some p)
      ∧ (∃ g', codegen_function_def "h" ["a"] bodyWithFailedLowerings shadowedEntryState
          = some g')
      ∧ ( codegen_function_def "h" ["a"] bodyWithFailedLowerings shadowedEntryState).map
          (fun g => (g.named_values, g.current_function, g.current_return_block))
        = some ([("x", 1), ("y", 2)], some 1, some 1)
      ∧ ( codegen_function_def "h" ["a"] bodyWithFailedLowerings shadowedEntryState).map
          (fun g => (g.return_value_alloca, g.global_vars))
        = some (some 0, [("x", 0)])
      ∧ (shadowedEntryState.named_values, shadowedEntryState.current_function,
          shadowedEntryState.current_return_block)
        = ([("x", 1), ("y", 2)], some 1, some 1)
      ∧ (shadowedEntryState.return_value_alloca, shadowedEntryState.global_vars)
        = (some 0, [("x", 0)]) :=
  ⟨⟨0, by decide⟩,
    (function_context_restored "h" ["a"] bodyWithFailedLowerings shadowedEntryState).1
      ⟨0, by decide⟩,
    by decide, by decide, by decide, by decide⟩

/-! ## Calls: the order of the arguments -/

/-- C19: for every `FunctionCall` whose callee the module resolves and whose arguments
all lower, the arguments were lowered one after the other in list order, each from the
state the one before left, so that every instruction of an argument was created before
any instruction of the next one, and the instructions other than `alloca`s were appended
at the builder's position in that order (the `alloca` of a local an argument creates is
put in front of the entry block); the call instruction is created after all of them and
appended after them, and its operands are the values of the arguments in list order. -/
theorem arguments_lowered_left_to_right (name : String) (args : ArgList)
    (g g' : CodeGenerator) (callee : Nat) (vals : List Value)
    (hf : g.module.getFunction name = some callee)
    (ha : codegen_args args g = some (some vals, g')) :
    ArgsInOrder args g vals g'
      ∧ vals.length = args.length
      ∧ CreatedBetween g g'
      ∧ codegen_expr (.AST_FUNCTION_CALL name args) g
          = some (some (.inst g'.nextId),
              { g'.insert (.call g'.nextId callee vals) with nextId := g'.nextId + 1 })
      ∧ ∀ b, ({ g'.insert (.call g'.nextId callee vals) with nextId := g'.nextId + 1 }
            : CodeGenerator).blockInsts b
          = g'.blockInsts b
            ++ (if g.insertBlock = some b ∧ b < g'.blocks.length
                then [.call g'.nextId callee vals] else []) := by
  have hord := codegen_args_in_order args g vals g' ha
  have hcr := codegen_args_created args g _ g' ha
  refine ⟨hord, argsInOrder_length args g vals g' hord, hcr,
    codegen_expr_call_eq name args g g' callee vals hf ha, ?_⟩
  intro b
  have hb : ({ g'.insert (.call g'.nextId callee vals) with nextId := g'.nextId + 1 }
      : CodeGenerator).blockInsts b
      = (g'.insert (.call g'.nextId callee vals)).blockInsts b := rfl
  rw [hb, insert_blockInsts, hcr.insertBlock_eq]
  by_cases h : g.insertBlock = some b ∧ b < g'.blocks.length <;> simp [h]

/-- The call `f(x, y + 1, z)` at the start of the body of `f(x, y)`, with `x` also a
declared global: the load of `x`, the load and the addition of `y + 1`, the load of `z`
and the call follow each other in the block, numbered 3, 4, 5, 7 and 8, and the `alloca`
of `z`, numbered 6, is in front of the block. -/
theorem arguments_lowered_left_to_right_witness :
    shadowedEntryState.module.getFunction "f" = some 1
      ∧ (codegen_args threeArguments shadowedEntryState).map (fun r => r.1)
        = some (some [.inst 3, .inst 5, .inst 7])
      ∧ (codegen_expr (.AST_FUNCTION_CALL "f" threeArguments) shadowedEntryState).map
          (fun r => (r.1, r.2.blockInsts 0))
        = some (some (.inst 8),
            [.alloca 6 "z", .alloca 2 "y", .alloca 1 "x", .alloca 0 "retval",
              .store (.constInt 0) (.inst 0), .store (.argument 1 0) (.inst 1),
              .store (.argument 1 1) (.inst 2), .load 3 (.globalVariable 0) "x",
              .load 4 (.inst 2) "y", .arith 5 .Add (.inst 4) (.constInt 1),
              .load 7 (.inst 6) "z", .call 8 1 [.inst 3, .inst 5, .inst 7]])
      ∧ ArgsInOrder threeArguments shadowedEntryState [.inst 3, .inst 5, .inst 7]
          afterThreeArguments
      ∧ afterThreeArguments.nextId = 8 :=
  ⟨by decide, by decide, by decide,
    (arguments_lowered_left_to_right "f" threeArguments shadowedEntryState
      afterThreeArguments 1 [.inst 3, .inst 5, .inst 7] (by decide) (by decide)).1,
    by decide⟩

/-! ## Conditions: claims -/

/-- C18: for every `If`, `While` and `For` lowered inside a function whose condition
lowers to a value, what is emitted after the condition, in the block the builder is
positioned in, is the comparison of the condition value with 0 for inequality and the
conditional branch on its result. For an `If` the true target is the then block, created
first after the condition and the block the then-branch is lowered in, and the false
target is the block created next: the else block when an else-branch is present, the
merge block otherwise. For a `While` and a `For` the condition is lowered in the
condition block and the targets are the body block and the after block. The statement
lowers, and the instructions stay in their block, in this order. When executed on a
condition with the integer value v, the pair takes the true target when v is not 0, so
for -1 and 1, and the false target for 0. -/
theorem condition_nonzero_is_truth :
    (∀ (condition then_branch else_branch : ASTNode) (g g1 : CodeGenerator) (cond : Value),
        InFunction g → codegen_expr condition g = some (some cond, g1) →
        ∃ g2 g3 g',
          BranchesOnNonzero g1 cond g1.blocks.length (g1.blocks.length + 1) g2
            ∧ g2.insertBlock = some g1.blocks.length
            ∧ g2.blocks[g1.blocks.length]?
              = some (BasicBlock.mk "then" g1.current_function [])
            ∧ g2.blocks[g1.blocks.length + 1]?
              = some (BasicBlock.mk (if else_branch.isNull then "ifcont" else "else")
                  g1.current_function [])
            ∧ (else_branch.isNull = false → g2.blocks[g1.blocks.length + 2]?
                = some (BasicBlock.mk "ifcont" g1.current_function []))
            ∧ codegen_stmt then_branch g2 = some g3
            ∧ codegen_stmt (.AST_IF condition then_branch else_branch) g = some g'
            ∧ Grows true g2 g'
            ∧ g'.insertBlock
              = some (g1.blocks.length + (if else_branch.isNull then 1 else 2)))
      ∧ (∀ (condition body : ASTNode) (g g2 : CodeGenerator) (cond : Value), InFunction g →
          codegen_expr condition (loopHeader "loop" "loopbody" "afterloop" g)
            = some (some cond, g2) →
          (loopHeader "loop" "loopbody" "afterloop" g).insertBlock = some g.blocks.length
            ∧ (loopHeader "loop" "loopbody" "afterloop" g).blocks[g.blocks.length]?
              = some (BasicBlock.mk "loop" g.current_function [])
            ∧ (loopHeader "loop" "loopbody" "afterloop" g).blocks[g.blocks.length + 1]?
              = some (BasicBlock.mk "loopbody" g.current_function [])
            ∧ (loopHeader "loop" "loopbody" "afterloop" g).blocks[g.blocks.length + 2]?
              = some (BasicBlock.mk "afterloop" g.current_function [])
            ∧ ∃ g3 g4,
              BranchesOnNonzero g2 cond (g.blocks.length + 1) (g.blocks.length + 2) g3
                ∧ g3.insertBlock = some (g.blocks.length + 1)
                ∧ codegen_stmt body g3 = some g4
                ∧ codegen_stmt (.AST_WHILE condition body) g
                  = some (SetInsertPoint (g.blocks.length + 2)
                      (g4.insert (.br g.blocks.length)))
                ∧ Grows true g3
                    (SetInsertPoint (g.blocks.length + 2) (g4.insert (.br g.blocks.length))))
      ∧ (∀ (init condition increment body : ASTNode) (g g0 g2 : CodeGenerator) (cond : Value),
          InFunction g → codegen_stmt init g = some g0 →
          codegen_expr condition (loopHeader "forloop" "forbody" "afterfor" g0)
            = some (some cond, g2) →
          (loopHeader "forloop" "forbody" "afterfor" g0).insertBlock = some g0.blocks.length
            ∧ (loopHeader "forloop" "forbody" "afterfor" g0).blocks[g0.blocks.length]?
              = some (BasicBlock.mk "forloop" g0.current_function [])
            ∧ (loopHeader "forloop" "forbody" "afterfor" g0).blocks[g0.blocks.length + 1]?
              = some (BasicBlock.mk "forbody" g0.current_function [])
            ∧ (loopHeader "forloop" "forbody" "afterfor" g0).blocks[g0.blocks.length + 2]?
              = some (BasicBlock.mk "afterfor" g0.current_function [])
            ∧ ∃ g3 g4 g5,
              BranchesOnNonzero g2 cond (g0.blocks.length + 1) (g0.blocks.length + 2) g3
                ∧ g3.insertBlock = some (g0.blocks.length + 1)
                ∧ codegen_stmt body g3 = some g4
                ∧ codegen_stmt increment g4 = some g5
                ∧ codegen_stmt (.AST_FOR init condition increment body) g
                  = some (SetInsertPoint (g0.blocks.length + 2)
                      (g5.insert (.br g0.blocks.length)))
                ∧ Grows true g3
                    (SetInsertPoint (g0.blocks.length + 2)
                      (g5.insert (.br g0.blocks.length))))
      ∧ (∀ (m : Machine) (id : Nat) (cond : Value) (ifTrue ifFalse : Nat) (v : Int),
          m.operand cond = some (.int v) →
          ∃ m', execInstr m (.icmp id .NE cond (.constInt 0)) = some m'
            ∧ m'.branchTarget (.condBr (.inst id) ifTrue ifFalse)
              = some (if v = 0 then ifFalse else ifTrue)) := by
  refine ⟨?_, ?_, ?_, ?_⟩
  · intro condition then_branch else_branch g g1 cond hin hc
    exact if_branch condition then_branch else_branch g g1 cond hin hc
  · intro condition body g g2 cond hin hc
    obtain ⟨b, bb, _, hb, hbb, _⟩ := hin.block
    obtain ⟨h1, h2, h3⟩ := loopHeader_blocks "loop" "loopbody" "afterloop" g b hb
      (blocks_getElem?_lt hbb)
    exact ⟨(loopHeader_fields "loop" "loopbody" "afterloop" g).1, h1, h2, h3,
      while_branch condition body g g2 cond hin hc⟩
  · intro init condition increment body g g0 g2 cond hin hi hc
    obtain ⟨g0', hi', hL0⟩ := codegen_stmt_lowered init g hin
    rw [hi] at hi'
    have e0 := Option.some.inj hi'
    subst e0
    obtain ⟨b, bb, _, hb, hbb, _⟩ := hL0.inFunction.block
    obtain ⟨h1, h2, h3⟩ := loopHeader_blocks "forloop" "forbody" "afterfor" g0 b hb
      (blocks_getElem?_lt hbb)
    exact ⟨(loopHeader_fields "forloop" "forbody" "afterfor" g0).1, h1, h2, h3,
      for_branch init condition increment body g g0 g2 cond hin hi hc⟩
  · intro m id cond ifTrue ifFalse v h
    exact branch_on_nonzero_taken m id cond ifTrue ifFalse v h

/-- The conditions -1, 0 and 1 at the start of the body of `int main()`: the `If` on -1
emits the comparison of -1 with 0 and the branch to the blocks 2 and 3 at the end of the
entry block; executed, the pair goes to block 2 for -1 and 1 and to block 3 for 0; and
`main` with `if (c) return 1; else return 2;`, `if (c) return 1; return 2;`,
`while (c) return 1; return 2;` and `for (i = 0; c; i = 1) return 1; return 2;` returns
1 for c = -1 and c = 1, and 2 for c = 0. -/
theorem condition_nonzero_is_truth_witness :
    InFunction mainEntryState
      ∧ codegen_expr (.AST_NUMBER (-1)) mainEntryState
        = some (some (.constInt (-1)), mainEntryState)
      ∧ (∃ g2 g', BranchesOnNonzero mainEntryState (.constInt (-1)) 2 3 g2
          ∧ g2.blocks[2]? = some (BasicBlock.mk "then" (some 1) [])
          ∧ g2.blocks[3]? = some (BasicBlock.mk "else" (some 1) [])
          ∧ codegen_stmt (ifElseOn (-1)) mainEntryState = some g')
      ∧ (∃ m', execInstr Machine.empty (.icmp 1 .NE (.constInt (-1)) (.constInt 0)) = some m'
          ∧ m'.branchTarget (.condBr (.inst 1) 2 3) = some 2)
      ∧ (∃ m', execInstr Machine.empty (.icmp 1 .NE (.constInt 0) (.constInt 0)) = some m'
          ∧ m'.branchTarget (.condBr (.inst 1) 2 3) = some 3)
      ∧ (∃ m', execInstr Machine.empty (.icmp 1 .NE (.constInt 1) (.constInt 0)) = some m'
          ∧ m'.branchTarget (.condBr (.inst 1) 2 3) = some 2)
      ∧ [runMain (ifElseOn (-1)), runMain (ifElseOn 0), runMain (ifElseOn 1)]
        = [some (.int 1), some (.int 2), some (.int 1)]
      ∧ [runMain (ifOn (-1)), runMain (ifOn 0), runMain (ifOn 1)]
        = [some (.int 1), some (.int 2), some (.int 1)]
      ∧ [runMain (whileOn (-1)), runMain (whileOn 0), runMain (whileOn 1)]
        = [some (.int 1), some (.int 2), some (.int 1)]
      ∧ [runMain (forOn (-1)), runMain (forOn 0), runMain (forOn 1)]
        = [some (.int 1), some (.int 2), some (.int 1)] := by
  refine ⟨mainEntryState_inFunction, rfl, ?_, ?_, ?_, ?_, by decide, by decide, by decide,
    by decide⟩
  · obtain ⟨g2, _, g', h1, _, h2, h3, _, _, h4, _⟩ :=
      condition_nonzero_is_truth.1 (.AST_NUMBER (-1)) (.AST_RETURN (.AST_NUMBER 1))
        (.AST_RETURN (.AST_NUMBER 2)) mainEntryState mainEntryState (.constInt (-1))
        mainEntryState_inFunction rfl
    exact ⟨g2, g', h1, h2, h3, h4⟩
  · exact condition_nonzero_is_truth.2.2.2 Machine.empty 1 (.constInt (-1)) 2 3 (-1) rfl
  · exact condition_nonzero_is_truth.2.2.2 Machine.empty 1 (.constInt 0) 2 3 0 rfl
  · exact condition_nonzero_is_truth.2.2.2 Machine.empty 1 (.constInt 1) 2 3 1 rfl

/-! ## The claims on the driver's file name, on the search for `main` and on block form -/

/-- C22, evaluated on the code: the default output path `output.o` gives `output.ll`,
but the last dot is searched in the whole path, so the output path `./out` gives the
file name `.ll` where the claim gives `./out.ll`, and `build.d/out` gives `build.ll`
where the claim gives `build.d/out.ll`. -/
theorem ir_file_name_cuts_at_last_dot_of_path :
    ir_file_name (output_file_of_args ["prog.c"]) = "output.ll"
      ∧ ir_file_name "output.o" = claimedIrFileName "output.o"
      ∧ ir_file_name "./out" = ".ll" ∧ claimedIrFileName "./out" = "./out.ll"
      ∧ ir_file_name "build.d/out" = "build.ll"
      ∧ claimedIrFileName "build.d/out" = "build.d/out.ll" := by
  decide

/-- C23: `check_main_exists` returns true exactly when a `FunctionDef` node named `main`
is reachable from the node through `Sequence` first/second edges only; it returns false
for the null node; the body of a `FunctionDef` at any position of a top-level `Sequence`
chain has no influence on the result, and a node of any other statement form at such a
position counts as the null node does. -/
theorem check_main_exists_searches_sequences_only :
    (∀ node : ASTNode, check_main_exists node = true ↔ HasTopLevelMain node)
      ∧ check_main_exists .null = false
      ∧ (∀ (c : SeqContext) (name : String) (params params' : ParamList)
          (body body' : ASTNode),
          check_main_exists (c.fill (.AST_FUNCTION_DEF name params body))
            = check_main_exists (c.fill (.AST_FUNCTION_DEF name params' body')))
      ∧ (∀ (c : SeqContext) (t : ASTNode), t.isSequenceOrFunctionDef = false →
          check_main_exists (c.fill t) = check_main_exists (c.fill .null)) := by
  refine ⟨check_main_exists_iff, rfl, ?_, ?_⟩
  · intro c name params params' body body'
    induction c with
    | hole => simp [SeqContext.fill, check_main_exists]
    | inFirst c second ih => simp [SeqContext.fill, check_main_exists, ih]
    | inSecond first c ih => simp [SeqContext.fill, check_main_exists, ih]
  · intro c t ht
    induction c with
    | hole =>
      cases t <;>
        simp_all [SeqContext.fill, check_main_exists, ASTNode.isSequenceOrFunctionDef]
    | inFirst c second ih => simp [SeqContext.fill, check_main_exists, ih]
    | inSecond first c ih => simp [SeqContext.fill, check_main_exists, ih]

/-- The witness of C23: in `x = 1; int main() { }` the assignment counts as the null
node does. -/
theorem check_main_exists_searches_sequences_only_witness :
    (ASTNode.AST_ASSIGNMENT "x" (.AST_NUMBER 1)).isSequenceOrFunctionDef = false
      ∧ check_main_exists
          ((SeqContext.inFirst .hole (.AST_FUNCTION_DEF "main" [] .null)).fill
            (.AST_ASSIGNMENT "x" (.AST_NUMBER 1)))
        = check_main_exists
          ((SeqContext.inFirst .hole (.AST_FUNCTION_DEF "main" [] .null)).fill .null) :=
  ⟨by decide,
    check_main_exists_searches_sequences_only.2.2.2
      (SeqContext.inFirst .hole (.AST_FUNCTION_DEF "main" [] .null))
      (.AST_ASSIGNMENT "x" (.AST_NUMBER 1)) (by decide)⟩

/-- C28: `collect_global_vars` returns the records in reverse source order: the list is
the reverse of the records of the top-level `GlobalVar` nodes taken first subtree before
second, and the list of `Sequence(a, b)` is the list of `b` followed by the list of
`a`. -/
theorem collect_global_vars_reverse_source_order :
    (∀ (root : ASTNode) (static_list : List GlobalVar),
        (collect_global_vars root static_list).1
          = ((topLevelGlobalVars root).map expectedRecord).reverse)
      ∧ (∀ (a b : ASTNode) (static_list : List GlobalVar),
        (collect_global_vars (.AST_SEQUENCE a b) static_list).1
          = (collect_global_vars b static_list).1 ++ (collect_global_vars a static_list).1)
      ∧ (collect_global_vars
          (.AST_SEQUENCE (.AST_GLOBAL_VAR "x" (.AST_NUMBER 5))
            (.AST_GLOBAL_VAR "y" (.AST_NUMBER 7))) []).1
        = [GlobalVar.mk "y" 7, GlobalVar.mk "x" 5] := by
  refine ⟨?_, ?_, by decide⟩
  · intro root static_list
    simp [collect_global_vars, collect_globals_eq]
  · intro a b static_list
    simp [collect_global_vars, collect_globals_eq, topLevelGlobalVars]

set_option maxRecDepth 100000 in
/-- C24, evaluated on the code: the function `int f() { return 1; return 2; }` has an
entry block with two branches to the return block, the first followed by a store; the
bodies `while (1) return 1;` and `for (; 1; ) return 1;` give a loop body block that
ends in two branches. None of the three bodies contains a `FunctionDef`, all their
expressions are numbers, and none of the three functions has only well-formed blocks. -/
theorem statement_after_return_breaks_block_form :
    containsFunctionDef returnTwice = false
    ∧ containsFunctionDef whileEndingInReturn = false
    ∧ containsFunctionDef forEndingInReturn = false
    ∧ (∃ g, codegen_function_def "f" [] returnTwice CodeGenerator.new = some g
      ∧ g.blockInsts 0
        = [.alloca 0 "retval", .store (.constInt 0) (.inst 0),
            .store (.constInt 1) (.inst 0), .br 1,
            .store (.constInt 2) (.inst 0), .br 1]
      ∧ g.functionWellFormed 1 = false)
    ∧ (∃ g, codegen_function_def "f" [] whileEndingInReturn CodeGenerator.new = some g
      ∧ g.blockInsts 3 = [.store (.constInt 1) (.inst 0), .br 1, .br 2]
      ∧ g.functionWellFormed 1 = false)
    ∧ (∃ g, codegen_function_def "f" [] forEndingInReturn CodeGenerator.new = some g
      ∧ g.blockInsts 3 = [.store (.constInt 1) (.inst 0), .br 1, .br 2]
      ∧ g.functionWellFormed 1 = false) := by
  refine ⟨by decide, by decide, by decide, ⟨_, rfl, by decide, by decide⟩,
    ⟨_, rfl, by decide, by decide⟩, ⟨_, rfl, by decide, by decide⟩⟩


/-! ## Lemmas on last occurrences, on the parameters and on the declared globals -/

theorem lastIndexOf?_eq_none (name : String) : ∀ (l : List String),
    lastIndexOf? name l = none ↔ name ∉ l
  | [] => by simp [lastIndexOf?]
  | x :: rest => by
    have ih := lastIndexOf?_eq_none name rest
    simp only [lastIndexOf?]
    cases h : lastIndexOf? name rest with
    | some i =>
      have : name ∈ rest := by
        by_contra hn
        rw [ih.2 hn] at h
        exact Option.noConfusion h
      simp [this]
    | none =>
      have hn : name ∉ rest := ih.1 h
      by_cases hx : x = name
      · simp [hx]
      · have hx' : ¬ name = x := fun e => hx e.symm
        simp [hx, hx', hn]

theorem lastIndexOf?_isSome (name : String) (l : List String) :
    (lastIndexOf? name l).isSome = true ↔ name ∈ l := by
  cases h : lastIndexOf? name l with
  | none => simpa using (lastIndexOf?_eq_none name l).1 h
  | some i =>
    have : name ∈ l := by
      by_contra hn
      rw [(lastIndexOf?_eq_none name l).2 hn] at h
      exact Option.noConfusion h
    simpa using this

theorem lastIndexOf?_eq_some (name : String) : ∀ (l : List String) (i : Nat),
    lastIndexOf? name l = some i
      ↔ l[i]? = some name ∧ ∀ j, i < j → l[j]? ≠ some name
  | [], i => by simp [lastIndexOf?]
  | x :: rest, i => by
    simp only [lastIndexOf?]
    cases h : lastIndexOf? name rest with
    | some k =>
      have ihk := (lastIndexOf?_eq_some name rest k).1 h
      constructor
      · intro hi
        simp only [Option.some.injEq] at hi
        subst hi
        refine ⟨by simpa using ihk.1, ?_⟩
        intro j hj
        cases j with
        | zero => omega
        | succ j => simpa using ihk.2 j (by omega)
      · rintro ⟨h1, h2⟩
        cases i with
        | zero =>
          exact absurd (by simpa using ihk.1) (h2 (k + 1) (by omega))
        | succ i =>
          have hi : lastIndexOf? name rest = some i :=
            (lastIndexOf?_eq_some name rest i).2
              ⟨by simpa using h1, fun j hj => by simpa using h2 (j + 1) (by omega)⟩
          rw [h] at hi
          simpa using hi
    | none =>
      have hn : name ∉ rest := (lastIndexOf?_eq_none name rest).1 h
      have hnone : ∀ j : Nat, rest[j]? ≠ some name := by
        intro j hj
        exact hn (List.mem_iff_getElem?.2 ⟨j, hj⟩)
      by_cases hx : x = name
      · simp only [hx, ↓reduceIte, Option.some.injEq]
        constructor
        · intro hi
          subst hi
          refine ⟨by simp, ?_⟩
          intro j hj
          cases j with
          | zero => omega
          | succ j => simpa using hnone j
        · rintro ⟨h1, _⟩
          cases i with
          | zero => rfl
          | succ i => exact absurd (by simpa using h1) (hnone i)
      · simp only [hx, ↓reduceIte]
        constructor
        · intro hi
          exact Option.noConfusion hi
        · rintro ⟨h1, _⟩
          cases i with
          | zero => exact absurd (by simpa using h1) hx
          | succ i => exact absurd (by simpa using h1) (hnone i)

theorem param_list_count_eq_length : ∀ (params : ParamList),
    param_list_count params = params.length
  | [] => rfl
  | _ :: next => by simp [param_list_count, param_list_count_eq_length next]

theorem mapFind_isSome_iff {α : Type} : ∀ (m : List (String × α)) (n : String),
    (mapFind m n).isSome = true ↔ n ∈ m.map Prod.fst
  | [], n => by simp [mapFind]
  | (k, v) :: rest, n => by
    by_cases h : k = n
    · simp [mapFind, h]
    · have h' : ¬ n = k := fun e => h e.symm
      simp [mapFind, h, h', mapFind_isSome_iff rest n]

theorem mapSet_keys {α : Type} : ∀ (m : List (String × α)) (k : String) (v : α),
    (mapSet m k v).map Prod.fst
      = if k ∈ m.map Prod.fst then m.map Prod.fst else m.map Prod.fst ++ [k]
  | [], k, v => by simp [mapSet]
  | (k', w) :: rest, k, v => by
    by_cases h : k' = k
    · simp [mapSet, h]
    · have h' : ¬ k = k' := fun e => h e.symm
      simp only [mapSet, h, ↓reduceIte, List.map_cons, mapSet_keys rest k v, List.mem_cons, h',
        false_or]
      split <;> simp

theorem mapSet_keys_nodup {α : Type} (m : List (String × α)) (k : String) (v : α)
    (h : (m.map Prod.fst).Nodup) : ((mapSet m k v).map Prod.fst).Nodup := by
  rw [mapSet_keys]
  split
  · exact h
  · rename_i hk
    exact List.Nodup.append h (List.nodup_singleton k) (by simpa using hk)

theorem registerName_globals (m : Module) (name : String) (v : GlobalValue) :
    (m.registerName name v).2.globals = m.globals := by
  unfold Module.registerName
  split
  · rfl
  · split <;> rfl

/-- What the first loop of `generate_program` builds: the globals of the records are
appended in list order with the records' values, and each name is bound to the global of
its last record. -/
theorem create_globals_spec : ∀ (globals : List GlobalVar) (g : CodeGenerator),
    (create_globals globals g).module.globals.map GlobalVariable.initializer
        = g.module.globals.map GlobalVariable.initializer ++ globals.map GlobalVar.value
      ∧ (∀ n, mapFind (create_globals globals g).global_vars n
          = match lastIndexOf? n (globals.map GlobalVar.name) with
            | some i => some (g.module.globals.length + i)
            | none => mapFind g.global_vars n)
      ∧ ((g.global_vars.map Prod.fst).Nodup →
          ((create_globals globals g).global_vars.map Prod.fst).Nodup)
  | [], g => by simp [create_globals, lastIndexOf?]
  | x :: rest, g => by
    obtain ⟨h1, h2, h3⟩ := create_globals_spec rest
      { g with
        module := { (g.module.registerName x.name (.variable g.module.globals.length)).2 with
          globals := (g.module.registerName x.name (.variable g.module.globals.length)).2.globals
            ++ [GlobalVariable.mk
              (g.module.registerName x.name (.variable g.module.globals.length)).1 x.value] },
        global_vars := mapSet g.global_vars x.name g.module.globals.length }
    refine ⟨?_, ?_, ?_⟩
    · simp only [create_globals]
      rw [h1]
      simp [registerName_globals]
    · intro n
      simp only [create_globals]
      rw [h2 n]
      simp only [List.map_cons, lastIndexOf?, registerName_globals, List.length_append,
        List.length_singleton, mapFind_mapSet]
      cases lastIndexOf? n (rest.map GlobalVar.name) with
      | some i => simp; omega
      | none => by_cases hx : x.name = n <;> simp [hx]
    · intro hnd
      simp only [create_globals]
      exact h3 (mapSet_keys_nodup _ _ _ hnd)

/-- What the parameter loop of `codegen_function_def` builds from a state whose builder
is positioned in the entry block of the function. -/
theorem store_params_spec (func entry : Nat) : ∀ (params : ParamList) (index : Nat)
    (g : CodeGenerator) (fn : Function), g.module.functions[func]? = some fn →
    fn.blocks.head? = some entry → g.insertBlock = some entry → entry < g.blocks.length →
    ∃ g', store_params func params index g = some g'
      ∧ g'.blockInsts entry = (paramAllocas g.nextId params).reverse ++ g.blockInsts entry
          ++ paramStores func g.nextId index params
      ∧ (∀ b, b ≠ entry → g'.blockInsts b = g.blockInsts b)
      ∧ (∀ n, mapFind g'.named_values n
          = match lastIndexOf? n params with
            | some i => some (g.nextId + i)
            | none => mapFind g.named_values n)
      ∧ g'.module = g.module ∧ g'.nextId = g.nextId + params.length
      ∧ g'.insertBlock = g.insertBlock ∧ g'.blocks.length = g.blocks.length
      ∧ g'.current_function = g.current_function
      ∧ g'.current_return_block = g.current_return_block
      ∧ g'.return_value_alloca = g.return_value_alloca
  | [], index, g, fn, _, _, _, _ => by
    refine ⟨g, rfl, ?_, ?_, ?_, rfl, rfl, rfl, rfl, rfl, rfl, rfl⟩
    · simp [paramAllocas, paramStores]
    · intro b _; rfl
    · intro n; simp [lastIndexOf?]
  | name :: next, index, g, fn, hfn, he, hib, hlt => by
    have hc : create_entry_block_alloca (some func) name g
        = some (g.nextId, { g with
            blocks := g.blocks.modify (fun bb => bb.pushFront (.alloca g.nextId name)) entry,
            nextId := g.nextId + 1 }) := by
      simp [create_entry_block_alloca, hfn, he]
    obtain ⟨g', h1, h2, h3, h4, h5, h6, h7, h8, h9, h10, h11⟩ :=
      store_params_spec func entry next (index + 1)
        { (CreateStore (.argument func index) (.inst g.nextId) { g with
            blocks := g.blocks.modify (fun bb => bb.pushFront (.alloca g.nextId name)) entry,
            nextId := g.nextId + 1 }) with
          named_values := mapSet g.named_values name g.nextId } fn
        (by simpa [CreateStore] using hfn) he (by simpa [CreateStore] using hib)
        (by simpa [CreateStore] using hlt)
    have hbi : ∀ b, CodeGenerator.blockInsts
        { (CreateStore (.argument func index) (.inst g.nextId) { g with
            blocks := g.blocks.modify (fun bb => bb.pushFront (.alloca g.nextId name)) entry,
            nextId := g.nextId + 1 }) with
          named_values := mapSet g.named_values name g.nextId } b
        = if b = entry then
            .alloca g.nextId name :: g.blockInsts entry
              ++ [.store (.argument func index) (.inst g.nextId)]
          else g.blockInsts b := by
      intro b
      have e1 : CodeGenerator.blockInsts
          { (CreateStore (.argument func index) (.inst g.nextId) { g with
              blocks := g.blocks.modify (fun bb => bb.pushFront (.alloca g.nextId name)) entry,
              nextId := g.nextId + 1 }) with
            named_values := mapSet g.named_values name g.nextId } b
          = (CreateStore (.argument func index) (.inst g.nextId) { g with
              blocks := g.blocks.modify (fun bb => bb.pushFront (.alloca g.nextId name)) entry,
              nextId := g.nextId + 1 }).blockInsts b := rfl
      rw [e1, CreateStore, insert_blockInsts,
        modify_pushFront_blockInsts g _ (.alloca g.nextId name) entry rfl b]
      by_cases hb : b = entry
      · subst hb
        simp [hib, hlt]
      · have hb' : ¬ entry = b := fun e => hb e.symm
        simp [hb, hib, hb']
    refine ⟨g', ?_, ?_, ?_, ?_, ?_, ?_, ?_, ?_, ?_, ?_, ?_⟩
    · simp only [store_params, hc]
      simpa [CreateStore] using h1
    · rw [h2, hbi entry]
      simp [paramAllocas, paramStores, CreateStore]
    · intro b hb
      rw [h3 b hb, hbi b]
      simp [hb]
    · intro n
      rw [h4 n]
      simp only [lastIndexOf?, mapFind_mapSet, CreateStore, insert_nextId]
      cases lastIndexOf? n next with
      | some i => simp; omega
      | none => by_cases hx : name = n <;> simp [hx]
    · rw [h5]; simp [CreateStore]
    · rw [h6]; simp [CreateStore]; omega
    · rw [h7]; simp [CreateStore]
    · rw [h8]; simp [CreateStore]
    · rw [h9]; simp [CreateStore]
    · rw [h10]; simp [CreateStore]
    · rw [h11]; simp [CreateStore]


theorem paramAllocas_mem : ∀ (params : ParamList) (first i : Nat) (n : String),
    params[i]? = some n → Instr.alloca (first + i) n ∈ paramAllocas first params
  | [], _, i, n, h => by simp at h
  | p :: next, first, 0, n, h => by
    simp only [List.getElem?_cons_zero, Option.some.injEq] at h
    simp [paramAllocas, h]
  | p :: next, first, i + 1, n, h => by
    simp only [List.getElem?_cons_succ] at h
    have := paramAllocas_mem next (first + 1) i n h
    simp only [paramAllocas, List.mem_cons]
    right
    have e : first + (i + 1) = first + 1 + i := by omega
    rw [e]
    exact this

theorem paramStores_mem (func : Nat) : ∀ (params : ParamList) (first index i : Nat),
    i < params.length →
    Instr.store (.argument func (index + i)) (.inst (first + i))
      ∈ paramStores func first index params
  | [], _, _, i, h => by simp at h
  | p :: next, first, index, 0, h => by simp [paramStores]
  | p :: next, first, index, i + 1, h => by
    have := paramStores_mem func next (first + 1) (index + 1) i
      (by simpa using h)
    simp only [paramStores, List.mem_cons]
    right
    have e1 : first + (i + 1) = first + 1 + i := by omega
    have e2 : index + (i + 1) = index + 1 + i := by omega
    rw [e1, e2]
    exact this

/-! ## The claims on function entry, on the declared globals and on a failed value -/

/-- C21: for every `FunctionDef` with parameter list `params`, lowered from any state:
the part of `codegen_function_def` before the body succeeds, and the body is lowered from
the state `g1` it reaches. The function created has return type i32, is not variadic and
has `param_list_count params` parameters, all of type i32; in `g1` the local binding map
binds exactly the names of `params` (nothing of the bindings of `g` is left); each name is
bound to the `alloca` created for its last occurrence `i` in `params` (its only occurrence
when the names are distinct), and the entry block of the function holds that `alloca` and
the store of argument `i` into it: the entry block is the parameter `alloca`s, the
return-value storage with its store of 0, and the stores of the arguments in order. -/
theorem function_def_signature_and_parameter_bindings (func_name : String)
    (params : ParamList) (body : ASTNode) (g : CodeGenerator) :
    ∃ (saved : SavedContext) (g1 : CodeGenerator) (fn : Function),
      function_def_enter func_name params g = some (saved, g1)
        ∧ codegen_stmt (.AST_FUNCTION_DEF func_name params body) g
          = (codegen_stmt body g1).bind (function_def_leave saved)
        ∧ g1.current_function = some g.module.functions.length
        ∧ g1.module.functions[g.module.functions.length]? = some fn
        ∧ fn.returnType = .i32 ∧ fn.isVarArg = false
        ∧ fn.paramTypes = List.replicate (param_list_count params) .i32
        ∧ param_list_count params = params.length
        ∧ fn.blocks.head? = some g.blocks.length
        ∧ (∀ n, (mapFind g1.named_values n).isSome = true ↔ n ∈ params)
        ∧ (∀ n a, mapFind g1.named_values n = some a →
            ∃ i, params[i]? = some n ∧ (∀ j, i < j → params[j]? ≠ some n)
              ∧ a = g.nextId + 1 + i
              ∧ Instr.alloca a n ∈ g1.blockInsts g.blocks.length
              ∧ Instr.store (.argument g.module.functions.length i) (.inst a)
                ∈ g1.blockInsts g.blocks.length)
        ∧ g1.blockInsts g.blocks.length
          = (paramAllocas (g.nextId + 1) params).reverse
            ++ [.alloca g.nextId "retval", .store (.constInt 0) (.inst g.nextId)]
            ++ paramStores g.module.functions.length (g.nextId + 1) 0 params := by
  obtain ⟨fn, hfn, hblocks, hret, hpt⟩ := enterState_function func_name params g
  have hva : fn.isVarArg = false := by
    simp only [enterState, List.getElem?_concat_length, Option.some.injEq] at hfn
    rw [← hfn]
  obtain ⟨g1, h1, h2, _, h4, h5, _, _, _, h9, _, _⟩ :=
    store_params_spec g.module.functions.length g.blocks.length params 0
      (enterState func_name params g) fn hfn (by simp [hblocks]) rfl
      (by simp [enterState])
  have henter : function_def_enter func_name params g
      = some (SavedContext.mk g.named_values g.current_function g.current_return_block
          g.return_value_alloca, g1) := by
    rw [function_def_enter_eq, h1]
  have hinsts : g1.blockInsts g.blocks.length
      = (paramAllocas (g.nextId + 1) params).reverse
        ++ [.alloca g.nextId "retval", .store (.constInt 0) (.inst g.nextId)]
        ++ paramStores g.module.functions.length (g.nextId + 1) 0 params := by
    rw [h2, enterState_blockInsts_entry]
    rfl
  have hfind : ∀ n, mapFind g1.named_values n
      = (lastIndexOf? n params).map (fun i => g.nextId + 1 + i) := by
    intro n
    rw [h4 n]
    cases lastIndexOf? n params <;> simp [enterState, mapFind]
  refine ⟨_, g1, fn, henter, ?_, ?_, ?_, hret, hva, hpt, param_list_count_eq_length params,
    by simp [hblocks], ?_, ?_, hinsts⟩
  · simp only [codegen_stmt, henter]
    cases codegen_stmt body g1 <;> rfl
  · rw [h9]
    rfl
  · rw [h5]
    exact hfn
  · intro n
    rw [hfind n, ← lastIndexOf?_isSome n params]
    cases lastIndexOf? n params <;> simp
  · intro n a ha
    rw [hfind n] at ha
    cases hl : lastIndexOf? n params with
    | none => simp [hl] at ha
    | some i =>
      simp only [hl, Option.map_some', Option.some.injEq] at ha
      obtain ⟨hi, hlast⟩ := (lastIndexOf?_eq_some n params i).1 hl
      have hlt : i < params.length := by
        by_contra hge
        rw [List.getElem?_eq_none (Nat.le_of_not_lt hge)] at hi
        exact Option.noConfusion hi
      refine ⟨i, hi, hlast, ha.symm, ?_, ?_⟩
      · rw [hinsts, ← ha]
        simp only [List.mem_append, List.mem_reverse]
        exact Or.inl (Or.inl (paramAllocas_mem params (g.nextId + 1) i n hi))
      · rw [hinsts, ← ha]
        simp only [List.mem_append]
        have := paramStores_mem g.module.functions.length params (g.nextId + 1) 0 i hlt
        simp only [Nat.zero_add] at this
        exact Or.inr this

/-- The witness of C21: the function `f(a, b)` with an empty body, lowered from the
state of the constructor. -/
theorem function_def_signature_and_parameter_bindings_witness :
    ∃ (saved : SavedContext) (g1 : CodeGenerator) (fn : Function),
      function_def_enter "f" ["a", "b"] CodeGenerator.new = some (saved, g1)
        ∧ codegen_stmt (.AST_FUNCTION_DEF "f" ["a", "b"] .null) CodeGenerator.new
          = (codegen_stmt .null g1).bind (function_def_leave saved)
        ∧ g1.current_function = some CodeGenerator.new.module.functions.length
        ∧ g1.module.functions[CodeGenerator.new.module.functions.length]? = some fn
        ∧ fn.returnType = .i32 ∧ fn.isVarArg = false
        ∧ fn.paramTypes = List.replicate (param_list_count ["a", "b"]) .i32
        ∧ param_list_count ["a", "b"] = ["a", "b"].length
        ∧ fn.blocks.head? = some CodeGenerator.new.blocks.length
        ∧ (∀ n, (mapFind g1.named_values n).isSome = true ↔ n ∈ ["a", "b"])
        ∧ (∀ n a, mapFind g1.named_values n = some a →
            ∃ i, ["a", "b"][i]? = some n ∧ (∀ j, i < j → ["a", "b"][j]? ≠ some n)
              ∧ a = CodeGenerator.new.nextId + 1 + i
              ∧ Instr.alloca a n ∈ g1.blockInsts CodeGenerator.new.blocks.length
              ∧ Instr.store (.argument CodeGenerator.new.module.functions.length i) (.inst a)
                ∈ g1.blockInsts CodeGenerator.new.blocks.length)
        ∧ g1.blockInsts CodeGenerator.new.blocks.length
          = (paramAllocas (CodeGenerator.new.nextId + 1) ["a", "b"]).reverse
            ++ [.alloca CodeGenerator.new.nextId "retval",
              .store (.constInt 0) (.inst CodeGenerator.new.nextId)]
            ++ paramStores CodeGenerator.new.module.functions.length
              (CodeGenerator.new.nextId + 1) 0 ["a", "b"] :=
  function_def_signature_and_parameter_bindings "f" ["a", "b"] .null CodeGenerator.new

/-- C27: for every global list, the state in which `generate_program` lowers the root
is the fresh generator after the loop over the list; in it the module has as many integer
globals as the list has records, the global at each position is initialized to the value
of the record at that position, the map `global_vars` has one entry per distinct name of
the list (its keys are pairwise distinct and are exactly the names of the records), and
each name is bound to the global created for its last record in list order. -/
theorem generate_program_creates_globals (root : ASTNode) (globals : List GlobalVar) :
    generate_program root globals CodeGenerator.new
        = codegen_stmt root (create_globals globals CodeGenerator.new)
      ∧ (create_globals globals CodeGenerator.new).module.globals.length = globals.length
      ∧ (create_globals globals CodeGenerator.new).module.globals.map
          GlobalVariable.initializer = globals.map GlobalVar.value
      ∧ ((create_globals globals CodeGenerator.new).global_vars.map Prod.fst).Nodup
      ∧ (∀ n, n ∈ (create_globals globals CodeGenerator.new).global_vars.map Prod.fst
          ↔ n ∈ globals.map GlobalVar.name)
      ∧ (∀ (n : String) (i : Nat),
          mapFind (create_globals globals CodeGenerator.new).global_vars n = some i
            ↔ (globals.map GlobalVar.name)[i]? = some n
              ∧ ∀ j, i < j → (globals.map GlobalVar.name)[j]? ≠ some n) := by
  obtain ⟨h1, h2, h3⟩ := create_globals_spec globals CodeGenerator.new
  have hnew : CodeGenerator.new.module.globals = [] := rfl
  have hgv : CodeGenerator.new.global_vars = [] := rfl
  have hmap : (create_globals globals CodeGenerator.new).module.globals.map
      GlobalVariable.initializer = globals.map GlobalVar.value := by
    rw [h1, hnew]
    rfl
  have hfind : ∀ n, mapFind (create_globals globals CodeGenerator.new).global_vars n
      = lastIndexOf? n (globals.map GlobalVar.name) := by
    intro n
    rw [h2 n, hnew, hgv]
    cases lastIndexOf? n (globals.map GlobalVar.name) <;> simp [mapFind]
  refine ⟨rfl, ?_, hmap, h3 (by rw [hgv]; exact List.nodup_nil), ?_, ?_⟩
  · have := congrArg List.length hmap
    simpa using this
  · intro n
    rw [← mapFind_isSome_iff, hfind n]
    exact lastIndexOf?_isSome n _
  · intro n i
    rw [hfind n]
    exact lastIndexOf?_eq_some n _ i

/-- The witness of C27: the global list `x = 1, y = 2, x = 3`. -/
theorem generate_program_creates_globals_witness :
    generate_program .null xyxGlobals CodeGenerator.new
        = codegen_stmt .null (create_globals xyxGlobals CodeGenerator.new)
      ∧ (create_globals xyxGlobals CodeGenerator.new).module.globals.length = xyxGlobals.length
      ∧ (create_globals xyxGlobals CodeGenerator.new).module.globals.map
          GlobalVariable.initializer = xyxGlobals.map GlobalVar.value
      ∧ ((create_globals xyxGlobals CodeGenerator.new).global_vars.map Prod.fst).Nodup
      ∧ (∀ n, n ∈ (create_globals xyxGlobals CodeGenerator.new).global_vars.map Prod.fst
          ↔ n ∈ xyxGlobals.map GlobalVar.name)
      ∧ (∀ (n : String) (i : Nat),
          mapFind (create_globals xyxGlobals CodeGenerator.new).global_vars n = some i
            ↔ (xyxGlobals.map GlobalVar.name)[i]? = some n
              ∧ ∀ j, i < j → (xyxGlobals.map GlobalVar.name)[j]? ≠ some n) :=
  generate_program_creates_globals .null xyxGlobals

/-- C29: for every `Assignment(name, value)` and every generator state in which the value
expression fails to lower (it yields no value and leaves the state `g1`),
`codegen_stmt` leaves exactly the state `g1`: the blocks and their instructions, the local
bindings and the declared globals are those of lowering the value expression alone; and
between the state before and that state no `store` was emitted: each block holds what it
held, with instructions other than stores put before and after. -/
theorem assignment_of_failed_value (name : String) (value : ASTNode) (g g1 : CodeGenerator)
    (hfail : codegen_expr value g = some (none, g1)) :
    codegen_stmt (.AST_ASSIGNMENT name value) g = some g1
      ∧ (∀ b, ∃ pre post, g1.blockInsts b = pre ++ g.blockInsts b ++ post
          ∧ ∀ i ∈ pre ++ post, i.isStore = false)
      ∧ g1.global_vars = g.global_vars ∧ g1.module = g.module := by
  have hc := codegen_expr_created value g none g1 hfail
  have hf := codegen_expr_frame value g none g1 hfail
  refine ⟨by simp only [codegen_stmt, hfail], ?_, hf.global_vars_eq, hf.module_eq⟩
  intro b
  obtain ⟨pre, post, heq, hpre, hpost, _⟩ := hc.insts b
  refine ⟨pre, post, heq, ?_⟩
  intro i hi
  have hid : ∃ id, i.id? = some id := by
    rcases List.mem_append.1 hi with h | h
    · obtain ⟨id, h1, _⟩ := (hpre i h).2
      exact ⟨id, h1⟩
    · obtain ⟨id, h1, _⟩ := (hpost i h).2
      exact ⟨id, h1⟩
  obtain ⟨id, hid⟩ := hid
  cases i <;> simp_all [Instr.id?, Instr.isStore]

set_option maxRecDepth 100000 in
/-- The witness of C29: in `int main()` the assignment `y = x + unknown()` leaves the
state that lowering `x + unknown()` leaves: the storage of `x` and its load, and no
binding of `y`. -/
theorem assignment_of_failed_value_witness :
    codegen_expr failedValue mainEntryState = some (none, afterFailedValue)
      ∧ mapFind afterFailedValue.named_values "y" = none
      ∧ (codegen_stmt (.AST_ASSIGNMENT "y" failedValue) mainEntryState
            = some afterFailedValue
          ∧ (∀ b, ∃ pre post, afterFailedValue.blockInsts b
              = pre ++ mainEntryState.blockInsts b ++ post
            ∧ ∀ i ∈ pre ++ post, i.isStore = false)
          ∧ afterFailedValue.global_vars = mainEntryState.global_vars
          ∧ afterFailedValue.module = mainEntryState.module) :=
  ⟨by decide, by decide,
    assignment_of_failed_value "y" failedValue mainEntryState afterFailedValue (by decide)⟩


/-! ## The `If` after its branches -/

/-- Inside a function, the step after a branch of an `If` is `closeBranch`. -/
theorem branchIfNoTerminator_eq_closeBranch {g : CodeGenerator} (h : InFunction g)
    (merge : Nat) : branchIfNoTerminator (some merge) g = some (closeBranch merge g) := by
  obtain ⟨b, bb, p, hb, hbb, _⟩ := h.block
  have hi : g.blockInsts b = bb.insts := by simp [CodeGenerator.blockInsts, hbb]
  simp only [branchIfNoTerminator, closeBranch, hb, hbb, hi, BasicBlock.getTerminator, CreateBr]
  cases bb.insts.getLast? with
  | none => rfl
  | some i => cases hi : i.isTerminator <;> simp [hi]

/-- The instructions of the builder's block after `closeBranch`. -/
theorem closeBranch_blockInsts (merge : Nat) (g : CodeGenerator) (b : Nat)
    (hb : g.insertBlock = some b) (hlt : b < g.blocks.length) :
    (closeBranch merge g).blockInsts b
      = if (g.blockInsts b).getLast?.map Instr.isTerminator = some true then g.blockInsts b
        else g.blockInsts b ++ [.br merge] := by
  simp only [closeBranch, hb]
  cases hl : (g.blockInsts b).getLast? with
  | none => simp [insert_blockInsts, hb, hlt]
  | some i => cases hi : i.isTerminator <;> simp [hi, insert_blockInsts, hb, hlt]

theorem ifHeader_no_else (cond : Value) (g : CodeGenerator) :
    ifHeader cond false g
      = SetInsertPoint g.blocks.length
          (CreateCondBr (.inst g.nextId) g.blocks.length (g.blocks.length + 1)
            (BasicBlock_Create "ifcont" g.current_function
              (BasicBlock_Create "then" g.current_function
                (CreateICmp .NE cond (.constInt 0) g).2).2).2) := by
  simp only [ifHeader, Bool.false_eq_true, ↓reduceIte, createICmp_fst,
    createICmp_blocks_length, block_create_fst, block_create_blocks_length]

theorem ifHeader_else (cond : Value) (g : CodeGenerator) :
    ifHeader cond true g
      = SetInsertPoint g.blocks.length
          (CreateCondBr (.inst g.nextId) g.blocks.length (g.blocks.length + 1)
            (BasicBlock_Create "ifcont" g.current_function
              (BasicBlock_Create "else" g.current_function
                (BasicBlock_Create "then" g.current_function
                  (CreateICmp .NE cond (.constInt 0) g).2).2).2).2) := by
  simp only [ifHeader, ↓reduceIte, createICmp_fst,
    createICmp_blocks_length, block_create_fst, block_create_blocks_length]

theorem ifHeader_blocks_length (cond : Value) (hasElse : Bool) (g : CodeGenerator) :
    (ifHeader cond hasElse g).blocks.length
      = g.blocks.length + (if hasElse then 3 else 2) := by
  cases hasElse <;>
    simp [ifHeader, SetInsertPoint, CreateCondBr, BasicBlock_Create, CreateICmp]

/-- What the `If` lowering does inside a function when its condition lowers to a
value, leaving the state `g1`: exactly a then block and a merge block are created, and
between them an else block exactly when the else-branch node is present; the then-branch
is lowered with the builder in the then block; after each branch is lowered, a branch to
the merge block is appended exactly when the block the builder is then positioned in is
empty or has a last instruction that is not a terminator (`closeBranch`), so nothing is
appended after the branch of a `Return` with a value that ends the branch; and lowering
continues in the merge block. -/
theorem if_closes_branch_on_last_instruction (condition then_branch else_branch : ASTNode)
    (g g1 : CodeGenerator) (cond : Value) (hin : InFunction g)
    (hc : codegen_expr condition g = some (some cond, g1)) :
    ∃ g3 g',
      (ifHeader cond (!else_branch.isNull) g1).blocks.length
          = g1.blocks.length + (if else_branch.isNull then 2 else 3)
        ∧ (ifHeader cond (!else_branch.isNull) g1).blocks[g1.blocks.length]?
          = some (BasicBlock.mk "then" g1.current_function [])
        ∧ (ifHeader cond (!else_branch.isNull) g1).blocks[g1.blocks.length + 1]?
          = some (BasicBlock.mk (if else_branch.isNull then "ifcont" else "else")
              g1.current_function [])
        ∧ (else_branch.isNull = false →
            (ifHeader cond (!else_branch.isNull) g1).blocks[g1.blocks.length + 2]?
              = some (BasicBlock.mk "ifcont" g1.current_function []))
        ∧ (ifHeader cond (!else_branch.isNull) g1).insertBlock = some g1.blocks.length
        ∧ codegen_stmt then_branch (ifHeader cond (!else_branch.isNull) g1) = some g3
        ∧ codegen_stmt (.AST_IF condition then_branch else_branch) g = some g'
        ∧ (else_branch.isNull = true →
            g' = SetInsertPoint (g1.blocks.length + 1)
              (closeBranch (g1.blocks.length + 1) g3))
        ∧ (else_branch.isNull = false →
            ∃ g5, codegen_stmt else_branch
                (SetInsertPoint (g1.blocks.length + 1)
                  (closeBranch (g1.blocks.length + 2) g3)) = some g5
              ∧ g' = SetInsertPoint (g1.blocks.length + 2)
                (closeBranch (g1.blocks.length + 2) g5))
        ∧ g'.insertBlock
          = some (g1.blocks.length + (if else_branch.isNull then 1 else 2))
        ∧ (∀ (merge : Nat) (x : CodeGenerator) (b : Nat), x.insertBlock = some b →
            b < x.blocks.length →
            (closeBranch merge x).blockInsts b
              = if (x.blockInsts b).getLast?.map Instr.isTerminator = some true
                then x.blockInsts b
                else x.blockInsts b ++ [.br merge]) := by
  obtain ⟨r, g1', hc', hL1, _⟩ := codegen_expr_lowered condition g hin
  rw [hc] at hc'
  simp only [Option.some.injEq, Prod.mk.injEq] at hc'
  obtain ⟨_, e1⟩ := hc'
  subst e1
  have hin1 := hL1.inFunction
  obtain ⟨b, bb, p, hb, hbb, _⟩ := hin1.block
  have hlt := blocks_getElem?_lt hbb
  obtain ⟨f, _, _, hf, _, _⟩ := hin1.func
  cases hnull : else_branch.isNull with
  | true =>
    obtain ⟨_, hthen, hmerge⟩ := if_header_no_else g1 cond b hb hlt
    have hH := lowered_if_header_no_else hin1 cond
    obtain ⟨g3, h3, hL3⟩ := codegen_stmt_lowered then_branch _ hH.inFunction
    have h4 := branchIfNoTerminator_eq_closeBranch hL3.inFunction (g1.blocks.length + 1)
    simp only [Bool.not_true, ifHeader_no_else]
    refine ⟨g3, SetInsertPoint (g1.blocks.length + 1) (closeBranch (g1.blocks.length + 1) g3),
      ?_, hthen, ?_, ?_, rfl, h3, ?_, fun _ => rfl, ?_, rfl, closeBranch_blockInsts⟩
    · rw [← ifHeader_no_else, ifHeader_blocks_length]
      simp
    · simpa using hmerge
    · intro hh
      exact absurd hh (by simp)
    · rw [codegen_stmt_if_no_else condition then_branch else_branch g g1 cond hc hnull]
      simp only [h3, h4]
    · intro hh
      exact absurd hh (by simp)
  | false =>
    obtain ⟨_, hthen, helse, hmerge⟩ := if_header_else g1 cond b hb hlt
    have hH := lowered_if_header_else hin1 cond
    obtain ⟨g3, h3, hL3⟩ := codegen_stmt_lowered then_branch _ hH.inFunction
    have h4 := branchIfNoTerminator_eq_closeBranch hL3.inFunction (g1.blocks.length + 2)
    obtain ⟨g4, h4', hL4, _⟩ := lowered_branchIfNoTerminator hL3.inFunction
      (g1.blocks.length + 2)
    rw [h4] at h4'
    simp only [Option.some.injEq] at h4'
    subst h4'
    have hpe := (hL3.grows.withRets.andThen hL4.grows.withRets).block_parent
      ⟨BasicBlock.mk "else" g1.current_function [], f, helse, hf⟩
    obtain ⟨bbe, pe, hbe, hppe⟩ := hpe
    have hL5 := lowered_setInsertPoint false hL4.inFunction (g1.blocks.length + 1) bbe pe
      hbe hppe
    obtain ⟨g5, h5, hL6⟩ := codegen_stmt_lowered else_branch _ hL5.inFunction
    have h6 := branchIfNoTerminator_eq_closeBranch hL6.inFunction (g1.blocks.length + 2)
    simp only [Bool.not_false, ifHeader_else]
    refine ⟨g3, SetInsertPoint (g1.blocks.length + 2) (closeBranch (g1.blocks.length + 2) g5),
      ?_, hthen, ?_, fun _ => hmerge, rfl, h3, ?_, ?_, fun _ => ⟨g5, h5, rfl⟩, rfl,
      closeBranch_blockInsts⟩
    · rw [← ifHeader_else, ifHeader_blocks_length]
      simp
    · simpa using helse
    · rw [codegen_stmt_if_else condition then_branch else_branch g g1 cond hc hnull]
      simp only [h3, h4, h5, h6]
    · intro hh
      exact absurd hh (by simp)

/-- An instance: the statement `if (1) return 1; else x = 2;` in `int main()`. -/
theorem if_closes_branch_on_last_instruction_witness :
    InFunction mainEntryState
      ∧ codegen_expr (.AST_NUMBER 1) mainEntryState
        = some (some (.constInt 1), mainEntryState)
      ∧ (
      ∃ g3 g',
        (ifHeader (.constInt 1) (!assignXTwo.isNull)
              mainEntryState).blocks.length
            = mainEntryState.blocks.length + (if assignXTwo.isNull then 2 else 3)
          ∧ (ifHeader (.constInt 1) (!assignXTwo.isNull)
              mainEntryState).blocks[mainEntryState.blocks.length]?
            = some (BasicBlock.mk "then" mainEntryState.current_function [])
          ∧ (ifHeader (.constInt 1) (!assignXTwo.isNull)
              mainEntryState).blocks[mainEntryState.blocks.length + 1]?
            = some (BasicBlock.mk (if assignXTwo.isNull then "ifcont" else "else")
                mainEntryState.current_function [])
          ∧ (assignXTwo.isNull = false →
              (ifHeader (.constInt 1) (!assignXTwo.isNull)
              mainEntryState).blocks[mainEntryState.blocks.length + 2]?
                = some (BasicBlock.mk "ifcont" mainEntryState.current_function []))
          ∧ (ifHeader (.constInt 1) (!assignXTwo.isNull)
              mainEntryState).insertBlock = some mainEntryState.blocks.length
          ∧ codegen_stmt returnOne (ifHeader (.constInt 1) (!assignXTwo.isNull)
              mainEntryState) = some g3
          ∧ codegen_stmt (.AST_IF (.AST_NUMBER 1) returnOne assignXTwo) mainEntryState = some g'
          ∧ (assignXTwo.isNull = true →
              g' = SetInsertPoint (mainEntryState.blocks.length + 1)
                (closeBranch (mainEntryState.blocks.length + 1) g3))
          ∧ (assignXTwo.isNull = false →
              ∃ g5, codegen_stmt assignXTwo
                  (SetInsertPoint (mainEntryState.blocks.length + 1)
                    (closeBranch (mainEntryState.blocks.length + 2) g3)) = some g5
                ∧ g' = SetInsertPoint (mainEntryState.blocks.length + 2)
                  (closeBranch (mainEntryState.blocks.length + 2) g5))
          ∧ g'.insertBlock
            = some (mainEntryState.blocks.length + (if assignXTwo.isNull then 1 else 2))
          ∧ (∀ (merge : Nat) (x : CodeGenerator) (b : Nat), x.insertBlock = some b →
              b < x.blocks.length →
              (closeBranch merge x).blockInsts b
                = if (x.blockInsts b).getLast?.map Instr.isTerminator = some true
                  then x.blockInsts b
                  else x.blockInsts b ++ [.br merge])) :=
  ⟨mainEntryState_inFunction, rfl,
    if_closes_branch_on_last_instruction (.AST_NUMBER 1) returnOne assignXTwo mainEntryState
      mainEntryState (.constInt 1) mainEntryState_inFunction rfl⟩


/-! ## The claim on the branches of an `If` -/

set_option maxRecDepth 100000 in
/-- C25, evaluated on the code: in `int main()` the statement
`if (1) { return 1; x = 2; }` lowers, its condition lowers to a value and it contains no
`FunctionDef`; when its then-branch has been lowered the then block holds the branch of
the `Return` followed by the store of the assignment, so the block has a terminator, yet
the `If` appends a branch to the merge block: the then block ends up with two terminators
and is not a well-formed block. The statement `if (1) return 1; else x = 2;`, whose
then-branch ends in the `Return`, keeps one terminator in each of its branch blocks. -/
theorem if_gives_branch_second_terminator :
    containsFunctionDef ifReturnThenAssign = false
      ∧ codegen_expr (.AST_NUMBER 1) mainEntryState
        = some (some (.constInt 1), mainEntryState)
      ∧ (∃ g', codegen_stmt ifReturnThenAssign mainEntryState = some g'
        ∧ g'.blockInsts 2
          = [.store (.constInt 1) (.inst 0), .br 1, .store (.constInt 2) (.inst 2), .br 3]
        ∧ terminatorCount (g'.blockInsts 2) = 2
        ∧ wellFormedBlock (g'.blockInsts 2) = false)
      ∧ (∃ g', codegen_stmt (.AST_IF (.AST_NUMBER 1) returnOne assignXTwo) mainEntryState
          = some g'
        ∧ g'.blockInsts 2 = [.store (.constInt 1) (.inst 0), .br 1]
        ∧ g'.blockInsts 3 = [.store (.constInt 2) (.inst 2), .br 4]
        ∧ g'.insertBlock = some 4) :=
  ⟨by decide, rfl, ⟨_, rfl, by decide, by decide, by decide⟩,
    ⟨_, rfl, by decide, by decide, by decide⟩⟩

/-! ## Lowering does not depend on the names of the blocks -/

theorem mapIdx_modify {α : Type} (φ : Nat → α → α) (f : α → α)
    (h : ∀ i a, φ i (f a) = f (φ i a)) (b : Nat) (l : List α) :
    List.mapIdx φ (List.modify f b l) = List.modify f b (List.mapIdx φ l) := by
  apply List.ext_getElem?
  intro m
  simp only [List.getElem?_mapIdx, List.getElem?_modify]
  cases l[m]? with
  | none => rfl
  | some a => by_cases hb : b = m <;> simp [hb, h]

@[simp] theorem renameBlocks_module (ρ : Nat → String → String) (g : CodeGenerator) :
    (g.renameBlocks ρ).module = g.module := rfl

@[simp] theorem renameBlocks_nextId (ρ : Nat → String → String) (g : CodeGenerator) :
    (g.renameBlocks ρ).nextId = g.nextId := rfl

@[simp] theorem renameBlocks_insertBlock (ρ : Nat → String → String) (g : CodeGenerator) :
    (g.renameBlocks ρ).insertBlock = g.insertBlock := rfl

@[simp] theorem renameBlocks_named_values (ρ : Nat → String → String) (g : CodeGenerator) :
    (g.renameBlocks ρ).named_values = g.named_values := rfl

@[simp] theorem renameBlocks_global_vars (ρ : Nat → String → String) (g : CodeGenerator) :
    (g.renameBlocks ρ).global_vars = g.global_vars := rfl

@[simp] theorem renameBlocks_current_function (ρ : Nat → String → String)
    (g : CodeGenerator) : (g.renameBlocks ρ).current_function = g.current_function := rfl

@[simp] theorem renameBlocks_current_return_block (ρ : Nat → String → String)
    (g : CodeGenerator) :
    (g.renameBlocks ρ).current_return_block = g.current_return_block := rfl

@[simp] theorem renameBlocks_return_value_alloca (ρ : Nat → String → String)
    (g : CodeGenerator) :
    (g.renameBlocks ρ).return_value_alloca = g.return_value_alloca := rfl

@[simp] theorem renameBlocks_printf_func (ρ : Nat → String → String) (g : CodeGenerator) :
    (g.renameBlocks ρ).printf_func = g.printf_func := rfl

@[simp] theorem renameBlocks_blocks_length (ρ : Nat → String → String) (g : CodeGenerator) :
    (g.renameBlocks ρ).blocks.length = g.blocks.length := by
  simp [CodeGenerator.renameBlocks]

theorem renameBlocks_blocks_get (ρ : Nat → String → String) (g : CodeGenerator) (b : Nat) :
    (g.renameBlocks ρ).blocks[b]?
      = (g.blocks[b]?).map (fun bb => { bb with name := ρ b bb.name }) := by
  simp [CodeGenerator.renameBlocks, List.getElem?_mapIdx]

theorem renameBlocks_insert (ρ : Nat → String → String) (g : CodeGenerator) (i : Instr) :
    (g.renameBlocks ρ).insert i = (g.insert i).renameBlocks ρ := by
  unfold CodeGenerator.insert
  cases hib : g.insertBlock with
  | none => simp [hib]
  | some b =>
    simp only [renameBlocks_insertBlock, hib, CodeGenerator.renameBlocks]
    rw [mapIdx_modify (fun i (bb : BasicBlock) => { bb with name := ρ i bb.name })
      (fun bb => bb.push i) (fun _ _ => rfl) b g.blocks]

theorem renameBlocks_setInsertPoint (ρ : Nat → String → String) (g : CodeGenerator)
    (b : Nat) : SetInsertPoint b (g.renameBlocks ρ) = (SetInsertPoint b g).renameBlocks ρ :=
  rfl

theorem renameBlocks_with_nextId (ρ : Nat → String → String) (g : CodeGenerator) (n : Nat) :
    ({ g.renameBlocks ρ with nextId := n } : CodeGenerator)
      = CodeGenerator.renameBlocks ρ { g with nextId := n } := rfl

theorem renameBlocks_createLoad (ρ : Nat → String → String) (g : CodeGenerator)
    (ptr : Value) (name : String) :
    CreateLoad ptr name (g.renameBlocks ρ)
      = ((CreateLoad ptr name g).1, (CreateLoad ptr name g).2.renameBlocks ρ) := by
  simp only [CreateLoad, renameBlocks_nextId, renameBlocks_insert]
  rfl

theorem renameBlocks_createStore (ρ : Nat → String → String) (g : CodeGenerator)
    (val ptr : Value) :
    CreateStore val ptr (g.renameBlocks ρ) = (CreateStore val ptr g).renameBlocks ρ :=
  renameBlocks_insert ρ g _

theorem renameBlocks_createArith (ρ : Nat → String → String) (g : CodeGenerator)
    (op : ArithOp) (l r : Value) :
    CreateArith op l r (g.renameBlocks ρ)
      = ((CreateArith op l r g).1, (CreateArith op l r g).2.renameBlocks ρ) := by
  simp only [CreateArith, renameBlocks_nextId, renameBlocks_insert]
  rfl

theorem renameBlocks_createICmp (ρ : Nat → String → String) (g : CodeGenerator)
    (pred : Predicate) (l r : Value) :
    CreateICmp pred l r (g.renameBlocks ρ)
      = ((CreateICmp pred l r g).1, (CreateICmp pred l r g).2.renameBlocks ρ) := by
  simp only [CreateICmp, renameBlocks_nextId, renameBlocks_insert]
  rfl

theorem renameBlocks_createZExt (ρ : Nat → String → String) (g : CodeGenerator)
    (v : Value) :
    CreateZExt v (g.renameBlocks ρ)
      = ((CreateZExt v g).1, (CreateZExt v g).2.renameBlocks ρ) := by
  simp only [CreateZExt, renameBlocks_nextId, renameBlocks_insert]
  rfl

theorem renameBlocks_createCall (ρ : Nat → String → String) (g : CodeGenerator)
    (callee : Nat) (args : List Value) :
    CreateCall callee args (g.renameBlocks ρ)
      = ((CreateCall callee args g).1, (CreateCall callee args g).2.renameBlocks ρ) := by
  simp only [CreateCall, renameBlocks_nextId, renameBlocks_insert]
  rfl

theorem renameBlocks_createBr (ρ : Nat → String → String) (g : CodeGenerator)
    (dest : Option Nat) :
    CreateBr dest (g.renameBlocks ρ)
      = (CreateBr dest g).map (CodeGenerator.renameBlocks ρ) := by
  cases dest <;> simp [CreateBr, renameBlocks_insert]

theorem renameBlocks_createCondBr (ρ : Nat → String → String) (g : CodeGenerator)
    (cond : Value) (t f : Nat) :
    CreateCondBr cond t f (g.renameBlocks ρ) = (CreateCondBr cond t f g).renameBlocks ρ :=
  renameBlocks_insert ρ g _

theorem renameBlocks_binary_op (ρ : Nat → String → String) (g : CodeGenerator)
    (op : BinaryOp) (l r : Value) :
    codegen_binary_op op l r (g.renameBlocks ρ)
      = ((codegen_binary_op op l r g).1, (codegen_binary_op op l r g).2.renameBlocks ρ) := by
  cases op <;>
    simp only [codegen_binary_op, renameBlocks_createArith, renameBlocks_createICmp,
      renameBlocks_createZExt]

theorem renameBlocks_block_create (ρ : Nat → String → String) (g : CodeGenerator)
    (name : String) (func : Option Nat) (hρ : ρ g.blocks.length name = name) :
    BasicBlock_Create name func (g.renameBlocks ρ)
      = ((BasicBlock_Create name func g).1,
          (BasicBlock_Create name func g).2.renameBlocks ρ) := by
  simp only [BasicBlock_Create, renameBlocks_blocks_length, renameBlocks_module,
    CodeGenerator.renameBlocks, List.mapIdx_append, List.mapIdx_cons, List.mapIdx_nil,
    Nat.zero_add, hρ, List.length_mapIdx]

theorem renameBlocks_entry_alloca (ρ : Nat → String → String) (g : CodeGenerator)
    (func : Option Nat) (name : String) :
    create_entry_block_alloca func name (g.renameBlocks ρ)
      = (create_entry_block_alloca func name g).map
          (fun r => (r.1, r.2.renameBlocks ρ)) := by
  unfold create_entry_block_alloca
  cases func with
  | none => rfl
  | some f =>
    simp only [renameBlocks_module]
    cases g.module.functions[f]? with
    | none => rfl
    | some fn =>
      simp only
      cases fn.blocks.head? with
      | none => rfl
      | some entry =>
        simp only [Option.map_some', renameBlocks_nextId, CodeGenerator.renameBlocks]
        rw [mapIdx_modify (fun i (bb : BasicBlock) => { bb with name := ρ i bb.name })
          (fun bb => bb.pushFront (.alloca g.nextId name)) (fun _ _ => rfl) entry g.blocks]

theorem renameBlocks_local_alloca (ρ : Nat → String → String) (g : CodeGenerator)
    (name : String) :
    local_alloca name (g.renameBlocks ρ)
      = (local_alloca name g).map (fun r => (r.1, r.2.renameBlocks ρ)) := by
  unfold local_alloca
  simp only [renameBlocks_named_values, renameBlocks_current_function,
    renameBlocks_entry_alloca]
  cases mapFind g.named_values name with
  | some a => rfl
  | none =>
    simp only
    cases create_entry_block_alloca g.current_function name g with
    | none => rfl
    | some p => rfl

theorem renameBlocks_global_string (ρ : Nat → String → String) (g : CodeGenerator)
    (str : String) :
    CreateGlobalString str (g.renameBlocks ρ)
      = (CreateGlobalString str g).map (fun r => (r.1, r.2.renameBlocks ρ)) := by
  unfold CreateGlobalString
  simp only [renameBlocks_insertBlock]
  cases g.insertBlock with
  | none => rfl
  | some b =>
    simp only [renameBlocks_blocks_get]
    cases g.blocks[b]? with
    | none => rfl
    | some bb =>
      simp only [Option.map_some']
      cases bb.parent with
      | none => rfl
      | some p => rfl

theorem renameBlocks_branchIfNoTerminator (ρ : Nat → String → String) (g : CodeGenerator)
    (dest : Option Nat) :
    branchIfNoTerminator dest (g.renameBlocks ρ)
      = (branchIfNoTerminator dest g).map (CodeGenerator.renameBlocks ρ) := by
  unfold branchIfNoTerminator
  simp only [renameBlocks_insertBlock]
  cases g.insertBlock with
  | none => rfl
  | some b =>
    simp only [renameBlocks_blocks_get]
    cases g.blocks[b]? with
    | none => rfl
    | some bb =>
      simp only [Option.map_some', BasicBlock.getTerminator]
      cases bb.insts.getLast? with
      | none => simp [renameBlocks_createBr]
      | some i => cases hi : i.isTerminator <;> simp [hi, renameBlocks_createBr]

mutual
/-- Lowering an expression commutes with a change of the blocks' names. -/
theorem codegen_expr_rename : ∀ (e : ASTNode) (ρ : Nat → String → String)
    (g : CodeGenerator),
    codegen_expr e (g.renameBlocks ρ)
      = (codegen_expr e g).map (fun r => (r.1, r.2.renameBlocks ρ))
  | .null, ρ, g => by simp [codegen_expr]
  | .AST_NUMBER _, ρ, g => by simp [codegen_expr]
  | .AST_VARIABLE name, ρ, g => by
    simp only [codegen_expr, renameBlocks_global_vars, renameBlocks_local_alloca]
    cases mapFind g.global_vars name with
    | some global => simp [renameBlocks_createLoad]
    | none =>
      cases local_alloca name g with
      | none => rfl
      | some p => simp [renameBlocks_createLoad]
  | .AST_BINARY_OP op left right, ρ, g => by
    simp only [codegen_expr]
    rw [codegen_expr_rename left ρ g]
    cases codegen_expr left g with
    | none => rfl
    | some p1 =>
      obtain ⟨l, g1⟩ := p1
      simp only [Option.map_some']
      rw [codegen_expr_rename right ρ g1]
      cases codegen_expr right g1 with
      | none => rfl
      | some p2 =>
        obtain ⟨r, g2⟩ := p2
        cases l <;> cases r <;> simp [renameBlocks_binary_op]
  | .AST_FUNCTION_CALL name args, ρ, g => by
    simp only [codegen_expr, renameBlocks_module]
    cases g.module.getFunction name with
    | none => rfl
    | some callee =>
      simp only
      rw [codegen_args_rename args ρ g]
      cases codegen_args args g with
      | none => rfl
      | some p1 =>
        obtain ⟨vs, g1⟩ := p1
        cases vs <;> simp [renameBlocks_createCall]
  | .AST_ASSIGNMENT _ _, ρ, g => by simp [codegen_expr]
  | .AST_RETURN _, ρ, g => by simp [codegen_expr]
  | .AST_SEQUENCE _ _, ρ, g => by simp [codegen_expr]
  | .AST_WHILE _ _, ρ, g => by simp [codegen_expr]
  | .AST_FOR _ _ _ _, ρ, g => by simp [codegen_expr]
  | .AST_IF _ _ _, ρ, g => by simp [codegen_expr]
  | .AST_PRINT _, ρ, g => by simp [codegen_expr]
  | .AST_FUNCTION_DEF _ _ _, ρ, g => by simp [codegen_expr]
  | .AST_GLOBAL_VAR _ _, ρ, g => by simp [codegen_expr]
/-- The same for the argument list of a call. -/
theorem codegen_args_rename : ∀ (args : ArgList) (ρ : Nat → String → String)
    (g : CodeGenerator),
    codegen_args args (g.renameBlocks ρ)
      = (codegen_args args g).map (fun r => (r.1, r.2.renameBlocks ρ))
  | .nil, ρ, g => by simp [codegen_args]
  | .cons expr next, ρ, g => by
    simp only [codegen_args]
    rw [codegen_expr_rename expr ρ g]
    cases codegen_expr expr g with
    | none => rfl
    | some p1 =>
      obtain ⟨v, g1⟩ := p1
      cases v with
      | none => rfl
      | some val =>
        simp only [Option.map_some']
        rw [codegen_args_rename next ρ g1]
        cases codegen_args next g1 with
        | none => rfl
        | some p2 =>
          obtain ⟨vs, g2⟩ := p2
          cases vs <;> rfl
end

theorem local_alloca_blocks_length {name : String} {g g1 : CodeGenerator} {a : Nat}
    (h : local_alloca name g = some (a, g1)) : g1.blocks.length = g.blocks.length := by
  unfold local_alloca at h
  cases hm : mapFind g.named_values name with
  | some x =>
    simp only [hm, Option.some.injEq, Prod.mk.injEq] at h
    rw [← h.2]
  | none =>
    simp only [hm] at h
    cases hc : create_entry_block_alloca g.current_function name g with
    | none => simp [hc] at h
    | some p =>
      obtain ⟨a1, g2⟩ := p
      simp only [hc, Option.some.injEq, Prod.mk.injEq] at h
      obtain ⟨entry, _, hg2⟩ := create_entry_block_alloca_eq hc
      rw [← h.2, hg2]
      simp

theorem codegen_binary_op_blocks_length (op : BinaryOp) (lv rv : Value) (g : CodeGenerator) :
    (codegen_binary_op op lv rv g).2.blocks.length = g.blocks.length := by
  cases op <;> simp [codegen_binary_op, CreateArith, CreateICmp, CreateZExt]

mutual
/-- Lowering an expression creates no block. -/
theorem codegen_expr_blocks_length : ∀ (e : ASTNode) (g : CodeGenerator)
    (r : Option Value) (g' : CodeGenerator),
    codegen_expr e g = some (r, g') → g'.blocks.length = g.blocks.length
  | .null, g, r, g', h => by
    simp only [codegen_expr, Option.some.injEq, Prod.mk.injEq] at h
    rw [← h.2]
  | .AST_NUMBER _, g, r, g', h => by
    simp only [codegen_expr, Option.some.injEq, Prod.mk.injEq] at h
    rw [← h.2]
  | .AST_VARIABLE name, g, r, g', h => by
    simp only [codegen_expr] at h
    cases hg : mapFind g.global_vars name with
    | some global =>
      simp only [hg, Option.some.injEq, Prod.mk.injEq] at h
      rw [← h.2]
      simp [CreateLoad]
    | none =>
      simp only [hg] at h
      cases hl : local_alloca name g with
      | none => simp [hl] at h
      | some p =>
        obtain ⟨a, g1⟩ := p
        simp only [hl, Option.some.injEq, Prod.mk.injEq] at h
        rw [← h.2]
        simp [CreateLoad, local_alloca_blocks_length hl]
  | .AST_BINARY_OP op left right, g, r, g', h => by
    simp only [codegen_expr] at h
    cases h1 : codegen_expr left g with
    | none => simp [h1] at h
    | some p1 =>
      obtain ⟨l, g1⟩ := p1
      simp only [h1] at h
      cases h2 : codegen_expr right g1 with
      | none => simp [h2] at h
      | some p2 =>
        obtain ⟨rr, g2⟩ := p2
        simp only [h2] at h
        have e12 : g2.blocks.length = g.blocks.length :=
          (codegen_expr_blocks_length right g1 rr g2 h2).trans
            (codegen_expr_blocks_length left g l g1 h1)
        cases l with
        | none =>
          simp only [Option.some.injEq, Prod.mk.injEq] at h
          rw [← h.2]
          exact e12
        | some lv =>
          cases rr with
          | none =>
            simp only [Option.some.injEq, Prod.mk.injEq] at h
            rw [← h.2]
            exact e12
          | some rv =>
            simp only [Option.some.injEq, Prod.mk.injEq] at h
            rw [← h.2, codegen_binary_op_blocks_length]
            exact e12
  | .AST_FUNCTION_CALL name args, g, r, g', h => by
    simp only [codegen_expr] at h
    cases hf : g.module.getFunction name with
    | none =>
      simp only [hf, Option.some.injEq, Prod.mk.injEq] at h
      rw [← h.2]
    | some callee =>
      simp only [hf] at h
      cases h1 : codegen_args args g with
      | none => simp [h1] at h
      | some p1 =>
        obtain ⟨vs, g1⟩ := p1
        have e1 := codegen_args_blocks_length args g vs g1 h1
        cases vs with
        | none =>
          simp only [h1, Option.some.injEq, Prod.mk.injEq] at h
          rw [← h.2]
          exact e1
        | some vals =>
          simp only [h1, Option.some.injEq, Prod.mk.injEq] at h
          rw [← h.2]
          simp [CreateCall, e1]
  | .AST_ASSIGNMENT _ _, g, r, g', h => by
    simp only [codegen_expr, Option.some.injEq, Prod.mk.injEq] at h
    rw [← h.2]
  | .AST_RETURN _, g, r, g', h => by
    simp only [codegen_expr, Option.some.injEq, Prod.mk.injEq] at h
    rw [← h.2]
  | .AST_SEQUENCE _ _, g, r, g', h => by
    simp only [codegen_expr, Option.some.injEq, Prod.mk.injEq] at h
    rw [← h.2]
  | .AST_WHILE _ _, g, r, g', h => by
    simp only [codegen_expr, Option.some.injEq, Prod.mk.injEq] at h
    rw [← h.2]
  | .AST_FOR _ _ _ _, g, r, g', h => by
    simp only [codegen_expr, Option.some.injEq, Prod.mk.injEq] at h
    rw [← h.2]
  | .AST_IF _ _ _, g, r, g', h => by
    simp only [codegen_expr, Option.some.injEq, Prod.mk.injEq] at h
    rw [← h.2]
  | .AST_PRINT _, g, r, g', h => by
    simp only [codegen_expr, Option.some.injEq, Prod.mk.injEq] at h
    rw [← h.2]
  | .AST_FUNCTION_DEF _ _ _, g, r, g', h => by
    simp only [codegen_expr, Option.some.injEq, Prod.mk.injEq] at h
    rw [← h.2]
  | .AST_GLOBAL_VAR _ _, g, r, g', h => by
    simp only [codegen_expr, Option.some.injEq, Prod.mk.injEq] at h
    rw [← h.2]
/-- The same for the argument list of a call. -/
theorem codegen_args_blocks_length : ∀ (args : ArgList) (g : CodeGenerator)
    (r : Option (List Value)) (g' : CodeGenerator),
    codegen_args args g = some (r, g') → g'.blocks.length = g.blocks.length
  | .nil, g, r, g', h => by
    simp only [codegen_args, Option.some.injEq, Prod.mk.injEq] at h
    rw [← h.2]
  | .cons expr next, g, r, g', h => by
    simp only [codegen_args] at h
    cases h1 : codegen_expr expr g with
    | none => simp [h1] at h
    | some p1 =>
      obtain ⟨v, g1⟩ := p1
      have e1 := codegen_expr_blocks_length expr g v g1 h1
      cases v with
      | none =>
        simp only [h1, Option.some.injEq, Prod.mk.injEq] at h
        rw [← h.2]
        exact e1
      | some val =>
        simp only [h1] at h
        cases h2 : codegen_args next g1 with
        | none => simp [h2] at h
        | some p2 =>
          obtain ⟨vs, g2⟩ := p2
          have e2 := codegen_args_blocks_length next g1 vs g2 h2
          cases vs with
          | none =>
            simp only [h2, Option.some.injEq, Prod.mk.injEq] at h
            rw [← h.2]
            exact e2.trans e1
          | some rest =>
            simp only [h2, Option.some.injEq, Prod.mk.injEq] at h
            rw [← h.2]
            exact e2.trans e1
end


theorem store_params_rename (ρ : Nat → String → String) (func : Nat) :
    ∀ (params : ParamList) (index : Nat) (g : CodeGenerator),
    store_params func params index (g.renameBlocks ρ)
      = (store_params func params index g).map (CodeGenerator.renameBlocks ρ)
  | [], _, g => rfl
  | name :: next, index, g => by
    simp only [store_params, renameBlocks_entry_alloca]
    cases create_entry_block_alloca (some func) name g with
    | none => rfl
    | some p =>
      obtain ⟨a, g1⟩ := p
      simp only [Option.map_some', renameBlocks_createStore]
      exact store_params_rename ρ func next (index + 1)
        { CreateStore (.argument func index) (.inst a) g1 with
          named_values :=
            mapSet (CreateStore (.argument func index) (.inst a) g1).named_values name a }

theorem enterState_rename (ρ : Nat → String → String) (func_name : String)
    (params : ParamList) (g : CodeGenerator)
    (hρ : ∀ i n, g.blocks.length ≤ i → ρ i n = n) :
    enterState func_name params (g.renameBlocks ρ)
      = (enterState func_name params g).renameBlocks ρ := by
  simp only [enterState, renameBlocks_module, renameBlocks_blocks_length, renameBlocks_nextId,
    CodeGenerator.renameBlocks, List.mapIdx_append, List.mapIdx_cons, List.mapIdx_nil,
    Nat.zero_add, hρ g.blocks.length _ (Nat.le_refl _),
    hρ (0 + 1 + g.blocks.length) _ (by omega), List.length_mapIdx]

theorem function_def_enter_rename (ρ : Nat → String → String) (func_name : String)
    (params : ParamList) (g : CodeGenerator)
    (hρ : ∀ i n, g.blocks.length ≤ i → ρ i n = n) :
    function_def_enter func_name params (g.renameBlocks ρ)
      = (function_def_enter func_name params g).map
          (fun r => (r.1, r.2.renameBlocks ρ)) := by
  rw [function_def_enter_eq, function_def_enter_eq, enterState_rename ρ func_name params g hρ,
    renameBlocks_module, store_params_rename]
  cases store_params g.module.functions.length params 0 (enterState func_name params g) with
  | none => rfl
  | some g8 => rfl

theorem function_def_leave_rename (ρ : Nat → String → String) (saved : SavedContext)
    (g : CodeGenerator) :
    function_def_leave saved (g.renameBlocks ρ)
      = (function_def_leave saved g).map (CodeGenerator.renameBlocks ρ) := by
  unfold function_def_leave
  simp only [renameBlocks_current_return_block, renameBlocks_branchIfNoTerminator]
  cases branchIfNoTerminator g.current_return_block g with
  | none => rfl
  | some g1 =>
    simp only [Option.map_some', renameBlocks_current_return_block,
      renameBlocks_return_value_alloca]
    cases g1.current_return_block with
    | none => rfl
    | some rb =>
      cases g1.return_value_alloca with
      | none => rfl
      | some retval =>
        simp only [renameBlocks_setInsertPoint, renameBlocks_createLoad, renameBlocks_insert,
          Option.map_some']
        rfl

theorem loopHeader_rename (ρ : Nat → String → String) (n1 n2 n3 : String)
    (g : CodeGenerator) (hρ : ∀ i n, g.blocks.length ≤ i → ρ i n = n) :
    loopHeader n1 n2 n3 (g.renameBlocks ρ) = (loopHeader n1 n2 n3 g).renameBlocks ρ := by
  have h0 : ∀ n, ρ g.blocks.length n = n := fun n => hρ _ n (Nat.le_refl _)
  have h1 : ∀ n, ρ (g.blocks.length + 1) n = n := fun n => hρ _ n (by omega)
  have h2 : ∀ n, ρ (g.blocks.length + 1 + 1) n = n := fun n => hρ _ n (by omega)
  simp only [loopHeader, renameBlocks_current_function]
  rw [renameBlocks_block_create ρ g n1 _ (h0 _)]
  simp only
  rw [renameBlocks_block_create ρ _ n2 _ (by rw [block_create_blocks_length]; exact h1 _)]
  simp only
  rw [renameBlocks_block_create ρ _ n3 _
    (by rw [block_create_blocks_length, block_create_blocks_length]; exact h2 _)]
  simp only [renameBlocks_insert, renameBlocks_setInsertPoint]

theorem ifHeader_rename (ρ : Nat → String → String) (cond : Value) (hasElse : Bool)
    (g : CodeGenerator) (hρ : ∀ i n, g.blocks.length ≤ i → ρ i n = n) :
    ifHeader cond hasElse (g.renameBlocks ρ) = (ifHeader cond hasElse g).renameBlocks ρ := by
  have h0 : ∀ n, ρ g.blocks.length n = n := fun n => hρ _ n (Nat.le_refl _)
  have h1 : ∀ n, ρ (g.blocks.length + 1) n = n := fun n => hρ _ n (by omega)
  have h2 : ∀ n, ρ (g.blocks.length + 1 + 1) n = n := fun n => hρ _ n (by omega)
  cases hasElse with
  | false =>
    simp only [ifHeader, Bool.false_eq_true, ↓reduceIte, renameBlocks_current_function,
      renameBlocks_createICmp]
    rw [renameBlocks_block_create ρ _ "then" _
      (by rw [createICmp_blocks_length]; exact h0 _)]
    simp only
    rw [renameBlocks_block_create ρ _ "ifcont" _
      (by rw [block_create_blocks_length, createICmp_blocks_length]; exact h1 _)]
    simp only [renameBlocks_createCondBr, renameBlocks_setInsertPoint]
  | true =>
    simp only [ifHeader, ↓reduceIte, renameBlocks_current_function, renameBlocks_createICmp]
    rw [renameBlocks_block_create ρ _ "then" _
      (by rw [createICmp_blocks_length]; exact h0 _)]
    simp only
    rw [renameBlocks_block_create ρ _ "else" _
      (by rw [block_create_blocks_length, createICmp_blocks_length]; exact h1 _)]
    simp only
    rw [renameBlocks_block_create ρ _ "ifcont" _
      (by rw [block_create_blocks_length, block_create_blocks_length,
        createICmp_blocks_length]; exact h2 _)]
    simp only [renameBlocks_createCondBr, renameBlocks_setInsertPoint]


theorem branchIfNoTerminator_blocks_length {dest : Option Nat} {g g1 : CodeGenerator}
    (h : branchIfNoTerminator dest g = some g1) : g1.blocks.length = g.blocks.length := by
  unfold branchIfNoTerminator at h
  split at h
  · simp at h
  · split at h
    · simp at h
    · split at h
      · simp only [Option.some.injEq] at h
        rw [← h]
      · cases dest with
        | none => simp [CreateBr] at h
        | some d =>
          simp only [CreateBr, Option.some.injEq] at h
          rw [← h]
          simp

theorem global_string_blocks_length {str : String} {g g1 : CodeGenerator} {v : Value}
    (h : CreateGlobalString str g = some (v, g1)) : g1.blocks.length = g.blocks.length := by
  unfold CreateGlobalString at h
  split at h
  · simp at h
  · split at h
    · simp at h
    · split at h
      · simp at h
      · simp only [Option.some.injEq, Prod.mk.injEq] at h
        rw [← h.2]

theorem store_params_blocks_length (func : Nat) : ∀ (params : ParamList) (index : Nat)
    (g g' : CodeGenerator), store_params func params index g = some g' →
      g'.blocks.length = g.blocks.length
  | [], _, g, g', h => by
    simp only [store_params, Option.some.injEq] at h
    rw [← h]
  | name :: next, index, g, g', h => by
    simp only [store_params] at h
    cases hc : create_entry_block_alloca (some func) name g with
    | none => simp [hc] at h
    | some p =>
      obtain ⟨a, g1⟩ := p
      simp only [hc] at h
      obtain ⟨entry, _, hg1⟩ := create_entry_block_alloca_eq hc
      rw [store_params_blocks_length func next (index + 1) _ g' h, hg1]
      simp [CreateStore]

theorem function_def_enter_blocks_length {func_name : String} {params : ParamList}
    {g g1 : CodeGenerator} {saved : SavedContext}
    (h : function_def_enter func_name params g = some (saved, g1)) :
    g1.blocks.length = g.blocks.length + 2 := by
  rw [function_def_enter_eq] at h
  split at h
  · simp at h
  · rename_i g8 hs
    simp only [Option.some.injEq, Prod.mk.injEq] at h
    rw [← h.2, store_params_blocks_length _ _ _ _ _ hs]
    simp [enterState]

theorem function_def_leave_blocks_length {saved : SavedContext} {g g' : CodeGenerator}
    (h : function_def_leave saved g = some g') : g'.blocks.length = g.blocks.length := by
  unfold function_def_leave at h
  split at h
  · simp at h
  · rename_i g1 hb
    have hl := branchIfNoTerminator_blocks_length hb
    split at h
    · simp only [Option.some.injEq] at h
      rw [← h]
      simp [SetInsertPoint, CreateLoad, hl]
    · simp at h

theorem loopHeader_blocks_length (n1 n2 n3 : String) (g : CodeGenerator) :
    (loopHeader n1 n2 n3 g).blocks.length = g.blocks.length + 3 :=
  (loopHeader_fields n1 n2 n3 g).2.1

/-- Lowering a statement keeps the blocks there are, at their positions. -/
theorem codegen_stmt_blocks_length : ∀ (s : ASTNode) (g g' : CodeGenerator),
    codegen_stmt s g = some g' → g.blocks.length ≤ g'.blocks.length
  | .null, g, g', h => by
    simp only [codegen_stmt, Option.some.injEq] at h
    rw [← h]
  | .AST_NUMBER number, g, g', h => by
    simp only [codegen_stmt] at h
    split at h
    · simp at h
    · rename_i r g1 hc
      simp only [Option.some.injEq] at h
      subst h
      exact Nat.le_of_eq (codegen_expr_blocks_length _ _ _ _ hc).symm
  | .AST_VARIABLE name, g, g', h => by
    simp only [codegen_stmt] at h
    split at h
    · simp at h
    · rename_i r g1 hc
      simp only [Option.some.injEq] at h
      subst h
      exact Nat.le_of_eq (codegen_expr_blocks_length _ _ _ _ hc).symm
  | .AST_BINARY_OP op left right, g, g', h => by
    simp only [codegen_stmt] at h
    split at h
    · simp at h
    · rename_i r g1 hc
      simp only [Option.some.injEq] at h
      subst h
      exact Nat.le_of_eq (codegen_expr_blocks_length _ _ _ _ hc).symm
  | .AST_FUNCTION_CALL name args, g, g', h => by
    simp only [codegen_stmt] at h
    split at h
    · simp at h
    · rename_i r g1 hc
      simp only [Option.some.injEq] at h
      subst h
      exact Nat.le_of_eq (codegen_expr_blocks_length _ _ _ _ hc).symm
  | .AST_GLOBAL_VAR _ _, g, g', h => by
    simp only [codegen_stmt, Option.some.injEq] at h
    rw [← h]
  | .AST_ASSIGNMENT name value, g, g', h => by
    simp only [codegen_stmt] at h
    split at h
    · simp at h
    · rename_i g1 hc
      simp only [Option.some.injEq] at h
      subst h
      exact Nat.le_of_eq (codegen_expr_blocks_length _ _ _ _ hc).symm
    · rename_i val g1 hc
      have e := codegen_expr_blocks_length _ _ _ _ hc
      split at h
      · simp only [Option.some.injEq] at h
        subst h
        simp [CreateStore, e]
      · split at h
        · simp at h
        · rename_i a g2 hl
          simp only [Option.some.injEq] at h
          subst h
          simp [CreateStore, local_alloca_blocks_length hl, e]
  | .AST_RETURN return_value, g, g', h => by
    simp only [codegen_stmt] at h
    split at h
    · simp at h
    · rename_i ret_val g1 hc
      have e := codegen_expr_blocks_length _ _ _ _ hc
      split at h
      · cases hd : g1.current_return_block with
        | none => simp [hd, CreateBr] at h
        | some d =>
          simp only [hd, CreateBr, Option.some.injEq] at h
          subst h
          simp [CreateStore, e]
      · simp only [Option.some.injEq] at h
        subst h
        exact Nat.le_of_eq e.symm
  | .AST_SEQUENCE first second, g, g', h => by
    simp only [codegen_stmt] at h
    split at h
    · simp at h
    · rename_i g1 h1
      exact Nat.le_trans (codegen_stmt_blocks_length first g g1 h1)
        (codegen_stmt_blocks_length second g1 g' h)
  | .AST_WHILE condition body, g, g', h => by
    simp only [codegen_stmt] at h
    have eh := loopHeader_blocks_length "loop" "loopbody" "afterloop" g
    simp only [loopHeader] at eh
    split at h
    · simp at h
    · rename_i g2 hc
      simp only [Option.some.injEq] at h
      subst h
      have e := codegen_expr_blocks_length _ _ _ _ hc
      omega
    · rename_i cond g2 hc
      have e := codegen_expr_blocks_length _ _ _ _ hc
      split at h
      · simp at h
      · rename_i g4 hb
        simp only [Option.some.injEq] at h
        subst h
        have e4 := codegen_stmt_blocks_length body _ g4 hb
        simp only [SetInsertPoint, CreateCondBr, CreateICmp, insert_blocks_length] at e4 ⊢
        omega
  | .AST_FOR init condition increment body, g, g', h => by
    simp only [codegen_stmt] at h
    split at h
    · simp at h
    · rename_i g0 hi
      have a0 := codegen_stmt_blocks_length init g g0 hi
      have eh := loopHeader_blocks_length "forloop" "forbody" "afterfor" g0
      simp only [loopHeader] at eh
      split at h
      · simp at h
      · rename_i g2 hc
        simp only [Option.some.injEq] at h
        subst h
        have e := codegen_expr_blocks_length _ _ _ _ hc
        omega
      · rename_i cond g2 hc
        have e := codegen_expr_blocks_length _ _ _ _ hc
        split at h
        · simp at h
        · rename_i g4 hb
          split at h
          · simp at h
          · rename_i g5 hn
            simp only [Option.some.injEq] at h
            subst h
            have e4 := codegen_stmt_blocks_length body _ g4 hb
            have e5 := codegen_stmt_blocks_length increment g4 g5 hn
            simp only [SetInsertPoint, CreateCondBr, CreateICmp, insert_blocks_length] at e4 ⊢
            omega
  | .AST_IF condition then_branch else_branch, g, g', h => by
    simp only [codegen_stmt] at h
    split at h
    · simp at h
    · rename_i g1 hc
      simp only [Option.some.injEq] at h
      subst h
      exact Nat.le_of_eq (codegen_expr_blocks_length _ _ _ _ hc).symm
    · rename_i cond g1 hc
      have e := codegen_expr_blocks_length _ _ _ _ hc
      split at h
      · simp at h
      · rename_i g3 ht
        have a1 : g.blocks.length ≤ g3.blocks.length := by
          refine Nat.le_trans ?_ (codegen_stmt_blocks_length then_branch _ g3 ht)
          cases else_branch <;>
            simp [SetInsertPoint, CreateCondBr, CreateICmp, BasicBlock_Create,
              ASTNode.isNull, e]
        split at h
        · simp at h
        · rename_i g4 hb1
          have a4 := branchIfNoTerminator_blocks_length hb1
          split at h
          · simp only [Option.some.injEq] at h
            subst h
            simp only [SetInsertPoint]
            omega
          · rename_i eb he
            split at h
            · simp at h
            · rename_i g5 hel
              split at h
              · simp at h
              · rename_i g6 hb2
                simp only [Option.some.injEq] at h
                subst h
                have a5 := codegen_stmt_blocks_length else_branch _ g5 hel
                have a6 := branchIfNoTerminator_blocks_length hb2
                simp only [SetInsertPoint] at a5 ⊢
                omega
  | .AST_PRINT print_value, g, g', h => by
    simp only [codegen_stmt] at h
    split at h
    · simp at h
    · rename_i g1 hc
      simp only [Option.some.injEq] at h
      subst h
      exact Nat.le_of_eq (codegen_expr_blocks_length _ _ _ _ hc).symm
    · rename_i val g1 hc
      have e := codegen_expr_blocks_length _ _ _ _ hc
      split at h
      · simp at h
      · rename_i format_str g2 hs
        split at h
        · simp at h
        · simp only [Option.some.injEq] at h
          subst h
          simp [CreateCall, global_string_blocks_length hs, e]
  | .AST_FUNCTION_DEF name params body, g, g', h => by
    simp only [codegen_stmt] at h
    split at h
    · simp at h
    · rename_i saved g1 he
      split at h
      · simp at h
      · rename_i g2 hb
        have h1 := function_def_enter_blocks_length he
        have h2 := codegen_stmt_blocks_length body g1 g2 hb
        have h3 := function_def_leave_blocks_length h
        omega


theorem codegen_stmt_while_eq (condition body : ASTNode) (g : CodeGenerator) :
    codegen_stmt (.AST_WHILE condition body) g
      = match codegen_expr condition (loopHeader "loop" "loopbody" "afterloop" g) with
        | none => none
        | some (none, g2) => some g2
        | some (some cond, g2) =>
          match codegen_stmt body
              (SetInsertPoint (g.blocks.length + 1)
                (CreateCondBr (CreateICmp .NE cond (.constInt 0) g2).1 (g.blocks.length + 1)
                  (g.blocks.length + 2) (CreateICmp .NE cond (.constInt 0) g2).2)) with
          | none => none
          | some g4 =>
            some (SetInsertPoint (g.blocks.length + 2) (g4.insert (.br g.blocks.length))) := by
  simp only [codegen_stmt, loopHeader, block_create_fst, block_create_blocks_length,
    Nat.add_assoc, Nat.reduceAdd]

theorem codegen_stmt_for_eq (init condition increment body : ASTNode) (g : CodeGenerator) :
    codegen_stmt (.AST_FOR init condition increment body) g
      = match codegen_stmt init g with
        | none => none
        | some g0 =>
          match codegen_expr condition (loopHeader "forloop" "forbody" "afterfor" g0) with
          | none => none
          | some (none, g2) => some g2
          | some (some cond, g2) =>
            match codegen_stmt body
                (SetInsertPoint (g0.blocks.length + 1)
                  (CreateCondBr (CreateICmp .NE cond (.constInt 0) g2).1 (g0.blocks.length + 1)
                    (g0.blocks.length + 2) (CreateICmp .NE cond (.constInt 0) g2).2)) with
            | none => none
            | some g4 =>
              match codegen_stmt increment g4 with
              | none => none
              | some g5 =>
                some (SetInsertPoint (g0.blocks.length + 2)
                  (g5.insert (.br g0.blocks.length))) := by
  simp only [codegen_stmt, loopHeader, block_create_fst, block_create_blocks_length,
    Nat.add_assoc, Nat.reduceAdd]

theorem codegen_stmt_if_eq (condition then_branch else_branch : ASTNode)
    (g : CodeGenerator) :
    codegen_stmt (.AST_IF condition then_branch else_branch) g
      = match codegen_expr condition g with
        | none => none
        | some (none, g1) => some g1
        | some (some cond, g1) =>
          match codegen_stmt then_branch (ifHeader cond (!else_branch.isNull) g1) with
          | none => none
          | some g3 =>
            if else_branch.isNull then
              (branchIfNoTerminator (some (g1.blocks.length + 1)) g3).map
                (SetInsertPoint (g1.blocks.length + 1))
            else
              match branchIfNoTerminator (some (g1.blocks.length + 2)) g3 with
              | none => none
              | some g4 =>
                match codegen_stmt else_branch (SetInsertPoint (g1.blocks.length + 1) g4) with
                | none => none
                | some g5 =>
                  (branchIfNoTerminator (some (g1.blocks.length + 2)) g5).map
                    (SetInsertPoint (g1.blocks.length + 2)) := by
  cases hc : codegen_expr condition g with
  | none => simp only [codegen_stmt, hc]
  | some p =>
    obtain ⟨r, g1⟩ := p
    cases r with
    | none => simp only [codegen_stmt, hc]
    | some cond =>
      cases hnull : else_branch.isNull with
      | true =>
        rw [codegen_stmt_if_no_else condition then_branch else_branch g g1 cond hc hnull]
        simp only [Bool.not_true, ifHeader_no_else, ↓reduceIte]
        cases codegen_stmt then_branch _ with
        | none => rfl
        | some g3 =>
          simp only
          cases branchIfNoTerminator (some (g1.blocks.length + 1)) g3 <;> rfl
      | false =>
        rw [codegen_stmt_if_else condition then_branch else_branch g g1 cond hc hnull]
        simp only [Bool.not_false, ifHeader_else, Bool.false_eq_true, ↓reduceIte]
        cases codegen_stmt then_branch _ with
        | none => rfl
        | some g3 =>
          simp only
          cases branchIfNoTerminator (some (g1.blocks.length + 2)) g3 with
          | none => rfl
          | some g4 =>
            simp only
            cases codegen_stmt else_branch (SetInsertPoint (g1.blocks.length + 1) g4) with
            | none => rfl
            | some g5 =>
              simp only
              cases branchIfNoTerminator (some (g1.blocks.length + 2)) g5 <;> rfl

/-- Lowering a statement commutes with a change of the names of the blocks there are:
the names it gives the blocks it creates are the same, and nothing it does depends on a
name. -/
theorem codegen_stmt_rename : ∀ (s : ASTNode) (ρ : Nat → String → String)
    (g : CodeGenerator), (∀ i n, g.blocks.length ≤ i → ρ i n = n) →
    codegen_stmt s (g.renameBlocks ρ)
      = (codegen_stmt s g).map (CodeGenerator.renameBlocks ρ)
  | .null, ρ, g, _ => by simp [codegen_stmt]
  | .AST_GLOBAL_VAR _ _, ρ, g, _ => by simp [codegen_stmt]
  | .AST_NUMBER number, ρ, g, _ => by
    simp only [codegen_stmt]
    rw [codegen_expr_rename]
    cases codegen_expr (.AST_NUMBER number) g <;> rfl
  | .AST_VARIABLE name, ρ, g, _ => by
    simp only [codegen_stmt]
    rw [codegen_expr_rename]
    cases codegen_expr (.AST_VARIABLE name) g <;> rfl
  | .AST_BINARY_OP op left right, ρ, g, _ => by
    simp only [codegen_stmt]
    rw [codegen_expr_rename]
    cases codegen_expr (.AST_BINARY_OP op left right) g <;> rfl
  | .AST_FUNCTION_CALL name args, ρ, g, _ => by
    simp only [codegen_stmt]
    rw [codegen_expr_rename]
    cases codegen_expr (.AST_FUNCTION_CALL name args) g <;> rfl
  | .AST_ASSIGNMENT name value, ρ, g, _ => by
    simp only [codegen_stmt]
    rw [codegen_expr_rename]
    cases codegen_expr value g with
    | none => rfl
    | some p =>
      obtain ⟨r, g1⟩ := p
      cases r with
      | none => rfl
      | some val =>
        simp only [Option.map_some', renameBlocks_global_vars, renameBlocks_local_alloca]
        cases mapFind g1.global_vars name with
        | some global => simp [renameBlocks_createStore]
        | none =>
          cases local_alloca name g1 with
          | none => rfl
          | some q => simp [renameBlocks_createStore]
  | .AST_RETURN return_value, ρ, g, _ => by
    simp only [codegen_stmt]
    rw [codegen_expr_rename]
    cases codegen_expr return_value g with
    | none => rfl
    | some p =>
      obtain ⟨r, g1⟩ := p
      simp only [Option.map_some', renameBlocks_return_value_alloca,
        renameBlocks_current_return_block]
      cases r with
      | none => rfl
      | some v =>
        cases g1.return_value_alloca with
        | none => rfl
        | some retval =>
          simp only [renameBlocks_createStore]
          rw [renameBlocks_createBr]
  | .AST_SEQUENCE first second, ρ, g, hρ => by
    simp only [codegen_stmt]
    rw [codegen_stmt_rename first ρ g hρ]
    cases h1 : codegen_stmt first g with
    | none => rfl
    | some g1 =>
      simp only [Option.map_some']
      exact codegen_stmt_rename second ρ g1
        (fun i n hi => hρ i n (Nat.le_trans (codegen_stmt_blocks_length first g g1 h1) hi))
  | .AST_WHILE condition body, ρ, g, hρ => by
    rw [codegen_stmt_while_eq, codegen_stmt_while_eq, loopHeader_rename ρ _ _ _ g hρ,
      codegen_expr_rename, renameBlocks_blocks_length]
    cases hc : codegen_expr condition (loopHeader "loop" "loopbody" "afterloop" g) with
    | none => rfl
    | some p =>
      obtain ⟨r, g2⟩ := p
      cases r with
      | none => rfl
      | some cond =>
        simp only [Option.map_some', renameBlocks_createICmp, renameBlocks_createCondBr,
          renameBlocks_setInsertPoint]
        have e2 := codegen_expr_blocks_length _ _ _ _ hc
        rw [loopHeader_blocks_length] at e2
        rw [codegen_stmt_rename body ρ _
          (fun i n hi => hρ i n (by
            simp only [SetInsertPoint, CreateCondBr, CreateICmp, insert_blocks_length] at hi
            omega))]
        cases codegen_stmt body _ with
        | none => rfl
        | some g4 => simp [renameBlocks_insert, renameBlocks_setInsertPoint]
  | .AST_FOR init condition increment body, ρ, g, hρ => by
    rw [codegen_stmt_for_eq, codegen_stmt_for_eq, codegen_stmt_rename init ρ g hρ]
    cases hi : codegen_stmt init g with
    | none => rfl
    | some g0 =>
      have e0 := codegen_stmt_blocks_length init g g0 hi
      have hρ0 : ∀ i n, g0.blocks.length ≤ i → ρ i n = n :=
        fun i n h => hρ i n (Nat.le_trans e0 h)
      simp only [Option.map_some']
      rw [loopHeader_rename ρ _ _ _ g0 hρ0, codegen_expr_rename, renameBlocks_blocks_length]
      cases hc : codegen_expr condition (loopHeader "forloop" "forbody" "afterfor" g0) with
      | none => rfl
      | some p =>
        obtain ⟨r, g2⟩ := p
        cases r with
        | none => rfl
        | some cond =>
          simp only [Option.map_some', renameBlocks_createICmp, renameBlocks_createCondBr,
            renameBlocks_setInsertPoint]
          have e2 := codegen_expr_blocks_length _ _ _ _ hc
          rw [loopHeader_blocks_length] at e2
          have hρ3 : ∀ i n, (SetInsertPoint (g0.blocks.length + 1)
              (CreateCondBr (CreateICmp .NE cond (.constInt 0) g2).1 (g0.blocks.length + 1)
                (g0.blocks.length + 2) (CreateICmp .NE cond (.constInt 0) g2).2)).blocks.length
              ≤ i → ρ i n = n := fun i n h => hρ0 i n (by
            simp only [SetInsertPoint, CreateCondBr, CreateICmp, insert_blocks_length] at h
            omega)
          rw [codegen_stmt_rename body ρ _ hρ3]
          cases hb : codegen_stmt body _ with
          | none => rfl
          | some g4 =>
            simp only [Option.map_some']
            rw [codegen_stmt_rename increment ρ g4
              (fun i n h => hρ3 i n (Nat.le_trans (codegen_stmt_blocks_length body _ g4 hb) h))]
            cases codegen_stmt increment g4 with
            | none => rfl
            | some g5 => simp [renameBlocks_insert, renameBlocks_setInsertPoint]
  | .AST_IF condition then_branch else_branch, ρ, g, hρ => by
    rw [codegen_stmt_if_eq, codegen_stmt_if_eq, codegen_expr_rename]
    cases hc : codegen_expr condition g with
    | none => rfl
    | some p =>
      obtain ⟨r, g1⟩ := p
      cases r with
      | none => rfl
      | some cond =>
        have e1 := codegen_expr_blocks_length _ _ _ _ hc
        have hρ1 : ∀ i n, g1.blocks.length ≤ i → ρ i n = n :=
          fun i n h => hρ i n (by omega)
        have hρH : ∀ i n, (ifHeader cond (!else_branch.isNull) g1).blocks.length ≤ i →
            ρ i n = n := fun i n h => hρ1 i n (by
          rw [ifHeader_blocks_length] at h
          omega)
        simp only [Option.map_some', renameBlocks_blocks_length]
        rw [ifHeader_rename ρ cond _ g1 hρ1, codegen_stmt_rename then_branch ρ _ hρH]
        cases ht : codegen_stmt then_branch (ifHeader cond (!else_branch.isNull) g1) with
        | none => rfl
        | some g3 =>
          have e3 := codegen_stmt_blocks_length then_branch _ g3 ht
          simp only [Option.map_some', renameBlocks_branchIfNoTerminator]
          cases hnull : else_branch.isNull with
          | true =>
            simp only [↓reduceIte]
            cases branchIfNoTerminator (some (g1.blocks.length + 1)) g3 <;> rfl
          | false =>
            simp only [Bool.false_eq_true, ↓reduceIte]
            cases hb : branchIfNoTerminator (some (g1.blocks.length + 2)) g3 with
            | none => rfl
            | some g4 =>
              have e4 := branchIfNoTerminator_blocks_length hb
              simp only [Option.map_some', renameBlocks_setInsertPoint]
              rw [codegen_stmt_rename else_branch ρ _ (fun i n h => hρH i n (by
                simp only [SetInsertPoint] at h
                omega))]
              cases codegen_stmt else_branch (SetInsertPoint (g1.blocks.length + 1) g4) with
              | none => rfl
              | some g5 =>
                simp only [Option.map_some', renameBlocks_branchIfNoTerminator]
                cases branchIfNoTerminator (some (g1.blocks.length + 2)) g5 <;> rfl
  | .AST_PRINT print_value, ρ, g, _ => by
    simp only [codegen_stmt]
    rw [codegen_expr_rename]
    cases codegen_expr print_value g with
    | none => rfl
    | some p =>
      obtain ⟨r, g1⟩ := p
      cases r with
      | none => rfl
      | some val =>
        simp only [Option.map_some', renameBlocks_global_string]
        cases CreateGlobalString "%d\n" g1 with
        | none => rfl
        | some q =>
          obtain ⟨format_str, g2⟩ := q
          simp only [Option.map_some', renameBlocks_printf_func]
          cases g2.printf_func with
          | none => rfl
          | some printf => simp [renameBlocks_createCall]
  | .AST_FUNCTION_DEF name params body, ρ, g, hρ => by
    simp only [codegen_stmt]
    rw [function_def_enter_rename ρ name params g hρ]
    cases he : function_def_enter name params g with
    | none => rfl
    | some p =>
      obtain ⟨saved, g1⟩ := p
      have e1 := function_def_enter_blocks_length he
      simp only [Option.map_some']
      rw [codegen_stmt_rename body ρ g1 (fun i n h => hρ i n (by omega))]
      cases codegen_stmt body g1 with
      | none => rfl
      | some g2 => simp [function_def_leave_rename]


theorem mapIdx_eq_self {α : Type} (φ : Nat → α → α) (l : List α)
    (h : ∀ i a, i < l.length → φ i a = a) : List.mapIdx φ l = l := by
  apply List.ext_getElem?
  intro m
  rw [List.getElem?_mapIdx]
  by_cases hm : m < l.length
  · rw [List.getElem?_eq_getElem hm]
    simp [h m _ hm]
  · rw [List.getElem?_eq_none (Nat.le_of_not_lt hm)]
    rfl

theorem unnamed_renameBlocks (ρ : Nat → String → String) (g : CodeGenerator) :
    (g.renameBlocks ρ).unnamed = g.unnamed := by
  simp only [CodeGenerator.unnamed, CodeGenerator.renameBlocks, CodeGenerator.mk.injEq,
    and_true, true_and]
  apply List.ext_getElem?
  intro m
  simp only [List.getElem?_map, List.getElem?_mapIdx]
  cases g.blocks[m]? <;> rfl

/-- The header of a `For` is the header of a `While` with the three new blocks named as
a `For` names them. -/
theorem loopHeader_forNames (g : CodeGenerator) :
    loopHeader "forloop" "forbody" "afterfor" g
      = (loopHeader "loop" "loopbody" "afterloop" g).renameBlocks
          (forNames g.blocks.length) := by
  have hold : List.mapIdx
      (fun i (bb : BasicBlock) => { bb with name := forNames g.blocks.length i bb.name })
      g.blocks = g.blocks := by
    apply mapIdx_eq_self
    intro i a hi
    have h0 : ¬ i = g.blocks.length := by omega
    have h1 : ¬ i = g.blocks.length + 1 := by omega
    have h2 : ¬ i = g.blocks.length + 2 := by omega
    simp [forNames, h0, h1, h2]
  have hcreate : (BasicBlock_Create "afterfor" g.current_function
      (BasicBlock_Create "forbody" g.current_function
        (BasicBlock_Create "forloop" g.current_function g).2).2).2
      = CodeGenerator.renameBlocks (forNames g.blocks.length)
        (BasicBlock_Create "afterloop" g.current_function
          (BasicBlock_Create "loopbody" g.current_function
            (BasicBlock_Create "loop" g.current_function g).2).2).2 := by
    have a1 : 0 + 1 + g.blocks.length = g.blocks.length + 1 := by omega
    have a2 : 0 + 1 + 1 + g.blocks.length = g.blocks.length + 2 := by omega
    simp only [BasicBlock_Create, CodeGenerator.renameBlocks, List.append_assoc,
      List.singleton_append, List.mapIdx_append, hold, List.mapIdx_cons, List.mapIdx_nil,
      Nat.zero_add, List.length_append, List.length_singleton, List.length_cons,
      List.length_nil, a1, a2]
    simp [forNames]
  simp only [loopHeader, block_create_fst, hcreate, renameBlocks_insert,
    renameBlocks_setInsertPoint]

theorem codegen_stmt_seq_eq (first second : ASTNode) (g : CodeGenerator) :
    codegen_stmt (.AST_SEQUENCE first second) g
      = match codegen_stmt first g with
        | none => none
        | some g1 => codegen_stmt second g1 := by
  cases h : codegen_stmt first g <;> simp only [codegen_stmt, h]

/-- A `For` lowers as its `While` form does from the state its initializer leaves, the
three blocks of the loop apart, which get the names of a `For`. -/
theorem codegen_stmt_for_as_while (init condition increment body : ASTNode)
    (g : CodeGenerator) :
    codegen_stmt (.AST_FOR init condition increment body) g
      = match codegen_stmt init g with
        | none => none
        | some g0 =>
          (codegen_stmt (.AST_WHILE condition (.AST_SEQUENCE body increment)) g0).map
            (CodeGenerator.renameBlocks (forNames g0.blocks.length)) := by
  rw [codegen_stmt_for_eq]
  cases hi : codegen_stmt init g with
  | none => rfl
  | some g0 =>
    have hρ : ∀ i n, g0.blocks.length + 3 ≤ i → forNames g0.blocks.length i n = n := by
      intro i n hi
      have h0 : ¬ i = g0.blocks.length := by omega
      have h1 : ¬ i = g0.blocks.length + 1 := by omega
      have h2 : ¬ i = g0.blocks.length + 2 := by omega
      simp [forNames, h0, h1, h2]
    simp only
    rw [codegen_stmt_while_eq, loopHeader_forNames, codegen_expr_rename]
    cases hc : codegen_expr condition (loopHeader "loop" "loopbody" "afterloop" g0) with
    | none => rfl
    | some p =>
      obtain ⟨r, g2⟩ := p
      cases r with
      | none => rfl
      | some cond =>
        simp only [Option.map_some', renameBlocks_createICmp, renameBlocks_createCondBr,
          renameBlocks_setInsertPoint]
        have e2 := codegen_expr_blocks_length _ _ _ _ hc
        rw [loopHeader_blocks_length] at e2
        have hρ3 : ∀ i n, (SetInsertPoint (g0.blocks.length + 1)
            (CreateCondBr (CreateICmp .NE cond (.constInt 0) g2).1 (g0.blocks.length + 1)
              (g0.blocks.length + 2) (CreateICmp .NE cond (.constInt 0) g2).2)).blocks.length
            ≤ i → forNames g0.blocks.length i n = n := fun i n h => hρ i n (by
          simp only [SetInsertPoint, CreateCondBr, CreateICmp, insert_blocks_length] at h
          omega)
        rw [codegen_stmt_rename body _ _ hρ3, codegen_stmt_seq_eq]
        cases hb : codegen_stmt body _ with
        | none => rfl
        | some g4 =>
          simp only [Option.map_some']
          rw [codegen_stmt_rename increment _ g4
            (fun i n h => hρ3 i n (Nat.le_trans (codegen_stmt_blocks_length body _ g4 hb) h))]
          cases codegen_stmt increment g4 with
          | none => rfl
          | some g5 => simp [renameBlocks_insert, renameBlocks_setInsertPoint]


/-! ## The claim on `For` -/

/-- C26: for every initializer, condition, increment and body and every generator state,
lowering `For(init, cond, inc, body)` and lowering
`Sequence(init, While(cond, Sequence(body, inc)))` both crash or both return, and the
states they return are equal once the names of the blocks are left out: the same blocks
with the same instructions at the same positions, and the same module, builder position,
bindings and function context (the name of the condition value is not part of the model's
instructions). More precisely the state of the `For` is the state of the `While` form with
the three blocks of the loop renamed. The condition may lower to a value or fail to. -/
theorem for_is_while_with_init_and_increment (init condition increment body : ASTNode)
    (g : CodeGenerator) :
    (codegen_stmt (.AST_FOR init condition increment body) g).map CodeGenerator.unnamed
        = (codegen_stmt (forAsWhile init condition increment body) g).map
            CodeGenerator.unnamed
      ∧ (∀ g0, codegen_stmt init g = some g0 →
          codegen_stmt (.AST_FOR init condition increment body) g
            = (codegen_stmt (forAsWhile init condition increment body) g).map
                (CodeGenerator.renameBlocks (forNames g0.blocks.length))) := by
  have hfor := codegen_stmt_for_as_while init condition increment body g
  have hwhile : codegen_stmt (forAsWhile init condition increment body) g
      = match codegen_stmt init g with
        | none => none
        | some g0 => codegen_stmt (.AST_WHILE condition (.AST_SEQUENCE body increment)) g0 :=
    codegen_stmt_seq_eq _ _ g
  constructor
  · rw [hfor, hwhile]
    cases codegen_stmt init g with
    | none => rfl
    | some g0 =>
      simp only
      cases codegen_stmt (.AST_WHILE condition (.AST_SEQUENCE body increment)) g0 with
      | none => rfl
      | some g' => simp [unnamed_renameBlocks]
  · intro g0 h0
    rw [hfor, hwhile, h0]

/-- The witness of C26: the loop `for (; 1; ) return 1;` in `int main()`; the empty
initializer leaves the state as it is. -/
theorem for_is_while_with_init_and_increment_witness :
    (codegen_stmt (.AST_FOR .null (.AST_NUMBER 1) .null returnOne) mainEntryState).map
          CodeGenerator.unnamed
        = (codegen_stmt (forAsWhile .null (.AST_NUMBER 1) .null returnOne) mainEntryState).map
            CodeGenerator.unnamed
      ∧ codegen_stmt .null mainEntryState = some mainEntryState
      ∧ codegen_stmt (.AST_FOR .null (.AST_NUMBER 1) .null returnOne) mainEntryState
        = (codegen_stmt (forAsWhile .null (.AST_NUMBER 1) .null returnOne) mainEntryState).map
            (CodeGenerator.renameBlocks (forNames mainEntryState.blocks.length)) :=
  ⟨(for_is_while_with_init_and_increment .null (.AST_NUMBER 1) .null returnOne
      mainEntryState).1, rfl,
    (for_is_while_with_init_and_increment .null (.AST_NUMBER 1) .null returnOne
      mainEntryState).2 mainEntryState rfl⟩

end ThreeCC
